import Mathlib

/-!
# ohmygentool: the D binding generator (`dlang_gen.cpp`)

A shallow embedding of the declaration emitter of `src/source/dlang_gen.cpp`
and theorems about it.

Conventions of the embedding.

* `std::string` is `String`; positions count characters. The output stream
  `out` is the text written so far; `std::endl` is a newline.
* What the semantic front end (clang) hands over is data: a type is a
  `QualType`, a declaration a `RecordDecl`, `FieldDecl`, ... carrying the
  answers of the front-end queries the generator makes (layout, mangled
  names, default spellings).
* `setDeclName` on a declaration is an entry of the `renames` table of the
  generator state, keyed by the identity of the declaration.
* An `assert` that fails and a C++ exception that nobody catches end the run:
  `Res.fault`, which keeps the state reached when the run ended.
-/

namespace Gentool

/-! ## Strings -/

/-- The position search of `std::string::rfind`, from position `n` downwards. -/
def rfindFrom (s pat : List Char) : Nat → Option Nat
  | 0 => if pat.isPrefixOf s then some 0 else none
  | n + 1 => if pat.isPrefixOf (s.drop (n + 1)) then some (n + 1) else rfindFrom s pat n

/-- The call `s.rfind(pat)`: the highest position at which `pat` occurs in `s`,
`none` for `npos`. -/
def rfind (s pat : String) : Option Nat :=
  rfindFrom s.data pat.data s.data.length

/-- The position search of `std::string::find`, over the characters from
position `pos` on. -/
def findFrom (pat : List Char) : List Char → Nat → Option Nat
  | [], pos => if pat.isEmpty then some pos else none
  | c :: cs, pos => if pat.isPrefixOf (c :: cs) then some pos else findFrom pat cs (pos + 1)

/-- The call `s.find(pat)`, also `s.find(c)` and `s.find_first_of(c)` for a
single character. -/
def find (s pat : String) : Option Nat :=
  findFrom pat.data s.data 0

/-- The call `s.replace(pos, len, t)`. -/
def strReplace (s : String) (pos len : Nat) (t : String) : String :=
  ⟨s.data.take pos ++ t.data ++ s.data.drop (pos + len)⟩

/-- The call `s.substr(pos)` for `pos <= s.size()`. -/
def substrFrom (s : String) (pos : Nat) : String :=
  ⟨s.data.drop pos⟩

/-- The loop at the end of `toDStyle`, `while (true)` with the `break` when
`res.rfind("::")` is `npos` and `res.replace(pos, 2, ".")` otherwise, run for
at most `rounds` rounds. -/
def replaceScopeLoop : Nat → String → String
  | 0, res => res
  | rounds + 1, res =>
    match rfind res "::" with
    | none => res
    | some pos => replaceScopeLoop rounds (strReplace res pos 2 ".")

/-- The loop at the end of `toDStyle`. A round shortens `res` by one character,
so that `res.size()` rounds always reach the `break` (`replaceScope_done`). -/
def replaceScope (res : String) : String :=
  replaceScopeLoop res.data.length res

/-! ## Types of the front end -/

/-- Identity of a declaration node of the front end (its address in C++). -/
abbrev DeclId := Nat

/-- `clang::BuiltinType::Kind`: the kinds `_toDBuiltInType` names, and any
other kind with the front end's spelling of it (`int`, `float`, `void`, ...). -/
inductive BuiltinKind where
  | Bool
  | Char_S
  | SChar
  | Char_U
  | UChar
  | UShort
  | UInt
  | ULong
  | Long
  | ULongLong
  | LongLong
  | Other (spelling : String)
deriving DecidableEq, Repr

/-- A statement or expression of the resolved tree, as far as the declaration
emitter looks at it. A compound statement keeps its items; of any other node
the emitter only needs whether it is an `Expr` and the text the printer
visitor of `printprettyd.cpp` writes for it at the place it is printed. -/
inductive Stmt where
  | compound (body : List Stmt)
  | leaf (isExpr : Bool) (printed : String)
deriving Repr

/-- What a record type says about its declaration: the identity and declared
name of the `RecordDecl` (empty name: no identifier), and whether a definition
exists (`getDefinition() != nullptr`). -/
structure RecordRef where
  id : DeclId
  name : String
  hasDefinition : Bool
deriving DecidableEq, Repr

/-- `llvm::APSInt`: a bit pattern of `bitWidth` bits and its signedness. -/
structure APSInt where
  bitWidth : Nat
  bits : Nat
  isUnsigned : Bool
deriving DecidableEq, Repr

/-- A class template as `toDStyle` prints it for an injected class name: its
name and the names of its template parameters. -/
structure ClassTemplateRef where
  name : String
  params : List String
deriving DecidableEq, Repr

mutual
/-- `clang::QualType`: a type with its local `const` qualifier. -/
inductive QualType where
  | mk (isConst : Bool) (ty : Ty)
/-- The type a `QualType` points to, by its canonical kind. `spelling` and
`printed` are the text of the front end's default printer for the unqualified
type. Function types are `FunctionProtoType`. -/
inductive Ty where
  | builtin (kind : BuiltinKind)
  | pointer (pointee : QualType)
  | reference (pointee : QualType)
  | constantArray (element : QualType) (size : Nat)
  | array (element : QualType)
  | functionProto (ret : QualType) (params : List QualType)
  | templateSpecialization (templateName : String) (args : List TemplateArgument)
      (decl : Option RecordRef) (dependent : Bool)
  | record (decl : RecordRef)
  | enum (spelling : String)
  | injectedClassName (decl : RecordRef) (describedTemplate : Option ClassTemplateRef)
  | other (spelling : String) (dependent : Bool)
/-- `clang::TemplateArgument`, with the text `TemplateArgument::print` gives. -/
inductive TemplateArgument where
  | integral (value : APSInt) (printed : String)
  | expression (e : Stmt) (printed : String)
  | type (t : QualType) (printed : String)
  | other (printed : String)
end

namespace QualType

def isConstQualified : QualType → Bool
  | .mk c _ => c

def ty : QualType → Ty
  | .mk _ t => t

def removeLocalConst : QualType → QualType
  | .mk _ t => .mk false t

def isPointerType : QualType → Bool
  | .mk _ (.pointer _) => true
  | _ => false

def isReferenceType : QualType → Bool
  | .mk _ (.reference _) => true
  | _ => false

def isFunctionType : QualType → Bool
  | .mk _ (.functionProto _ _) => true
  | _ => false

def isBuiltinType : QualType → Bool
  | .mk _ (.builtin _) => true
  | _ => false

def isArrayType : QualType → Bool
  | .mk _ (.constantArray _ _) => true
  | .mk _ (.array _) => true
  | _ => false

/-- `getPointeeType()`: the pointee of a pointer or reference, a null type
(here the type itself is returned, no caller looks at it) otherwise. -/
def getPointeeType : QualType → QualType
  | .mk _ (.pointer p) => p
  | .mk _ (.reference p) => p
  | q => q

/-- `Type::getAsRecordDecl()`: the declaration of a record type, looking
through sugar only. A pointer or a reference to a record is not a record
type, and an enum declaration is not a `RecordDecl`: all give null. -/
def getAsRecordDecl : QualType → Option RecordRef
  | .mk _ (.record r) => some r
  | .mk _ (.injectedClassName r _) => some r
  | .mk _ (.templateSpecialization _ _ r _) => r
  | _ => none

end QualType

/-- `TemplateArgument::print`. -/
def TemplateArgument.print : TemplateArgument → String
  | .integral _ p => p
  | .expression _ p => p
  | .type _ p => p
  | .other p => p

/-- `QualType::getAsString` for a type the default printer spells `spelling`
without qualifiers: a local `const` is printed in front. -/
def getAsString (isConst : Bool) (spelling : String) : String :=
  if isConst then "const " ++ spelling else spelling

/-- `setDeclName` so far: the latest name given to a declaration comes first. -/
abbrev Renames := List (DeclId × String)

/-- `getName()` of a declaration with identity `id` and declared name `name`. -/
def getName (ren : Renames) (id : DeclId) (name : String) : String :=
  match ren.lookup id with
  | some n => n
  | none => name

/-- `_toDBuiltInType`. -/
def _toDBuiltInType (isConst : Bool) (kind : BuiltinKind) : String :=
  match kind with
  | .Bool => "bool"
  | .Char_S => "char"
  | .SChar => "char"
  | .Char_U => "ubyte"
  | .UChar => "ubyte"
  | .UShort => "ushort"
  | .UInt => "uint"
  | .ULong => "cpp_ulong"
  | .Long => "cpp_long"
  | .ULongLong => "ulong"
  | .LongLong => "long"
  | .Other spelling => getAsString isConst spelling

/-- The loop of `toDStyle` over the arguments of a template specialization:
`, ` before every argument but the first (`i < numArgs` holds throughout). -/
def printTemplateArgs : List TemplateArgument → Nat → String
  | [], _ => ""
  | a :: as, i => (if i > 0 then ", " else "") ++ a.print ++ printTemplateArgs as (i + 1)

/-- The loop of `toDStyle` over the names of the template parameters of an
injected class name: `, ` after every name but the last. -/
def printTemplateParamNames : List String → String
  | [] => ""
  | [n] => n
  | n :: m :: ns => n ++ ", " ++ printTemplateParamNames (m :: ns)

/-- The body of `_typeRoll(type, parts)` with its two calls as arguments:
`roll` is `_typeRoll` on `type->getPointeeType()` and `leaf` is the value of
`toDStyle(type)` after `type.removeLocalConst()` (when `isConst`). -/
def typeRollBody (type : QualType) (roll : List String → List String) (leaf : String)
    (parts : List String) : List String :=
  let isConst := type.isConstQualified
  if type.isReferenceType then
    roll (parts ++ ["ref "])
  else
    let parts := if isConst then parts ++ ["const("] else parts
    let parts :=
      if type.isPointerType then roll parts
      else
        let parts := if type.isReferenceType then parts ++ ["ref "] else parts
        parts ++ [leaf]
    if isConst && type.isPointerType then parts ++ [")*"]
    else if isConst then parts ++ [")"]
    else if type.isPointerType then parts ++ ["*"]
    else parts

/-- The pointer branch of `_wrapParens`, from the parts `_typeRoll` gave:
`result` is cleared and the parts are appended in order. -/
def wrapParts (parts : List String) : String :=
  if parts.length > 0 then String.join parts else ""

mutual
/-- `DlangBindGenerator::toDStyle`. -/
def toDStyle (ren : Renames) : QualType → String
  | .mk c t => toDStyleTy ren c t
/-- The body of `toDStyle` for the type `QualType.mk isConst t`. The chain of
tests on the kind of the type is the match; every branch but the early return
ends in the loop replacing `::`. For a pointer or reference `_wrapParens(type)`
is `wrapParts` of the parts of `_typeRoll(type)`, written with `typeRollBody`
(`toDStyle_pointer`, `toDStyle_reference`). -/
def toDStyleTy (ren : Renames) (isConst : Bool) : Ty → String
  | .pointer p =>
    if p.isFunctionType then toDStyle ren p
    else replaceScope (wrapParts
      (typeRollBody (.mk isConst (.pointer p)) (_typeRoll ren p) "" []))
  | .reference p =>
    if p.isFunctionType then toDStyle ren p
    else replaceScope (wrapParts
      (typeRollBody (.mk isConst (.reference p)) (_typeRoll ren p) "" []))
  | .constantArray e n =>
    replaceScope (toDStyle ren e ++ "[" ++ toString n ++ "]")
  | .array e =>
    -- `res.append("[]"); res = _res;`: what was appended is overwritten
    let _res := toDStyle ren e
    let res := "" ++ "[]"
    let res := (fun (_ : String) => _res) res
    replaceScope res
  | .functionProto ret ps =>
    replaceScope (toDStyle ren ret ++ " function(" ++ toDStyleParams ren ps ps.length ++ ")")
  | .builtin k => replaceScope (_toDBuiltInType isConst k)
  | .templateSpecialization name args _ _ =>
    replaceScope (name ++ "!" ++ "(" ++ printTemplateArgs args 0 ++ ")")
  | .record r => replaceScope (getName ren r.id r.name)
  | .enum spelling =>
    let str := getAsString isConst spelling
    match find str " " with
    | some ws => replaceScope (substrFrom str (ws + 1))
    | none => replaceScope str
  | .injectedClassName _ (some dt) =>
    replaceScope (dt.name ++ "!" ++ "(" ++ printTemplateParamNames dt.params ++ ")")
  | .injectedClassName _ none => replaceScope ""
  | .other spelling _ => replaceScope (getAsString isConst spelling)
/-- The loop of `toDStyle` over the parameter types of a function type;
`psize` starts as the number of parameters. -/
def toDStyleParams (ren : Renames) : List QualType → Nat → String
  | [], _ => ""
  | p :: rest, psize =>
    toDStyle ren p ++
      (if psize > 1 then ", " ++ toDStyleParams ren rest (psize - 1)
       else toDStyleParams ren rest psize)
/-- `DlangBindGenerator::_typeRoll`; the parts pushed are appended to `parts`.
The body is `typeRollBody` (`_typeRoll_eq`). -/
def _typeRoll (ren : Renames) : QualType → List String → List String
  | .mk c (.pointer p), parts =>
    typeRollBody (.mk c (.pointer p)) (_typeRoll ren p) "" parts
  | .mk c (.reference p), parts =>
    typeRollBody (.mk c (.reference p)) (_typeRoll ren p) "" parts
  | .mk c t, parts => typeRollBody (.mk c t) id (toDStyleTy ren false t) parts
end

/-- `DlangBindGenerator::_wrapParens`. -/
def _wrapParens (ren : Renames) (type : QualType) : String :=
  if type.isPointerType || type.isReferenceType then
    wrapParts (_typeRoll ren type [])
  else
    toDStyle ren type

/-! ## Declarations of the front end -/

/-- `clang::TypeInfo`, in bits. -/
structure TypeInfo where
  Width : Nat
  Align : Nat
deriving DecidableEq, Repr

inductive AccessSpecifier where
  | AS_public
  | AS_protected
  | AS_private
  | AS_none
deriving DecidableEq, Repr

inductive StorageClass where
  | SC_None
  | SC_Extern
  | SC_Static
  | SC_PrivateExtern
  | SC_Auto
  | SC_Register
deriving DecidableEq, Repr

/-- One enclosing declaration context, as `getJoinedNS` tells them apart. -/
inductive ContextNode where
  | namespaceDecl (name : String)
  | otherContext
deriving DecidableEq, Repr

/-- `getDeclContext()` of a declaration: the chain of enclosing contexts from
the innermost one up to, and without, the translation unit; and whether the
context is inside an `extern "C"` block. -/
structure DeclContext where
  chain : List ContextNode
  isExternCContext : Bool
deriving DecidableEq, Repr

def DeclContext.isNamespace (ctx : DeclContext) : Bool :=
  match ctx.chain with
  | .namespaceDecl _ :: _ => true
  | _ => false

/-- The value of `llvm::APInt::toString(10, isSigned)` for a bit pattern below
`2 ^ bitWidth`. -/
def APSInt.toStringRadix10 (v : APSInt) (isSigned : Bool) : String :=
  if isSigned && decide (2 ^ (v.bitWidth - 1) ≤ v.bits) && decide (0 < v.bitWidth) then
    "-" ++ toString (2 ^ v.bitWidth - v.bits)
  else toString v.bits

/-- A `FieldDecl`. `typeInfo` is the answer of `ASTContext::getTypeInfo` for
the type of the field, `typeIsDependent` that of `isDependentType` for it,
`bitWidthValue` that of `getBitWidthValue`. An empty `name` is a field
without identifier. -/
structure FieldDecl where
  name : String
  type : QualType
  typeIsDependent : Bool
  access : AccessSpecifier
  isBitField : Bool
  bitWidth : Stmt
  bitWidthValue : Nat
  typeInfo : TypeInfo

/-- A `ParmVarDecl`. `defaultArgIsNull` says that `isNullPointerConstant` of
the default argument is not `NPCK_NotNull`. -/
structure ParmVarDecl where
  name : String
  type : QualType
  defaultArg : Option Stmt
  defaultArgIsNull : Bool

/-- One template parameter: a `NonTypeTemplateParmDecl` has a type and maybe a
default argument. -/
structure TemplateParam where
  name : String
  nonType : Option (QualType × Option Stmt)

/-- A `TemplateDecl`: its template parameter list. -/
structure TemplateDecl where
  params : List TemplateParam

/-- `clang::OverloadedOperatorKind` (`OperatorKinds.def`). -/
inductive OverloadedOperatorKind where
  | OO_None
  | OO_New
  | OO_Delete
  | OO_Array_New
  | OO_Array_Delete
  | OO_Plus
  | OO_Minus
  | OO_Star
  | OO_Slash
  | OO_Percent
  | OO_Caret
  | OO_Amp
  | OO_Pipe
  | OO_Tilde
  | OO_Exclaim
  | OO_Equal
  | OO_Less
  | OO_Greater
  | OO_PlusEqual
  | OO_MinusEqual
  | OO_StarEqual
  | OO_SlashEqual
  | OO_PercentEqual
  | OO_CaretEqual
  | OO_AmpEqual
  | OO_PipeEqual
  | OO_LessLess
  | OO_GreaterGreater
  | OO_LessLessEqual
  | OO_GreaterGreaterEqual
  | OO_EqualEqual
  | OO_ExclaimEqual
  | OO_LessEqual
  | OO_GreaterEqual
  | OO_Spaceship
  | OO_AmpAmp
  | OO_PipePipe
  | OO_PlusPlus
  | OO_MinusMinus
  | OO_Comma
  | OO_ArrowStar
  | OO_Arrow
  | OO_Call
  | OO_Subscript
  | OO_Conditional
  | OO_Coawait
deriving DecidableEq, Repr

/-- `clang::getOperatorSpelling` (`OperatorKinds.def`). -/
def getOperatorSpelling : OverloadedOperatorKind → String
  | .OO_None => ""
  | .OO_New => "new"
  | .OO_Delete => "delete"
  | .OO_Array_New => "new[]"
  | .OO_Array_Delete => "delete[]"
  | .OO_Plus => "+"
  | .OO_Minus => "-"
  | .OO_Star => "*"
  | .OO_Slash => "/"
  | .OO_Percent => "%"
  | .OO_Caret => "^"
  | .OO_Amp => "&"
  | .OO_Pipe => "|"
  | .OO_Tilde => "~"
  | .OO_Exclaim => "!"
  | .OO_Equal => "="
  | .OO_Less => "<"
  | .OO_Greater => ">"
  | .OO_PlusEqual => "+="
  | .OO_MinusEqual => "-="
  | .OO_StarEqual => "*="
  | .OO_SlashEqual => "/="
  | .OO_PercentEqual => "%="
  | .OO_CaretEqual => "^="
  | .OO_AmpEqual => "&="
  | .OO_PipeEqual => "|="
  | .OO_LessLess => "<<"
  | .OO_GreaterGreater => ">>"
  | .OO_LessLessEqual => "<<="
  | .OO_GreaterGreaterEqual => ">>="
  | .OO_EqualEqual => "=="
  | .OO_ExclaimEqual => "!="
  | .OO_LessEqual => "<="
  | .OO_GreaterEqual => ">="
  | .OO_Spaceship => "<=>"
  | .OO_AmpAmp => "&&"
  | .OO_PipePipe => "||"
  | .OO_PlusPlus => "++"
  | .OO_MinusMinus => "--"
  | .OO_Comma => ","
  | .OO_ArrowStar => "->*"
  | .OO_Arrow => "->"
  | .OO_Call => "()"
  | .OO_Subscript => "[]"
  | .OO_Conditional => "?"
  | .OO_Coawait => "co_await"

/-- A `CXXCtorInitializer`: the queries `methodIterate` makes, and the text
`printPrettyD` writes for it. -/
structure CXXCtorInitializer where
  isInClassMemberInitializer : Bool
  isWritten : Bool
  hasMember : Bool
  printed : String

/-- What `methodIterate` tells apart by `dyn_cast`. -/
inductive MethodKind where
  | method
  | ctor (isDefaultConstructor isMoveConstructor isCopyConstructor : Bool)
      (inits : List CXXCtorInitializer)
  | dtor
  | conversion (conversionType : QualType)

/-- A `CXXMethodDecl`. `locStart` is `getLocStart().printToString(..)`;
`shouldMangle` and `mangledName` are the answers of the `MangleContext`;
`getName` is `getNameAsString` for a method with an identifier. -/
structure CXXMethodDecl where
  nameAsString : String
  hasIdentifier : Bool
  locStart : String
  kind : MethodKind
  overloadedOperator : OverloadedOperatorKind
  shouldMangle : Bool
  mangledName : String
  isDefaulted : Bool
  isExplicitlyDefaulted : Bool
  isTemplated : Bool
  isStatic : Bool
  isVirtual : Bool
  sizeOverriddenMethods : Nat
  hasOverrideAttr : Bool
  isInlined : Bool
  hasInlineBody : Bool
  body : Option Stmt
  access : AccessSpecifier
  returnType : QualType
  params : List ParmVarDecl

def CXXMethodDecl.isOverloadedOperator (m : CXXMethodDecl) : Bool :=
  decide (m.overloadedOperator ≠ .OO_None)

/-- A `FunctionDecl` given to `onFunction`. -/
structure FunctionDecl where
  name : String
  hasIdentifier : Bool
  loc : String
  ctx : DeclContext
  returnType : QualType
  params : List ParmVarDecl
  isTemplated : Bool
  describedTemplate : Option TemplateDecl

/-- An `EnumDecl`: the enumerators carry `getInitVal()`. -/
structure EnumDecl where
  name : String
  loc : String
  integerType : QualType
  enumerators : List (String × APSInt)

/-- A `VarDecl`. -/
structure VarDecl where
  name : String
  loc : String
  type : QualType
  access : AccessSpecifier
  isExternC : Bool
  storageClass : StorageClass
  init : Option Stmt

/-- What a `RecordDecl` carries besides its member declarations and bases.
`isCXX` says that it is a `CXXRecordDecl`; `templateArgs` are the arguments of
a `ClassTemplateSpecializationDecl`; `typeInfo` is the answer of
`ASTContext::getTypeInfo(getTypeForDecl())`. -/
structure RecordInfo where
  id : DeclId
  name : String
  loc : String
  ctx : DeclContext
  isUnion : Bool
  isClass : Bool
  isTemplated : Bool
  hasTypeForDecl : Bool
  isCompleteDefinition : Bool
  isThisDeclarationADefinition : Bool
  typeInfo : TypeInfo
  typedefNameForAnonDecl : Option String
  isCXX : Bool
  numVBases : Nat
  templateArgs : Option (List TemplateArgument)
  describedClassTemplate : Option TemplateDecl
  fields : List FieldDecl
  methods : List CXXMethodDecl

/-- What a `TypedefDecl` carries besides the record its type names. -/
structure TypedefInfo where
  id : DeclId
  name : String
  loc : String
  ctx : DeclContext
  underlyingType : QualType
  typeIsDependent : Bool

mutual
/-- A `RecordDecl` with its member declarations (`decls()`) and base
specifiers. -/
inductive RecordDecl where
  | mk (info : RecordInfo) (decls : List Decl) (bases : List CXXBaseSpecifier)
/-- A member declaration, by the `dyn_cast`s of `innerDeclIterate` and
`deanonimizeTypedef`. -/
inductive Decl where
  | enumDecl (e : EnumDecl)
  | varDecl (v : VarDecl)
  | recordDecl (r : RecordDecl)
  | functionTemplateDecl (access : AccessSpecifier) (fn : Option FunctionDecl)
  | typedefDecl (td : TypedefDecl)
  | otherDecl
/-- A `TypedefDecl`; `record` is the declaration `getAsRecordDecl()` gives for
the underlying type once its pointers are taken off. -/
inductive TypedefDecl where
  | mk (info : TypedefInfo) (record : Option RecordDecl)
/-- A `CXXBaseSpecifier`: `decl` is `getType()->getAsRecordDecl()`. -/
inductive CXXBaseSpecifier where
  | mk (type : QualType) (decl : Option RecordDecl)
end

namespace RecordDecl

def info : RecordDecl → RecordInfo
  | .mk i _ _ => i

def decls : RecordDecl → List Decl
  | .mk _ ds _ => ds

def bases : RecordDecl → List CXXBaseSpecifier
  | .mk _ _ bs => bs

end RecordDecl

def TypedefDecl.info : TypedefDecl → TypedefInfo
  | .mk i _ => i

def TypedefDecl.record : TypedefDecl → Option RecordDecl
  | .mk _ r => r

def CXXBaseSpecifier.type : CXXBaseSpecifier → QualType
  | .mk t _ => t

def CXXBaseSpecifier.decl : CXXBaseSpecifier → Option RecordDecl
  | .mk _ d => d

mutual
/-- `hasVirtualMethods`. -/
def hasVirtualMethods : RecordDecl → Bool
  | .mk info _ bases =>
    if !info.isCXX then false
    else
      let found := info.methods.any (fun f => f.isVirtual == true)
      found || anyBaseHasVirtualMethods bases
/-- The `std::any_of` of `hasVirtualMethods` over the bases; a base type that
is no record gives a null pointer, for which `hasVirtualMethods` is false. -/
def anyBaseHasVirtualMethods : List CXXBaseSpecifier → Bool
  | [] => false
  | .mk _ none :: bs => false || anyBaseHasVirtualMethods bs
  | .mk _ (some rd) :: bs => hasVirtualMethods rd || anyBaseHasVirtualMethods bs
end

/-! ## The generator -/

/-- The members of `DlangBindGenerator` the emitter reads and writes, with the
output stream `out` and the `renames` the run has made in the declaration
tree. `msvcCompat` is `getLangOpts().isCompatibleWithMSVC(MSVC2015)`. The
registries hold the keys of the declarations already emitted; `macroDefs`
holds the names of the macros `onMacroDefine` has seen. -/
structure Gen where
  out : String
  cppIsDefault : Bool
  nogc : Bool
  msvcCompat : Bool
  storedTypes : List String
  enumDecls : List String
  functionDecls : List String
  renames : Renames
  declStack : List (DeclId × String)
  classOrStructName : String
  finalTypeName : String
  globalAnonTypeId : Nat
  localAnonRecordId : Nat
  isPrevIsBitfield : Bool
  accumBitFieldWidth : Nat
  mixinTemplateId : Nat
  macroDefs : List String := []

/-- The statement `out << text`. -/
def Gen.write (g : Gen) (text : String) : Gen :=
  { g with out := g.out ++ text }

/-- The registry `storedTypes` becomes `storage`. -/
def Gen.setStoredTypes (g : Gen) (storage : List String) : Gen :=
  { g with storedTypes := storage }

/-- How a call of the generator ends: it returns, or the run ends in it (a
failed `assert`, an exception nobody catches) with the diagnostic `diag`; `g`
is the state reached. -/
inductive Res where
  | ok (g : Gen)
  | fault (diag : String) (g : Gen)

def Res.gen : Res → Gen
  | .ok g => g
  | .fault _ g => g

def Res.isOk : Res → Bool
  | .ok _ => true
  | .fault _ _ => false

/-- Sequencing: what follows a call runs only when the call returned. -/
def Res.andThen (r : Res) (f : Gen → Res) : Res :=
  match r with
  | .ok g => f g
  | .fault d g => .fault d g

/-- Modelled from the spec: `addType` is declared in `dlang_gen.h`, which is
not among the sources. The spec has every emission first consult the emission
registry, a set of already-emitted declaration identities by source location:
a declaration already present is skipped, any other is entered. `key` is the
identity of the declaration (its location, as `methodIterate` compares it with
the keys of `storedTypes`); the result says whether the declaration was
entered now, with the registry afterwards. -/
def addType (key : String) (storage : List String) : Bool × List String :=
  if storage.contains key then (false, storage) else (true, storage ++ [key])

/-- The list `reservedIdentifiers`. -/
def reservedIdentifiers : List String :=
  ["out", "ref", "version", "debug", "mixin", "with", "unittest", "typeof", "typeid", "super",
   "body", "shared", "pure", "package", "module", "inout", "in", "is", "import", "invariant",
   "immutable", "interface", "function", "delegate", "final", "export", "deprecated", "alias",
   "abstract", "synchronized", "byte", "ubyte", "uint", "ushort", "string"]

/-- `DlangBindGenerator::sanitizedIdentifier`. -/
def sanitizedIdentifier (id : String) : String :=
  if reservedIdentifiers.contains id then "" ++ id ++ "_" else id

/-- `DlangBindGenerator::externAsString`. -/
def externAsString (cppIsDefault isExternC : Bool) : String :=
  if cppIsDefault && !isExternC then "C++" else "C"

/-- `intTypeForSize`. -/
def intTypeForSize (bitWidth : Nat) (signed_ : Bool) : String :=
  if bitWidth = 8 then (if signed_ then "byte" else "ubyte")
  else if bitWidth = 16 then (if signed_ then "short" else "ushort")
  else if bitWidth = 32 then (if signed_ then "int" else "uint")
  else if bitWidth = 64 then (if signed_ then "long" else "ulong")
  else (if signed_ then "int" else "uint")

/-- `DlangBindGenerator::getAccessStr`. -/
def getAccessStr (ac : AccessSpecifier) (isStruct : Bool) : String :=
  match ac with
  | .AS_public => "public"
  | .AS_protected => "protected"
  | .AS_private => "private"
  | .AS_none => if isStruct then "public" else "private"

/-- `merge`: the names on the declaration stack, each followed by `_`. -/
def merge (ren : Renames) : List (DeclId × String) → String
  | [] => ""
  | (id, name) :: q => getName ren id name ++ "_" ++ merge ren q

/-- `DlangBindGenerator::getJoinedNS`: walks up the contexts and pushes the
name of every namespace. -/
def getJoinedNS : List ContextNode → List String → List String
  | [], parts => parts
  | .namespaceDecl name :: parent, parts => getJoinedNS parent (parts ++ [name])
  | .otherContext :: parent, parts => getJoinedNS parent parts

/-- The loop of `beginEntry` over the namespaces in reverse: each in quotes,
a comma after each but the last. -/
def quotedList : List String → String
  | [] => ""
  | [n] => "\"" ++ n ++ "\""
  | n :: m :: ns => "\"" ++ n ++ "\"" ++ "," ++ quotedList (m :: ns)

/-- `NamespacePolicy_StringList::beginEntry`, the text written. -/
def beginEntry (ctx : DeclContext) (extern_ : String) : String :=
  let nestedNS := getJoinedNS ctx.chain []
  "extern(" ++ extern_ ++ ", " ++ quotedList nestedNS.reverse ++ ")" ++ "\n"

/-- The linkage and namespace lines at the head of `onStructOrClassEnter` and
`onFunction`. -/
def linkageText (cppIsDefault : Bool) (ctx : DeclContext) : String :=
  let hasNamespace := ctx.isNamespace
  let externStr := externAsString cppIsDefault ctx.isExternCContext
  if !hasNamespace then "extern(" ++ externStr ++ ")" ++ "\n"
  else beginEntry ctx externStr

/-- The test `isa<Expr>(I)`. -/
def Stmt.isExpr : Stmt → Bool
  | .leaf isExpr _ => isExpr
  | .compound _ => false

mutual
/-- The entry point `printPrettyD(stmt, ..)`, the text written. Of the printer
visitor only `VisitCompoundStmt` is spelled out. -/
def printPrettyD : Stmt → String
  | .leaf _ printed => printed
  | .compound body => "\x7b\n" ++ printCompoundItems body ++ "\x7d"
/-- The loop of `VisitCompoundStmt` over the items of the body. -/
def printCompoundItems : List Stmt → String
  | [] => ""
  | item :: rest =>
    printPrettyD item ++ (if item.isExpr then ";" else "") ++ "\n" ++ printCompoundItems rest
end

/-- `DlangBindGenerator::writeFnRuntimeArgs`, the text written. -/
def writeFnRuntimeArgs (ren : Renames) : List ParmVarDecl → String
  | [] => ""
  | fp :: rest =>
    let typeStr := toDStyle ren fp.type
    let head := typeStr ++ " " ++ sanitizedIdentifier fp.name
    let dflt :=
      match fp.defaultArg with
      | some defaultVal =>
        let isNull := fp.type.isPointerType && fp.defaultArgIsNull
        let os := if isNull then "null" else printPrettyD defaultVal
        " = " ++ os ++ (if fp.type.isReferenceType then ".byRef " else "")
      | none => ""
    head ++ dflt ++ (if rest.isEmpty then "" else ", ") ++ writeFnRuntimeArgs ren rest

/-- `DlangBindGenerator::writeTemplateArgs(const TemplateDecl*)`, the text
written. -/
def writeTemplateParams (ren : Renames) : List TemplateParam → String
  | [] => ""
  | tp :: rest =>
    let nt :=
      match tp.nonType with
      | some (type, dflt) =>
        toDStyle ren type ++ " " ++
          (match dflt with
           | some defaultVal => " = " ++ printPrettyD defaultVal
           | none => "")
      | none => ""
    nt ++ tp.name ++ (if rest.isEmpty then "" else ", ") ++ writeTemplateParams ren rest

/-- `DlangBindGenerator::writeTemplateArgs(const TemplateArgumentList*)`, the
text written, `first` being the flag of that name. -/
def writeTemplateArgs (ren : Renames) : List TemplateArgument → Bool → String
  | [], _ => ""
  | tp :: rest, first =>
    let body :=
      match tp with
      | .integral v _ => intTypeForSize v.bitWidth true ++ " T: " ++ v.toStringRadix10 (!v.isUnsigned)
      | .expression e _ => printPrettyD e
      | .type t _ => toDStyle ren t
      | .other _ => ""
    body ++ (if first then "" else ", ") ++ writeTemplateArgs ren rest false

/-- `DlangBindGenerator::getOperatorName`, for the operator `op` of a
declaration with `psize` parameters. -/
def getOperatorName (op : OverloadedOperatorKind) (psize : Nat) : String × String × Bool :=
  let isBinary := psize == 1
  let arityStr := if isBinary then "opBinary" else "opUnary"
  let getOpArgs := fun (s : String) => "string op : \"" ++ s ++ "\""
  match op with
  | .OO_Plus => (arityStr, getOpArgs "+", false)
  | .OO_Minus => (arityStr, getOpArgs "-", false)
  | .OO_Star => (arityStr, getOpArgs "*", false)
  | .OO_Slash => (arityStr, getOpArgs "/", false)
  | .OO_Percent => (arityStr, getOpArgs "%", false)
  | .OO_Caret => (arityStr, getOpArgs "^", false)
  | .OO_Amp => (arityStr, getOpArgs "&", false)
  | .OO_Pipe => (arityStr, getOpArgs "|", false)
  | .OO_Tilde => (arityStr, getOpArgs "~", false)
  | .OO_MinusMinus => (arityStr, getOpArgs "--", false)
  | .OO_PlusPlus => (arityStr, getOpArgs "++", false)
  | .OO_Call => ("opCall", "", false)
  | .OO_Subscript => ("opIndex", "", false)
  | .OO_AmpAmp => ("op_and", "", true)
  | .OO_PipePipe => ("op_or", "", true)
  | .OO_Less => ("op_lt", "", true)
  | .OO_Greater => ("op_gt", "", true)
  | .OO_LessEqual => ("op_le", "", true)
  | .OO_GreaterEqual => ("op_ge", "", true)
  | .OO_Exclaim => ("op_not", "", true)
  | .OO_ExclaimEqual => ("op_ne", "", true)
  | .OO_PlusEqual => ("opOpAssign", getOpArgs "+", false)
  | .OO_MinusEqual => ("opOpAssign", getOpArgs "-", false)
  | .OO_StarEqual => ("opOpAssign", getOpArgs "*", false)
  | .OO_SlashEqual => ("opOpAssign", getOpArgs "/", false)
  | .OO_PipeEqual => ("opOpAssign", getOpArgs "|", false)
  | .OO_AmpEqual => ("opOpAssign", getOpArgs "&", false)
  | .OO_CaretEqual => ("opOpAssign", getOpArgs "^", false)
  | .OO_LessLessEqual => ("opOpAssign", getOpArgs "<<", false)
  | .OO_GreaterGreaterEqual => ("opOpAssign", getOpArgs ">>", false)
  | .OO_Equal => ("opAssign", "", false)
  | .OO_EqualEqual => ("opEquals", "", false)
  | .OO_Arrow => ("opUnary", getOpArgs "->", false)
  | op => ("op", getOperatorSpelling op, false)

/-- The loop of `onEnum` over the enumerators; `size` is their number. -/
def enumeratorLines (size : Nat) : List (String × APSInt) → String
  | [] => ""
  | (name, initVal) :: rest =>
    "    " ++ name ++ " = " ++ initVal.toStringRadix10 true ++
      (if size > 1 then ", " else "") ++ "\n" ++ enumeratorLines size rest

/-- `DlangBindGenerator::onEnum`. -/
def onEnum (decl : EnumDecl) (g : Gen) : Gen :=
  let added := addType decl.loc g.enumDecls
  let g := { g with enumDecls := added.2 }
  if !added.1 then g
  else
    let size := decl.enumerators.length
    let enumTypeString := toDStyle g.renames decl.integerType
    let hasName := !decl.name.isEmpty
    let g :=
      if hasName then
        (g.write ("alias " ++ decl.name ++ " = " ++ enumTypeString ++ ";" ++ "\n")).write
          ("enum " ++ " : " ++ decl.name ++ "\n")
      else
        g.write ("enum" ++ " : " ++ enumTypeString ++ "\n")
    let g := g.write ("\x7b" ++ "\n")
    let g := g.write (enumeratorLines size decl.enumerators)
    let g := g.write ("\x7d" ++ "\n")
    g.write "\n"

/-- `DlangBindGenerator::onFunction`. -/
def onFunction (decl : FunctionDecl) (g : Gen) : Gen :=
  let added := addType decl.loc g.functionDecls
  let g := { g with functionDecls := added.2 }
  if !added.1 then g
  else
    let fn := decl
    let g := g.write (linkageText g.cppIsDefault decl.ctx)
    let g := g.write (toDStyle g.renames fn.returnType ++ " ")
    let g := g.write fn.name
    let g :=
      if fn.isTemplated then
        match fn.describedTemplate with
        | some ftd => g.write ("(" ++ writeTemplateParams g.renames ftd.params ++ ")")
        | none => g
      else g
    let g := g.write ("(" ++ writeFnRuntimeArgs g.renames fn.params ++ ")")
    let g := if g.nogc then g.write " @nogc" else g
    let g := g.write (";" ++ "\n")
    g.write "\n"

/-- `DlangBindGenerator::onGlobalVar`. -/
def onGlobalVar (decl : VarDecl) (g : Gen) : Gen :=
  let added := addType decl.loc g.storedTypes
  let g := g.setStoredTypes added.2
  if !added.1 then g
  else
    let extC := decl.isExternC
    let isExtern := decide (decl.storageClass = .SC_Extern)
    let isStatic := decide (decl.storageClass = .SC_Static)
    let isFnType := decl.type.isFunctionType
    let g := if isFnType then g.write ("extern(" ++ externAsString g.cppIsDefault extC ++ ") ") else g
    let g := if isExtern then g.write "extern " else g
    let g := if isStatic then g.write "__gshared static " else g
    let g := g.write (toDStyle g.renames decl.type ++ " ")
    let g := g.write (decl.name ++ " ")
    let g :=
      match decl.init with
      | some init => g.write (" = " ++ printPrettyD init)
      | none => g
    let g := g.write ";"
    g.write "\n"

/-! ## Fields -/

/-- `memcmp` over the common length of the two strings: the difference of the
first characters that differ (the C library fixes only its sign). -/
def memcmp : List Char → List Char → Int
  | a :: as, b :: bs => if a = b then memcmp as bs else (a.toNat : Int) - (b.toNat : Int)
  | _, _ => 0

/-- `std::string::compare(const char*)`: `memcmp` over the common length, and
the difference of the lengths when that is 0. -/
def strCompare (s t : String) : Int :=
  let r := memcmp s.data t.data
  if r ≠ 0 then r else (s.data.length : Int) - (t.data.length : Int)

def isSpace (c : Char) : Bool :=
  c == ' ' || c == '\t' || c == '\n' || c == '\x0b' || c == '\x0c' || c == '\r'

/-- `std::stoi(s)`: white space, a sign, decimal digits; `invalid_argument`
without a digit, `out_of_range` outside `int`. -/
def stoi (s : String) : Except String Int :=
  let cs := s.data.dropWhile isSpace
  let signed : Bool × List Char :=
    match cs with
    | '-' :: r => (true, r)
    | '+' :: r => (false, r)
    | r => (false, r)
  let ds := signed.2.takeWhile Char.isDigit
  if ds.isEmpty then .error "std::invalid_argument: stoi"
  else
    let v : Nat := ds.foldl (fun a c => 10 * a + (c.toNat - '0'.toNat)) 0
    let n : Int := if signed.1 then -(v : Int) else (v : Int)
    if n < -2147483648 ∨ 2147483647 < n then .error "std::out_of_range: stoi" else .ok n

/-- The padding entry `fieldIterate` writes when a run of bit-fields of
accumulated width `accum` is closed by a member that is no bit-field; `none`
is the failed `assert(0 && "Split it up already!")`. -/
def bitfieldPadding (accum : Nat) : Option String :=
  if accum % 8 ≠ 0 then
    if accum ≤ 8 then some ("uint, \"\", " ++ toString (8 - accum))
    else if accum ≤ 16 then some ("uint, \"\", " ++ toString (16 - accum))
    else if accum ≤ 32 then some ("uint, \"\", " ++ toString (32 - accum))
    else if accum ≤ 64 then some ("uint, \"\", " ++ toString (64 - accum))
    else none
  else some ""

/-- The name of the field `it` after the renaming of `fieldIterate`: a field
without identifier whose type text does not compare as `-1` with `_anon` is
named `a<n>_` from the number after the first five characters; `substr` and
`stoi` throw when there is none. -/
def fieldName (it : FieldDecl) (fieldTypeStr : String) : Except String String :=
  if it.name.isEmpty then
    if strCompare fieldTypeStr "_anon" ≠ -1 then
      if fieldTypeStr.data.length < 5 then .error "std::out_of_range: basic_string::substr"
      else
        match stoi (substrFrom fieldTypeStr 5) with
        | .ok n => .ok ("a" ++ toString n ++ "_")
        | .error e => .error e
    else .ok it.name
  else .ok it.name

/-- The first half of a round of the loop of `fieldIterate`, for the field
`it`: a bit-field opens a group when the previous member was none and adds its
width; any other member closes the group the previous member left open,
padding it. `assert` is enabled. The `IndentBlock`s (of `iohelpers.h`) only
indent the lines and are left out. -/
def closeBitfieldRun (it : FieldDecl) (g : Gen) : Res :=
  if it.isBitField then
    let g := if !g.isPrevIsBitfield then g.write ("mixin(bitfields!(" ++ "\n") else g
    .ok { g with accumBitFieldWidth := g.accumBitFieldWidth + it.bitWidthValue }
  else if g.isPrevIsBitfield then
    let g := g.write ("," ++ "\n")
    match bitfieldPadding g.accumBitFieldWidth with
    | none => .fault "Assertion `0 && \"Split it up already!\"' failed." g
    | some pad =>
      let g := g.write pad
      let g := { g with accumBitFieldWidth := 0 }
      .ok (g.write ("));" ++ "\n"))
  else .ok g

/-- The text of a bit-field entry of a group. -/
def bitfieldEntryText (fieldTypeStr name bitwidthExpr : String) : String :=
  fieldTypeStr ++ ", " ++ ("\"" ++ sanitizedIdentifier name ++ "\"" ++ ", ") ++ bitwidthExpr

/-- The line of a member that is no bit-field. -/
def fieldLineText (isClass : Bool) (it : FieldDecl) (fieldTypeStr name : String) : String :=
  let isForwardDecl :=
    match it.type.getAsRecordDecl with
    | some rec => !rec.hasDefinition
    | none => true
  let finfo : TypeInfo :=
    if !it.typeIsDependent &&
        (!isForwardDecl || it.type.isBuiltinType || it.type.isPointerType || it.type.isArrayType)
    then it.typeInfo else ⟨0, 0⟩
  (if finfo.Width ≠ 0 then "@cppsize(" ++ toString (finfo.Width / 8) ++ ")" ++ " "
   else "@cppsize(" ++ toString 0 ++ ")" ++ " ") ++
    (getAccessStr it.access (!isClass) ++ " ") ++
    (fieldTypeStr ++ " ") ++
    (sanitizedIdentifier name ++ ";") ++ "\n"

/-- The second half of a round of the loop of `fieldIterate`: the field gets
its name and is written, as an entry of the open group or as a line of its
own; `isPrevIsBitfield` is set. -/
def writeField (isClass : Bool) (it : FieldDecl) (g : Gen) : Res :=
  let fieldTypeStr := toDStyle g.renames it.type
  match fieldName it fieldTypeStr with
  | .error e => .fault e g
  | .ok name =>
    let g :=
      if it.isBitField then
        let g := if g.isPrevIsBitfield then g.write ("," ++ "\n") else g
        g.write (bitfieldEntryText fieldTypeStr name (printPrettyD it.bitWidth))
      else
        g.write (fieldLineText isClass it fieldTypeStr name)
    .ok { g with isPrevIsBitfield := it.isBitField }

/-- One round of the loop of `fieldIterate`, for the field `it` of a record
`decl` with `decl->isClass()` being `isClass`. -/
def fieldStep (isClass : Bool) (it : FieldDecl) (g : Gen) : Res :=
  (closeBitfieldRun it g).andThen (writeField isClass it)

/-- The loop of `fieldIterate` over `decl->fields()`. -/
def fieldLoop (isClass : Bool) : List FieldDecl → Gen → Res
  | [], g => .ok g
  | it :: rest, g => (fieldStep isClass it g).andThen (fieldLoop isClass rest)

/-- `DlangBindGenerator::fieldIterate`, for the fields of a record with
`decl->isClass()` being `isClass`. -/
def fieldIterate (isClass : Bool) (fields : List FieldDecl) (g : Gen) : Res :=
  let g := { g with isPrevIsBitfield := false, accumBitFieldWidth := 0 }
  (fieldLoop isClass fields g).andThen fun g =>
    if g.isPrevIsBitfield then .ok (g.write ("));" ++ "\n")) else .ok g

/-! ## Methods -/

/-- One round of the loop of `textReplaceArrowColon`. -/
def arrowColonPos (s : String) : Option Nat :=
  match rfind s "::" with
  | some pos => some pos
  | none => rfind s "->"

/-- The loop of `textReplaceArrowColon`, for at most `rounds` rounds. -/
def textReplaceArrowColonLoop : Nat → String → String
  | 0, s => s
  | rounds + 1, s =>
    match arrowColonPos s with
    | none => s
    | some pos => textReplaceArrowColonLoop rounds (strReplace s pos 2 ".")

/-- `textReplaceArrowColon`, the value of `in` on return. A round shortens the
string by one character, so that `in.size()` rounds reach the `break`. -/
def textReplaceArrowColon (s : String) : String :=
  textReplaceArrowColonLoop s.data.length s

/-- The lines `std::getline` reads from a text: `cur` is the line being read. -/
def getLines : List Char → List Char → List String
  | [], [] => []
  | [], cur => [String.mk cur]
  | c :: cs, cur => if c = '\n' then String.mk cur :: getLines cs [] else getLines cs (cur ++ [c])

/-- The lambda `writeMultilineExpr` of `methodIterate` for the printed text
`printed` of the expression, the text written. -/
def writeMultilineLines (commentOut : Bool) : List String → String
  | [] => ""
  | line :: rest =>
    (if commentOut then "//" else "") ++ textReplaceArrowColon line ++ "\n" ++
      writeMultilineLines commentOut rest

def writeMultilineExpr (commentOut : Bool) (printed : String) : String :=
  writeMultilineLines commentOut (getLines printed.data [])

/-- The loop of `methodIterate` over the initializers of a constructor. -/
def ctorInitLines (commentOut : Bool) : List CXXCtorInitializer → String
  | [] => ""
  | init :: rest =>
    (if init.isInClassMemberInitializer then ""
     else if init.hasMember then writeMultilineExpr commentOut init.printed
     else "") ++ ctorInitLines commentOut rest

/-- What one round of the loop of `methodIterate` needs of the record and of
the generator. -/
structure MethodEnv where
  ren : Renames
  storedTypes : List String
  nogc : Bool
  msvcCompat : Bool
  declName : String
  declIsClass : Bool
  declIsTemplated : Bool
  isVirtualDecl : Bool

/-- The flag `idAssign` of `methodIterate` for an overloaded operator `m`. -/
def idAssign (m : CXXMethodDecl) : Bool :=
  if m.overloadedOperator = .OO_Equal then
    match m.params with
    | [p] =>
      m.returnType.isReferenceType &&
        ((p.type.getAsRecordDecl.map (fun r => r.id)) ==
          (m.returnType.getAsRecordDecl.map (fun r => r.id)))
    | _ => false
  else false

/-- One round of the loop of `methodIterate`, for the method `m`: the text it
writes. -/
def methodText (env : MethodEnv) (m : CXXMethodDecl) : String :=
  let isClass := env.declIsClass
  let isStatic := m.isStatic
  let locString := m.locStart
  if env.storedTypes.contains locString then ""
  else if m.isDefaulted && !m.isExplicitlyDefaulted then ""
  else
    let isOperator := m.isOverloadedOperator
    -- the names, and the roles found by `dyn_cast`
    let isCtor : Bool :=
      m.shouldMangle && (match m.kind with | .ctor _ _ _ _ => true | _ => false)
    let isDtor : Bool :=
      m.shouldMangle && (match m.kind with | .dtor => true | _ => false)
    let isDefaultCtor : Bool :=
      m.shouldMangle && (match m.kind with | .ctor d _ _ _ => d | _ => false)
    let moveCtor : Bool :=
      m.shouldMangle && (match m.kind with | .ctor _ mv _ _ => mv | _ => false)
    let copyCtor : Bool :=
      m.shouldMangle && (match m.kind with | .ctor _ _ cp _ => cp | _ => false)
    let noRetType : Bool := isCtor || isDtor
    let mangledName : String :=
      if !m.shouldMangle then m.nameAsString
      else if isCtor || isDtor then ""
      else if !m.isTemplated then m.mangledName
      else ""
    let funcName : String :=
      if isCtor then "this" else if isDtor then "~this" else m.nameAsString
    let funcName : String :=
      match m.kind with
      | .conversion conversionType =>
        let targetType :=
          if conversionType.isReferenceType then conversionType.getPointeeType else conversionType
        "opCast(Ty:" ++ toDStyle env.ren targetType ++ ")"
      | _ => funcName
    let idAssign : Bool := isOperator && idAssign m
    let opName := getOperatorName m.overloadedOperator m.params.length
    let funcName : String :=
      if isOperator then opName.1 ++ "(" ++ opName.2.1 ++ ")" else funcName
    let customMangle : Bool := isOperator && opName.2.2
    let pragma : String :=
      if customMangle then
        if env.msvcCompat then
          let pos := (find funcName "(").getD funcName.data.length
          "@pyExtract(\"" ++ env.declName ++ "::" ++ m.nameAsString ++ "\")" ++
            "   pragma(mangle, " ++ "nsgen." ++ env.declName ++ "_" ++
            String.mk (funcName.data.take pos) ++ ".mangleof)" ++ "\n"
        else "pragma(mangle, \"" ++ mangledName ++ "\")" ++ "\n"
      else ""
    let dflt : String := if m.isDefaulted then "// (default) " else ""
    let possibleOverride : Bool :=
      !(isCtor || isDtor) && decide (m.sizeOverriddenMethods ≠ 0) && m.body.isSome
    let commentOut : Bool := (!env.isVirtualDecl && isDefaultCtor) || idAssign
    let commentOut : Bool := if !env.isVirtualDecl && possibleOverride then true else commentOut
    let head : String :=
      (if commentOut then "// " else "") ++
      (if moveCtor then "// move ctor" ++ "\n" else "") ++
      (if copyCtor then "// copy ctor" ++ "\n" else "") ++
      (if m.isInlined && m.hasInlineBody then "/* inline */ " else "") ++
      (getAccessStr m.access (!isClass) ++ " ") ++
      (if m.hasOverrideAttr || possibleOverride then "override " else "") ++
      (if isStatic then "static " else "") ++
      (if isClass && !m.isVirtual then "final " else "") ++
      (if moveCtor && decide (m.access = .AS_private) then "@disable " else "") ++
      (if !noRetType then toDStyle env.ren m.returnType ++ " " else "") ++
      (if isOperator || !m.hasIdentifier then funcName else m.nameAsString) ++
      "(" ++ writeFnRuntimeArgs env.ren m.params ++ ")" ++
      (if env.nogc then " @nogc " else "")
    let tail : String :=
      if m.isInlined && m.hasInlineBody && !isDtor then
        let isEmptyBody : Bool :=
          match m.body with
          | some (.compound body) => body.isEmpty
          | _ => true
        let isTemplated := env.declIsTemplated || m.isTemplated
        let inits : List CXXCtorInitializer :=
          match m.kind with
          | .ctor _ _ _ inits => inits
          | _ => []
        let hasInitializerList : Bool :=
          isCtor && !isTemplated && decide (inits.length ≠ 0) && inits.any (fun x => x.isWritten)
        let ctorPart : String :=
          if isCtor && !isTemplated then
            (if hasInitializerList then "\x7b" ++ "\n" ++ "// initializer list" ++ "\n" else "") ++
            ctorInitLines commentOut inits ++
            (if hasInitializerList && !isEmptyBody then "// ctor body" ++ "\n" else "")
          else ""
        let bodyPart : String :=
          if !isEmptyBody then
            match m.body with
            | some body => writeMultilineExpr commentOut (printPrettyD body)
            | none => ""
          else ""
        let closePart : String :=
          if hasInitializerList && isCtor && !isTemplated then
            (if commentOut then "//" else "") ++ "\x7d"
          else ""
        let semi : String :=
          if m.body.isNone || (isEmptyBody && !hasInitializerList) then ";" else ""
        ctorPart ++ bodyPart ++ closePart ++ semi
      else ";" ++ "\n"
    pragma ++ dflt ++ head ++ tail ++ "\n"

/-- The loop of `methodIterate` over `decl->methods()`, the text written. -/
def methodLoop (env : MethodEnv) : List CXXMethodDecl → String
  | [] => ""
  | m :: rest => methodText env m ++ methodLoop env rest

/-- `DlangBindGenerator::methodIterate`. -/
def methodIterate (decl : RecordDecl) (g : Gen) : Gen :=
  let env : MethodEnv :=
    { ren := g.renames, storedTypes := g.storedTypes, nogc := g.nogc, msvcCompat := g.msvcCompat,
      declName := getName g.renames decl.info.id decl.info.name,
      declIsClass := decl.info.isClass, declIsTemplated := decl.info.isTemplated,
      isVirtualDecl := hasVirtualMethods decl }
  g.write (methodLoop env decl.info.methods)

/-! ## Records -/

/-- The loop of `printBases`: the text written and the bases collected in
`nonvirt`; `numBases` and `first` are the variables of these names. -/
def printBasesLoop (ren : Renames) :
    List CXXBaseSpecifier → Nat → Bool → String × List RecordDecl
  | [], _, _ => ("", [])
  | .mk type decl :: rest, numBases, first =>
    let numBases := numBases - 1
    let written : String × List RecordDecl :=
      let text := (if first then " : " else "") ++ toDStyle ren type ++
        (if numBases ≠ 0 then ", " else "")
      let r := printBasesLoop ren rest numBases false
      (text ++ r.1, r.2)
    match decl with
    | some rd =>
      if !hasVirtualMethods rd then
        let r := printBasesLoop ren rest numBases first
        (r.1, rd :: r.2)
      else written
    | none => written

/-- `DlangBindGenerator::printBases`: the text written and the list returned. -/
def printBases (ren : Renames) (decl : RecordDecl) : String × List RecordDecl :=
  printBasesLoop ren decl.bases decl.bases.length true

/-- The loop of `onStructOrClassEnter` over the bases that are not written as
bases, the text written. -/
def fakeBaseLines (ren : Renames) : List RecordDecl → Nat → String
  | [], _ => ""
  | brd :: rest, baseid =>
    getName ren brd.info.id brd.info.name ++ " " ++ "_b" ++ toString baseid ++ ";" ++ "\n" ++
      "alias " ++ "_b" ++ toString baseid ++ " this;" ++ "\n" ++
      fakeBaseLines ren rest (baseid + 1)

/-- `setDeclName` on the declaration `id`. -/
def setDeclName (id : DeclId) (name : String) (g : Gen) : Gen :=
  { g with renames := (id, name) :: g.renames }

/-- The test `getIdentifier()` on a declaration. -/
def hasIdentifier (ren : Renames) (id : DeclId) (name : String) : Bool :=
  !(getName ren id name).isEmpty

/-- The pointer `count` of `deanonimizeTypedef`: to the local `counter` (with
its value), to the member `localAnonRecordId`, or one past either after
`count += 1`. -/
inductive CountPtr where
  | toLocal (counter : Nat)
  | toMember
  | pastEnd

/-- The value `*count`; there is none one past the counter. -/
def CountPtr.read (count : CountPtr) (g : Gen) : Option Nat :=
  match count with
  | .toLocal counter => some counter
  | .toMember => some g.localAnonRecordId
  | .pastEnd => none

/-- The statement `*count += 1`. -/
def CountPtr.increment (count : CountPtr) (g : Gen) : CountPtr × Gen :=
  match count with
  | .toLocal counter => (.toLocal (counter + 1), g)
  | .toMember => (.toMember, { g with localAnonRecordId := g.localAnonRecordId + 1 })
  | .pastEnd => (.pastEnd, g)

/-- The renaming of a member declaration in the loop of `deanonimizeTypedef`:
one without identifier is named `_anon` and `*count`, then `*count += 1`.
`none`: `*count` is read one past the counter, which is undefined. -/
def nameIfAnon (id : DeclId) (name : String) (count : CountPtr) (g : Gen) :
    Option (CountPtr × Gen) :=
  if !hasIdentifier g.renames id name then
    match count.read g with
    | none => none
    | some n =>
      let newName := "_anon" ++ toString n
      let next := count.increment g
      some (next.1, setDeclName id newName next.2)
  else some (count, g)

mutual
/-- `deanonimizeTypedef(decl, optName, count)`; a null `count` is
`CountPtr.toLocal 1`. An undefined read of `*count` ends the run. -/
def deanonimizeTypedef : RecordDecl → String → CountPtr → Gen → Res
  | .mk info decls _, optName, count, g =>
    if !hasIdentifier g.renames info.id info.name then
      if optName.isEmpty then
        match count.read g with
        | none => .fault "read of *count past the counter" g
        | some n =>
          let newName := "_anon" ++ toString n
          -- `count += 1` moves the pointer, not the counter
          deanonimizeDecls info.id decls .pastEnd (setDeclName info.id newName g)
      else
        deanonimizeDecls info.id decls count (setDeclName info.id optName g)
    else
      deanonimizeDecls info.id decls count g
/-- The loop of `deanonimizeTypedef` over `decl->decls()`; `declId` is the
identity of `decl`. -/
def deanonimizeDecls (declId : DeclId) : List Decl → CountPtr → Gen → Res
  | [], _, g => .ok g
  | .typedefDecl (.mk td record) :: rest, count, g =>
    match nameIfAnon td.id td.name count g with
    | none => .fault "read of *count past the counter" g
    | some (count, g) =>
      if td.typeIsDependent then deanonimizeDecls declId rest count g
      else
        match record with
        | some rd =>
          if td.underlyingType.getAsRecordDecl.isSome then
            (deanonimizeTypedef rd "" (.toLocal 1) g).andThen
              (fun g => deanonimizeDecls declId rest count g)
          else deanonimizeDecls declId rest count g
        | none => deanonimizeDecls declId rest count g
  | .recordDecl (.mk rec _ _) :: rest, count, g =>
    if rec.id = declId then deanonimizeDecls declId rest count g
    else
      match nameIfAnon rec.id rec.name count g with
      | none => .fault "read of *count past the counter" g
      | some (count, g) => deanonimizeDecls declId rest count g
  | .enumDecl _ :: rest, count, g => deanonimizeDecls declId rest count g
  | .varDecl _ :: rest, count, g => deanonimizeDecls declId rest count g
  | .functionTemplateDecl _ _ :: rest, count, g => deanonimizeDecls declId rest count g
  | .otherDecl :: rest, count, g => deanonimizeDecls declId rest count g
end

/-- `DlangBindGenerator::onStructOrClassLeave`. -/
def onStructOrClassLeave (g : Gen) : Gen :=
  let g := { g with declStack := g.declStack.dropLast }
  let g := if g.declStack.isEmpty then { g with localAnonRecordId := 1 } else g
  g.write "\n"

/-- The shape keyword `onStructOrClassEnter` writes for `decl`. -/
def shapeKeyword (decl : RecordDecl) : String :=
  let isVirtual := hasVirtualMethods decl
  if !isVirtual then "struct "
  else if decl.info.isUnion then "union "
  else "class "

/-- The naming step of `onStructOrClassEnter`: a record whose name is empty
takes the name of its typedef or `AnonType_<n>`; the members of a named record
are named from `localAnonRecordId`. -/
def nameRecord (decl : RecordDecl) (g : Gen) : Res :=
  if g.classOrStructName.isEmpty then
    match decl.info.typedefNameForAnonDecl with
    | some td =>
      let g := { g with classOrStructName := td }
      .ok (setDeclName decl.info.id td g)
    | none =>
      let g := { g with globalAnonTypeId := g.globalAnonTypeId + 1 }
      (deanonimizeTypedef decl ("AnonType_" ++ toString g.globalAnonTypeId)
          (.toLocal 1) g).andThen fun g =>
        .ok { g with classOrStructName := getName g.renames decl.info.id decl.info.name }
  else
    deanonimizeTypedef decl "" .toMember g

/-- The template arguments or parameters `onStructOrClassEnter` writes after
the name of a `CXXRecordDecl`. -/
def recordTemplateText (ren : Renames) (info : RecordInfo) : String :=
  if info.isThisDeclarationADefinition then
    match info.templateArgs with
    | some tparams => "(" ++ writeTemplateArgs ren tparams true ++ ")"
    | none =>
      match info.describedClassTemplate with
      | some tpd => "(" ++ writeTemplateParams ren tpd.params ++ ")"
      | none => ""
  else ""

/-- The line `innerDeclIterate` writes for a `VarDecl` member of a record. -/
def staticMemberLine (ren : Renames) (isClass : Bool) (var : VarDecl) : String :=
  "static " ++ (getAccessStr var.access (!isClass) ++ " ") ++ (toDStyle ren var.type ++ " ") ++
    (sanitizedIdentifier var.name ++ ";") ++ "\n"

/-- The branch of `onTypedef` for a type that names a record `rd`: the record
takes the name of the typedef. -/
def renameTypedefRecord (decl : TypedefInfo) (rd : RecordDecl) (g : Gen) : Res :=
  let typedefName := getName g.renames decl.id decl.name
  if !hasIdentifier g.renames rd.info.id rd.info.name then
    deanonimizeTypedef rd typedefName (.toLocal 1) g
  else .ok (setDeclName rd.info.id typedefName g)

/-- The branch of `onTypedef` for any other type: the `alias` line. -/
def typedefAlias (decl : TypedefInfo) (g : Gen) : Gen :=
  let typedefName := getName g.renames decl.id decl.name
  let extC := decl.ctx.isExternCContext
  let functionType :=
    if decl.underlyingType.isPointerType then
      decl.underlyingType.getPointeeType.isFunctionType
    else decl.underlyingType.isFunctionType
  let g := g.write ("alias " ++ typedefName ++ " = ")
  let g :=
    if functionType then g.write ("extern(" ++ externAsString g.cppIsDefault extC ++ ") ")
    else g
  let g := g.write (toDStyle g.renames decl.underlyingType ++ ";")
  let g := g.write "\n"
  g.write "\n"

/-- The head of `onStructOrClassEnter`, before the registry is asked: the
name members are set and the record is pushed on the declaration stack. -/
def enterRecord (info : RecordInfo) (g : Gen) : Gen :=
  let g := { g with classOrStructName := getName g.renames info.id info.name }
  let g := { g with finalTypeName := merge g.renames g.declStack ++ g.classOrStructName }
  { g with declStack := g.declStack ++ [(info.id, info.name)] }

/-- The size annotation of `onStructOrClassEnter`. -/
def sizeAttributeLine (info : RecordInfo) : String :=
  "@cppclasssize(" ++ toString (info.typeInfo.Width / 8) ++ ")" ++
    " align(" ++ toString (info.typeInfo.Align / 8) ++ ")" ++ "\n"

/-- The part of `onStructOrClassEnter` from the linkage line to the end of the
block `if (!decl->isTemplated())`; `.error` is the state at a `return`. -/
def recordHeader (info : RecordInfo) (g : Gen) : Except Gen Gen :=
  let g := g.write (linkageText g.cppIsDefault info.ctx)
  if !info.isTemplated then
    if !info.hasTypeForDecl then .error g
    else if !info.isCompleteDefinition then
      .error (g.write ("struct " ++ getName g.renames info.id info.name ++ ";" ++ "\n"))
    else if info.typeInfo.Width = 0 ∨ info.typeInfo.Align = 0 then .error g
    else .ok (g.write (sizeAttributeLine info))
  else .ok g

/-- The part of `onStructOrClassEnter` from the shape keyword to the opening
brace: keyword, naming, name, template arguments, bases. -/
def recordIntro (decl : RecordDecl) (g : Gen) : Res :=
  let g := g.write (shapeKeyword decl)
  (nameRecord decl g).andThen fun g =>
    let g := g.write g.classOrStructName
    let g := if decl.info.isCXX then g.write (recordTemplateText g.renames decl.info) else g
    let g := if decl.info.isCXX then g.write (printBases g.renames decl).1 else g
    let g := g.write "\n"
    .ok (g.write ("\x7b" ++ "\n"))

/-- The part of `onStructOrClassEnter` after the nested declarations: the
bases that are not written as bases (`nonvirt`, the list `printBases`
returned), the fields, the methods, the closing brace. -/
def recordMembers (decl : RecordDecl) (g : Gen) : Res :=
  let nonvirt := if decl.info.isCXX then (printBases g.renames decl).2 else []
  let g := g.write (fakeBaseLines g.renames nonvirt 0)
  (fieldIterate decl.info.isClass decl.info.fields g).andThen fun g =>
    let g := if decl.info.isCXX then methodIterate decl g else g
    .ok (g.write ("\x7d" ++ "\n"))

mutual
/-- `DlangBindGenerator::onStructOrClassEnter`. -/
def onStructOrClassEnter : RecordDecl → Gen → Res
  | .mk info decls bases, g =>
    let decl := RecordDecl.mk info decls bases
    let g := enterRecord info g
    let added := addType info.loc g.storedTypes
    let g := g.setStoredTypes added.2
    if !added.1 then .ok g
    else
      match recordHeader info g with
      | .error g => .ok g
      | .ok g =>
        (recordIntro decl g).andThen fun g =>
          (innerDeclIterate info.id info.isClass decls g).andThen fun g =>
            recordMembers decl g
/-- The loop of `innerDeclIterate` over `decl->decls()`; `declId` and
`isClass` are the identity of `decl` and `decl->isClass()`. -/
def innerDeclIterate (declId : DeclId) (isClass : Bool) : List Decl → Gen → Res
  | [], g => .ok g
  | .enumDecl e :: rest, g => innerDeclIterate declId isClass rest (onEnum e g)
  | .varDecl var :: rest, g =>
    innerDeclIterate declId isClass rest (g.write (staticMemberLine g.renames isClass var))
  | .recordDecl (.mk d ds bs) :: rest, g =>
    if d.id = declId ∨ !d.isCompleteDefinition then innerDeclIterate declId isClass rest g
    else
      (onStructOrClassEnter (.mk d ds bs) g).andThen fun g =>
        innerDeclIterate declId isClass rest (onStructOrClassLeave g)
  | .functionTemplateDecl access fn :: rest, g =>
    match fn with
    | some fn =>
      if !fn.hasIdentifier then innerDeclIterate declId isClass rest g
      else
        innerDeclIterate declId isClass rest
          (onFunction fn (g.write (getAccessStr access false ++ " ")))
    | none => innerDeclIterate declId isClass rest g
  | .typedefDecl td :: rest, g =>
    (onTypedef td g).andThen fun g => innerDeclIterate declId isClass rest g
  | .otherDecl :: rest, g => innerDeclIterate declId isClass rest g
/-- `DlangBindGenerator::onTypedef`. -/
def onTypedef : TypedefDecl → Gen → Res
  | .mk decl record, g =>
    let added := addType decl.loc g.storedTypes
    let g := g.setStoredTypes added.2
    if !added.1 then .ok g
    else
      match record with
      | some (.mk rd ds bs) =>
        (renameTypedefRecord decl (.mk rd ds bs) g).andThen fun g =>
          (onStructOrClassEnter (.mk rd ds bs) g).andThen fun g =>
            .ok (onStructOrClassLeave g)
      | none => .ok (typedefAlias decl g)
end

end Gentool
namespace Gentool

/-! ## Macros -/

/-- `clang::tok::TokenKind` of a punctuator: the kinds `onMacroDefine` names,
and any other punctuator with its spelling. -/
inductive PunctuatorKind where
  | minus
  | comma
  | r_paren
  | r_brace
  | semi
  | hash
  | otherPunctuator (spelling : String)
deriving DecidableEq, Repr

/-- `clang::tok::getPunctuatorSpelling`. -/
def getPunctuatorSpelling : PunctuatorKind → String
  | .minus => "-"
  | .comma => ","
  | .r_paren => ")"
  | .r_brace => "\x7d"
  | .semi => ";"
  | .hash => "#"
  | .otherPunctuator spelling => spelling

/-- A token of the replacement list of a macro, by the chain of tests of
`onMacroDefine`: an identifier (`isAnyIdentifier`) with its name, a literal
(`isLiteral`) with its text, a keyword with its spelling, a punctuator, or a
token of any other kind. -/
inductive Token where
  | identifier (name : String)
  | literal (text : String)
  | keyword (spelling : String)
  | punctuator (kind : PunctuatorKind)
  | otherToken
deriving DecidableEq, Repr

/-- `clang::MacroInfo`: `tokens` is the replacement list, `params` the names of
the parameters of a function-like macro. -/
structure MacroInfo where
  isUsedForHeaderGuard : Bool
  tokens : List Token
  params : List String
deriving DecidableEq, Repr

/-- `clang::MacroDirective`: `location` is
`getLocation().printToString(*SourceMgr)`, `fullPath` the path part of it that
`getFSPathPart` gives, `info` is `getMacroInfo()`. -/
structure MacroDirective where
  location : String
  fullPath : String
  info : Option MacroInfo
deriving DecidableEq, Repr

/-- `DlangBindGenerator::isRelevantPath`, for the canonical forms `roots` of
the input paths and the path part `fullPath` of `path`. -/
def isRelevantPath (roots : List String) (path fullPath : String) : Bool :=
  if path.data.length = 0 ∨ path = "<invalid loc>" then false
  else roots.any (fun inpath => (rfind fullPath inpath).isSome)

/-- The punctuators after which `onMacroDefine` writes a blank (`wstokens`). -/
def wstokens : List PunctuatorKind :=
  [.comma, .r_paren, .r_brace, .semi]

/-- The loop of `onMacroDefine` over the parameters: `, ` after every name but
the last. -/
def macroParamsText : List String → String
  | [] => ""
  | [p] => p
  | p :: q :: rest => p ++ ", " ++ macroParamsText (q :: rest)

/-- One round of the loop of `onMacroDefine` over the replacement tokens, the
text written. -/
def macroTokenText : Token → String
  | .identifier name => name ++ " "
  | .literal text => text ++ " "
  | .keyword kw => kw ++ " "
  | .punctuator kind =>
    let ws := wstokens.contains kind
    getPunctuatorSpelling kind ++ (if ws then " " else "")
  | .otherToken => ""

/-- The loop of `onMacroDefine` over the replacement tokens, the text
written. -/
def macroTokensText : List Token → String
  | [] => ""
  | tok :: rest => macroTokenText tok ++ macroTokensText rest

/-- `DlangBindGenerator::onMacroDefine`. `name` is the name of the macro, none
when the token is null or has no identifier; `roots` are the canonical forms
of the input paths. -/
def onMacroDefine (roots : List String) (name : Option String) (md : Option MacroDirective)
    (g : Gen) : Gen :=
  match md with
  | none => g
  | some md =>
    let path := md.location
    if !isRelevantPath roots path md.fullPath then g
    else
      match md.info with
      | none => g
      | some mi =>
        if mi.isUsedForHeaderGuard || mi.tokens.length == 0 then g
        else
          match name with
          | none => g
          | some id =>
            if g.macroDefs.contains id then g
            else
              let g := { g with macroDefs := g.macroDefs ++ [id] }
              let tokWithMinus :=
                mi.tokens.length == 2 && mi.tokens.head? == some (.punctuator .minus)
              if mi.tokens.length == 1 || tokWithMinus then
                let g := if mi.params.length ≠ 0 then g.write ("/*" ++ "\n") else g
                let g := g.write ("enum " ++ id)
                let g := if mi.params.length ≠ 0 then g.write "(" else g
                let g := g.write (macroParamsText mi.params)
                let g := if mi.params.length ≠ 0 then g.write (")" ++ "\n") else g
                let g := g.write " = "
                let g := g.write (macroTokensText mi.tokens)
                let g := g.write ";"
                let g := if mi.params.length ≠ 0 then g.write ("\n" ++ "*/") else g
                g.write "\n"
              else
                let g := g.write ("//" ++ path ++ "\n")
                g.write ("//#define " ++ id ++ " ..." ++ "\n")

end Gentool
namespace Gentool

/-! ## The expression printer (`printprettyd.cpp`) -/

/-- `clang::CharacterLiteral::CharacterKind`. -/
inductive CharacterKind where
  | Ascii
  | Wide
  | UTF8
  | UTF16
  | UTF32
deriving DecidableEq, Repr

/-- `clang::isPrintable(unsigned char)`: an ASCII printable character. -/
def isPrintable (c : Nat) : Bool :=
  decide (32 ≤ c) && decide (c ≤ 126)

/-- `llvm::format("%0<width>x", value)`: the hexadecimal digits of `value` in
lower case, filled with `0` on the left up to `width` characters. -/
def formatHex (width value : Nat) : String :=
  let digits := Nat.toDigits 16 value
  String.mk (List.replicate (width - digits.length) '0' ++ digits)

/-- The first `switch` and its `default` branch in `VisitCharacterLiteral`,
the text written; `value` is `Node->getValue()`, an `unsigned` of 32 bits. -/
def characterLiteralBody (value : Nat) (kind : CharacterKind) : String :=
  if value = 92 then "\x27\\\\\x27"
  else if value = 39 then "\x27\\\x27\x27"
  else if value = 7 then "\x27\\a\x27"
  else if value = 8 then "\x27\\b\x27"
  else if value = 12 then "\x27\\f\x27"
  else if value = 10 then "\x27\\n\x27"
  else if value = 13 then "\x27\\r\x27"
  else if value = 9 then "\x27\\t\x27"
  else if value = 11 then "\x27\\v\x27"
  else
    let value :=
      if (value &&& 0xFFFFFF00) = 0xFFFFFF00 ∧ kind = .Ascii then value &&& 0xFF else value
    if value < 256 ∧ isPrintable (value % 256) = true then
      "\x27" ++ String.singleton (Char.ofNat (value % 256)) ++ "\x27"
    else if value < 256 then "\x27\\x" ++ formatHex 2 value ++ "\x27"
    else if value ≤ 0xFFFF then "\x27\\u" ++ formatHex 4 value ++ "\x27"
    else "\x27\\U" ++ formatHex 8 value ++ "\x27"

/-- The second `switch` of `VisitCharacterLiteral`, on the kind. -/
def characterLiteralSuffix : CharacterKind → String
  | .Ascii => ""
  | .Wide => "w"
  | .UTF8 => ""
  | .UTF16 => "w"
  | .UTF32 => "d"

/-- `CppDASTPrinterVisitor::VisitCharacterLiteral`, the text written. -/
def VisitCharacterLiteral (value : Nat) (kind : CharacterKind) : String :=
  characterLiteralBody value kind ++ characterLiteralSuffix kind

/-- `clang::UnaryOperatorKind`. -/
inductive UnaryOperatorKind where
  | UO_PostInc
  | UO_PostDec
  | UO_PreInc
  | UO_PreDec
  | UO_AddrOf
  | UO_Deref
  | UO_Plus
  | UO_Minus
  | UO_Not
  | UO_LNot
  | UO_Real
  | UO_Imag
  | UO_Extension
  | UO_Coawait
deriving DecidableEq, Repr

namespace UnaryOperatorKind

/-- `UnaryOperator::getOpcodeStr`. -/
def getOpcodeStr : UnaryOperatorKind → String
  | UO_PostInc => "++"
  | UO_PostDec => "--"
  | UO_PreInc => "++"
  | UO_PreDec => "--"
  | UO_AddrOf => "&"
  | UO_Deref => "*"
  | UO_Plus => "+"
  | UO_Minus => "-"
  | UO_Not => "~"
  | UO_LNot => "!"
  | UO_Real => "__real"
  | UO_Imag => "__imag"
  | UO_Extension => "__extension__"
  | UO_Coawait => "co_await"

/-- `UnaryOperator::isPostfix`. -/
def isPostfixOp (op : UnaryOperatorKind) : Bool :=
  decide (op = UO_PostInc) || decide (op = UO_PostDec)

end UnaryOperatorKind

/-- `clang::BinaryOperatorKind`. -/
inductive BinaryOperatorKind where
  | BO_PtrMemD
  | BO_PtrMemI
  | BO_Mul
  | BO_Div
  | BO_Rem
  | BO_Add
  | BO_Sub
  | BO_Shl
  | BO_Shr
  | BO_Cmp
  | BO_LT
  | BO_GT
  | BO_LE
  | BO_GE
  | BO_EQ
  | BO_NE
  | BO_And
  | BO_Xor
  | BO_Or
  | BO_LAnd
  | BO_LOr
  | BO_Assign
  | BO_MulAssign
  | BO_DivAssign
  | BO_RemAssign
  | BO_AddAssign
  | BO_SubAssign
  | BO_ShlAssign
  | BO_ShrAssign
  | BO_AndAssign
  | BO_XorAssign
  | BO_OrAssign
  | BO_Comma
deriving DecidableEq, Repr

namespace BinaryOperatorKind

/-- `BinaryOperator::getOpcodeStr`. -/
def getOpcodeStr : BinaryOperatorKind → String
  | BO_PtrMemD => ".*"
  | BO_PtrMemI => "->*"
  | BO_Mul => "*"
  | BO_Div => "/"
  | BO_Rem => "%"
  | BO_Add => "+"
  | BO_Sub => "-"
  | BO_Shl => "<<"
  | BO_Shr => ">>"
  | BO_Cmp => "<=>"
  | BO_LT => "<"
  | BO_GT => ">"
  | BO_LE => "<="
  | BO_GE => ">="
  | BO_EQ => "=="
  | BO_NE => "!="
  | BO_And => "&"
  | BO_Xor => "^"
  | BO_Or => "|"
  | BO_LAnd => "&&"
  | BO_LOr => "||"
  | BO_Assign => "="
  | BO_MulAssign => "*="
  | BO_DivAssign => "/="
  | BO_RemAssign => "%="
  | BO_AddAssign => "+="
  | BO_SubAssign => "-="
  | BO_ShlAssign => "<<="
  | BO_ShrAssign => ">>="
  | BO_AndAssign => "&="
  | BO_XorAssign => "^="
  | BO_OrAssign => "|="
  | BO_Comma => ","

/-- `BinaryOperator::isLogicalOp`. -/
def isLogicalOp (op : BinaryOperatorKind) : Bool :=
  decide (op = BO_LAnd) || decide (op = BO_LOr)

end BinaryOperatorKind

/-- `clang::CastKind`, as far as the printer tells the kinds apart. -/
inductive CastKind where
  | CK_ToVoid
  | CK_ArrayToPointerDecay
  | CK_NullToPointer
  | CK_Other
deriving DecidableEq, Repr

/-- The function a call names directly (`getDirectCallee()`): its name
(`getNameInfo().getAsString()`), for each parameter whether its type is a
reference, and whether the function is variadic. -/
structure FunctionRef where
  name : String
  paramIsReference : List Bool
  isVariadic : Bool
deriving DecidableEq, Repr

/-- An expression of the resolved tree, by the class of the node. A node of a
class that is not spelled out is `other`, with the text the printer visitor
writes when it is traversed; so are a `DeclRefExpr` and a `MemberExpr`
(`reference`, with the type of the node), an `IntegerLiteral` (with whether
its value is 0) and a `StringLiteral`. `nullPointerConstant` of an implicit
cast says that `isNullPointerConstant` is not `NPCK_NotNull`. -/
inductive Expr where
  | other (printed : String)
  | reference (printed : String) (type : QualType)
  | integerLiteral (printed : String) (isNullValue : Bool)
  | stringLiteral (printed : String)
  | characterLiteral (value : Nat) (kind : CharacterKind)
  | cxxThis (isImplicit : Bool)
  | cxxDefaultArg
  | cxxPseudoDestructor (base : Expr)
  | materializeTemporary (sub : Expr)
  | paren (sub : Expr)
  | implicitCast (castKind : CastKind) (nullPointerConstant : Bool) (sub : Expr)
  | cStyleCast (castKind : CastKind) (typeAsWritten : QualType) (sub : Expr)
  | unaryOperator (opcode : UnaryOperatorKind) (sub : Expr)
  | binaryOperator (opcode : BinaryOperatorKind) (knownBoolean : Bool) (lhs rhs : Expr)
  | callExpr (callee : Expr) (directCallee : Option FunctionRef) (args : List Expr)

namespace Expr

/-- `Expr::IgnoreParens`: the expression under the parentheses and
`__extension__` markers around it. -/
def IgnoreParens : Expr → Expr
  | paren sub => IgnoreParens sub
  | unaryOperator .UO_Extension sub => IgnoreParens sub
  | e => e

/-- `Expr::IgnoreImpCasts`: the expression under the implicit casts around
it. -/
def IgnoreImpCasts : Expr → Expr
  | implicitCast _ _ sub => IgnoreImpCasts sub
  | e => e

def isStringLiteral : Expr → Bool
  | stringLiteral _ => true
  | _ => false

def isIntegerLiteral : Expr → Bool
  | integerLiteral _ _ => true
  | _ => false

def isCXXThis : Expr → Bool
  | cxxThis _ => true
  | _ => false

def isUnaryOperator : Expr → Bool
  | unaryOperator _ _ => true
  | _ => false

def isCXXDefaultArg : Expr → Bool
  | cxxDefaultArg => true
  | _ => false

def isMaterializeTemporary : Expr → Bool
  | materializeTemporary _ => true
  | _ => false

def isCXXPseudoDestructor : Expr → Bool
  | cxxPseudoDestructor _ => true
  | _ => false

mutual
/-- The height of the tree of an expression. -/
def depth : Expr → Nat
  | other _ => 0
  | reference _ _ => 0
  | integerLiteral _ _ => 0
  | stringLiteral _ => 0
  | characterLiteral _ _ => 0
  | cxxThis _ => 0
  | cxxDefaultArg => 0
  | cxxPseudoDestructor base => depth base + 1
  | materializeTemporary sub => depth sub + 1
  | paren sub => depth sub + 1
  | implicitCast _ _ sub => depth sub + 1
  | cStyleCast _ _ sub => depth sub + 1
  | unaryOperator _ sub => depth sub + 1
  | binaryOperator _ _ lhs rhs => max (depth lhs) (depth rhs) + 1
  | callExpr callee _ args => max (depth callee) (depthList args) + 1
/-- The greatest height of the expressions of a list. -/
def depthList : List Expr → Nat
  | [] => 0
  | e :: rest => max (depth e) (depthList rest)
end

end Expr

/-- `CppDASTPrinterVisitor::PrintCallArgs`, the text written; `TraverseStmt` is
the traversal of a node, `fn` the direct callee and `i` the index of the first
of the arguments. The loop ends at the first defaulted argument. -/
def PrintCallArgs (TraverseStmt : Expr → String) (fn : Option FunctionRef) :
    List Expr → Nat → String
  | [], _ => ""
  | arg :: rest, i =>
    if arg.isCXXDefaultArg then ""
    else
      let byRef : Bool :=
        match fn with
        | some fn =>
          decide (fn.paramIsReference.length ≠ 0) && !fn.isVariadic &&
            (fn.paramIsReference.getD i false && arg.isMaterializeTemporary)
        | none => false
      (if i ≠ 0 then ", " else "") ++ TraverseStmt arg ++ (if byRef then ".byRef" else "") ++
        PrintCallArgs TraverseStmt fn rest (i + 1)

/-- `CppDASTPrinterVisitor::PrintCallExpr`, the text written. -/
def PrintCallExpr (TraverseStmt : Expr → String) (callee : Expr) (fn : Option FunctionRef)
    (args : List Expr) : String :=
  TraverseStmt callee ++
    (if callee.isCXXPseudoDestructor then ""
     else "(" ++ PrintCallArgs TraverseStmt fn args 0 ++ ")")

/-- `CppDASTPrinterVisitor::HandlePotentialAssert` for a cast whose operand is
`sub`: the text written when it returns true, `none` when it returns false
(it has written nothing then). `TraverseStmt` is the traversal of a node. -/
def HandlePotentialAssert (TraverseStmt : Expr → String) (sub : Expr) : Option String :=
  match sub with
  | .paren (.binaryOperator opcode knownBoolean lhs rhs) =>
    match rhs.IgnoreImpCasts.IgnoreParens with
    | .binaryOperator .BO_Comma _ (.callExpr _ (some fnref) args) _ =>
      if (find fnref.name "assert").isSome then
        match args with
        | [arg0, _, _] =>
          if opcode.isLogicalOp || knownBoolean then
            some ("assert(" ++ TraverseStmt lhs.IgnoreParens ++ ", " ++ TraverseStmt arg0 ++ ")")
          else none
        | _ => none
      else none
    | _ => none
  | _ => none

/-- `TraverseStmt` of the printer visitor on an expression, the text written:
the `Visit` method of the class of the node and, when that returns true, the
traversal of the children of the node. `fuel` bounds the depth of the nested
traversals; `helper` says that the printer has a context and a helper. A
nested `TraverseStmt` that a `Visit` method calls is a traversal of its own,
whose result the method does not look at. -/
def traverseStmt (ren : Renames) (helper : Bool) : Nat → Expr → String
  | 0, _ => ""
  | fuel + 1, e =>
    let TraverseStmt := traverseStmt ren helper fuel
    match e with
    | .other printed => printed
    | .reference printed _ => printed
    | .integerLiteral printed _ => printed
    | .stringLiteral printed => printed
    | .characterLiteral value kind => VisitCharacterLiteral value kind
    | .cxxThis isImplicit => if !isImplicit then "this" else ""
    | .cxxDefaultArg => ""
    | .cxxPseudoDestructor base => "destroy(" ++ TraverseStmt base ++ ")"
    | .materializeTemporary sub => TraverseStmt sub
    | .paren sub => "(" ++ TraverseStmt sub ++ ")"
    | .implicitCast castKind nullPointerConstant sub =>
      if helper && nullPointerConstant then "null"
      else if castKind = .CK_ArrayToPointerDecay then
        TraverseStmt sub ++ (if !sub.IgnoreImpCasts.isStringLiteral then ".ptr" else "")
      else if castKind = .CK_NullToPointer then "null"
      else TraverseStmt sub
    | .cStyleCast castKind typeAsWritten sub =>
      match (if castKind = .CK_ToVoid then HandlePotentialAssert TraverseStmt sub else none) with
      | some text => text
      | none => "cast(" ++ toDStyle ren typeAsWritten ++ ")" ++ TraverseStmt sub
    | .unaryOperator opcode sub =>
      (if !opcode.isPostfixOp then
        (if !sub.isCXXThis then opcode.getOpcodeStr else "") ++
          (if opcode = .UO_Real ∨ opcode = .UO_Imag ∨ opcode = .UO_Extension then " "
           else if opcode = .UO_Plus ∨ opcode = .UO_Minus then
             (if sub.isUnaryOperator then " " else "")
           else "")
       else "") ++
        TraverseStmt sub ++ (if opcode.isPostfixOp then opcode.getOpcodeStr else "")
    | .binaryOperator opcode _ lhs rhs =>
      let isPtr : Option QualType :=
        match lhs with
        | .reference _ type => if type.isPointerType then some type else none
        | _ => none
      TraverseStmt lhs ++ (" " ++ opcode.getOpcodeStr ++ " ") ++
        (match isPtr, rhs.IgnoreImpCasts with
         | some type, .integerLiteral _ isNullVal =>
           if isNullVal then "null"
           else "cast(" ++ toDStyle ren type ++ ") " ++ TraverseStmt rhs
         | _, _ => TraverseStmt rhs)
    | .callExpr callee fn args => PrintCallExpr TraverseStmt callee fn args

/-- The entry point `printPrettyD(stmt, ..)` for an expression, the text
written: the traversal with fuel for the whole tree
(`traverseStmt_enough`). -/
def printPrettyExpr (ren : Renames) (helper : Bool) (e : Expr) : String :=
  traverseStmt ren helper (e.depth + 1) e

end Gentool
namespace Gentool

/-! ## Words of the specification -/

/-- Whether `::` occurs in a list of characters. -/
def hasScope : List Char → Bool
  | [] => false
  | c :: cs => (c == ':' && cs.head? == some ':') || hasScope cs

/-- The levels `_typeRoll` descends through: the type, its pointee, and so on
down to the innermost type, which is neither a pointer nor a reference. -/
def descent : QualType → List QualType
  | .mk c (.pointer p) => .mk c (.pointer p) :: descent p
  | .mk c (.reference p) => .mk c (.reference p) :: descent p
  | q => [q]

/-- The innermost type of a chain of pointers and references. -/
def innermost : QualType → QualType
  | .mk _ (.pointer p) => innermost p
  | .mk _ (.reference p) => innermost p
  | q => q

/-- The marker a level opens with: the reference marker, or the opener of a
`const` qualification. -/
def rollOpener (q : QualType) : List String :=
  if q.isReferenceType then ["ref "]
  else if q.isConstQualified then ["const("]
  else []

/-- The marker a level closes with. -/
def rollCloser (q : QualType) : List String :=
  if q.isReferenceType then []
  else if q.isConstQualified && q.isPointerType then [")*"]
  else if q.isConstQualified then [")"]
  else if q.isPointerType then ["*"]
  else []

/-- The concatenated parts of `_typeRoll(type)`. -/
def rollText (ren : Renames) (type : QualType) : String :=
  String.join (_typeRoll ren type [])

/-- The depth of open parentheses after reading `s` from the depth `d`; `none`
when a `)` has no `(` to close. -/
def parenDepth : Nat → List Char → Option Nat
  | d, [] => some d
  | d, c :: cs =>
    if c = '(' then parenDepth (d + 1) cs
    else if c = ')' then (match d with
      | 0 => none
      | d + 1 => parenDepth d cs)
    else parenDepth d cs

/-- A text is well-parenthesised: every `)` closes a `(` and none stays open. -/
def wellParenthesised (s : String) : Prop :=
  parenDepth 0 s.data = some 0

instance (s : String) : Decidable (wellParenthesised s) :=
  inferInstanceAs (Decidable (parenDepth 0 s.data = some 0))

end Gentool
namespace Gentool

/-- The type `float`. -/
def floatType : QualType := .mk false (.builtin (.Other "float"))

/-- A pointer to a const pointer to const float (`const float * const *`). -/
def pointerToConstPointerToConstFloat : QualType :=
  .mk false (.pointer (.mk true (.pointer (.mk true (.builtin (.Other "float"))))))

/-- A const pointer to a const pointer to float (`float * const * const`). -/
def constPointerToConstPointerToFloat : QualType :=
  .mk true (.pointer (.mk true (.pointer floatType)))

end Gentool
namespace Gentool

/-- The record declares a virtual method itself (methods are those of a
`CXXRecordDecl`). -/
def declaresVirtual (r : RecordDecl) : Bool :=
  r.info.isCXX && r.info.methods.any (fun f => f.isVirtual)

/-- `InHierarchy decl r`: `r` is the record `decl` itself or a direct or
indirect base record of it (bases are those of a `CXXRecordDecl`). -/
inductive InHierarchy : RecordDecl → RecordDecl → Prop where
  | self (d : RecordDecl) : InHierarchy d d
  | base (d b r : RecordDecl) (type : QualType) :
      d.info.isCXX = true → CXXBaseSpecifier.mk type (some b) ∈ d.bases →
      InHierarchy b r → InHierarchy d r

/-- What `onStructOrClassEnter` writes before the shape keyword of a record
it goes on to write in full: the linkage line and, for a record that is not
templated, the size annotation. -/
def recordHeaderText (cppIsDefault : Bool) (info : RecordInfo) : String :=
  linkageText cppIsDefault info.ctx ++ (if info.isTemplated then "" else sizeAttributeLine info)

/-- The record is written in full: it is templated, or it has a type, a
complete definition and a size and alignment that are not zero. -/
def writtenInFull (info : RecordInfo) : Prop :=
  info.isTemplated = true ∨
    (info.hasTypeForDecl = true ∧ info.isCompleteDefinition = true ∧
      info.typeInfo.Width ≠ 0 ∧ info.typeInfo.Align ≠ 0)

end Gentool
namespace Gentool

/-- The record `decl` with one more method `m`. -/
def addMethod (decl : RecordDecl) (m : CXXMethodDecl) : RecordDecl :=
  .mk { decl.info with methods := m :: decl.info.methods } decl.decls decl.bases

/-- A generator at the start of a run over C++ sources. -/
def initialGen : Gen :=
  { out := "", cppIsDefault := true, nogc := false, msvcCompat := false, storedTypes := [],
    enumDecls := [], functionDecls := [], renames := [], declStack := [],
    classOrStructName := "", finalTypeName := "", globalAnonTypeId := 0,
    localAnonRecordId := 1, isPrevIsBitfield := false, accumBitFieldWidth := 0,
    mixinTemplateId := 1 }

/-- The type `int`. -/
def intType : QualType := .mk false (.builtin (.Other "int"))

/-- The type `unsigned int`. -/
def uintType : QualType := .mk false (.builtin .UInt)

/-- The context of a declaration at the top of the translation unit. -/
def topLevel : DeclContext := { chain := [], isExternCContext := false }

/-- A public member `int <name>;`, 4 bytes wide. -/
def intField (name : String) : FieldDecl :=
  { name := name, type := intType, typeIsDependent := false, access := .AS_public,
    isBitField := false, bitWidth := .leaf true "", bitWidthValue := 0, typeInfo := ⟨32, 32⟩ }

/-- A public bit-field `unsigned <name> : <width>;`. -/
def uintBitField (name : String) (width : Nat) : FieldDecl :=
  { name := name, type := uintType, typeIsDependent := false, access := .AS_public,
    isBitField := true, bitWidth := .leaf true (toString width), bitWidthValue := width,
    typeInfo := ⟨32, 32⟩ }

/-- A plain record `struct <name>` at the top level, of identity `id`, declared
at `loc`, with the given fields and methods and no bases. -/
def plainStruct (id : DeclId) (name loc : String) (fields : List FieldDecl)
    (methods : List CXXMethodDecl) : RecordDecl :=
  .mk { id := id, name := name, loc := loc, ctx := topLevel, isUnion := false, isClass := false,
        isTemplated := false, hasTypeForDecl := true, isCompleteDefinition := true,
        isThisDeclarationADefinition := true, typeInfo := ⟨64, 32⟩,
        typedefNameForAnonDecl := none, isCXX := true, numVBases := 0, templateArgs := none,
        describedClassTemplate := none, fields := fields, methods := methods } [] []

/-- The record `struct Point { int x; int y; };`. -/
def pointRecord : RecordDecl :=
  plainStruct 1 "Point" "point.h:1:8" [intField "x", intField "y"] []

/-- The enum `enum Color { Red = 0 };`. -/
def colorEnum : EnumDecl :=
  { name := "Color", loc := "color.h:1:6", integerType := uintType,
    enumerators := [("Red", ⟨32, 0, true⟩)] }

end Gentool
namespace Gentool

/-- The naming step of `fieldIterate` succeeds for the field: it has a name, or
it gets one from the number in its type text. -/
def namingSucceeds (ren : Renames) (it : FieldDecl) : Bool :=
  match fieldName it (toDStyle ren it.type) with
  | .ok _ => true
  | .error _ => false

/-- The name of the field after the naming step of `fieldIterate`. -/
def resolvedFieldName (ren : Renames) (it : FieldDecl) : String :=
  match fieldName it (toDStyle ren it.type) with
  | .ok name => name
  | .error _ => it.name

/-- The entry of a bit-field in its group: type, quoted name, width. -/
def bitfieldEntry (ren : Renames) (it : FieldDecl) : String :=
  bitfieldEntryText (toDStyle ren it.type) (resolvedFieldName ren it) (printPrettyD it.bitWidth)

/-- The entries of a run of bit-fields, one per line, separated by commas. -/
def runEntries (ren : Renames) : List FieldDecl → String
  | [] => ""
  | [it] => bitfieldEntry ren it
  | it :: next :: rest => bitfieldEntry ren it ++ ("," ++ "\n") ++ runEntries ren (next :: rest)

/-- The text a run of bit-fields adds: the opening of the group when no group
is open, and the entries with their separators. -/
def runText (ren : Renames) : Bool → List FieldDecl → String
  | _, [] => ""
  | prev, it :: rest =>
    ((if prev then "," ++ "\n" else "mixin(bitfields!(" ++ "\n") ++ bitfieldEntry ren it) ++
      runText ren true rest

/-- The accumulated width of a run of bit-fields. -/
def runWidth : List FieldDecl → Nat
  | [] => 0
  | it :: rest => it.bitWidthValue + runWidth rest

/-- The line of a member that is no bit-field. -/
def fieldLine (ren : Renames) (isClass : Bool) (it : FieldDecl) : String :=
  fieldLineText isClass it (toDStyle ren it.type) (resolvedFieldName ren it)

/-- `b` is the least of the boundaries 8, 16, 32, 64 that is at least `w`. -/
def leastBoundary (b w : Nat) : Prop :=
  b ∈ [8, 16, 32, 64] ∧ w ≤ b ∧ ∀ c ∈ [8, 16, 32, 64], w ≤ c → b ≤ c

instance (b w : Nat) : Decidable (leastBoundary b w) :=
  inferInstanceAs (Decidable (b ∈ [8, 16, 32, 64] ∧ w ≤ b ∧ ∀ c ∈ [8, 16, 32, 64], w ≤ c → b ≤ c))

/-- The state in which `fieldIterate` starts its loop. -/
def fieldIterateStart (g : Gen) : Gen :=
  { g with isPrevIsBitfield := false, accumBitFieldWidth := 0 }

/-- What `fieldIterate` does after its loop: it closes the group the last
field left open. -/
def closeLastRun (g : Gen) : Res :=
  if g.isPrevIsBitfield then .ok (g.write ("));" ++ "\n")) else .ok g

/-- The number of places at which the text `pat` occurs in a text. -/
def countOccurrences (pat : List Char) : List Char → Nat
  | [] => 0
  | c :: cs => (if pat.isPrefixOf (c :: cs) then 1 else 0) + countOccurrences pat cs

/-- The start of an unnamed padding entry of a bit-field group. -/
def paddingEntry : String := "uint, \"\", "

/-- The bit-fields `unsigned a : 2; unsigned b : 3; unsigned c : 2;`. -/
def sevenBitRun : List FieldDecl :=
  [uintBitField "a" 2, uintBitField "b" 3, uintBitField "c" 2]

/-- The bit-fields `unsigned a : 2; unsigned b : 3; unsigned c : 2;
unsigned d : 1;`. -/
def eightBitRun : List FieldDecl :=
  [uintBitField "a" 2, uintBitField "b" 3, uintBitField "c" 2, uintBitField "d" 1]

/-- The bit-fields `unsigned a : 32; unsigned b : 32; unsigned c : 8;`,
72 bits. -/
def seventyTwoBitRun : List FieldDecl :=
  [uintBitField "a" 32, uintBitField "b" 32, uintBitField "c" 8]

/-- The bit-fields `unsigned a : 32; unsigned b : 32; unsigned c : 1;`,
65 bits. -/
def sixtyFiveBitRun : List FieldDecl :=
  [uintBitField "a" 32, uintBitField "b" 32, uintBitField "c" 1]

end Gentool
namespace Gentool

/-- The record type `Foo` of `struct Foo`, the declaration 7. -/
def fooType : QualType := .mk false (.record { id := 7, name := "Foo", hasDefinition := true })

/-- The type `Foo &`. -/
def fooRefType : QualType := .mk false (.reference fooType)

/-- The type `const Foo &`. -/
def constFooRefType : QualType :=
  .mk false (.reference (.mk true (.record { id := 7, name := "Foo", hasDefinition := true })))

/-- A public member operator of `struct Foo` declared without body, not
virtual, not static, with the given operator kind, name, mangled name, return
type and parameters. -/
def fooOperator (op : OverloadedOperatorKind) (name mangled : String) (ret : QualType)
    (params : List ParmVarDecl) : CXXMethodDecl :=
  { nameAsString := name, hasIdentifier := false, locStart := "foo.h:3:10", kind := .method,
    overloadedOperator := op, shouldMangle := true, mangledName := mangled,
    isDefaulted := false, isExplicitlyDefaulted := false, isTemplated := false,
    isStatic := false, isVirtual := false, sizeOverriddenMethods := 0, hasOverrideAttr := false,
    isInlined := false, hasInlineBody := false, body := none, access := .AS_public,
    returnType := ret, params := params }

/-- A parameter `<type> rhs` without default argument. -/
def rhsParam (type : QualType) : ParmVarDecl :=
  { name := "rhs", type := type, defaultArg := none, defaultArgIsNull := false }

/-- The member `Foo& operator=(int rhs);` of `struct Foo`. -/
def assignFromInt : CXXMethodDecl :=
  fooOperator .OO_Equal "operator=" "_ZN3FooaSEi" fooRefType [rhsParam intType]

/-- The member `Foo& operator=(const Foo& rhs);` of `struct Foo`. -/
def assignFromFoo : CXXMethodDecl :=
  fooOperator .OO_Equal "operator=" "_ZN3FooaSERKS_" fooRefType [rhsParam constFooRefType]

/-- The member `Foo& operator=(Foo rhs);` of `struct Foo`. -/
def assignFromFooByValue : CXXMethodDecl :=
  fooOperator .OO_Equal "operator=" "_ZN3FooaSES_" fooRefType [rhsParam fooType]

/-- The record `struct Foo` with the given methods. -/
def fooRecord (methods : List CXXMethodDecl) : RecordDecl :=
  plainStruct 7 "Foo" "foo.h:1:8" [] methods

end Gentool
namespace Gentool

/-- The overloaded operators for which `getOperatorName` asks for a binding to
the symbol. -/
def customMangleOperators : List OverloadedOperatorKind :=
  [.OO_AmpAmp, .OO_PipePipe, .OO_Less, .OO_Greater, .OO_LessEqual, .OO_GreaterEqual,
   .OO_Exclaim, .OO_ExclaimEqual]

/-- The method is one `methodIterate` passes over: its location is in the
registry, or it is defaulted without `= default`. -/
def isSkipped (env : MethodEnv) (m : CXXMethodDecl) : Bool :=
  env.storedTypes.contains m.locStart || (m.isDefaulted && !m.isExplicitlyDefaulted)

/-- The line that binds an operator to a symbol: in MSVC compatibility mode
the `mangleof` of the helper named after record and operator, otherwise the
mangled name of the front end (the plain name when the front end does not
mangle it, nothing for a templated method). -/
def manglePragma (env : MethodEnv) (m : CXXMethodDecl) : String :=
  if env.msvcCompat then
    "@pyExtract(\"" ++ env.declName ++ "::" ++ m.nameAsString ++ "\")" ++
      "   pragma(mangle, " ++ "nsgen." ++ env.declName ++ "_" ++
      (getOperatorName m.overloadedOperator m.params.length).1 ++ ".mangleof)" ++ "\n"
  else
    "pragma(mangle, \"" ++
      (if m.shouldMangle then (if m.isTemplated then "" else m.mangledName)
       else m.nameAsString) ++ "\")" ++ "\n"

/-- The member `bool operator<(const Foo& rhs);` of `struct Foo`. -/
def lessThanFoo : CXXMethodDecl :=
  fooOperator .OO_Less "operator<" "_ZN3FooltERKS_" (.mk false (.builtin .Bool))
    [rhsParam constFooRefType]

/-- The member `bool operator==(const Foo& rhs);` of `struct Foo`. -/
def equalsFoo : CXXMethodDecl :=
  fooOperator .OO_EqualEqual "operator==" "_ZN3FooeqERKS_" (.mk false (.builtin .Bool))
    [rhsParam constFooRefType]

/-- The member `Foo* operator->();` of `struct Foo`. -/
def arrowFoo : CXXMethodDecl :=
  fooOperator .OO_Arrow "operator->" "_ZN3FooptEv" (.mk false (.pointer fooType)) []

/-- What `methodIterate` knows of `struct Foo` at the start of a run. -/
def fooEnv : MethodEnv :=
  { ren := [], storedTypes := [], nogc := false, msvcCompat := false, declName := "Foo",
    declIsClass := false, declIsTemplated := false, isVirtualDecl := false }

end Gentool
namespace Gentool

/-- The arithmetic, bitwise and increment or decrement operators `+`, `-`, `*`,
`/`, `%`, `^`, `&`, `|`, `~`, `<<`, `>>`, `++`, `--`. -/
def arithmeticOperators : List OverloadedOperatorKind :=
  [.OO_Plus, .OO_Minus, .OO_Star, .OO_Slash, .OO_Percent, .OO_Caret, .OO_Amp, .OO_Pipe,
   .OO_Tilde, .OO_LessLess, .OO_GreaterGreater, .OO_PlusPlus, .OO_MinusMinus]

/-- The generic operator form: `opBinary` for one parameter and `opUnary`
otherwise, the symbol of the operator as the argument `string op`, and no
binding to a symbol. -/
def genericOperatorForm (op : OverloadedOperatorKind) (psize : Nat) : String × String × Bool :=
  (if psize = 1 then "opBinary" else "opUnary",
   "string op : \"" ++ getOperatorSpelling op ++ "\"", false)

/-- The member `Foo operator<<(int rhs);` of `struct Foo`. -/
def shiftLeftFoo : CXXMethodDecl :=
  fooOperator .OO_LessLess "operator<<" "_ZN3FoolsEi" fooType [rhsParam intType]

/-- The member `Foo operator+(int rhs);` of `struct Foo`. -/
def plusFoo : CXXMethodDecl :=
  fooOperator .OO_Plus "operator+" "_ZN3FooplEi" fooType [rhsParam intType]

/-- The reserved identifiers as the specification lists them. -/
def reservedWords : List String :=
  ["out", "ref", "version", "debug", "mixin", "with", "unittest", "typeof", "typeid", "super",
   "body", "shared", "pure", "package", "module", "inout", "in", "is", "import", "invariant",
   "immutable", "interface", "function", "delegate", "final", "export", "deprecated", "alias",
   "abstract", "synchronized", "byte", "ubyte", "uint", "ushort", "string"]

end Gentool
namespace Gentool

/-- Texts joined by `, `: one separator between any two neighbours, none in
front and none behind. -/
def commaJoined : List String → String
  | [] => ""
  | [a] => a
  | a :: b :: rest => a ++ ", " ++ commaJoined (b :: rest)

/-- The type `unsigned long`. -/
def ulongType : QualType := .mk false (.builtin .ULong)

/-- The type `int[]`, an array of `int` without bound. -/
def intOpenArray : QualType := .mk false (.array intType)

/-- The type `int[4]`. -/
def intArrayOfFour : QualType := .mk false (.constantArray intType 4)

/-- The type `MyArray<unsigned long, 3>`, whose arguments the front end prints
as `unsigned long` and `3`. -/
def myArrayOfUlong : QualType :=
  .mk false (.templateSpecialization "MyArray"
    [.type ulongType "unsigned long", .integral ⟨32, 3, false⟩ "3"] none false)

/-- The type `int (float, unsigned long)` of a function. -/
def sampleFunctionType : QualType :=
  .mk false (.functionProto intType [floatType, ulongType])

end Gentool
namespace Gentool

/-- The replacement of every `::` by `.` in a text that is read from its end:
in a run of colons the pairs are taken from the end of the text. -/
def scopeToDotRev : List Char → List Char
  | [] => []
  | [c] => [c]
  | c :: d :: rest =>
    if c = ':' ∧ d = ':' then '.' :: scopeToDotRev rest else c :: scopeToDotRev (d :: rest)

/-- The text with every scope separator `::` replaced by `.`. -/
def scopeToDot (s : String) : String :=
  ⟨(scopeToDotRev s.data.reverse).reverse⟩

/-- The dependent type the front end prints as `std::vector<T>::iterator`. -/
def iteratorType : QualType := .mk false (.other "std::vector<T>::iterator" true)

end Gentool
namespace Gentool

/-- The member `float norm() { return x * x + y * y; }` of `Point`, defined in
the class body (inline) and not virtual. -/
def normMethod : CXXMethodDecl :=
  { nameAsString := "norm", hasIdentifier := true, locStart := "point.h:4:11", kind := .method,
    overloadedOperator := .OO_None, shouldMangle := true, mangledName := "_ZN5Point4normEv",
    isDefaulted := false, isExplicitlyDefaulted := false, isTemplated := false,
    isStatic := false, isVirtual := false, sizeOverriddenMethods := 0, hasOverrideAttr := false,
    isInlined := true, hasInlineBody := true,
    body := some (.compound [.leaf false "return x * x + y * y;"]),
    access := .AS_public, returnType := floatType, params := [] }

/-- The record `struct Point { int x; int y; float norm() { .. } };`. -/
def pointWithNorm : RecordDecl :=
  plainStruct 1 "Point" "point.h:1:8" [intField "x", intField "y"] [normMethod]

/-- The declaration `struct Point;` without definition. -/
def forwardPoint : RecordDecl :=
  .mk { id := 2, name := "Point", loc := "fwd.h:1:8", ctx := topLevel, isUnion := false,
        isClass := false, isTemplated := false, hasTypeForDecl := true,
        isCompleteDefinition := false, isThisDeclarationADefinition := false,
        typeInfo := ⟨0, 0⟩, typedefNameForAnonDecl := none, isCXX := true, numVBases := 0,
        templateArgs := none, describedClassTemplate := none, fields := [], methods := [] } [] []

/-- The declaration `template <class T> struct Box;` without definition. -/
def forwardBox : RecordDecl :=
  .mk { id := 3, name := "Box", loc := "fwd.h:2:27", ctx := topLevel, isUnion := false,
        isClass := false, isTemplated := true, hasTypeForDecl := true,
        isCompleteDefinition := false, isThisDeclarationADefinition := false,
        typeInfo := ⟨0, 0⟩, typedefNameForAnonDecl := none, isCXX := true, numVBases := 0,
        templateArgs := none,
        describedClassTemplate := some { params := [{ name := "T", nonType := none }] },
        fields := [], methods := [] } [] []

end Gentool
namespace Gentool

/-- A complete record `struct { int <field>; }` without name and without
typedef name, nested in a record, of identity `id`, declared at `loc`. -/
def anonStruct (id : DeclId) (loc field : String) : RecordDecl :=
  .mk { id := id, name := "", loc := loc, ctx := topLevel, isUnion := false, isClass := false,
        isTemplated := false, hasTypeForDecl := true, isCompleteDefinition := true,
        isThisDeclarationADefinition := true, typeInfo := ⟨32, 32⟩,
        typedefNameForAnonDecl := none, isCXX := true, numVBases := 0, templateArgs := none,
        describedClassTemplate := none, fields := [intField field], methods := [] } [] []

/-- A public member `<record> <name>;` whose type is the record `id`, declared
without name, 4 bytes wide. -/
def anonField (id : DeclId) (name : String) : FieldDecl :=
  { name := name, type := .mk false (.record { id := id, name := "", hasDefinition := true }),
    typeInfo := ⟨32, 32⟩, typeIsDependent := false, access := .AS_public, isBitField := false,
    bitWidth := .leaf true "", bitWidthValue := 0 }

/-- The record `struct Outer { struct { int a; } s; };`. -/
def outerRecord : RecordDecl :=
  .mk { (plainStruct 10 "Outer" "outer.h:1:8" [anonField 11 "s"] []).info with
        typeInfo := ⟨32, 32⟩ }
    [.recordDecl (anonStruct 11 "outer.h:2:5" "a"), .otherDecl] []

/-- The record `struct Outer { struct { int a; } s; struct { int b; } t;
struct { int c; } u; };`. -/
def outerOfThree : RecordDecl :=
  .mk { (plainStruct 10 "Outer" "outer.h:1:8"
          [anonField 11 "s", anonField 12 "t", anonField 13 "u"] []).info with
        typeInfo := ⟨96, 32⟩ }
    [.recordDecl (anonStruct 11 "outer.h:2:5" "a"), .otherDecl,
     .recordDecl (anonStruct 12 "outer.h:3:5" "b"), .otherDecl,
     .recordDecl (anonStruct 13 "outer.h:4:5" "c"), .otherDecl] []

end Gentool
namespace Gentool

/-- A member declaration that does not send `deanonimizeTypedef` into another
record: any declaration but a typedef of a record type that is not dependent. -/
def simpleMember : Decl → Bool
  | .typedefDecl (.mk td record) =>
    td.typeIsDependent || record.isNone || td.underlyingType.getAsRecordDecl.isNone
  | _ => true

/-- The anonymous nested entities of the record `declId` in declaration order:
the identities of the member records and member typedefs that have no
identifier under the names `ren`. -/
def anonymousIds (ren : Renames) (declId : DeclId) : List Decl → List DeclId
  | [] => []
  | .recordDecl (.mk rec _ _) :: rest =>
    if rec.id ≠ declId ∧ hasIdentifier ren rec.id rec.name = false then
      rec.id :: anonymousIds ren declId rest
    else anonymousIds ren declId rest
  | .typedefDecl (.mk td _) :: rest =>
    if hasIdentifier ren td.id td.name = false then td.id :: anonymousIds ren declId rest
    else anonymousIds ren declId rest
  | .enumDecl _ :: rest => anonymousIds ren declId rest
  | .varDecl _ :: rest => anonymousIds ren declId rest
  | .functionTemplateDecl _ _ :: rest => anonymousIds ren declId rest
  | .otherDecl :: rest => anonymousIds ren declId rest

/-- The name of the `n`-th anonymous entity. -/
def anonName (n : Nat) : String := "_anon" ++ toString n

end Gentool
namespace Gentool

/-- The renaming of the anonymous entities `ids` in order: each takes the name
of the counter `localAnonRecordId`, which goes up by one. -/
def nameAnonymous : List DeclId → Gen → Gen
  | [], g => g
  | id :: rest, g =>
    nameAnonymous rest
      (setDeclName id (anonName g.localAnonRecordId)
        { g with localAnonRecordId := g.localAnonRecordId + 1 })

end Gentool
namespace Gentool

/-- The part of `onStructOrClassEnter` between the naming step and the nested
declarations: the name, the template arguments and the bases of the record,
and the opening brace. -/
def recordOpening (decl : RecordDecl) (g : Gen) : Gen :=
  let g := g.write g.classOrStructName
  let g := if decl.info.isCXX then g.write (recordTemplateText g.renames decl.info) else g
  let g := if decl.info.isCXX then g.write (printBases g.renames decl).1 else g
  let g := g.write "\n"
  g.write ("\x7b" ++ "\n")

end Gentool
namespace Gentool

/-- The declaration `m` has been given the name `n` by `setDeclName`. -/
def Named (m : DeclId) (n : String) (g : Gen) : Prop :=
  g.renames.lookup m = some n

mutual
/-- No typedef among the members of the record, at any depth, names the record
`m` as its type. -/
def typedefFreeRecord (m : DeclId) : RecordDecl → Bool
  | .mk _ decls _ => typedefFreeDecls m decls
/-- No typedef among the declarations, at any depth, names the record `m` as
its type. -/
def typedefFreeDecls (m : DeclId) : List Decl → Bool
  | [] => true
  | .typedefDecl (.mk _ record) :: rest =>
    (match record with
     | some (.mk info decls _) => decide (info.id ≠ m) && typedefFreeDecls m decls
     | none => true) && typedefFreeDecls m rest
  | .recordDecl (.mk _ decls _) :: rest => typedefFreeDecls m decls && typedefFreeDecls m rest
  | .enumDecl _ :: rest => typedefFreeDecls m rest
  | .varDecl _ :: rest => typedefFreeDecls m rest
  | .functionTemplateDecl _ _ :: rest => typedefFreeDecls m rest
  | .otherDecl :: rest => typedefFreeDecls m rest
end

end Gentool
namespace Gentool

/-- The anonymous record of `typedef struct { int q; } T;`, nested in `Outer`. -/
def typedefStruct : RecordDecl :=
  .mk { (anonStruct 12 "outer.h:3:13" "q").info with typedefNameForAnonDecl := some "T" } [] []

/-- The typedef `T` of `typedef struct { int q; } T;`, nested in `Outer`. -/
def typedefT : TypedefInfo :=
  { id := 20, name := "T", loc := "outer.h:3:30", ctx := topLevel,
    underlyingType := .mk false (.record { id := 12, name := "", hasDefinition := true }),
    typeIsDependent := false }

/-- The record `struct Outer { struct { int a; } s; typedef struct { int q; } T;
struct { int b; } t; };`. -/
def outerWithTypedef : RecordDecl :=
  .mk { (plainStruct 10 "Outer" "outer.h:1:8"
          [anonField 11 "s", anonField 13 "t"] []).info with
        typeInfo := ⟨64, 32⟩ }
    [.recordDecl (anonStruct 11 "outer.h:2:5" "a"), .otherDecl,
     .recordDecl typedefStruct, .typedefDecl (.mk typedefT (some typedefStruct)),
     .recordDecl (anonStruct 13 "outer.h:4:5" "b"), .otherDecl] []

end Gentool
namespace Gentool

/-- A generator in which the record `struct Point` of `point.h` is already in
the registry. -/
def pointRegisteredGen : Gen :=
  { initialGen with storedTypes := ["point.h:1:8"] }

/-- The enum `enum Flags : unsigned { None = 0, All = 0xFFFFFFFF };`: the
underlying type is unsigned and 32 bits wide. -/
def flagsEnum : EnumDecl :=
  { name := "Flags", loc := "flags.h:1:6", integerType := uintType,
    enumerators := [("None", ⟨32, 0, true⟩), ("All", ⟨32, 4294967295, true⟩)] }

/-- The line of an enumerator as the specification has it: the name and the
numeral of the value in base 10. -/
def enumeratorEntry (name : String) (value : Nat) : String :=
  name ++ " = " ++ toString value

end Gentool
namespace Gentool

/-- The directive `#define MAX_SIZE 100` at the place `location` of the file
`fullPath`: an object-like macro whose replacement list is the one literal
`100`. -/
def maxSizeDefine (location fullPath : String) : MacroDirective :=
  { location := location, fullPath := fullPath,
    info := some { isUsedForHeaderGuard := false, tokens := [.literal "100"], params := [] } }

/-- The directive `#define ID(x) x` of `util.h`: a function-like macro with
one replacement token. -/
def identityDefine : MacroDirective :=
  { location := "/src/util.h:7:9", fullPath := "/src/util.h",
    info := some { isUsedForHeaderGuard := false, tokens := [.identifier "x"], params := ["x"] } }

/-- The directive `#define NEG -1` of `util.h`. -/
def negDefine : MacroDirective :=
  { location := "/src/util.h:8:9", fullPath := "/src/util.h",
    info := some { isUsedForHeaderGuard := false,
                   tokens := [.punctuator .minus, .literal "1"], params := [] } }

/-- The directive `#define SQUARE_SUM a * a + b * b` of `util.h`. -/
def squareSumDefine : MacroDirective :=
  { location := "/src/util.h:9:9", fullPath := "/src/util.h",
    info := some { isUsedForHeaderGuard := false,
                   tokens := [.identifier "a", .punctuator (.otherPunctuator "*"), .identifier "a",
                              .punctuator (.otherPunctuator "+"), .identifier "b",
                              .punctuator (.otherPunctuator "*"), .identifier "b"],
                   params := [] } }

/-- The replacement list is a simple value: exactly one token, or exactly two
tokens of which the first is a minus sign. -/
def isSimpleValue (tokens : List Token) : Bool :=
  decide (tokens.length = 1) ||
    (decide (tokens.length = 2) && decide (tokens.head? = some (.punctuator .minus)))

/-- The value enum of an object-like macro: `enum <name> = <replacement>;`. -/
def valueEnumLine (name : String) (tokens : List Token) : String :=
  "enum " ++ name ++ " = " ++ macroTokensText tokens ++ ";" ++ "\n"

/-- The text of a function-like macro with a simple value: the enum with the
parameter list after the name, enclosed in a block comment. -/
def commentedEnumBlock (name : String) (params : List String) (tokens : List Token) : String :=
  "/*" ++ "\n" ++ "enum " ++ name ++ "(" ++ macroParamsText params ++ ")" ++ "\n" ++ " = " ++
    macroTokensText tokens ++ ";" ++ "\n" ++ "*/" ++ "\n"

/-- The two comment lines of a long macro: its source location and
`//#define <name> ...`. -/
def longDefineComment (location name : String) : String :=
  "//" ++ location ++ "\n" ++ "//#define " ++ name ++ " ..." ++ "\n"

end Gentool
namespace Gentool

/-- The type `void`. -/
def voidType : QualType := .mk false (.builtin (.Other "void"))

/-- A public constructor of `struct Foo` declared by the user without body,
with the given answers of `isDefaultConstructor`, `isMoveConstructor` and
`isCopyConstructor` and the given parameters. -/
def fooCtor (isDefault isMove isCopy : Bool) (params : List ParmVarDecl) : CXXMethodDecl :=
  { nameAsString := "Foo", hasIdentifier := false, locStart := "foo.h:2:5",
    kind := .ctor isDefault isMove isCopy [], overloadedOperator := .OO_None,
    shouldMangle := true, mangledName := "", isDefaulted := false,
    isExplicitlyDefaulted := false, isTemplated := false, isStatic := false, isVirtual := false,
    sizeOverriddenMethods := 0, hasOverrideAttr := false, isInlined := false,
    hasInlineBody := false, body := none, access := .AS_public, returnType := voidType,
    params := params }

/-- The constructor `Foo();` of `struct Foo`. -/
def defaultCtorFoo : CXXMethodDecl := fooCtor true false false []

/-- The constructor `Foo(const Foo& rhs);` of `struct Foo`. -/
def copyCtorFoo : CXXMethodDecl := fooCtor false false true [rhsParam constFooRefType]

/-- The constructor `Foo(Foo&& rhs);` of `struct Foo`. -/
def moveCtorFoo : CXXMethodDecl := fooCtor false true false [rhsParam fooRefType]

/-- The answers of `isDefaultConstructor`, `isMoveConstructor` and
`isCopyConstructor` for a constructor; none for any other method. -/
def ctorFlags (m : CXXMethodDecl) : Option (Bool × Bool × Bool) :=
  match m.kind with
  | .ctor isDefault isMove isCopy _ => some (isDefault, isMove, isCopy)
  | _ => none

/-- The method is a constructor as the front end hands it over: its name is
mangled, it has no identifier and is no overloaded operator. -/
def isConstructor (m : CXXMethodDecl) : Bool :=
  (ctorFlags m).isSome && m.shouldMangle && !m.hasIdentifier &&
    decide (m.overloadedOperator = .OO_None)

/-- The signature of a constructor as `methodIterate` writes it: the mark of
an inline body, the access specifier, the attributes, `this` and the
parameter list. -/
def ctorSignature (env : MethodEnv) (m : CXXMethodDecl) : String :=
  (if m.isInlined && m.hasInlineBody then "/* inline */ " else "") ++
    (getAccessStr m.access (!env.declIsClass) ++ " ") ++
    (if m.hasOverrideAttr then "override " else "") ++
    (if m.isStatic then "static " else "") ++
    (if env.declIsClass && !m.isVirtual then "final " else "") ++
    (if (ctorFlags m).any (fun f => f.2.1) && decide (m.access = .AS_private) then "@disable "
     else "") ++
    "this" ++ "(" ++ writeFnRuntimeArgs env.ren m.params ++ ")"

/-- The mark `methodIterate` writes in front of a defaulted method. -/
def defaultedMark (m : CXXMethodDecl) : String :=
  if m.isDefaulted then "// (default) " else ""

/-- A public method of `Shape` declared without body, with the given name,
place, return type and virtuality. -/
def shapeMethod (name loc mangled : String) (ret : QualType) (isVirtual : Bool) :
    CXXMethodDecl :=
  { nameAsString := name, hasIdentifier := true, locStart := loc, kind := .method,
    overloadedOperator := .OO_None, shouldMangle := true, mangledName := mangled,
    isDefaulted := false, isExplicitlyDefaulted := false, isTemplated := false,
    isStatic := false, isVirtual := isVirtual, sizeOverriddenMethods := 0,
    hasOverrideAttr := false, isInlined := false, hasInlineBody := false, body := none,
    access := .AS_public, returnType := ret, params := [] }

/-- The record `struct Shape { virtual void draw(); int id(); };`, declared
with the key `struct`; 8 bytes wide and aligned for its virtual table. -/
def shapeRecord : RecordDecl :=
  .mk { (plainStruct 11 "Shape" "shape.h:1:8" []
          [shapeMethod "draw" "shape.h:2:18" "_ZN5Shape4drawEv" voidType true,
           shapeMethod "id" "shape.h:3:9" "_ZN5Shape2idEv" intType false]).info with
        typeInfo := ⟨64, 64⟩ } [] []

/-- The record `class Shape { public: virtual void draw(); int id(); };`,
declared with the key `class`. -/
def shapeClassRecord : RecordDecl :=
  .mk { shapeRecord.info with isClass := true } [] []

end Gentool
namespace Gentool

/-- The record of a base that is flattened: the type of the base names a
record, and that record has no virtual method in its hierarchy. -/
def flattenedBase (b : CXXBaseSpecifier) : Option RecordDecl :=
  match b.decl with
  | some rd => if hasVirtualMethods rd then none else some rd
  | none => none

/-- The flattened bases of a base list, in declaration order. -/
def flattenedBases (bases : List CXXBaseSpecifier) : List RecordDecl :=
  bases.filterMap flattenedBase

/-- The entries of the inheritance list: one for every base that is not
flattened, in declaration order, which is the rendering of the type of the
base, with `, ` after it when a base follows in the declaration. -/
def inheritanceEntries (ren : Renames) : List CXXBaseSpecifier → List String
  | [] => []
  | b :: rest =>
    if (flattenedBase b).isSome then inheritanceEntries ren rest
    else (toDStyle ren b.type ++ (if rest.isEmpty then "" else ", ")) ::
      inheritanceEntries ren rest

/-- The inheritance list after the name of a record: ` : ` and the entries,
nothing when there is no entry. -/
def inheritanceList (ren : Renames) (bases : List CXXBaseSpecifier) : String :=
  (if (inheritanceEntries ren bases).isEmpty then "" else " : ") ++
    String.join (inheritanceEntries ren bases)

/-- The member of the flattened base number `i`: the line `<BaseName> _b<i>;`
followed by the line `alias _b<i> this;`. -/
def flattenedMember (ren : Renames) (i : Nat) (rd : RecordDecl) : String :=
  getName ren rd.info.id rd.info.name ++ " _b" ++ toString i ++ ";" ++ "\n" ++
    "alias _b" ++ toString i ++ " this;" ++ "\n"

/-- The members of the flattened bases, numbered from `start` in the order of
the list. -/
def flattenedMembersFrom (ren : Renames) (start : Nat) (rds : List RecordDecl) : String :=
  String.join ((rds.enumFrom start).map fun p => flattenedMember ren p.1 p.2)

/-- The members of the flattened bases, numbered 0, 1, 2, ... in the order of
the list. -/
def flattenedMembers (ren : Renames) (rds : List RecordDecl) : String :=
  flattenedMembersFrom ren 0 rds

/-- The record `struct Plain { int tag; };`, without virtual method. -/
def plainRecord : RecordDecl :=
  plainStruct 12 "Plain" "plain.h:1:8" [intField "tag"] []

/-- A base specifier that names the record `rd`. -/
def baseOf (rd : RecordDecl) : CXXBaseSpecifier :=
  .mk (.mk false (.record { id := rd.info.id, name := rd.info.name, hasDefinition := true }))
    (some rd)

/-- The record `struct Derived : Plain, Shape, Point { };`: the bases `Plain`
and `Point` have no virtual method, `Shape` has one. -/
def derivedRecord : RecordDecl :=
  .mk { (plainStruct 13 "Derived" "derived.h:1:8" [] []).info with typeInfo := ⟨192, 64⟩ } []
    [baseOf plainRecord, baseOf shapeRecord, baseOf pointRecord]

end Gentool
namespace Gentool

/-- A hexadecimal digit, in lower case. -/
def isHexDigit (c : Char) : Bool :=
  "0123456789abcdef".data.contains c

/-- The named escapes: for the values of backslash (92), single quote (39),
bell (7), backspace (8), form feed (12), newline (10), carriage return (13),
tab (9) and vertical tab (11), the escape `\\`, `\'`, `\a`, `\b`, `\f`, `\n`,
`\r`, `\t`, `\v`. -/
def namedEscape (v : Nat) : Option String :=
  if v = 92 then some "\\\\"
  else if v = 39 then some "\\\x27"
  else if v = 7 then some "\\a"
  else if v = 8 then some "\\b"
  else if v = 12 then some "\\f"
  else if v = 10 then some "\\n"
  else if v = 13 then some "\\r"
  else if v = 9 then some "\\t"
  else if v = 11 then some "\\v"
  else none

/-- The value of a character literal after masking: a sign-extended ASCII
literal, all bits above the low 8 of which are set, is taken down to its low
byte. -/
def maskedValue (kind : CharacterKind) (v : Nat) : Nat :=
  if kind = .Ascii ∧ 0xFFFFFF00 ≤ v then v % 256 else v

/-- A text between single quotes. -/
def quoted (s : String) : String :=
  "\x27" ++ s ++ "\x27"

end Gentool
namespace Gentool

/-- The expression `(void)((!cond) || (assertCall(msg, a1, a2), 0))`: a
C-style cast to `void` of a parenthesised logical or whose left operand is the
parenthesised negation of `cond` and whose right operand is the comma
expression of a call with the three arguments `msg`, `a1`, `a2` and the
literal 0; `fn` is the function called and `callee` the expression naming
it. -/
def negatedAssertPattern (cond msg a1 a2 callee : Expr) (fn : FunctionRef) : Expr :=
  .cStyleCast .CK_ToVoid voidType
    (.paren (.binaryOperator .BO_LOr false (.paren (.unaryOperator .UO_LNot cond))
      (.paren (.binaryOperator .BO_Comma false (.callExpr callee (some fn) [msg, a1, a2])
        (.integerLiteral "0" true)))))

/-- The function `void my_assert(const char *, const char *, int)`. -/
def myAssertFn : FunctionRef :=
  { name := "my_assert", paramIsReference := [false, false, false], isVariadic := false }

/-- The expression `(void)((!ok) || (my_assert("ok", "f.c", 3), 0))` for a
variable `ok` of type `bool`. -/
def negatedOkAssert : Expr :=
  negatedAssertPattern (.reference "ok" (.mk false (.builtin .Bool))) (.stringLiteral "\"ok\"")
    (.stringLiteral "\"f.c\"") (.integerLiteral "3" false) (.other "my_assert") myAssertFn

end Gentool
namespace Gentool

/-- What `fieldIterate` writes, piece by piece: the opener of a group of
bit-fields, its closer, the separator between the entries of a group, the
entry of a bit-field, the padding entry of a group (its text is empty when the
group needs none) and the line of a member that is no bit-field. -/
inductive FieldPiece where
  | opener
  | closer
  | separator
  | entry (text : String)
  | padding (text : String)
  | line (text : String)
deriving DecidableEq, Repr

namespace FieldPiece

/-- The text of a piece. -/
def text : FieldPiece → String
  | opener => "mixin(bitfields!(" ++ "\n"
  | closer => "));" ++ "\n"
  | separator => "," ++ "\n"
  | entry t => t
  | padding t => t
  | line t => t

def isOpener : FieldPiece → Bool
  | opener => true
  | _ => false

def isCloser : FieldPiece → Bool
  | closer => true
  | _ => false

/-- The text of the entry of a bit-field, none for any other piece. -/
def entryText : FieldPiece → Option String
  | entry t => some t
  | _ => none

/-- The text of the line of a member that is no bit-field, none for any other
piece. -/
def lineText : FieldPiece → Option String
  | line t => some t
  | _ => none

end FieldPiece

/-- The text of a list of pieces. -/
def renderPieces (pieces : List FieldPiece) : String :=
  String.join (pieces.map FieldPiece.text)

/-- The pieces of the members of a field list in order; `isOpen` says that a
group is open before the first of them and `accum` is the width the open group
has accumulated. A bit-field opens a group when none is open and adds its
entry; any other member first closes the open group, after the padding for
its width, and adds its line. -/
def loopPieces (ren : Renames) (isClass : Bool) : Bool → Nat → List FieldDecl → List FieldPiece
  | _, _, [] => []
  | isOpen, accum, it :: rest =>
    if it.isBitField then
      (if isOpen then [.separator] else [.opener]) ++ [.entry (bitfieldEntry ren it)] ++
        loopPieces ren isClass true (accum + it.bitWidthValue) rest
    else
      (if isOpen then [.separator, .padding ((bitfieldPadding accum).getD ""), .closer]
       else []) ++ [.line (fieldLine ren isClass it)] ++ loopPieces ren isClass false 0 rest

/-- Whether a group is open after the members of a field list: the last of
them is a bit-field (`isOpen` when there is none). -/
def endsOpen : Bool → List FieldDecl → Bool
  | isOpen, [] => isOpen
  | _, it :: rest => endsOpen it.isBitField rest

/-- The pieces of a field list: those of its members, and the closer of the
group that the last member leaves open. -/
def fieldPieces (ren : Renames) (isClass : Bool) (fields : List FieldDecl) : List FieldPiece :=
  loopPieces ren isClass false 0 fields ++ (if endsOpen false fields then [.closer] else [])

/-- A list of pieces is well-grouped, read from a place where a group is open
or not (`isOpen`): an opener stands only where no group is open and opens
one, a closer only where a group is open and closes it, entries, separators
and paddings stand only in an open group, lines only where no group is open,
and no group is open at the end. -/
def wellGrouped : Bool → List FieldPiece → Bool
  | isOpen, [] => !isOpen
  | false, .opener :: rest => wellGrouped true rest
  | true, .closer :: rest => wellGrouped false rest
  | true, .separator :: rest => wellGrouped true rest
  | true, .entry _ :: rest => wellGrouped true rest
  | true, .padding _ :: rest => wellGrouped true rest
  | false, .line _ :: rest => wellGrouped false rest
  | _, _ => false

/-- The number of maximal runs of consecutive bit-fields in a field list that
follows a bit-field (`prev`) or not: the number of bit-fields that do not
follow a bit-field. -/
def countRuns : Bool → List FieldDecl → Nat
  | _, [] => 0
  | prev, it :: rest => (if it.isBitField && !prev then 1 else 0) + countRuns it.isBitField rest

/-- The number of maximal runs of consecutive bit-fields in a field list. -/
def maximalRuns (fields : List FieldDecl) : Nat :=
  countRuns false fields

/-- The field list is one `fieldIterate` gets through: every field can be
named, and no run of bit-fields that a member closes is wider than 64 bits
without being a multiple of 8 bits wide. `isOpen` and `accum` are as in
`loopPieces`. -/
def fieldsAccepted (ren : Renames) : Bool → Nat → List FieldDecl → Bool
  | _, _, [] => true
  | isOpen, accum, it :: rest =>
    namingSucceeds ren it &&
      (if it.isBitField then fieldsAccepted ren true (accum + it.bitWidthValue) rest
       else (!isOpen || decide (accum ≤ 64 ∨ accum % 8 = 0)) && fieldsAccepted ren false 0 rest)

/-- The members `unsigned a : 32; unsigned b : 32; unsigned c : 1; int z;`: a
run of 65 bits that a member closes. -/
def sixtyFiveBitsClosed : List FieldDecl :=
  sixtyFiveBitRun ++ [intField "z"]

/-- The members `int x; unsigned a : 2; unsigned b : 3; unsigned c : 2; int y;
unsigned d : 4;`: two runs of bit-fields, the first closed by a member and the
second by the end of the list. -/
def twoRuns : List FieldDecl :=
  intField "x" :: sevenBitRun ++ [intField "y", uintBitField "d" 4]

end Gentool
namespace Gentool

/-- The compound-assignment operators `+=`, `-=`, `*=`, `/=`, `%=`, `|=`,
`&=`, `^=`, `<<=`, `>>=`. -/
def compoundAssignOperators : List OverloadedOperatorKind :=
  [.OO_PlusEqual, .OO_MinusEqual, .OO_StarEqual, .OO_SlashEqual, .OO_PercentEqual,
   .OO_PipeEqual, .OO_AmpEqual, .OO_CaretEqual, .OO_LessLessEqual, .OO_GreaterGreaterEqual]

/-- The compound-assignment operators that are cases of the switch of
`getOperatorName`: all of them but `%=`. -/
def compoundAssignCases : List OverloadedOperatorKind :=
  [.OO_PlusEqual, .OO_MinusEqual, .OO_StarEqual, .OO_SlashEqual,
   .OO_PipeEqual, .OO_AmpEqual, .OO_CaretEqual, .OO_LessLessEqual, .OO_GreaterGreaterEqual]

/-- The form of a compound assignment: the name `opOpAssign`, the spelling of
the operator without its trailing `=` as the argument `string op`, and no
binding to a symbol. -/
def compoundAssignForm (op : OverloadedOperatorKind) : String × String × Bool :=
  ("opOpAssign", "string op : \"" ++ String.mk (getOperatorSpelling op).data.dropLast ++ "\"",
   false)

/-- The member `Foo& operator%=(int rhs);` of `struct Foo`. -/
def percentAssignFoo : CXXMethodDecl :=
  fooOperator .OO_PercentEqual "operator%=" "_ZN3FoorMEi" fooRefType [rhsParam intType]

/-- The member `Foo& operator+=(int rhs);` of `struct Foo`. -/
def plusAssignFoo : CXXMethodDecl :=
  fooOperator .OO_PlusEqual "operator+=" "_ZN3FoopLEi" fooRefType [rhsParam intType]

end Gentool
namespace Gentool

/-- The rendering of one template argument: what `writeTemplateArgs` writes
for a list that holds this argument alone. -/
def templateArgText (ren : Renames) (tp : TemplateArgument) : String :=
  writeTemplateArgs ren [tp] true

/-- The template arguments `int, float`. -/
def intFloatArgs : List TemplateArgument :=
  [.type intType "int", .type floatType "float"]

/-- The template arguments `int, float, unsigned int`. -/
def intFloatUintArgs : List TemplateArgument :=
  [.type intType "int", .type floatType "float", .type uintType "unsigned int"]

/-- The class template specialization `Pair<int, float>` of
`template <class A, class B> struct Pair { };`, a record of one byte. -/
def pairOfIntFloat : RecordDecl :=
  .mk { (plainStruct 30 "Pair" "pair.h:1:36" [] []).info with
        typeInfo := ⟨8, 8⟩, templateArgs := some intFloatArgs } [] []

end Gentool
namespace Gentool

/-- The diagnostic with which a call ended the run, none when it returned. -/
def Res.diagnostic : Res → Option String
  | .ok _ => none
  | .fault diag _ => some diag

/-- The unnamed bit-field `<type> : <width>;`, a padding bit-field. -/
def unnamedBitField (type : QualType) (width : Nat) : FieldDecl :=
  { uintBitField "" width with type := type }

/-- The members `unsigned a : 5; int : 3; int z;`. -/
def paddedByUnnamed : List FieldDecl :=
  [uintBitField "a" 5, unnamedBitField intType 3, intField "z"]

/-- The names of a run in which the record 11 has been named `_anon1`. -/
def anonOneRenames : Renames := [(11, "_anon1")]

/-- The state at the start of a run in which the record 11 has been named
`_anon1`. -/
def anonOneGen : Gen := { initialGen with renames := anonOneRenames }

end Gentool
namespace Gentool

/-- The renderings of the bases that are not flattened, in declaration
order. -/
def listedBases (ren : Renames) (bases : List CXXBaseSpecifier) : List String :=
  (bases.filter fun b => (flattenedBase b).isNone).map fun b => toDStyle ren b.type

/-- The last base of the declaration is a flattened one. -/
def lastBaseFlattened (bases : List CXXBaseSpecifier) : Bool :=
  match bases.getLast? with
  | some b => (flattenedBase b).isSome
  | none => false

/-- The inheritance list with its entries separated: nothing when no base is
listed, otherwise ` : ` and the renderings of the listed bases with `, `
between any two neighbours, none in front and none behind. -/
def separatedInheritanceList (ren : Renames) (bases : List CXXBaseSpecifier) : String :=
  if (listedBases ren bases).isEmpty then "" else " : " ++ commaJoined (listedBases ren bases)

/-- The record `struct <name> : <bases> { };` of identity 14, 16 bytes wide. -/
def recordWithBases (name : String) (bases : List CXXBaseSpecifier) : RecordDecl :=
  .mk { (plainStruct 14 name "derived.h:1:8" [] []).info with typeInfo := ⟨128, 64⟩ } [] bases

/-- The record `struct Circle { virtual void area(); };`, with a virtual
method. -/
def circleRecord : RecordDecl :=
  .mk { (plainStruct 15 "Circle" "circle.h:1:8" []
          [shapeMethod "area" "circle.h:2:18" "_ZN6Circle4areaEv" voidType true]).info with
        typeInfo := ⟨64, 64⟩ } [] []

/-- The record `struct Both : Plain, Point { };`: no base has a virtual
method. -/
def bothRecord : RecordDecl :=
  recordWithBases "Both" [baseOf plainRecord, baseOf pointRecord]

end Gentool
namespace Gentool

/-- The width of the padding entry `fieldIterate` writes when a member closes
a run of bit-fields of accumulated width `accum`, by the chain of tests of the
`// pad it!` branch; none when it writes no padding entry. -/
def paddingWidth (accum : Nat) : Option Nat :=
  if accum % 8 ≠ 0 then
    if accum ≤ 8 then some (8 - accum)
    else if accum ≤ 16 then some (16 - accum)
    else if accum ≤ 32 then some (32 - accum)
    else if accum ≤ 64 then some (64 - accum)
    else none
  else none

/-- The text of the padding entry of the width `p`, nothing for none. -/
def paddingEntryText : Option Nat → String
  | some p => "uint, \"\", " ++ toString p
  | none => ""

/-- The sum of the widths of the entries of the group of a run that a member
closes: the widths of the bit-fields of the run and the width of the padding
entry when one is written. -/
def groupWidth (run : List FieldDecl) : Nat :=
  runWidth run + (paddingWidth (runWidth run)).getD 0

/-- The bit-fields `unsigned a : 8; unsigned b : 8; unsigned c : 8;`,
24 bits. -/
def twentyFourBitRun : List FieldDecl :=
  [uintBitField "a" 8, uintBitField "b" 8, uintBitField "c" 8]

end Gentool
namespace Gentool

/-- A complete record `struct <name> { struct { int <field>; } <member>; };`
of identity `id`, declared at `loc`, whose member is an anonymous struct of
identity `anonId`, declared at `anonLoc`. -/
def namedWithAnon (id anonId : DeclId) (name loc anonLoc field member : String) : RecordDecl :=
  .mk { (plainStruct id name loc [anonField anonId member] []).info with
        typeInfo := ⟨32, 32⟩ }
    [.recordDecl (anonStruct anonId anonLoc field), .otherDecl] []

/-- The record `struct First { struct { int a; } s; };`, nested in `Outer`. -/
def firstNested : RecordDecl :=
  namedWithAnon 21 22 "First" "outer.h:2:12" "outer.h:3:9" "a" "s"

/-- The record `struct Second { struct { int b; } t; };`, nested in `Outer`. -/
def secondNested : RecordDecl :=
  namedWithAnon 23 24 "Second" "outer.h:5:12" "outer.h:6:9" "b" "t"

/-- The record `struct Outer { struct First { struct { int a; } s; };
struct Second { struct { int b; } t; }; };`, one byte wide. -/
def outerOfTwoNamed : RecordDecl :=
  .mk { (plainStruct 10 "Outer" "outer.h:1:8" [] []).info with typeInfo := ⟨8, 8⟩ }
    [.recordDecl firstNested, .recordDecl secondNested] []

/-- The state in which `Second` is entered: `Outer` has been entered and
`First` has been entered and left. -/
def afterFirstNested : Gen :=
  onStructOrClassLeave
    (onStructOrClassEnter firstNested (enterRecord outerOfTwoNamed.info initialGen)).gen

end Gentool
namespace Gentool

/-- The record `struct Inner { int a; };`, nested in `Holder`. -/
def innerRecord : RecordDecl :=
  .mk { (plainStruct 41 "Inner" "holder.h:2:12" [intField "a"] []).info with
        typeInfo := ⟨32, 32⟩ } [] []

/-- The method `void touch();` of `Holder`. -/
def touchMethod : CXXMethodDecl :=
  shapeMethod "touch" "holder.h:4:10" "_ZN6Holder5touchEv" voidType false

/-- The record `struct Holder : Plain { struct Inner { int a; }; int x;
void touch(); };`: a flattened base, a nested declaration, a field and a
method. -/
def holderRecord : RecordDecl :=
  .mk (plainStruct 40 "Holder" "holder.h:1:8" [intField "x"] [touchMethod]).info
    [.recordDecl innerRecord] [baseOf plainRecord]

/-- The text `methodIterate` writes for the record `decl` in the state `g`. -/
def methodsText (decl : RecordDecl) (g : Gen) : String :=
  methodLoop
    { ren := g.renames, storedTypes := g.storedTypes, nogc := g.nogc, msvcCompat := g.msvcCompat,
      declName := getName g.renames decl.info.id decl.info.name,
      declIsClass := decl.info.isClass, declIsTemplated := decl.info.isTemplated,
      isVirtualDecl := hasVirtualMethods decl }
    decl.info.methods

end Gentool
namespace Gentool

/-- Whether `->` occurs in a list of characters. -/
def hasArrow : List Char → Bool
  | [] => false
  | c :: cs => (c == '-' && cs.head? == some '>') || hasArrow cs

/-- The replacement of every `->` by `.` in a list of characters. -/
def arrowToDotChars : List Char → List Char
  | [] => []
  | [c] => [c]
  | c :: d :: rest =>
    if c = '-' ∧ d = '>' then '.' :: arrowToDotChars rest else c :: arrowToDotChars (d :: rest)

/-- The text with every arrow `->` replaced by `.`. -/
def arrowToDot (s : String) : String :=
  ⟨arrowToDotChars s.data⟩

/-- The number of calls of `in.replace(pos, 2, ".")` the loop of
`textReplaceArrowColon` makes in at most `rounds` rounds. -/
def textReplaceArrowColonCount : Nat → String → Nat
  | 0, _ => 0
  | rounds + 1, s =>
    match arrowColonPos s with
    | none => 0
    | some pos => 1 + textReplaceArrowColonCount rounds (strReplace s pos 2 ".")

/-- The number of replacements `textReplaceArrowColon` makes in a text. -/
def replacements (s : String) : Nat :=
  textReplaceArrowColonCount s.data.length s

end Gentool
namespace Gentool

/-- `CppDASTPrinterVisitor::TraverseConstructorInitializer`, the text written
for an initializer of the member `member` whose initializing expression
`TraverseStmt` prints as `init`: nothing for an initializer that is not
written, otherwise `<member> = <init>;` and a line break. -/
def TraverseConstructorInitializer (isWritten : Bool) (member init : String) : String :=
  if !isWritten then ""
  else sanitizedIdentifier member ++ " = " ++ init ++ ";\n"

/-- The text `printed` of the initializer is what
`TraverseConstructorInitializer` writes for it, for some member and some text
of the initializing expression. -/
def printedByVisitor (init : CXXCtorInitializer) : Prop :=
  ∃ member text, init.printed = TraverseConstructorInitializer init.isWritten member text

/-- The constructor has a written initializer list: one of its initializers is
written in the source. -/
def hasWrittenInitializer (inits : List CXXCtorInitializer) : Bool :=
  inits.any fun x => x.isWritten

/-- The flag `commentOut` of `methodIterate` for a constructor. -/
def ctorCommentOut (env : MethodEnv) (m : CXXMethodDecl) : Bool :=
  !env.isVirtualDecl && (ctorFlags m).any (fun f => f.1)

/-- The lines of the body of a method, as the lambda `writeMultilineExpr`
writes the text of `VisitCompoundStmt` for the statements `body`. -/
def bodyLines (commentOut : Bool) (body : List Stmt) : String :=
  writeMultilineExpr commentOut (printPrettyD (.compound body))

/-- The closing brace of the extra braces of an initializer list, behind the
comment mark when the constructor is commented out. -/
def closingBrace (commentOut : Bool) : String :=
  (if commentOut then "//" else "") ++ "\x7d"

/-- The extra opening brace of an initializer list, with its comment line. -/
def initializerListOpening : String :=
  "\x7b" ++ "\n" ++ "// initializer list" ++ "\n"

/-- The comment line between the initializer entries and the body. -/
def ctorBodyMark : String :=
  "// ctor body" ++ "\n"

/-- The text after the parameter list of an inline constructor, over the four
combinations of a written initializer list and an empty body: a single `;`
without either; the lines of the body alone; the extra opening brace, the
initializer entries and the closing brace; and the extra opening brace, the
entries, the lines of the body and the closing brace. -/
def ctorTail (commentOut : Bool) (inits : List CXXCtorInitializer) (body : List Stmt) : String :=
  match hasWrittenInitializer inits, body.isEmpty with
  | false, true => ";"
  | false, false => bodyLines commentOut body
  | true, true =>
    initializerListOpening ++ ctorInitLines commentOut inits ++ closingBrace commentOut
  | true, false =>
    initializerListOpening ++ ctorInitLines commentOut inits ++ ctorBodyMark ++
      bodyLines commentOut body ++ closingBrace commentOut

/-- The braces of a text, in order. -/
def braces (t : List Char) : List Char :=
  t.filter fun c => c == '\x7b' || c == '\x7d'

/-- The depth of open braces after a text that is read at the depth `d`; none
when a closing brace closes nothing. -/
def braceDepth : List Char → Nat → Option Nat
  | [], d => some d
  | c :: cs, d =>
    if c = '\x7b' then braceDepth cs (d + 1)
    else if c = '\x7d' then (if d = 0 then none else braceDepth cs (d - 1))
    else braceDepth cs d

/-- The braces of a text are balanced: every closing brace closes an open one
and none is left open. -/
def braceBalanced (t : String) : Bool :=
  braceDepth t.data 0 == some 0

/-- An inline constructor of `struct Foo` with the given initializers and the
given statements as its body. -/
def inlineCtor (isDefault : Bool) (inits : List CXXCtorInitializer) (body : List Stmt)
    (params : List ParmVarDecl) : CXXMethodDecl :=
  { fooCtor isDefault false false params with
    kind := .ctor isDefault false false inits, isInlined := true, hasInlineBody := true,
    body := some (.compound body) }

/-- The written initializer `a(v)` of the member `a`. -/
def writtenInitA : CXXCtorInitializer :=
  { isInClassMemberInitializer := false, isWritten := true, hasMember := true,
    printed := TraverseConstructorInitializer true "a" "v" }

/-- The statement `b = 0;` of a body. -/
def assignB : Stmt := .leaf true "b = 0"

/-- A parameter `int v`. -/
def intParamV : ParmVarDecl :=
  { name := "v", type := intType, defaultArg := none, defaultArgIsNull := false }

end Gentool
namespace Gentool

/-- The members `unsigned a : 5; int : 2; int z;`: a run of 7 bits whose
second bit-field is unnamed. -/
def shortByUnnamed : List FieldDecl :=
  [uintBitField "a" 5, unnamedBitField intType 2, intField "z"]

/-- The members `unsigned a : 32; unsigned b : 32; unsigned c : 1; int z;
unsigned a : 2; unsigned b : 3; unsigned c : 2; int y;`: a run of 65 bits that
`z` closes, then a run of 7 bits that `y` closes. -/
def wideThenSeven : List FieldDecl :=
  sixtyFiveBitsClosed ++ sevenBitRun ++ [intField "y"]

/-- The members `unsigned a : 32; unsigned b : 32; unsigned c : 1; int z;
unsigned a : 2; unsigned b : 3; unsigned c : 2; unsigned d : 1; int y;`: a run
of 65 bits that `z` closes, then a run of 8 bits that `y` closes. -/
def wideThenEight : List FieldDecl :=
  sixtyFiveBitsClosed ++ eightBitRun ++ [intField "y"]

end Gentool
namespace Gentool

/-! ## Facts about the strings -/

theorem rfindFrom_some_occurs (s pat : List Char) :
    ∀ n p, rfindFrom s pat n = some p → pat.isPrefixOf (s.drop p) = true := by
  intro n
  induction n with
  | zero =>
    intro p h
    simp only [rfindFrom] at h
    split at h
    · rename_i hpre
      cases h
      simpa using hpre
    · cases h
  | succ n ih =>
    intro p h
    simp only [rfindFrom] at h
    split at h
    · rename_i hpre
      cases h
      exact hpre
    · exact ih p h

theorem rfindFrom_none (s pat : List Char) :
    ∀ n, rfindFrom s pat n = none → ∀ i, i ≤ n → pat.isPrefixOf (s.drop i) = false := by
  intro n
  induction n with
  | zero =>
    intro h i hi
    simp only [rfindFrom] at h
    split at h
    · cases h
    · rename_i hpre
      have : i = 0 := by omega
      subst this
      simpa using Bool.eq_false_iff.mpr hpre
  | succ n ih =>
    intro h i hi
    simp only [rfindFrom] at h
    split at h
    · cases h
    · rcases Nat.lt_or_ge i (n + 1) with hlt | hge
      · exact ih h i (by omega)
      · rename_i hpre
        have : i = n + 1 := by omega
        subst this
        exact Bool.eq_false_iff.mpr hpre

theorem rfindFrom_bound (s pat : List Char) (hp : 0 < pat.length) :
    ∀ n p, rfindFrom s pat n = some p → p + pat.length ≤ s.length := by
  intro n p h
  have hpre := rfindFrom_some_occurs s pat n p h
  have hl := (List.isPrefixOf_iff_prefix.mp hpre).length_le
  rw [List.length_drop] at hl
  omega

theorem hasScope_of_occurrence : ∀ (s : List Char) (p : Nat),
    [':', ':'].isPrefixOf (s.drop p) = true → hasScope s = true := by
  intro s
  induction s with
  | nil => intro p h; simp at h
  | cons c cs ih =>
    intro p h
    cases p with
    | zero =>
      cases cs with
      | nil => simp [List.isPrefixOf] at h
      | cons d ds =>
        simp [List.isPrefixOf] at h
        simp [hasScope, ← h.1, ← h.2]
    | succ p =>
      simp only [List.drop_succ_cons] at h
      simp [hasScope, ih p h]

theorem occurrence_of_hasScope : ∀ (s : List Char), hasScope s = true →
    ∃ i, i ≤ s.length ∧ [':', ':'].isPrefixOf (s.drop i) = true := by
  intro s
  induction s with
  | nil => intro h; simp [hasScope] at h
  | cons c cs ih =>
    intro h
    simp only [hasScope, Bool.or_eq_true, Bool.and_eq_true, beq_iff_eq] at h
    rcases h with ⟨hc, hd⟩ | h
    · refine ⟨0, by simp, ?_⟩
      cases cs with
      | nil => simp at hd
      | cons d ds =>
        simp at hd
        simp [List.isPrefixOf, hc, hd]
    · obtain ⟨i, hi, hp⟩ := ih h
      exact ⟨i + 1, by simp; omega, by simpa using hp⟩

theorem rfind_none_iff (s : String) : rfind s "::" = none ↔ hasScope s.data = false := by
  have hd : "::".data = [':', ':'] := rfl
  constructor
  · intro h
    by_contra hs
    have hs' : hasScope s.data = true := by simpa using hs
    obtain ⟨i, hi, hp⟩ := occurrence_of_hasScope _ hs'
    have := rfindFrom_none s.data "::".data s.data.length h i hi
    rw [hd, hp] at this
    cases this
  · intro h
    cases hr : rfind s "::" with
    | none => rfl
    | some p =>
      have hp := rfindFrom_some_occurs _ _ _ _ hr
      rw [hd] at hp
      rw [hasScope_of_occurrence _ _ hp] at h
      cases h

theorem replaceScopeLoop_done : ∀ (n : Nat) (s : String), s.data.length ≤ n →
    rfind (replaceScopeLoop n s) "::" = none := by
  intro n
  induction n with
  | zero =>
    intro s hs
    have : s.data = [] := List.length_eq_zero.mp (by omega)
    simp [replaceScopeLoop, rfind, this, rfindFrom]
  | succ n ih =>
    intro s hs
    simp only [replaceScopeLoop]
    cases hr : rfind s "::" with
    | none => simpa using hr
    | some pos =>
      simp only
      apply ih
      have hb := rfindFrom_bound s.data "::".data (by decide) _ _ hr
      have h2 : ("::".data).length = 2 := rfl
      have h1 : (".".data).length = 1 := rfl
      have h3 : (s.data.take pos).length = pos := List.length_take_of_le (by omega)
      show ((s.data.take pos ++ ".".data) ++ s.data.drop (pos + 2)).length ≤ n
      rw [List.length_append, List.length_append, h1, h3, List.length_drop]
      omega

/-- On return from the loop at the end of `toDStyle` no `::` is left. -/
theorem replaceScope_done (s : String) : rfind (replaceScope s) "::" = none :=
  replaceScopeLoop_done _ _ (Nat.le_refl _)

theorem replaceScope_of_none (s : String) (h : rfind s "::" = none) : replaceScope s = s := by
  unfold replaceScope
  cases hn : s.data.length with
  | zero => rfl
  | succ n => simp [replaceScopeLoop, h]

end Gentool
namespace Gentool

theorem hasScope_append_left : ∀ (a b : List Char), (∀ c ∈ a, c ≠ ':') →
    hasScope (a ++ b) = hasScope b := by
  intro a
  induction a with
  | nil => intro b _; rfl
  | cons x xs ih =>
    intro b h
    have hx : x ≠ ':' := h x (by simp)
    show (x == ':' && (xs ++ b).head? == some ':' || hasScope (xs ++ b)) = hasScope b
    rw [ih b (fun c hc => h c (by simp [hc]))]
    simp [hx]

theorem hasScope_nocolon : ∀ (a : List Char), (∀ c ∈ a, c ≠ ':') → hasScope a = false := by
  intro a h
  have := hasScope_append_left a [] h
  simpa [hasScope] using this

theorem hasScope_append_right : ∀ (b a : List Char), (∀ c ∈ a, c ≠ ':') →
    hasScope (b ++ a) = hasScope b := by
  intro b
  induction b with
  | nil => intro a h; simpa [hasScope] using hasScope_nocolon a h
  | cons x xs ih =>
    intro a h
    show (x == ':' && (xs ++ a).head? == some ':' || hasScope (xs ++ a)) =
      (x == ':' && xs.head? == some ':' || hasScope xs)
    rw [ih a h]
    congr 2
    cases xs with
    | nil =>
      cases a with
      | nil => rfl
      | cons y ys =>
        have : y ≠ ':' := h y (by simp)
        simp [this]
    | cons y ys => rfl

theorem typeRollBody_pointer (c : Bool) (p : QualType) (roll : List String → List String)
    (leaf : String) (parts : List String) :
    typeRollBody (.mk c (.pointer p)) roll leaf parts =
      roll (parts ++ (if c then ["const("] else [])) ++ [if c then ")*" else "*"] := by
  cases c <;> simp [typeRollBody, QualType.isReferenceType, QualType.isPointerType,
    QualType.isConstQualified]

theorem typeRollBody_reference (c : Bool) (p : QualType) (roll : List String → List String)
    (leaf : String) (parts : List String) :
    typeRollBody (.mk c (.reference p)) roll leaf parts = roll (parts ++ ["ref "]) := by
  simp [typeRollBody, QualType.isReferenceType]

theorem typeRollBody_leaf (q : QualType) (hp : q.isPointerType = false)
    (hr : q.isReferenceType = false) (roll : List String → List String)
    (leaf : String) (parts : List String) :
    typeRollBody q roll leaf parts =
      parts ++ (if q.isConstQualified then ["const("] else []) ++ [leaf] ++
        (if q.isConstQualified then [")"] else []) := by
  cases hc : q.isConstQualified <;> simp [typeRollBody, hp, hr, hc]

/-- The equation of `_typeRoll` as the source has it: the body, with the call
on the pointee and the call of `toDStyle` on the type without its `const`. -/
theorem _typeRoll_eq (ren : Renames) (type : QualType) (parts : List String) :
    _typeRoll ren type parts =
      typeRollBody type (_typeRoll ren type.getPointeeType)
        (toDStyle ren (if type.isConstQualified then type.removeLocalConst else type)) parts := by
  rcases type with ⟨c, t⟩
  cases t <;> cases c <;>
    simp [_typeRoll, typeRollBody, toDStyle, QualType.getPointeeType, QualType.isReferenceType,
      QualType.isPointerType, QualType.isConstQualified, QualType.removeLocalConst]

end Gentool
namespace Gentool

theorem descent_pointer (c : Bool) (p : QualType) :
    descent (.mk c (.pointer p)) = .mk c (.pointer p) :: descent p := by
  simp [descent]

theorem descent_reference (c : Bool) (p : QualType) :
    descent (.mk c (.reference p)) = .mk c (.reference p) :: descent p := by
  simp [descent]

theorem descent_leaf (q : QualType) (hp : q.isPointerType = false)
    (hr : q.isReferenceType = false) : descent q = [q] := by
  rcases q with ⟨c, t⟩
  cases t <;> simp_all [descent, QualType.isPointerType, QualType.isReferenceType]

theorem innermost_leaf (q : QualType) (hp : q.isPointerType = false)
    (hr : q.isReferenceType = false) : innermost q = q := by
  rcases q with ⟨c, t⟩
  cases t <;> simp_all [innermost, QualType.isPointerType, QualType.isReferenceType]

/-- The leaf of the roll: `toDStyle` of the innermost type without its `const`. -/
theorem typeRoll_parts (ren : Renames) : ∀ (n : Nat) (type : QualType), sizeOf type ≤ n →
    ∀ parts, _typeRoll ren type parts =
      parts ++ ((descent type).flatMap rollOpener ++
        [toDStyle ren (innermost type).removeLocalConst] ++
        (descent type).reverse.flatMap rollCloser) := by
  intro n
  induction n with
  | zero =>
    intro type h
    rcases type with ⟨c, t⟩
    simp at h
  | succ n ih =>
    intro type h parts
    rw [_typeRoll_eq]
    rcases type with ⟨c, t⟩
    by_cases hp : (QualType.mk c t).isPointerType = true
    · cases t <;> simp [QualType.isPointerType] at hp
      rename_i p
      rw [typeRollBody_pointer, descent_pointer]
      simp only [QualType.getPointeeType]
      rw [ih p (by simp at h; omega)]
      cases c <;>
        simp [rollOpener, rollCloser, innermost, QualType.isReferenceType,
          QualType.isPointerType, QualType.isConstQualified, List.flatMap_append]
    · by_cases hr : (QualType.mk c t).isReferenceType = true
      · cases t <;> simp [QualType.isReferenceType] at hr
        rename_i p
        rw [typeRollBody_reference, descent_reference]
        simp only [QualType.getPointeeType]
        rw [ih p (by simp at h; omega)]
        simp [rollOpener, rollCloser, innermost, QualType.isReferenceType, List.flatMap_append]
      · have hp' : (QualType.mk c t).isPointerType = false := by simpa using hp
        have hr' : (QualType.mk c t).isReferenceType = false := by simpa using hr
        rw [typeRollBody_leaf _ hp' hr', descent_leaf _ hp' hr', innermost_leaf _ hp' hr']
        cases c <;>
          simp [rollOpener, rollCloser, hp', hr', QualType.isConstQualified,
            QualType.removeLocalConst]

theorem typeRoll_nil (ren : Renames) (type : QualType) :
    _typeRoll ren type [] =
      (descent type).flatMap rollOpener ++
        [toDStyle ren (innermost type).removeLocalConst] ++
        (descent type).reverse.flatMap rollCloser := by
  simpa using typeRoll_parts ren _ type (Nat.le_refl _) []

theorem typeRoll_append (ren : Renames) (type : QualType) (parts : List String) :
    _typeRoll ren type parts = parts ++ _typeRoll ren type [] := by
  rw [typeRoll_parts ren _ type (Nat.le_refl _) parts, typeRoll_nil]

theorem join_append (a b : List String) : String.join (a ++ b) = String.join a ++ String.join b := by
  rw [String.join_eq, String.join_eq, String.join_eq]
  apply String.ext
  simp

theorem join_singleton (a : String) : String.join [a] = a := by
  rw [String.join_eq]
  apply String.ext
  simp

theorem join_nil : String.join [] = "" := rfl

theorem join_cons (a : String) (l : List String) : String.join (a :: l) = a ++ String.join l := by
  have := join_append [a] l
  simpa [join_singleton] using this

theorem rollText_pointer (ren : Renames) (c : Bool) (T : QualType) :
    rollText ren (.mk c (.pointer T)) =
      (if c then "const(" else "") ++ rollText ren T ++ (if c then ")*" else "*") := by
  unfold rollText
  rw [_typeRoll_eq, typeRollBody_pointer]
  simp only [QualType.getPointeeType]
  rw [typeRoll_append, join_append, join_append, join_singleton]
  cases c <;> simp [join_singleton, join_nil]

theorem rollText_reference (ren : Renames) (c : Bool) (T : QualType) :
    rollText ren (.mk c (.reference T)) = "ref " ++ rollText ren T := by
  unfold rollText
  rw [_typeRoll_eq, typeRollBody_reference]
  simp only [QualType.getPointeeType]
  rw [typeRoll_append, join_append]
  simp [join_singleton]

theorem rollText_leaf (ren : Renames) (T : QualType) (hp : T.isPointerType = false)
    (hr : T.isReferenceType = false) :
    rollText ren T =
      if T.isConstQualified then "const(" ++ toDStyle ren T.removeLocalConst ++ ")"
      else toDStyle ren T := by
  unfold rollText
  rw [_typeRoll_eq, typeRollBody_leaf _ hp hr]
  cases hc : T.isConstQualified <;>
    simp [join_append, join_singleton, join_nil, join_cons, String.append_assoc]

end Gentool
namespace Gentool

theorem toDStyle_function_noScope (ren : Renames) (p : QualType) (h : p.isFunctionType = true) :
    rfind (toDStyle ren p) "::" = none := by
  rcases p with ⟨c, t⟩
  cases t <;> simp [QualType.isFunctionType] at h
  simp only [toDStyle, toDStyleTy]
  exact replaceScope_done _

/-- The text `toDStyle` returns holds no `::`. -/
theorem toDStyle_noScope (ren : Renames) (type : QualType) :
    rfind (toDStyle ren type) "::" = none := by
  rcases type with ⟨c, t⟩
  cases t with
  | pointer p =>
    simp only [toDStyle, toDStyleTy]
    split
    · rename_i h
      simpa [toDStyle] using toDStyle_function_noScope ren p h
    · exact replaceScope_done _
  | reference p =>
    simp only [toDStyle, toDStyleTy]
    split
    · rename_i h
      simpa [toDStyle] using toDStyle_function_noScope ren p h
    · exact replaceScope_done _
  | enum spelling =>
    simp only [toDStyle, toDStyleTy]
    split <;> exact replaceScope_done _
  | injectedClassName r dt =>
    cases dt <;> simp only [toDStyle, toDStyleTy] <;> exact replaceScope_done _
  | _ =>
    simp only [toDStyle, toDStyleTy]
    exact replaceScope_done _

/-- The call of `_wrapParens` in `toDStyle`. -/
theorem toDStyle_pointer (ren : Renames) (c : Bool) (p : QualType) :
    toDStyle ren (.mk c (.pointer p)) =
      if p.isFunctionType then toDStyle ren p
      else replaceScope (_wrapParens ren (.mk c (.pointer p))) := by
  simp only [toDStyle, toDStyleTy, _wrapParens, QualType.isPointerType, Bool.true_or, if_true]
  rw [_typeRoll_eq]
  simp [QualType.getPointeeType, typeRollBody, QualType.isReferenceType, QualType.isPointerType]

theorem toDStyle_reference (ren : Renames) (c : Bool) (p : QualType) :
    toDStyle ren (.mk c (.reference p)) =
      if p.isFunctionType then toDStyle ren p
      else replaceScope (_wrapParens ren (.mk c (.reference p))) := by
  simp only [toDStyle, toDStyleTy, _wrapParens, QualType.isReferenceType, Bool.or_true, if_true]
  rw [_typeRoll_eq]
  simp [QualType.getPointeeType, typeRollBody, QualType.isReferenceType]

theorem wrapParts_eq (parts : List String) : wrapParts parts = String.join parts := by
  unfold wrapParts
  cases parts with
  | nil => rfl
  | cons a l => simp

theorem string_nocolon_const : ∀ c ∈ "const(".data, c ≠ ':' := by decide
theorem string_nocolon_ref : ∀ c ∈ "ref ".data, c ≠ ':' := by decide
theorem string_nocolon_close : ∀ c ∈ ")".data, c ≠ ':' := by decide
theorem string_nocolon_closeStar : ∀ c ∈ ")*".data, c ≠ ':' := by decide
theorem string_nocolon_star : ∀ c ∈ "*".data, c ≠ ':' := by decide

/-- The concatenated parts of `_typeRoll` hold no `::`. -/
theorem rollText_noScope (ren : Renames) : ∀ (n : Nat) (type : QualType), sizeOf type ≤ n →
    hasScope (rollText ren type).data = false := by
  intro n
  induction n with
  | zero =>
    intro type h
    rcases type with ⟨c, t⟩
    simp at h
  | succ n ih =>
    intro type h
    rcases type with ⟨c, t⟩
    by_cases hp : (QualType.mk c t).isPointerType = true
    · cases t <;> simp [QualType.isPointerType] at hp
      rename_i p
      rw [rollText_pointer]
      have hi := ih p (by simp at h; omega)
      cases c
      · simp only [Bool.false_eq_true, if_false, String.data_append]
        rw [hasScope_append_right _ _ string_nocolon_star]
        simpa using hi
      · simp only [if_true, String.data_append]
        rw [hasScope_append_right _ _ string_nocolon_closeStar,
          hasScope_append_left _ _ string_nocolon_const]
        exact hi
    · by_cases hr : (QualType.mk c t).isReferenceType = true
      · cases t <;> simp [QualType.isReferenceType] at hr
        rename_i p
        rw [rollText_reference]
        have hi := ih p (by simp at h; omega)
        simp only [String.data_append]
        rw [hasScope_append_left _ _ string_nocolon_ref]
        exact hi
      · have hp' : (QualType.mk c t).isPointerType = false := by simpa using hp
        have hr' : (QualType.mk c t).isReferenceType = false := by simpa using hr
        rw [rollText_leaf _ _ hp' hr']
        split
        · simp only [String.data_append]
          rw [hasScope_append_right _ _ string_nocolon_close,
            hasScope_append_left _ _ string_nocolon_const]
          exact (rfind_none_iff _).mp (toDStyle_noScope _ _)
        · exact (rfind_none_iff _).mp (toDStyle_noScope _ _)

/-- A pointer or reference whose pointee is no function type renders as the
concatenated parts of `_typeRoll`. -/
theorem toDStyle_eq_rollText (ren : Renames) (type : QualType)
    (h : type.isPointerType = true ∨ type.isReferenceType = true)
    (hf : type.getPointeeType.isFunctionType = false) :
    toDStyle ren type = rollText ren type := by
  have hn : rfind (rollText ren type) "::" = none :=
    (rfind_none_iff _).mpr (rollText_noScope ren _ type (Nat.le_refl _))
  rcases type with ⟨c, t⟩
  cases t <;> simp [QualType.isPointerType, QualType.isReferenceType] at h
  · rename_i p
    simp only [QualType.getPointeeType] at hf
    rw [toDStyle_pointer, hf]
    simp only [Bool.false_eq_true, if_false, _wrapParens, QualType.isPointerType, Bool.true_or,
      if_true, wrapParts_eq]
    exact replaceScope_of_none _ hn
  · rename_i p
    simp only [QualType.getPointeeType] at hf
    rw [toDStyle_reference, hf]
    simp only [Bool.false_eq_true, if_false, _wrapParens, QualType.isReferenceType, Bool.or_true,
      if_true, wrapParts_eq]
    exact replaceScope_of_none _ hn

end Gentool
namespace Gentool

theorem parenDepth_append : ∀ (a b : List Char) (d : Nat),
    parenDepth d (a ++ b) = (parenDepth d a).bind (fun e => parenDepth e b) := by
  intro a
  induction a with
  | nil => intro b d; simp [parenDepth]
  | cons c cs ih =>
    intro b d
    simp only [List.cons_append, parenDepth]
    split
    · exact ih b (d + 1)
    · split
      · cases d with
        | zero => rfl
        | succ d => exact ih b d
      · exact ih b d

theorem parenDepth_shift : ∀ (a : List Char) (d e k : Nat),
    parenDepth d a = some e → parenDepth (d + k) a = some (e + k) := by
  intro a
  induction a with
  | nil => intro d e k h; simp [parenDepth] at h ⊢; omega
  | cons c cs ih =>
    intro d e k h
    simp only [parenDepth] at h ⊢
    split
    · rename_i hc
      rw [if_pos hc] at h
      have := ih (d + 1) e k h
      rwa [Nat.add_right_comm] at this
    · rename_i hc
      rw [if_neg hc] at h
      split
      · rename_i hc2
        rw [if_pos hc2] at h
        cases d with
        | zero => cases h
        | succ d =>
          have := ih d e k h
          rw [Nat.add_right_comm]
          exact this
      · rename_i hc2
        rw [if_neg hc2] at h
        exact ih d e k h

theorem parenDepth_balanced (a : List Char) (h : parenDepth 0 a = some 0) (d : Nat) :
    parenDepth d a = some d := by
  simpa using parenDepth_shift a 0 0 d h

theorem parenDepth_const (d : Nat) : parenDepth d "const(".data = some (d + 1) := by
  simp [parenDepth]

theorem parenDepth_ref (d : Nat) : parenDepth d "ref ".data = some d := by
  simp [parenDepth]

theorem parenDepth_star (d : Nat) : parenDepth d "*".data = some d := by
  simp [parenDepth]

theorem parenDepth_close (d : Nat) : parenDepth (d + 1) ")".data = some d := by
  simp [parenDepth]

theorem parenDepth_closeStar (d : Nat) : parenDepth (d + 1) ")*".data = some d := by
  simp [parenDepth]

/-- When the innermost rendering is well-parenthesised, the concatenated parts
of `_typeRoll` leave every depth as they found it. -/
theorem rollText_balanced (ren : Renames) : ∀ (n : Nat) (type : QualType), sizeOf type ≤ n →
    wellParenthesised (toDStyle ren (innermost type).removeLocalConst) →
    ∀ d, parenDepth d (rollText ren type).data = some d := by
  intro n
  induction n with
  | zero =>
    intro type h
    rcases type with ⟨c, t⟩
    simp at h
  | succ n ih =>
    intro type h hw d
    rcases type with ⟨c, t⟩
    by_cases hp : (QualType.mk c t).isPointerType = true
    · cases t <;> simp [QualType.isPointerType] at hp
      rename_i p
      rw [rollText_pointer]
      have hi := ih p (by simp at h; omega) (by simpa [innermost] using hw)
      generalize rollText ren p = R at hi ⊢
      cases c
      · simp [parenDepth_append, hi, parenDepth]
      · simp [parenDepth_append, hi, parenDepth]
    · by_cases hr : (QualType.mk c t).isReferenceType = true
      · cases t <;> simp [QualType.isReferenceType] at hr
        rename_i p
        rw [rollText_reference]
        have hi := ih p (by simp at h; omega) (by simpa [innermost] using hw)
        generalize rollText ren p = R at hi ⊢
        simp [parenDepth_append, hi, parenDepth]
      · have hp' : (QualType.mk c t).isPointerType = false := by simpa using hp
        have hr' : (QualType.mk c t).isReferenceType = false := by simpa using hr
        rw [innermost_leaf _ hp' hr'] at hw
        rw [rollText_leaf _ _ hp' hr']
        have hl := fun e => parenDepth_balanced _ hw e
        cases c
        · simpa [QualType.isConstQualified, QualType.removeLocalConst] using hl d
        · generalize toDStyle ren (QualType.mk true t).removeLocalConst = L at hl ⊢
          simp [QualType.isConstQualified, parenDepth_append, hl, parenDepth]

theorem rollCloser_count (q : QualType) :
    (rollOpener q).count "const(" =
      (rollCloser q).countP (fun s => s == ")" || s == ")*") := by
  rcases q with ⟨c, t⟩
  cases c <;> cases t <;>
    simp [rollOpener, rollCloser, QualType.isReferenceType, QualType.isPointerType,
      QualType.isConstQualified]

theorem roll_counts : ∀ (l : List QualType),
    (l.flatMap rollOpener).count "const(" =
      (l.reverse.flatMap rollCloser).countP (fun s => s == ")" || s == ")*") := by
  intro l
  induction l with
  | nil => simp
  | cons q qs ih =>
    simp only [List.flatMap_cons, List.count_append, List.reverse_cons, List.flatMap_append,
      List.countP_append, List.flatMap_nil, List.append_nil]
    rw [ih, rollCloser_count]
    omega

end Gentool
namespace Gentool

theorem innermost_not_pointer : ∀ (n : Nat) (type : QualType), sizeOf type ≤ n →
    (innermost type).isPointerType = false ∧ (innermost type).isReferenceType = false := by
  intro n
  induction n with
  | zero =>
    intro type h
    rcases type with ⟨c, t⟩
    simp at h
  | succ n ih =>
    intro type h
    rcases type with ⟨c, t⟩
    cases t with
    | pointer p => simpa [innermost] using ih p (by simp at h; omega)
    | reference p => simpa [innermost] using ih p (by simp at h; omega)
    | _ => simp [innermost, QualType.isPointerType, QualType.isReferenceType]

/-- C1. For every nesting of pointers, references and const qualifications,
the parts of `_typeRoll` are the opening markers of the levels in the order of
descent, the rendering of the innermost type (which is neither a pointer nor
a reference), and the closing markers of the levels in the reverse order; there
are as many `const(` openers as `)` and `)*` closers; the concatenation is
well-parenthesised when the innermost rendering is; and it is what `toDStyle`
returns for a pointer or reference whose pointee is no function type. -/
theorem typeRoll_markers_balanced (ren : Renames) (type : QualType) :
    _typeRoll ren type [] =
        (descent type).flatMap rollOpener ++
          [toDStyle ren (innermost type).removeLocalConst] ++
          (descent type).reverse.flatMap rollCloser
    ∧ ((innermost type).isPointerType = false ∧ (innermost type).isReferenceType = false)
    ∧ ((descent type).flatMap rollOpener).count "const(" =
        ((descent type).reverse.flatMap rollCloser).countP (fun s => s == ")" || s == ")*")
    ∧ (wellParenthesised (toDStyle ren (innermost type).removeLocalConst) →
        wellParenthesised (rollText ren type))
    ∧ ((type.isPointerType = true ∨ type.isReferenceType = true) →
        type.getPointeeType.isFunctionType = false →
        toDStyle ren type = rollText ren type) :=
  ⟨typeRoll_nil ren type,
   innermost_not_pointer _ type (Nat.le_refl _),
   roll_counts (descent type),
   fun hw => rollText_balanced ren _ type (Nat.le_refl _) hw 0,
   fun h hf => toDStyle_eq_rollText ren type h hf⟩

theorem typeRoll_markers_balanced_witness :
    wellParenthesised (rollText [] pointerToConstPointerToConstFloat)
    ∧ toDStyle [] pointerToConstPointerToConstFloat =
        rollText [] pointerToConstPointerToConstFloat :=
  ⟨(typeRoll_markers_balanced [] pointerToConstPointerToConstFloat).2.2.2.1 (by decide!),
   (typeRoll_markers_balanced [] pointerToConstPointerToConstFloat).2.2.2.2
     (Or.inl rfl) rfl⟩

theorem toDStyle_float (ren : Renames) : toDStyle ren floatType = "float" := by
  simp only [toDStyle, toDStyleTy, floatType, _toDBuiltInType, getAsString]
  rfl

/-- C2, as the code has it. The concatenated parts of `_typeRoll`: a non-const
pointer to `T` gives those of `T` and `*`; a const pointer to `T` gives
`const(`, those of `T` and `)*`; a reference to `T` gives `ref ` and those of
`T`; a const `T` that is no pointer or reference gives `const(`, `toDStyle` of
`T` without its const, and `)`; a non-const one gives `toDStyle` of `T`. When
`T` is no function type these are the renderings of `toDStyle`. A const
pointer to a const pointer to float renders as `const(const(float)*)*`. -/
theorem typeRoll_rendering (ren : Renames) (c : Bool) (T : QualType) :
    rollText ren (.mk false (.pointer T)) = rollText ren T ++ "*"
    ∧ rollText ren (.mk true (.pointer T)) = "const(" ++ rollText ren T ++ ")*"
    ∧ rollText ren (.mk c (.reference T)) = "ref " ++ rollText ren T
    ∧ (T.isPointerType = false → T.isReferenceType = false → T.isConstQualified = true →
        rollText ren T = "const(" ++ toDStyle ren T.removeLocalConst ++ ")")
    ∧ (T.isPointerType = false → T.isReferenceType = false → T.isConstQualified = false →
        rollText ren T = toDStyle ren T)
    ∧ (T.isFunctionType = false →
        toDStyle ren (.mk false (.pointer T)) = rollText ren T ++ "*"
        ∧ toDStyle ren (.mk true (.pointer T)) = "const(" ++ rollText ren T ++ ")*"
        ∧ toDStyle ren (.mk c (.reference T)) = "ref " ++ rollText ren T)
    ∧ toDStyle ren constPointerToConstPointerToFloat = "const(const(float)*)*" := by
  refine ⟨?_, ?_, ?_, ?_, ?_, ?_, ?_⟩
  · simpa using rollText_pointer ren false T
  · simpa using rollText_pointer ren true T
  · exact rollText_reference ren c T
  · intro hp hr hc
    rw [rollText_leaf ren T hp hr, hc]
    rfl
  · intro hp hr hc
    rw [rollText_leaf ren T hp hr, hc]
    rfl
  · intro hf
    refine ⟨?_, ?_, ?_⟩
    · rw [toDStyle_eq_rollText ren (.mk false (.pointer T)) (Or.inl rfl) hf]
      simpa using rollText_pointer ren false T
    · rw [toDStyle_eq_rollText ren (.mk true (.pointer T)) (Or.inl rfl) hf]
      simpa using rollText_pointer ren true T
    · rw [toDStyle_eq_rollText ren (.mk c (.reference T)) (Or.inr rfl) hf]
      exact rollText_reference ren c T
  · rw [toDStyle_eq_rollText ren constPointerToConstPointerToFloat (Or.inl rfl) rfl]
    unfold constPointerToConstPointerToFloat
    rw [rollText_pointer, rollText_pointer, rollText_leaf ren floatType rfl rfl]
    simp only [floatType, QualType.isConstQualified, if_true, Bool.false_eq_true, if_false]
    rw [show QualType.mk false (Ty.builtin (BuiltinKind.Other "float")) = floatType from rfl,
      toDStyle_float]
    rfl

theorem typeRoll_rendering_witness :
    toDStyle [] (.mk true (.pointer (.mk true (.builtin (.Other "float"))))) =
      "const(" ++ rollText [] (.mk true (.builtin (.Other "float"))) ++ ")*" :=
  ((typeRoll_rendering [] false (.mk true (.builtin (.Other "float")))).2.2.2.2.2.1 rfl).2.1

/-- C2 as stated fails: a pointer to a const pointer to const float does not
render as `const(const(float)*)*` but as `const(const(float))**`. -/
theorem typeRoll_rendering_counterexample :
    toDStyle [] pointerToConstPointerToConstFloat = "const(const(float))**"
    ∧ toDStyle [] pointerToConstPointerToConstFloat ≠ "const(const(float)*)*" := by
  decide!

end Gentool
namespace Gentool

/-! ## What a call leaves in place -/

/-- From `g` to `g'` the output has only been appended to and no key has left
`storedTypes`. -/
structure Grows (g g' : Gen) : Prop where
  out : ∃ t, g'.out = g.out ++ t
  stored : ∀ k, k ∈ g.storedTypes → k ∈ g'.storedTypes

theorem Grows.refl (g : Gen) : Grows g g :=
  ⟨⟨"", by simp⟩, fun _ h => h⟩

theorem Grows.trans {a b c : Gen} (h1 : Grows a b) (h2 : Grows b c) : Grows a c := by
  obtain ⟨⟨t1, e1⟩, s1⟩ := h1
  obtain ⟨⟨t2, e2⟩, s2⟩ := h2
  exact ⟨⟨t1 ++ t2, by rw [e2, e1, String.append_assoc]⟩, fun k hk => s2 k (s1 k hk)⟩

theorem Grows.write {a g : Gen} (h : Grows a g) (t : String) : Grows a (g.write t) :=
  h.trans ⟨⟨t, rfl⟩, fun _ hk => hk⟩

theorem Grows.of_eq {a g g' : Gen} (h : Grows a g) (ho : g'.out = g.out)
    (hs : g'.storedTypes = g.storedTypes) : Grows a g' :=
  h.trans ⟨⟨"", by simp [ho]⟩, fun k hk => by rw [hs]; exact hk⟩

theorem Grows.setAccum {a g : Gen} (h : Grows a g) (n : Nat) :
    Grows a { g with accumBitFieldWidth := n } := h.of_eq rfl rfl

theorem Grows.setPrev {a g : Gen} (h : Grows a g) (b : Bool) :
    Grows a { g with isPrevIsBitfield := b } := h.of_eq rfl rfl

theorem Grows.setName {a g : Gen} (h : Grows a g) (n : String) :
    Grows a { g with classOrStructName := n } := h.of_eq rfl rfl

theorem Grows.setFinalName {a g : Gen} (h : Grows a g) (n : String) :
    Grows a { g with finalTypeName := n } := h.of_eq rfl rfl

theorem Grows.setStack {a g : Gen} (h : Grows a g) (n : List (DeclId × String)) :
    Grows a { g with declStack := n } := h.of_eq rfl rfl

theorem Grows.setGlobalId {a g : Gen} (h : Grows a g) (n : Nat) :
    Grows a { g with globalAnonTypeId := n } := h.of_eq rfl rfl

theorem Grows.setLocalId {a g : Gen} (h : Grows a g) (n : Nat) :
    Grows a { g with localAnonRecordId := n } := h.of_eq rfl rfl

theorem addType_stored (key : String) (storage : List String) :
    (∀ k, k ∈ storage → k ∈ (addType key storage).2) ∧ key ∈ (addType key storage).2 := by
  unfold addType
  split
  · rename_i h
    exact ⟨fun _ hk => hk, by simpa using h⟩
  · exact ⟨fun k hk => by simp [hk], by simp⟩

theorem Grows.setStored {a g : Gen} (h : Grows a g) (key : String) :
    Grows a (g.setStoredTypes (addType key g.storedTypes).2) :=
  h.trans ⟨⟨"", by simp [Gen.setStoredTypes]⟩, fun k hk => (addType_stored key _).1 k hk⟩

theorem Grows.andThen {a : Gen} {r : Res} {f : Gen → Res} (hr : Grows a r.gen)
    (hf : ∀ g, Grows a g → Grows a (f g).gen) : Grows a (r.andThen f).gen := by
  cases r with
  | ok g => exact hf g hr
  | fault d g => exact hr

theorem addType_false (key : String) (storage : List String) (h : key ∈ storage) :
    addType key storage = (false, storage) := by
  unfold addType
  simp [h]

theorem addType_true (key : String) (storage : List String) (h : key ∉ storage) :
    addType key storage = (true, storage ++ [key]) := by
  unfold addType
  simp [h]

theorem onEnum_grows {a : Gen} (e : EnumDecl) {g : Gen} (h : Grows a g) :
    Grows a (onEnum e g) := by
  unfold onEnum
  simp only
  repeat' first
    | exact h.of_eq rfl rfl
    | apply Grows.write
    | split

theorem onFunction_grows {a : Gen} (fn : FunctionDecl) {g : Gen} (h : Grows a g) :
    Grows a (onFunction fn g) := by
  unfold onFunction
  simp only
  repeat' first
    | exact h.of_eq rfl rfl
    | apply Grows.write
    | split

end Gentool
namespace Gentool

theorem closeBitfieldRun_grows {a : Gen} (it : FieldDecl) {g : Gen} (h : Grows a g) :
    Grows a (closeBitfieldRun it g).gen := by
  unfold closeBitfieldRun
  by_cases hb : it.isBitField = true
  · rw [if_pos hb]
    by_cases hp : (!g.isPrevIsBitfield) = true
    · simp only [hp, if_true, Res.gen]
      exact (h.write _).of_eq rfl rfl
    · simp only [hp, if_false, Res.gen]
      exact h.of_eq rfl rfl
  · rw [if_neg hb]
    by_cases hp : g.isPrevIsBitfield = true
    · rw [if_pos hp]
      simp only
      cases bitfieldPadding (g.write ("," ++ "\n")).accumBitFieldWidth with
      | none => exact h.write _
      | some pad =>
        simp only [Res.gen]
        apply Grows.write
        exact ((h.write _).write _).of_eq rfl rfl
    · rw [if_neg hp]
      exact h

theorem writeField_grows {a : Gen} (isClass : Bool) (it : FieldDecl) {g : Gen} (h : Grows a g) :
    Grows a (writeField isClass it g).gen := by
  unfold writeField
  simp only
  cases fieldName it (toDStyle g.renames it.type) with
  | error e => exact h
  | ok name =>
    simp only [Res.gen]
    by_cases hb : it.isBitField = true
    · by_cases hp : g.isPrevIsBitfield = true
      · simp only [hb, hp, if_true]
        exact ((h.write _).write _).of_eq rfl rfl
      · simp only [hb, hp, if_true, if_false]
        exact (h.write _).of_eq rfl rfl
    · simp only [hb, if_false]
      exact (h.write _).of_eq rfl rfl

theorem fieldStep_grows {a : Gen} (isClass : Bool) (it : FieldDecl) {g : Gen} (h : Grows a g) :
    Grows a (fieldStep isClass it g).gen :=
  Grows.andThen (closeBitfieldRun_grows it h) (fun _ h1 => writeField_grows isClass it h1)

theorem fieldLoop_grows (isClass : Bool) : ∀ (fields : List FieldDecl) {a g : Gen},
    Grows a g → Grows a (fieldLoop isClass fields g).gen := by
  intro fields
  induction fields with
  | nil => intro a g h; exact h
  | cons it rest ih =>
    intro a g h
    simp only [fieldLoop]
    exact Grows.andThen (fieldStep_grows isClass it h) (fun g1 h1 => ih h1)

theorem fieldIterate_grows {a : Gen} (isClass : Bool) (fields : List FieldDecl) {g : Gen}
    (h : Grows a g) : Grows a (fieldIterate isClass fields g).gen := by
  unfold fieldIterate
  simp only
  apply Grows.andThen
  · exact fieldLoop_grows isClass fields (h.of_eq rfl rfl)
  · intro g1 h1
    by_cases hp : g1.isPrevIsBitfield = true
    · rw [if_pos hp]
      exact h1.write _
    · rw [if_neg hp]
      exact h1

theorem methodIterate_grows {a : Gen} (decl : RecordDecl) {g : Gen} (h : Grows a g) :
    Grows a (methodIterate decl g) := by
  unfold methodIterate
  exact h.write _

theorem onStructOrClassLeave_grows {a g : Gen} (h : Grows a g) :
    Grows a (onStructOrClassLeave g) := by
  unfold onStructOrClassLeave
  simp only
  apply Grows.write
  split
  · exact h.of_eq rfl rfl
  · exact h.of_eq rfl rfl

theorem setDeclName_grows {a g : Gen} (h : Grows a g) (id : DeclId) (name : String) :
    Grows a (setDeclName id name g) :=
  h.of_eq rfl rfl

end Gentool
namespace Gentool

theorem nameIfAnon_grows {a g : Gen} (h : Grows a g) (id : DeclId) (name : String)
    (count count1 : CountPtr) (g1 : Gen) (hn : nameIfAnon id name count g = some (count1, g1)) :
    Grows a g1 := by
  unfold nameIfAnon at hn
  by_cases hi : (!hasIdentifier g.renames id name) = true
  · rw [if_pos hi] at hn
    cases count with
    | toLocal c =>
      simp only [CountPtr.read, CountPtr.increment, Option.some.injEq, Prod.mk.injEq] at hn
      rw [← hn.2]
      exact h.of_eq rfl rfl
    | toMember =>
      simp only [CountPtr.read, CountPtr.increment, Option.some.injEq, Prod.mk.injEq] at hn
      rw [← hn.2]
      exact h.of_eq rfl rfl
    | pastEnd =>
      simp [CountPtr.read] at hn
  · rw [if_neg hi] at hn
    simp only [Option.some.injEq, Prod.mk.injEq] at hn
    rw [← hn.2]
    exact h

theorem deanonimize_grows : ∀ (n : Nat),
    (∀ (decl : RecordDecl), sizeOf decl ≤ n → ∀ (optName : String) (count : CountPtr)
      (a g : Gen), Grows a g → Grows a (deanonimizeTypedef decl optName count g).gen)
    ∧ (∀ (ds : List Decl), sizeOf ds ≤ n → ∀ (declId : DeclId) (count : CountPtr)
      (a g : Gen), Grows a g → Grows a (deanonimizeDecls declId ds count g).gen) := by
  intro n
  induction n with
  | zero =>
    constructor
    · intro decl h
      rcases decl with ⟨info, ds, bs⟩
      simp at h
    · intro ds h
      cases ds with
      | nil => intro _ _ a g hg; simpa [deanonimizeDecls, Res.gen] using hg
      | cons d rest => simp at h
  | succ n ih =>
    obtain ⟨ihT, ihD⟩ := ih
    constructor
    · intro decl h optName count a g hg
      rcases decl with ⟨info, ds, bs⟩
      have hds : sizeOf ds ≤ n := by simp at h; omega
      rw [deanonimizeTypedef]
      by_cases hi : (!hasIdentifier g.renames info.id info.name) = true
      · rw [if_pos hi]
        by_cases ho : optName.isEmpty = true
        · rw [if_pos ho]
          cases count.read g with
          | none => exact hg
          | some c => exact ihD ds hds _ _ _ _ (hg.of_eq rfl rfl)
        · rw [if_neg ho]
          exact ihD ds hds _ _ _ _ (hg.of_eq rfl rfl)
      · rw [if_neg hi]
        exact ihD ds hds _ _ _ _ hg
    · intro ds h declId count a g hg
      cases ds with
      | nil => simpa [deanonimizeDecls, Res.gen] using hg
      | cons d rest =>
        have hrest : sizeOf rest ≤ n := by simp at h; omega
        cases d with
        | typedefDecl td =>
          rcases td with ⟨tinfo, record⟩
          rw [deanonimizeDecls]
          split
          · exact hg
          · rename_i count1 g1 hn
            have hg1 := nameIfAnon_grows hg _ _ _ _ _ hn
            by_cases hd : tinfo.typeIsDependent = true
            · rw [if_pos hd]
              exact ihD rest hrest _ _ _ _ hg1
            · rw [if_neg hd]
              cases record with
              | none => exact ihD rest hrest _ _ _ _ hg1
              | some rd =>
                simp only
                by_cases hr : tinfo.underlyingType.getAsRecordDecl.isSome = true
                · rw [if_pos hr]
                  apply Grows.andThen
                  · exact ihT rd (by simp at h; omega) _ _ _ _ hg1
                  · intro g2 h2
                    exact ihD rest hrest _ _ _ _ h2
                · rw [if_neg hr]
                  exact ihD rest hrest _ _ _ _ hg1
        | recordDecl r =>
          rcases r with ⟨rinfo, rds, rbs⟩
          rw [deanonimizeDecls]
          by_cases hid : rinfo.id = declId
          · rw [if_pos hid]
            exact ihD rest hrest _ _ _ _ hg
          · rw [if_neg hid]
            split
            · exact hg
            · rename_i count1 g1 hn
              exact ihD rest hrest _ _ _ _ (nameIfAnon_grows hg _ _ _ _ _ hn)
        | enumDecl e =>
          rw [deanonimizeDecls]
          exact ihD rest hrest _ _ _ _ hg
        | varDecl v =>
          rw [deanonimizeDecls]
          exact ihD rest hrest _ _ _ _ hg
        | functionTemplateDecl ac fn =>
          rw [deanonimizeDecls]
          exact ihD rest hrest _ _ _ _ hg
        | otherDecl =>
          rw [deanonimizeDecls]
          exact ihD rest hrest _ _ _ _ hg

theorem deanonimizeTypedef_grows (decl : RecordDecl) (optName : String) (count : CountPtr)
    {a g : Gen} (h : Grows a g) : Grows a (deanonimizeTypedef decl optName count g).gen :=
  (deanonimize_grows _).1 decl (Nat.le_refl _) optName count a g h

theorem nameRecord_grows (decl : RecordDecl) {a g : Gen} (h : Grows a g) :
    Grows a (nameRecord decl g).gen := by
  unfold nameRecord
  by_cases he : g.classOrStructName.isEmpty = true
  · rw [if_pos he]
    cases decl.info.typedefNameForAnonDecl with
    | some td => exact h.of_eq rfl rfl
    | none =>
      simp only
      apply Grows.andThen
      · exact deanonimizeTypedef_grows _ _ _ (h.of_eq rfl rfl)
      · intro g1 h1
        exact h1.of_eq rfl rfl
  · rw [if_neg he]
    exact deanonimizeTypedef_grows _ _ _ h

end Gentool
namespace Gentool

theorem recordHeader_grows {a : Gen} (info : RecordInfo) {g : Gen} (h : Grows a g) :
    match recordHeader info g with
    | .error g1 => Grows a g1
    | .ok g1 => Grows a g1 := by
  unfold recordHeader
  simp only
  by_cases h1 : (!info.isTemplated) = true
  · rw [if_pos h1]
    by_cases h2 : (!info.hasTypeForDecl) = true
    · rw [if_pos h2]
      exact h.write _
    · rw [if_neg h2]
      by_cases h3 : (!info.isCompleteDefinition) = true
      · rw [if_pos h3]
        exact (h.write _).write _
      · rw [if_neg h3]
        by_cases h4 : info.typeInfo.Width = 0 ∨ info.typeInfo.Align = 0
        · rw [if_pos h4]
          exact h.write _
        · rw [if_neg h4]
          exact (h.write _).write _
  · rw [if_neg h1]
    exact h.write _

theorem recordIntro_grows_keyword {a : Gen} (decl : RecordDecl) {g : Gen}
    (h : Grows a (g.write (shapeKeyword decl))) : Grows a (recordIntro decl g).gen := by
  unfold recordIntro
  simp only
  apply Grows.andThen
  · exact nameRecord_grows decl h
  · intro g1 h1
    simp only [Res.gen]
    repeat' first
      | exact h1
      | apply Grows.write
      | split

theorem recordIntro_grows {a : Gen} (decl : RecordDecl) {g : Gen} (h : Grows a g) :
    Grows a (recordIntro decl g).gen :=
  recordIntro_grows_keyword decl (h.write _)

theorem recordMembers_grows {a : Gen} (decl : RecordDecl) {g : Gen} (h : Grows a g) :
    Grows a (recordMembers decl g).gen := by
  unfold recordMembers
  simp only
  apply Grows.andThen
  · exact fieldIterate_grows _ _ (h.write _)
  · intro g1 h1
    simp only [Res.gen]
    apply Grows.write
    split
    · exact methodIterate_grows decl h1
    · exact h1

theorem renameTypedefRecord_grows {a : Gen} (decl : TypedefInfo) (rd : RecordDecl) {g : Gen}
    (h : Grows a g) : Grows a (renameTypedefRecord decl rd g).gen := by
  unfold renameTypedefRecord
  simp only
  split
  · exact deanonimizeTypedef_grows _ _ _ h
  · exact h.of_eq rfl rfl

theorem typedefAlias_grows {a : Gen} (decl : TypedefInfo) {g : Gen} (h : Grows a g) :
    Grows a (typedefAlias decl g) := by
  unfold typedefAlias
  simp only
  repeat' first
    | exact h
    | apply Grows.write
    | split

/-- The state of `onStructOrClassEnter` once the registry has been asked. -/
theorem registered_grows {a : Gen} (info : RecordInfo) {g : Gen} (h : Grows a g) :
    Grows a ((enterRecord info g).setStoredTypes
      (addType info.loc (enterRecord info g).storedTypes).2) := by
  refine h.trans ⟨⟨"", by simp [enterRecord, Gen.setStoredTypes]⟩, fun k hk => ?_⟩
  exact (addType_stored info.loc _).1 k hk

theorem emit_grows : ∀ (n : Nat),
    (∀ (decl : RecordDecl), sizeOf decl ≤ n → ∀ (a g : Gen),
      Grows a ((enterRecord decl.info g).setStoredTypes
        (addType decl.info.loc (enterRecord decl.info g).storedTypes).2) →
      Grows a (onStructOrClassEnter decl g).gen)
    ∧ (∀ (ds : List Decl), sizeOf ds ≤ n → ∀ (declId : DeclId) (isClass : Bool) (a g : Gen),
      Grows a g → Grows a (innerDeclIterate declId isClass ds g).gen)
    ∧ (∀ (td : TypedefDecl), sizeOf td ≤ n → ∀ (a g : Gen),
      Grows a (g.setStoredTypes (addType td.info.loc g.storedTypes).2) →
      Grows a (onTypedef td g).gen) := by
  intro n
  induction n with
  | zero =>
    refine ⟨?_, ?_, ?_⟩
    · intro decl h
      rcases decl with ⟨info, ds, bs⟩
      simp at h
    · intro ds h
      cases ds with
      | nil => intro _ _ a g hg; rw [innerDeclIterate]; exact hg
      | cons d rest => simp at h
    · intro td h
      rcases td with ⟨info, r⟩
      simp at h
  | succ n ih =>
    obtain ⟨ihR, ihD, ihT⟩ := ih
    refine ⟨?_, ?_, ?_⟩
    · intro decl h a g hg
      rcases decl with ⟨info, ds, bs⟩
      have hds : sizeOf ds ≤ n := by simp at h; omega
      rw [onStructOrClassEnter]
      change Grows a ((enterRecord info g).setStoredTypes
        (addType info.loc (enterRecord info g).storedTypes).2) at hg
      split
      · exact hg
      · have hh := recordHeader_grows info hg
        split
        · rename_i g1 heq
          rw [heq] at hh
          exact hh
        · rename_i g1 heq
          rw [heq] at hh
          apply Grows.andThen
          · exact recordIntro_grows _ hh
          · intro g2 h2
            apply Grows.andThen
            · exact ihD ds hds _ _ _ _ h2
            · intro g3 h3
              exact recordMembers_grows _ h3
    · intro ds h declId isClass a g hg
      cases ds with
      | nil => rw [innerDeclIterate]; exact hg
      | cons d rest =>
        have hrest : sizeOf rest ≤ n := by simp at h; omega
        cases d with
        | enumDecl e =>
          rw [innerDeclIterate]
          exact ihD rest hrest _ _ _ _ (onEnum_grows e hg)
        | varDecl v =>
          rw [innerDeclIterate]
          exact ihD rest hrest _ _ _ _ (hg.write _)
        | recordDecl r =>
          rcases r with ⟨rinfo, rds, rbs⟩
          rw [innerDeclIterate]
          split
          · exact ihD rest hrest _ _ _ _ hg
          · apply Grows.andThen
            · exact ihR (.mk rinfo rds rbs) (by simp at h ⊢; omega) _ _
                (registered_grows rinfo hg)
            · intro g1 h1
              exact ihD rest hrest _ _ _ _ (onStructOrClassLeave_grows h1)
        | functionTemplateDecl ac fn =>
          cases fn with
          | none =>
            rw [innerDeclIterate]
            exact ihD rest hrest _ _ _ _ hg
          | some fn =>
            rw [innerDeclIterate]
            split
            · exact ihD rest hrest _ _ _ _ hg
            · exact ihD rest hrest _ _ _ _ (onFunction_grows fn (hg.write _))
        | typedefDecl td =>
          rw [innerDeclIterate]
          apply Grows.andThen
          · exact ihT td (by simp at h; omega) _ _ (hg.setStored _)
          · intro g1 h1
            exact ihD rest hrest _ _ _ _ h1
        | otherDecl =>
          rw [innerDeclIterate]
          exact ihD rest hrest _ _ _ _ hg
    · intro td h a g hg
      rcases td with ⟨info, record⟩
      change Grows a (g.setStoredTypes (addType info.loc g.storedTypes).2) at hg
      cases record with
      | none =>
        rw [onTypedef]
        split
        · exact hg
        · exact typedefAlias_grows info hg
      | some rd =>
        rcases rd with ⟨rinfo, rds, rbs⟩
        rw [onTypedef]
        split
        · exact hg
        · apply Grows.andThen
          · exact renameTypedefRecord_grows _ _ hg
          · intro g1 h1
            apply Grows.andThen
            · exact ihR (.mk rinfo rds rbs) (by simp at h ⊢; omega) _ _
                (registered_grows rinfo h1)
            · intro g2 h2
              exact onStructOrClassLeave_grows h2

end Gentool
namespace Gentool

theorem anyBase_iff : ∀ (bs : List CXXBaseSpecifier),
    anyBaseHasVirtualMethods bs = true ↔
      ∃ type rd, CXXBaseSpecifier.mk type (some rd) ∈ bs ∧ hasVirtualMethods rd = true := by
  intro bs
  induction bs with
  | nil => simp [anyBaseHasVirtualMethods]
  | cons b rest ih =>
    rcases b with ⟨ty, d⟩
    cases d with
    | none =>
      rw [anyBaseHasVirtualMethods]
      simp only [Bool.false_or, ih]
      constructor
      · rintro ⟨t, rd, hm, hv⟩
        exact ⟨t, rd, List.mem_cons_of_mem _ hm, hv⟩
      · rintro ⟨t, rd, hm, hv⟩
        rcases List.mem_cons.mp hm with heq | hm
        · cases heq
        · exact ⟨t, rd, hm, hv⟩
    | some rd0 =>
      rw [anyBaseHasVirtualMethods]
      simp only [Bool.or_eq_true, ih]
      constructor
      · rintro (hv | ⟨t, rd, hm, hv⟩)
        · exact ⟨ty, rd0, List.mem_cons_self _ _, hv⟩
        · exact ⟨t, rd, List.mem_cons_of_mem _ hm, hv⟩
      · rintro ⟨t, rd, hm, hv⟩
        rcases List.mem_cons.mp hm with heq | hm
        · cases heq
          exact Or.inl hv
        · exact Or.inr ⟨t, rd, hm, hv⟩

theorem hasVirtualMethods_eq (decl : RecordDecl) :
    hasVirtualMethods decl =
      (decl.info.isCXX &&
        (decl.info.methods.any (fun f => f.isVirtual) ||
          anyBaseHasVirtualMethods decl.bases)) := by
  rcases decl with ⟨info, ds, bs⟩
  rw [hasVirtualMethods]
  cases hc : info.isCXX <;> simp [RecordDecl.info, RecordDecl.bases, hc]

theorem sizeOf_base_mem (type : QualType) (rd : RecordDecl) :
    ∀ (bs : List CXXBaseSpecifier), CXXBaseSpecifier.mk type (some rd) ∈ bs →
      sizeOf rd < sizeOf bs := by
  intro bs
  induction bs with
  | nil => intro h; cases h
  | cons b rest ih =>
    intro h
    rcases List.mem_cons.mp h with heq | hm
    · subst heq
      simp
      omega
    · have := ih hm
      simp
      omega

theorem hasVirtualMethods_hierarchy : ∀ (n : Nat) (decl : RecordDecl), sizeOf decl ≤ n →
    hasVirtualMethods decl = true → ∃ r, InHierarchy decl r ∧ declaresVirtual r = true := by
  intro n
  induction n with
  | zero =>
    intro decl h
    rcases decl with ⟨info, ds, bs⟩
    simp at h
  | succ n ih =>
    intro decl h hv
    rw [hasVirtualMethods_eq] at hv
    simp only [Bool.and_eq_true, Bool.or_eq_true] at hv
    obtain ⟨hc, hm | hb⟩ := hv
    · exact ⟨decl, InHierarchy.self decl, by simp [declaresVirtual, hc, hm]⟩
    · obtain ⟨ty, rd, hmem, hrd⟩ := (anyBase_iff _).mp hb
      have hs : sizeOf rd ≤ n := by
        have := sizeOf_base_mem ty rd _ hmem
        rcases decl with ⟨info, ds, bs⟩
        simp [RecordDecl.bases] at this h
        omega
      obtain ⟨r, hin, hd⟩ := ih rd hs hrd
      exact ⟨r, InHierarchy.base decl rd r ty hc hmem hin, hd⟩

theorem hierarchy_hasVirtualMethods (decl r : RecordDecl) (h : InHierarchy decl r)
    (hd : declaresVirtual r = true) : hasVirtualMethods decl = true := by
  induction h with
  | self d =>
    rw [hasVirtualMethods_eq]
    simp only [declaresVirtual, Bool.and_eq_true] at hd
    simp [hd.1, hd.2]
  | base d b r ty hc hmem _ ih =>
    rw [hasVirtualMethods_eq, hc]
    have : anyBaseHasVirtualMethods d.bases = true := (anyBase_iff _).mpr ⟨ty, b, hmem, ih hd⟩
    simp [this]

theorem hasVirtualMethods_iff (decl : RecordDecl) :
    hasVirtualMethods decl = true ↔ ∃ r, InHierarchy decl r ∧ declaresVirtual r = true :=
  ⟨hasVirtualMethods_hierarchy _ decl (Nat.le_refl _),
   fun ⟨r, hin, hd⟩ => hierarchy_hasVirtualMethods decl r hin hd⟩

theorem recordHeader_writtenInFull (info : RecordInfo) (g : Gen) (h : writtenInFull info) :
    recordHeader info g = .ok (g.write (recordHeaderText g.cppIsDefault info)) := by
  unfold recordHeader recordHeaderText
  simp only
  cases ht : info.isTemplated
  · rcases h with h | ⟨h1, h2, h3, h4⟩
    · rw [ht] at h
      cases h
    · simp [h1, h2, h3, h4, Gen.write, String.append_assoc]
  · simp [Gen.write]

theorem onStructOrClassEnter_keyword (decl : RecordDecl) (g : Gen)
    (hnew : decl.info.loc ∉ g.storedTypes) (hfull : writtenInFull decl.info) :
    ∃ rest, (onStructOrClassEnter decl g).gen.out =
      g.out ++ recordHeaderText g.cppIsDefault decl.info ++ shapeKeyword decl ++ rest := by
  rcases decl with ⟨info, ds, bs⟩
  rw [onStructOrClassEnter]
  simp only [RecordDecl.info] at hnew hfull ⊢
  have hadd : addType info.loc (enterRecord info g).storedTypes =
      (true, (enterRecord info g).storedTypes ++ [info.loc]) :=
    addType_true _ _ hnew
  rw [hadd]
  simp only [Bool.not_true, Bool.false_eq_true, if_false]
  generalize hg1 : (enterRecord info g).setStoredTypes
    ((enterRecord info g).storedTypes ++ [info.loc]) = g1
  have hout : g1.out = g.out := by rw [← hg1]; rfl
  have hcpp : g1.cppIsDefault = g.cppIsDefault := by rw [← hg1]; rfl
  rw [recordHeader_writtenInFull info _ hfull]
  simp only
  have hg : Grows ((g1.write (recordHeaderText g1.cppIsDefault info)).write
        (shapeKeyword (.mk info ds bs)))
      (((recordIntro (.mk info ds bs) (g1.write (recordHeaderText g1.cppIsDefault info))).andThen
        fun g => (innerDeclIterate info.id info.isClass ds g).andThen fun g =>
            recordMembers (.mk info ds bs) g).gen) := by
    apply Grows.andThen
    · exact recordIntro_grows_keyword _ (Grows.refl _)
    · intro g2 h2
      apply Grows.andThen
      · exact (emit_grows _).2.1 ds (Nat.le_refl _) _ _ _ _ h2
      · intro g3 h3
        exact recordMembers_grows _ h3
  obtain ⟨t, ht⟩ := hg.out
  refine ⟨t, ?_⟩
  rw [ht]
  simp only [Gen.write, hout, hcpp]

end Gentool
namespace Gentool

/-- C3. The shape keyword is `struct` exactly when `hasVirtualMethods` is
false, and otherwise `union` for a union and `class` for any other record;
`hasVirtualMethods` holds exactly when the record or a direct or indirect base
record declares a virtual method, so that one more virtual method in the
record makes the keyword `class` (or `union`); and a record that is written in
full and not yet registered gets its keyword written right after the linkage
line and the size annotation. -/
theorem shape_keyword_by_virtual_methods (decl : RecordDecl) (g : Gen) :
    (shapeKeyword decl = "struct " ↔ hasVirtualMethods decl = false)
    ∧ (hasVirtualMethods decl = true →
        shapeKeyword decl = if decl.info.isUnion then "union " else "class ")
    ∧ (hasVirtualMethods decl = true ↔ ∃ r, InHierarchy decl r ∧ declaresVirtual r = true)
    ∧ (∀ m : CXXMethodDecl, decl.info.isCXX = true → m.isVirtual = true →
        shapeKeyword (addMethod decl m) = if decl.info.isUnion then "union " else "class ")
    ∧ (decl.info.loc ∉ g.storedTypes → writtenInFull decl.info →
        ∃ rest, (onStructOrClassEnter decl g).gen.out =
          g.out ++ recordHeaderText g.cppIsDefault decl.info ++ shapeKeyword decl ++ rest) := by
  refine ⟨?_, ?_, hasVirtualMethods_iff decl, ?_, onStructOrClassEnter_keyword decl g⟩
  · unfold shapeKeyword
    cases hv : hasVirtualMethods decl
    · simp
    · cases hu : decl.info.isUnion <;> simp
  · intro hv
    unfold shapeKeyword
    simp [hv]
  · intro m hc hm
    rcases decl with ⟨info, ds, bs⟩
    have hc' : info.isCXX = true := hc
    have hi : (addMethod (.mk info ds bs) m).info.isUnion = info.isUnion := rfl
    have hv : hasVirtualMethods (addMethod (.mk info ds bs) m) = true := by
      rw [hasVirtualMethods_eq]
      have h1 : (addMethod (.mk info ds bs) m).info.isCXX = true := hc'
      have h2 : (addMethod (.mk info ds bs) m).info.methods = m :: info.methods := rfl
      rw [h1, h2]
      simp [hm]
    unfold shapeKeyword
    simp only [hv, hi, RecordDecl.info]
    rfl

theorem shape_keyword_by_virtual_methods_witness :
    ∃ rest, (onStructOrClassEnter pointRecord initialGen).gen.out =
      initialGen.out ++ recordHeaderText initialGen.cppIsDefault pointRecord.info ++
        shapeKeyword pointRecord ++ rest :=
  (shape_keyword_by_virtual_methods pointRecord initialGen).2.2.2.2
    (by decide) (Or.inr (by decide))

end Gentool
namespace Gentool

theorem onEnum_registered (decl : EnumDecl) (g : Gen) (h : decl.loc ∈ g.enumDecls) :
    (onEnum decl g).out = g.out := by
  unfold onEnum
  rw [addType_false _ _ h]
  rfl

theorem onEnum_enumDecls (decl : EnumDecl) (g : Gen) :
    (onEnum decl g).enumDecls = (addType decl.loc g.enumDecls).2 := by
  unfold onEnum
  simp only
  repeat' first
    | rfl
    | split

theorem onFunction_registered (decl : FunctionDecl) (g : Gen) (h : decl.loc ∈ g.functionDecls) :
    (onFunction decl g).out = g.out := by
  unfold onFunction
  rw [addType_false _ _ h]
  rfl

theorem onFunction_functionDecls (decl : FunctionDecl) (g : Gen) :
    (onFunction decl g).functionDecls = (addType decl.loc g.functionDecls).2 := by
  unfold onFunction
  simp only
  repeat' first
    | rfl
    | split

theorem onGlobalVar_registered (decl : VarDecl) (g : Gen) (h : decl.loc ∈ g.storedTypes) :
    (onGlobalVar decl g).out = g.out := by
  unfold onGlobalVar
  rw [addType_false _ _ h]
  rfl

theorem onGlobalVar_storedTypes (decl : VarDecl) (g : Gen) :
    (onGlobalVar decl g).storedTypes = (addType decl.loc g.storedTypes).2 := by
  unfold onGlobalVar
  simp only
  repeat' first
    | rfl
    | split

theorem onStructOrClassEnter_registered (decl : RecordDecl) (g : Gen)
    (h : decl.info.loc ∈ g.storedTypes) :
    ∃ g1, onStructOrClassEnter decl g = .ok g1 ∧ g1.out = g.out := by
  rcases decl with ⟨info, ds, bs⟩
  rw [onStructOrClassEnter]
  have hadd : addType info.loc (enterRecord info g).storedTypes =
      (false, (enterRecord info g).storedTypes) := addType_false _ _ h
  rw [hadd]
  exact ⟨_, rfl, rfl⟩

theorem onStructOrClassEnter_stored (decl : RecordDecl) (g : Gen) :
    decl.info.loc ∈ (onStructOrClassEnter decl g).gen.storedTypes := by
  have h := (emit_grows _).1 decl (Nat.le_refl _) _ g (Grows.refl _)
  exact h.stored _ (addType_stored decl.info.loc _).2

theorem onTypedef_registered (decl : TypedefDecl) (g : Gen)
    (h : decl.info.loc ∈ g.storedTypes) :
    ∃ g1, onTypedef decl g = .ok g1 ∧ g1.out = g.out := by
  rcases decl with ⟨info, record⟩
  have hadd : addType info.loc g.storedTypes = (false, g.storedTypes) := addType_false _ _ h
  cases record with
  | none =>
    rw [onTypedef, hadd]
    exact ⟨_, rfl, rfl⟩
  | some rd =>
    rcases rd with ⟨rinfo, rds, rbs⟩
    rw [onTypedef, hadd]
    exact ⟨_, rfl, rfl⟩

theorem onTypedef_stored (decl : TypedefDecl) (g : Gen) :
    decl.info.loc ∈ (onTypedef decl g).gen.storedTypes := by
  have h := (emit_grows _).2.2 decl (Nat.le_refl _) _ g (Grows.refl _)
  exact h.stored _ (addType_stored decl.info.loc _).2

/-- C4. For each of `onStructOrClassEnter`, `onEnum`, `onFunction`,
`onTypedef` and `onGlobalVar`: a call for a declaration whose identity is in
the registry of the operation appends nothing to the output; a call leaves
the identity in that registry; hence a second call for the same declaration
appends nothing. -/
theorem reemit_appends_nothing :
    (∀ (decl : RecordDecl) (g : Gen),
      (decl.info.loc ∈ g.storedTypes →
        ∃ g1, onStructOrClassEnter decl g = .ok g1 ∧ g1.out = g.out)
      ∧ decl.info.loc ∈ (onStructOrClassEnter decl g).gen.storedTypes
      ∧ (∀ g1, onStructOrClassEnter decl g = .ok g1 →
          ∃ g2, onStructOrClassEnter decl g1 = .ok g2 ∧ g2.out = g1.out))
    ∧ (∀ (decl : EnumDecl) (g : Gen),
      (decl.loc ∈ g.enumDecls → (onEnum decl g).out = g.out)
      ∧ decl.loc ∈ (onEnum decl g).enumDecls
      ∧ (onEnum decl (onEnum decl g)).out = (onEnum decl g).out)
    ∧ (∀ (decl : FunctionDecl) (g : Gen),
      (decl.loc ∈ g.functionDecls → (onFunction decl g).out = g.out)
      ∧ decl.loc ∈ (onFunction decl g).functionDecls
      ∧ (onFunction decl (onFunction decl g)).out = (onFunction decl g).out)
    ∧ (∀ (decl : TypedefDecl) (g : Gen),
      (decl.info.loc ∈ g.storedTypes → ∃ g1, onTypedef decl g = .ok g1 ∧ g1.out = g.out)
      ∧ decl.info.loc ∈ (onTypedef decl g).gen.storedTypes
      ∧ (∀ g1, onTypedef decl g = .ok g1 →
          ∃ g2, onTypedef decl g1 = .ok g2 ∧ g2.out = g1.out))
    ∧ (∀ (decl : VarDecl) (g : Gen),
      (decl.loc ∈ g.storedTypes → (onGlobalVar decl g).out = g.out)
      ∧ decl.loc ∈ (onGlobalVar decl g).storedTypes
      ∧ (onGlobalVar decl (onGlobalVar decl g)).out = (onGlobalVar decl g).out) := by
  refine ⟨?_, ?_, ?_, ?_, ?_⟩
  · intro decl g
    refine ⟨onStructOrClassEnter_registered decl g, onStructOrClassEnter_stored decl g, ?_⟩
    intro g1 h1
    have := onStructOrClassEnter_stored decl g
    rw [h1] at this
    exact onStructOrClassEnter_registered decl g1 this
  · intro decl g
    have hm : decl.loc ∈ (onEnum decl g).enumDecls := by
      rw [onEnum_enumDecls]
      exact (addType_stored _ _).2
    exact ⟨onEnum_registered decl g, hm, onEnum_registered decl _ hm⟩
  · intro decl g
    have hm : decl.loc ∈ (onFunction decl g).functionDecls := by
      rw [onFunction_functionDecls]
      exact (addType_stored _ _).2
    exact ⟨onFunction_registered decl g, hm, onFunction_registered decl _ hm⟩
  · intro decl g
    refine ⟨onTypedef_registered decl g, onTypedef_stored decl g, ?_⟩
    intro g1 h1
    have := onTypedef_stored decl g
    rw [h1] at this
    exact onTypedef_registered decl g1 this
  · intro decl g
    have hm : decl.loc ∈ (onGlobalVar decl g).storedTypes := by
      rw [onGlobalVar_storedTypes]
      exact (addType_stored _ _).2
    exact ⟨onGlobalVar_registered decl g, hm, onGlobalVar_registered decl _ hm⟩

theorem reemit_appends_nothing_witness :
    (∃ g2, onStructOrClassEnter pointRecord (onStructOrClassEnter pointRecord initialGen).gen
        = .ok g2 ∧ g2.out = (onStructOrClassEnter pointRecord initialGen).gen.out)
    ∧ (onEnum colorEnum (onEnum colorEnum initialGen)).out = (onEnum colorEnum initialGen).out :=
  ⟨(reemit_appends_nothing.1 pointRecord
      (onStructOrClassEnter pointRecord initialGen).gen).1
      (reemit_appends_nothing.1 pointRecord initialGen).2.1,
   (reemit_appends_nothing.2.1 colorEnum (onEnum colorEnum initialGen)).1
      (reemit_appends_nothing.2.1 colorEnum initialGen).2.1⟩

end Gentool
namespace Gentool

theorem resolvedFieldName_eq (ren : Renames) (it : FieldDecl) (name : String)
    (h : fieldName it (toDStyle ren it.type) = .ok name) : resolvedFieldName ren it = name := by
  unfold resolvedFieldName
  rw [h]

theorem namingSucceeds_name (ren : Renames) (it : FieldDecl) (h : namingSucceeds ren it = true) :
    ∃ name, fieldName it (toDStyle ren it.type) = .ok name := by
  unfold namingSucceeds at h
  cases hn : fieldName it (toDStyle ren it.type) with
  | ok name => exact ⟨name, rfl⟩
  | error e =>
    rw [hn] at h
    exact absurd h (by simp)

/-- A round of the loop for a bit-field whose naming succeeds. -/
theorem fieldStep_bitfield (isClass : Bool) (it : FieldDecl) (g : Gen)
    (hb : it.isBitField = true) (hn : namingSucceeds g.renames it = true) :
    fieldStep isClass it g = .ok { g with
      out := g.out ++ ((if g.isPrevIsBitfield then "," ++ "\n" else "mixin(bitfields!(" ++ "\n")
        ++ bitfieldEntry g.renames it),
      accumBitFieldWidth := g.accumBitFieldWidth + it.bitWidthValue,
      isPrevIsBitfield := true } := by
  obtain ⟨name, hname⟩ := namingSucceeds_name _ _ hn
  unfold fieldStep closeBitfieldRun writeField bitfieldEntry
  rw [resolvedFieldName_eq _ _ _ hname]
  cases hp : g.isPrevIsBitfield <;>
    simp [hb, hp, Res.andThen, Gen.write, hname, String.append_assoc]

/-- A round of the loop for a member that is no bit-field and follows a
bit-field, when the padding is defined. -/
theorem fieldStep_close (isClass : Bool) (it : FieldDecl) (g : Gen) (pad : String)
    (hb : it.isBitField = false) (hp : g.isPrevIsBitfield = true)
    (hpad : bitfieldPadding g.accumBitFieldWidth = some pad)
    (hn : namingSucceeds g.renames it = true) :
    fieldStep isClass it g = .ok { g with
      out := g.out ++ (("," ++ "\n") ++ pad ++ ("));" ++ "\n") ++ fieldLine g.renames isClass it),
      accumBitFieldWidth := 0,
      isPrevIsBitfield := false } := by
  obtain ⟨name, hname⟩ := namingSucceeds_name _ _ hn
  unfold fieldStep closeBitfieldRun writeField fieldLine
  rw [resolvedFieldName_eq _ _ _ hname]
  simp [hb, hp, Res.andThen, Gen.write, hname, hpad, String.append_assoc]

/-- A round of the loop for a member that is no bit-field and follows a
bit-field, when the padding is defined and the naming step throws: the group
is closed before. -/
theorem fieldStep_close_unnamed (isClass : Bool) (it : FieldDecl) (g : Gen) (pad : String)
    (hb : it.isBitField = false) (hp : g.isPrevIsBitfield = true)
    (hpad : bitfieldPadding g.accumBitFieldWidth = some pad)
    (hn : namingSucceeds g.renames it = false) :
    ∃ e, fieldStep isClass it g = .fault e { g with
      out := g.out ++ (("," ++ "\n") ++ pad ++ ("));" ++ "\n")),
      accumBitFieldWidth := 0 } := by
  unfold namingSucceeds at hn
  cases hname : fieldName it (toDStyle g.renames it.type) with
  | ok name =>
    rw [hname] at hn
    exact absurd hn (by simp)
  | error e =>
    refine ⟨e, ?_⟩
    unfold fieldStep closeBitfieldRun writeField
    simp [hb, hp, Res.andThen, Gen.write, hname, hpad, String.append_assoc]

/-- A round of the loop for a member that is no bit-field and follows a
bit-field, when the accumulated width is beyond 64 and no multiple of 8. -/
theorem fieldStep_close_fault (isClass : Bool) (it : FieldDecl) (g : Gen)
    (hb : it.isBitField = false) (hp : g.isPrevIsBitfield = true)
    (hpad : bitfieldPadding g.accumBitFieldWidth = none) :
    fieldStep isClass it g =
      .fault "Assertion `0 && \"Split it up already!\"' failed." (g.write ("," ++ "\n")) := by
  unfold fieldStep closeBitfieldRun
  simp [hb, hp, Res.andThen, Gen.write, hpad]

/-- A round of the loop for a member that is no bit-field and follows none. -/
theorem fieldStep_plain (isClass : Bool) (it : FieldDecl) (g : Gen)
    (hb : it.isBitField = false) (hp : g.isPrevIsBitfield = false)
    (hn : namingSucceeds g.renames it = true) :
    fieldStep isClass it g = .ok { g with
      out := g.out ++ fieldLine g.renames isClass it,
      isPrevIsBitfield := false } := by
  obtain ⟨name, hname⟩ := namingSucceeds_name _ _ hn
  unfold fieldStep closeBitfieldRun writeField fieldLine
  rw [resolvedFieldName_eq _ _ _ hname]
  simp [hb, hp, Res.andThen, Gen.write, hname]

end Gentool
namespace Gentool

theorem fieldLoop_append (isClass : Bool) (xs ys : List FieldDecl) (g : Gen) :
    fieldLoop isClass (xs ++ ys) g = (fieldLoop isClass xs g).andThen (fieldLoop isClass ys) := by
  induction xs generalizing g with
  | nil => rfl
  | cons x xs ih =>
    simp only [List.cons_append, fieldLoop]
    cases h : fieldStep isClass x g with
    | ok g1 => exact ih g1
    | fault d g1 => rfl

/-- The loop over a run of bit-fields whose naming succeeds. -/
theorem fieldLoop_run (isClass : Bool) (run : List FieldDecl) (g : Gen)
    (hrun : ∀ it ∈ run, it.isBitField = true ∧ namingSucceeds g.renames it = true) :
    fieldLoop isClass run g = .ok { g with
      out := g.out ++ runText g.renames g.isPrevIsBitfield run,
      accumBitFieldWidth := g.accumBitFieldWidth + runWidth run,
      isPrevIsBitfield := g.isPrevIsBitfield || !run.isEmpty } := by
  induction run generalizing g with
  | nil => simp [fieldLoop, runText, runWidth]
  | cons it rest ih =>
    have h1 := hrun it (List.mem_cons_self _ _)
    rw [fieldLoop, fieldStep_bitfield isClass it g h1.1 h1.2]
    simp only [Res.andThen]
    rw [ih]
    · simp [runText, runWidth, String.append_assoc, Nat.add_assoc]
    · intro x hx
      exact hrun x (List.mem_cons_of_mem _ hx)

theorem runText_false (ren : Renames) (run : List FieldDecl) (h : run ≠ []) :
    runText ren false run = ("mixin(bitfields!(" ++ "\n") ++ runEntries ren run := by
  have key : ∀ (it : FieldDecl) (rest : List FieldDecl),
      bitfieldEntry ren it ++ runText ren true rest = runEntries ren (it :: rest) := by
    intro it rest
    induction rest generalizing it with
    | nil => simp [runText, runEntries]
    | cons x xs ih =>
      rw [runText, runEntries, ← ih x]
      simp [String.append_assoc]
  cases run with
  | nil => exact absurd rfl h
  | cons it rest =>
    rw [runText, ← key it rest]
    simp [String.append_assoc]

end Gentool
namespace Gentool

/-- While no group is open the accumulated width is zero: a round of the loop
keeps it so. -/
theorem fieldStep_accum (isClass : Bool) (it : FieldDecl) (g g1 : Gen)
    (hinv : g.isPrevIsBitfield = false → g.accumBitFieldWidth = 0)
    (h : fieldStep isClass it g = .ok g1) :
    g1.isPrevIsBitfield = false → g1.accumBitFieldWidth = 0 := by
  unfold fieldStep closeBitfieldRun writeField at h
  cases hb : it.isBitField <;> cases hp : g.isPrevIsBitfield <;>
    cases hname : fieldName it (toDStyle g.renames it.type) <;>
    cases hpad : bitfieldPadding g.accumBitFieldWidth <;>
    simp [hb, hp, Res.andThen, Gen.write, hname, hpad] at h <;>
    subst h <;> simp [hinv, hp]

theorem fieldLoop_accum (isClass : Bool) (fields : List FieldDecl) (g g1 : Gen)
    (hinv : g.isPrevIsBitfield = false → g.accumBitFieldWidth = 0)
    (h : fieldLoop isClass fields g = .ok g1) :
    g1.isPrevIsBitfield = false → g1.accumBitFieldWidth = 0 := by
  induction fields generalizing g with
  | nil =>
    simp only [fieldLoop, Res.ok.injEq] at h
    subst h
    exact hinv
  | cons it rest ih =>
    rw [fieldLoop] at h
    cases hs : fieldStep isClass it g with
    | ok g2 =>
      rw [hs] at h
      exact ih g2 (fieldStep_accum isClass it g g2 hinv hs) h
    | fault d g2 =>
      rw [hs] at h
      exact absurd h (by simp [Res.andThen])

end Gentool
namespace Gentool

theorem fieldIterate_eq (isClass : Bool) (fields : List FieldDecl) (g : Gen) :
    fieldIterate isClass fields g =
      (fieldLoop isClass fields (fieldIterateStart g)).andThen closeLastRun := rfl

theorem bitfieldPadding_multiple (w : Nat) (h : w % 8 = 0) : bitfieldPadding w = some "" := by
  unfold bitfieldPadding
  simp [h]

theorem bitfieldPadding_boundary (w b : Nat) (h64 : w ≤ 64) (hmod : w % 8 ≠ 0)
    (hb : leastBoundary b w) :
    bitfieldPadding w = some ("uint, \"\", " ++ toString (b - w)) := by
  obtain ⟨hmem, hle, hleast⟩ := hb
  have h8 := hleast 8 (by simp)
  have h16 := hleast 16 (by simp)
  have h32 := hleast 32 (by simp)
  simp only [List.mem_cons, List.mem_singleton, List.not_mem_nil, or_false] at hmem
  unfold bitfieldPadding
  rw [if_pos hmod]
  by_cases c8 : w ≤ 8
  · rw [if_pos c8]
    have : b = 8 := by have := h8 c8; omega
    rw [this]
  · rw [if_neg c8]
    by_cases c16 : w ≤ 16
    · rw [if_pos c16]
      have : b = 16 := by have := h16 c16; omega
      rw [this]
    · rw [if_neg c16]
      by_cases c32 : w ≤ 32
      · rw [if_pos c32]
        have : b = 32 := by have := h32 c32; omega
        rw [this]
      · rw [if_neg c32, if_pos h64]
        have : b = 64 := by omega
        rw [this]

theorem bitfieldPadding_beyond (w : Nat) (h64 : 64 < w) (hmod : w % 8 ≠ 0) :
    bitfieldPadding w = none := by
  unfold bitfieldPadding
  rw [if_pos hmod, if_neg (by omega), if_neg (by omega), if_neg (by omega), if_neg (by omega)]

theorem Res.andThen_ok (g : Gen) (f : Gen → Res) : (Res.ok g).andThen f = f g := rfl

theorem Res.andThen_fault (d : String) (g : Gen) (f : Gen → Res) :
    (Res.fault d g).andThen f = .fault d g := rfl

/-- The state of the loop after a run of bit-fields that starts a group. -/
theorem fieldLoop_run_start (isClass : Bool) (run : List FieldDecl) (g : Gen)
    (hstart : g.isPrevIsBitfield = false) (hacc : g.accumBitFieldWidth = 0) (hne : run ≠ [])
    (hrun : ∀ it ∈ run, it.isBitField = true ∧ namingSucceeds g.renames it = true) :
    ∃ g2, fieldLoop isClass run g = .ok g2 ∧
      g2.out = g.out ++ (("mixin(bitfields!(" ++ "\n") ++ runEntries g.renames run) ∧
      g2.accumBitFieldWidth = runWidth run ∧ g2.isPrevIsBitfield = true ∧
      g2.renames = g.renames := by
  refine ⟨_, fieldLoop_run isClass run g hrun, ?_, ?_, ?_, rfl⟩
  · simp only [hstart, runText_false _ _ hne]
  · simp only [hacc, Nat.zero_add]
  · cases run with
    | nil => exact absurd rfl hne
    | cons it rest => simp

/-- What follows a state of the loop only adds to its output. -/
theorem fieldLoop_rest (isClass : Bool) (post : List FieldDecl) (g : Gen) (text : String)
    (hg : g.out = text) :
    ∃ rest, ((fieldLoop isClass post g).andThen closeLastRun).gen.out = text ++ rest := by
  have h : Grows g ((fieldLoop isClass post g).andThen closeLastRun).gen := by
    apply Grows.andThen (fieldLoop_grows isClass post (Grows.refl g))
    intro g1 h1
    unfold closeLastRun
    by_cases hp : g1.isPrevIsBitfield = true
    · rw [if_pos hp]
      exact h1.write _
    · rw [if_neg hp]
      exact h1
  rw [← hg]
  exact h.out

/-- A run of bit-fields that a member which is no bit-field closes: the group
as `fieldIterate` writes it, for the padding `pad` of the accumulated width. -/
theorem fieldIterate_closed_run (isClass : Bool) (pre run post : List FieldDecl)
    (closing : FieldDecl) (g g1 : Gen) (pad : String)
    (hpre : fieldLoop isClass pre (fieldIterateStart g) = .ok g1)
    (hstart : g1.isPrevIsBitfield = false) (hne : run ≠ [])
    (hrun : ∀ it ∈ run, it.isBitField = true ∧ namingSucceeds g1.renames it = true)
    (hclosing : closing.isBitField = false)
    (hpad : bitfieldPadding (runWidth run) = some pad) :
    ∃ rest, (fieldIterate isClass (pre ++ run ++ closing :: post) g).gen.out =
      g1.out ++ (("mixin(bitfields!(" ++ "\n") ++ runEntries g1.renames run ++ ("," ++ "\n") ++
        pad ++ ("));" ++ "\n")) ++ rest := by
  have hacc : g1.accumBitFieldWidth = 0 :=
    fieldLoop_accum isClass pre (fieldIterateStart g) g1 (fun _ => rfl) hpre hstart
  obtain ⟨g2, h2, ho, ha, hp, hr⟩ := fieldLoop_run_start isClass run g1 hstart hacc hne hrun
  rw [fieldIterate_eq, List.append_assoc, fieldLoop_append, hpre, Res.andThen_ok,
    fieldLoop_append, h2, Res.andThen_ok, fieldLoop]
  cases hn : namingSucceeds g2.renames closing with
  | true =>
    rw [fieldStep_close isClass closing g2 pad hclosing hp (ha ▸ hpad) hn, Res.andThen_ok]
    obtain ⟨rest, hrest⟩ := fieldLoop_rest isClass post _ _ rfl
    refine ⟨fieldLine g2.renames isClass closing ++ rest, ?_⟩
    rw [hrest]
    simp only [ho, hr, String.append_assoc]
  | false =>
    obtain ⟨e, he⟩ := fieldStep_close_unnamed isClass closing g2 pad hclosing hp (ha ▸ hpad) hn
    rw [he]
    refine ⟨"", ?_⟩
    simp [Res.andThen, Res.gen, ho, hr, String.append_assoc]

/-- A run of bit-fields that a member which is no bit-field closes, when the
naming step succeeds for the member: its line follows the group. -/
theorem fieldIterate_closed_run_line (isClass : Bool) (pre run post : List FieldDecl)
    (closing : FieldDecl) (g g1 : Gen) (pad : String)
    (hpre : fieldLoop isClass pre (fieldIterateStart g) = .ok g1)
    (hstart : g1.isPrevIsBitfield = false) (hne : run ≠ [])
    (hrun : ∀ it ∈ run, it.isBitField = true ∧ namingSucceeds g1.renames it = true)
    (hclosing : closing.isBitField = false ∧ namingSucceeds g1.renames closing = true)
    (hpad : bitfieldPadding (runWidth run) = some pad) :
    ∃ rest, (fieldIterate isClass (pre ++ run ++ closing :: post) g).gen.out =
      g1.out ++ (("mixin(bitfields!(" ++ "\n") ++ runEntries g1.renames run ++ ("," ++ "\n") ++
        pad ++ ("));" ++ "\n") ++ fieldLine g1.renames isClass closing) ++ rest := by
  have hacc : g1.accumBitFieldWidth = 0 :=
    fieldLoop_accum isClass pre (fieldIterateStart g) g1 (fun _ => rfl) hpre hstart
  obtain ⟨g2, h2, ho, ha, hp, hr⟩ := fieldLoop_run_start isClass run g1 hstart hacc hne hrun
  rw [fieldIterate_eq, List.append_assoc, fieldLoop_append, hpre, Res.andThen_ok,
    fieldLoop_append, h2, Res.andThen_ok, fieldLoop,
    fieldStep_close isClass closing g2 pad hclosing.1 hp (ha ▸ hpad) (hr ▸ hclosing.2),
    Res.andThen_ok]
  apply fieldLoop_rest
  simp only [ho, hr, String.append_assoc]

/-- A run of bit-fields that ends the field list: the group as `fieldIterate`
writes it. -/
theorem fieldIterate_last_run (isClass : Bool) (pre run : List FieldDecl) (g g1 : Gen)
    (hpre : fieldLoop isClass pre (fieldIterateStart g) = .ok g1)
    (hstart : g1.isPrevIsBitfield = false) (hne : run ≠ [])
    (hrun : ∀ it ∈ run, it.isBitField = true ∧ namingSucceeds g1.renames it = true) :
    (fieldIterate isClass (pre ++ run) g).isOk = true ∧
    (fieldIterate isClass (pre ++ run) g).gen.out =
      g1.out ++ (("mixin(bitfields!(" ++ "\n") ++ runEntries g1.renames run ++ ("));" ++ "\n")) := by
  have hacc : g1.accumBitFieldWidth = 0 :=
    fieldLoop_accum isClass pre (fieldIterateStart g) g1 (fun _ => rfl) hpre hstart
  obtain ⟨g2, h2, ho, _, hp, _⟩ := fieldLoop_run_start isClass run g1 hstart hacc hne hrun
  rw [fieldIterate_eq, fieldLoop_append, hpre, Res.andThen_ok, h2, Res.andThen_ok]
  unfold closeLastRun
  rw [if_pos hp]
  simp [Res.isOk, Res.gen, Gen.write, ho, String.append_assoc]

/-- A run of bit-fields wider than 64 bits and no multiple of 8 that a member
which is no bit-field closes: the run stops at the failed assertion. -/
theorem fieldIterate_run_fault (isClass : Bool) (pre run post : List FieldDecl)
    (closing : FieldDecl) (g g1 : Gen)
    (hpre : fieldLoop isClass pre (fieldIterateStart g) = .ok g1)
    (hstart : g1.isPrevIsBitfield = false) (hne : run ≠ [])
    (hrun : ∀ it ∈ run, it.isBitField = true ∧ namingSucceeds g1.renames it = true)
    (hclosing : closing.isBitField = false)
    (hpad : bitfieldPadding (runWidth run) = none) :
    ∃ g2, fieldIterate isClass (pre ++ run ++ closing :: post) g =
        .fault "Assertion `0 && \"Split it up already!\"' failed." g2 ∧
      g2.out =
        g1.out ++ (("mixin(bitfields!(" ++ "\n") ++ runEntries g1.renames run ++ ("," ++ "\n")) := by
  have hacc : g1.accumBitFieldWidth = 0 :=
    fieldLoop_accum isClass pre (fieldIterateStart g) g1 (fun _ => rfl) hpre hstart
  obtain ⟨g2, h2, ho, ha, hp, _⟩ := fieldLoop_run_start isClass run g1 hstart hacc hne hrun
  rw [fieldIterate_eq, List.append_assoc, fieldLoop_append, hpre, Res.andThen_ok,
    fieldLoop_append, h2, Res.andThen_ok, fieldLoop,
    fieldStep_close_fault isClass closing g2 hclosing hp (ha ▸ hpad)]
  refine ⟨_, rfl, ?_⟩
  simp [Gen.write, ho, String.append_assoc]

end Gentool
namespace Gentool

theorem append_rest (p a b c d x : String) (h : p = x) :
    ∃ rest, p ++ a ++ b ++ c ++ d = x ++ rest :=
  ⟨a ++ (b ++ (c ++ d)), by subst h; simp only [String.append_assoc]⟩

theorem customMangle_iff (op : OverloadedOperatorKind) (psize : Nat) :
    (getOperatorName op psize).2.2 = true ↔ op ∈ customMangleOperators := by
  cases op <;> simp [getOperatorName, customMangleOperators]

/-- The name of an operator bound to a symbol is what stands before the first
parenthesis of its name with template arguments. -/
theorem operatorName_beforeParen (op : OverloadedOperatorKind) (psize : Nat)
    (hop : op ∈ customMangleOperators) :
    String.mk (List.take
      ((find ((getOperatorName op psize).1 ++ "(" ++ (getOperatorName op psize).2.1 ++ ")")
        "(").getD
        ((getOperatorName op psize).1 ++ "(" ++ (getOperatorName op psize).2.1 ++ ")").data.length)
      ((getOperatorName op psize).1 ++ "(" ++ (getOperatorName op psize).2.1 ++ ")").data) =
      (getOperatorName op psize).1 := by
  simp only [customMangleOperators, List.mem_cons, List.mem_singleton, List.not_mem_nil,
    or_false] at hop
  rcases hop with h | h | h | h | h | h | h | h <;> subst h <;>
    simp only [getOperatorName] <;> decide!

/-- The text of a method that is an operator bound to a symbol starts with the
line of the binding. -/
theorem methodText_pragma (env : MethodEnv) (m : CXXMethodDecl)
    (hop : m.overloadedOperator ∈ customMangleOperators) (hkind : m.kind = .method)
    (hskip : isSkipped env m = false) :
    ∃ rest, methodText env m = manglePragma env m ++ rest := by
  unfold isSkipped at hskip
  rw [Bool.or_eq_false_iff] at hskip
  obtain ⟨h1, h2⟩ := hskip
  unfold methodText
  simp only [h1, h2, Bool.false_eq_true, if_false]
  apply append_rest
  unfold manglePragma
  have hops : m.isOverloadedOperator = true := by
    unfold CXXMethodDecl.isOverloadedOperator
    revert hop
    cases m.overloadedOperator <;> simp [customMangleOperators]
  have hcm : (getOperatorName m.overloadedOperator m.params.length).2.2 = true :=
    (customMangle_iff _ _).2 hop
  simp only [hops, hcm, hkind, Bool.and_true, Bool.and_false, Bool.or_false, if_true,
    Bool.true_and, Bool.false_eq_true, if_false]
  rw [operatorName_beforeParen _ _ hop]
  cases env.msvcCompat <;> cases m.shouldMangle <;> cases m.isTemplated <;> simp

end Gentool
namespace Gentool

/-- C7, the code at the fields `unsigned a : 2; unsigned b : 3;
unsigned c : 2;` that end the field list of a struct: `fieldIterate` closes the
group right after the last entry and writes no padding entry, while the same
run followed by `int z;` gets the padding entry of width 1. -/
theorem last_bitfield_run_left_unpadded :
    (fieldIterate false sevenBitRun initialGen).isOk = true ∧
    (fieldIterate false sevenBitRun initialGen).gen.out =
      "mixin(bitfields!(\nuint, \"a\", 2,\nuint, \"b\", 3,\nuint, \"c\", 2));\n" ∧
    countOccurrences paddingEntry.data
      (fieldIterate false sevenBitRun initialGen).gen.out.data = 0 ∧
    countOccurrences paddingEntry.data
      (fieldIterate false (sevenBitRun ++ [intField "z"]) initialGen).gen.out.data = 1 := by
  decide!

/-- C8, the code at two runs of bit-fields wider than 64 bits in a struct: the
run `unsigned a : 32; unsigned b : 32; unsigned c : 8;` of 72 bits followed by
`int z;` is closed without a stop, and so is the run `unsigned a : 32;
unsigned b : 32; unsigned c : 1;` of 65 bits that ends the field list; only
the run of 65 bits followed by `int z;` stops at the failed assertion. -/
theorem bitfield_run_beyond_64_not_rejected :
    runWidth seventyTwoBitRun = 72 ∧
    (fieldIterate false (seventyTwoBitRun ++ [intField "z"]) initialGen).isOk = true ∧
    (fieldIterate false (seventyTwoBitRun ++ [intField "z"]) initialGen).gen.out =
      "mixin(bitfields!(\nuint, \"a\", 32,\nuint, \"b\", 32,\nuint, \"c\", 8,\n));\n@cppsize(4) public int z;\n" ∧
    runWidth sixtyFiveBitRun = 65 ∧
    (fieldIterate false sixtyFiveBitRun initialGen).isOk = true ∧
    (fieldIterate false sixtyFiveBitRun initialGen).gen.out =
      "mixin(bitfields!(\nuint, \"a\", 32,\nuint, \"b\", 32,\nuint, \"c\", 1));\n" ∧
    (fieldIterate false (sixtyFiveBitRun ++ [intField "z"]) initialGen).isOk = false ∧
    (fieldIterate false (sixtyFiveBitRun ++ [intField "z"]) initialGen).gen.out =
      "mixin(bitfields!(\nuint, \"a\", 32,\nuint, \"b\", 32,\nuint, \"c\", 1,\n" := by
  decide!

end Gentool
namespace Gentool

/-- C9, the code at the member `Foo& operator=(int rhs);` of `struct Foo`:
the parameter is no reference to `Foo`, yet `idAssign` is set and the method is
written commented out, as the identity assignment
`Foo& operator=(const Foo& rhs);` is; `getAsRecordDecl()` is null for the
reference return type and for `int` alike. The assignment from a `Foo` by
value is written as a plain `opAssign`. -/
theorem assign_from_int_commented_out :
    idAssign assignFromInt = true ∧
    (methodIterate (fooRecord [assignFromInt]) initialGen).out =
      "// public ref Foo opAssign()(int rhs);\n\n" ∧
    (methodIterate (fooRecord [assignFromFoo]) initialGen).out =
      "// public ref Foo opAssign()(ref const(Foo) rhs);\n\n" ∧
    (methodIterate (fooRecord [assignFromFooByValue]) initialGen).out =
      "public ref Foo opAssign()(Foo rhs);\n\n" := by
  decide!

end Gentool
namespace Gentool

/-- C10 (amended): `getOperatorName` asks for a binding to the symbol
(`customMangle` true) exactly for the operators `&&`, `||`, `<`, `>`, `<=`,
`>=`, `!` and `!=`; `==` becomes `opEquals` and `->` becomes `opUnary` with
`string op : "->"`, both without it. For every method with one of the former
operators that `methodIterate` does not pass over, the text of the method
starts with the line of the binding: `pragma(mangle, "<mangled name>")` with
the mangled name of the front end, or, in MSVC compatibility mode, the
`@pyExtract` line with `pragma(mangle, nsgen.<record>_<name>.mangleof)`. -/
theorem direct_binding_operators (env : MethodEnv) (m : CXXMethodDecl)
    (hop : m.overloadedOperator ∈ customMangleOperators) (hkind : m.kind = .method)
    (hskip : isSkipped env m = false) :
    (∀ op psize, (getOperatorName op psize).2.2 = true ↔ op ∈ customMangleOperators) ∧
    (∀ psize, getOperatorName .OO_EqualEqual psize = ("opEquals", "", false)) ∧
    (∀ psize, getOperatorName .OO_Arrow psize = ("opUnary", "string op : \"->\"", false)) ∧
    ∃ rest, methodText env m = manglePragma env m ++ rest :=
  ⟨customMangle_iff, fun _ => rfl, fun _ => rfl, methodText_pragma env m hop hkind hskip⟩

/-- C10, at the member `bool operator<(const Foo& rhs);` of `struct Foo`. -/
theorem direct_binding_operators_witness :
    (∀ op psize, (getOperatorName op psize).2.2 = true ↔ op ∈ customMangleOperators) ∧
    (∀ psize, getOperatorName .OO_EqualEqual psize = ("opEquals", "", false)) ∧
    (∀ psize, getOperatorName .OO_Arrow psize = ("opUnary", "string op : \"->\"", false)) ∧
    ∃ rest, methodText fooEnv lessThanFoo = manglePragma fooEnv lessThanFoo ++ rest :=
  direct_binding_operators fooEnv lessThanFoo (by decide) rfl (by decide!)

/-- C10 fails as stated: for `==` and `->` the third component of
`getOperatorName` is false, and `methodIterate` writes the members
`bool operator==(const Foo& rhs);` and `Foo* operator->();` of `struct Foo`
without a `pragma(mangle, ...)` line, while `bool operator<(const Foo& rhs);`
gets one. -/
theorem equality_and_arrow_counterexample :
    (getOperatorName .OO_EqualEqual 1).2.2 = false ∧
    (getOperatorName .OO_Arrow 0).2.2 = false ∧
    (methodIterate (fooRecord [equalsFoo]) initialGen).out =
      "public bool opEquals()(ref const(Foo) rhs);\n\n" ∧
    (methodIterate (fooRecord [arrowFoo]) initialGen).out =
      "public Foo* opUnary(string op : \"->\")();\n\n" ∧
    (methodIterate (fooRecord [lessThanFoo]) initialGen).out =
      "pragma(mangle, \"_ZN3FooltERKS_\")\npublic bool op_lt()(ref const(Foo) rhs);\n\n" := by
  decide!

end Gentool
namespace Gentool

/-- The eleven arithmetic, bitwise and increment or decrement operators that
are cases of the switch of `getOperatorName` give the generic form. -/
theorem getOperatorName_generic (op : OverloadedOperatorKind) (psize : Nat)
    (hop : op ∈ arithmeticOperators) (h1 : op ≠ .OO_LessLess) (h2 : op ≠ .OO_GreaterGreater) :
    getOperatorName op psize = genericOperatorForm op psize := by
  simp only [arithmeticOperators, List.mem_cons, List.mem_singleton, List.not_mem_nil,
    or_false] at hop
  rcases hop with h | h | h | h | h | h | h | h | h | h | h | h | h <;> subst h <;>
    first
    | exact absurd rfl h1
    | exact absurd rfl h2
    | (by_cases hp : psize = 1 <;>
        simp [getOperatorName, genericOperatorForm, getOperatorSpelling, hp])

/-- C11, the code at the operators `<<` and `>>`: they are no case of the
switch of `getOperatorName` and fall to its default, the name `op` with the
bare symbol as argument text, whatever the number of parameters; the member
`Foo operator<<(int rhs);` of `struct Foo` is written as `op(<<)`, while
`Foo operator+(int rhs);` is written as `opBinary(string op : "+")`, `+` being
a case of the switch that gives the generic form. -/
theorem shift_operators_fall_to_default :
    (∀ psize, getOperatorName .OO_LessLess psize = ("op", "<<", false)) ∧
    (∀ psize, getOperatorName .OO_GreaterGreater psize = ("op", ">>", false)) ∧
    getOperatorName .OO_LessLess 1 ≠ genericOperatorForm .OO_LessLess 1 ∧
    getOperatorName .OO_GreaterGreater 1 ≠ genericOperatorForm .OO_GreaterGreater 1 ∧
    (methodIterate (fooRecord [shiftLeftFoo]) initialGen).out =
      "public Foo op(<<)(int rhs);\n\n" ∧
    (methodIterate (fooRecord [plusFoo]) initialGen).out =
      "public Foo opBinary(string op : \"+\")(int rhs);\n\n" ∧
    (∀ psize, getOperatorName .OO_Plus psize = genericOperatorForm .OO_Plus psize) := by
  refine ⟨fun _ => rfl, fun _ => rfl, by decide!, by decide!, by decide!, by decide!, ?_⟩
  intro psize
  exact getOperatorName_generic _ psize (by decide) (by decide) (by decide)

theorem sanitizedIdentifier_mem (id : String) (h : id ∈ reservedIdentifiers) :
    sanitizedIdentifier id = id ++ "_" := by
  simp [sanitizedIdentifier, h]

theorem sanitizedIdentifier_not_mem (id : String) (h : id ∉ reservedIdentifiers) :
    sanitizedIdentifier id = id := by
  simp [sanitizedIdentifier, h]

theorem append_marker_ne (s : String) : s ++ "_" ≠ s := by
  intro he
  have h := congrArg String.length he
  rw [String.length_append] at h
  have h1 : "_".length = 1 := rfl
  omega

theorem reserved_marked_not_reserved :
    ∀ w ∈ reservedIdentifiers, (w ++ "_") ∉ reservedIdentifiers := by
  decide!

/-- C14: `sanitizedIdentifier(id)` is `id` with one `_` appended when `id` is
one of the reserved identifiers of the list, and `id` for every other string;
the list of the code is the list of the specification. -/
theorem sanitizedIdentifier_reserved (id : String) :
    reservedIdentifiers = reservedWords ∧
    (id ∈ reservedWords → sanitizedIdentifier id = id ++ "_") ∧
    (id ∉ reservedWords → sanitizedIdentifier id = id) :=
  ⟨rfl, sanitizedIdentifier_mem id, sanitizedIdentifier_not_mem id⟩

/-- C14, at the reserved identifier `version` and at the identifier `width`. -/
theorem sanitizedIdentifier_reserved_witness :
    sanitizedIdentifier "version" = "version" ++ "_" ∧ sanitizedIdentifier "width" = "width" :=
  ⟨(sanitizedIdentifier_reserved "version").2.1 (by decide),
   (sanitizedIdentifier_reserved "width").2.2 (by decide)⟩

/-- C15: `sanitizedIdentifier` is idempotent, and its result is never one of
the reserved identifiers; for any string, to be left as it is by
`sanitizedIdentifier` is to be none of the reserved identifiers, so that each of
the two says the same as the other. -/
theorem sanitizedIdentifier_idempotent (id : String) :
    sanitizedIdentifier (sanitizedIdentifier id) = sanitizedIdentifier id ∧
    sanitizedIdentifier id ∉ reservedIdentifiers ∧
    (∀ s : String, sanitizedIdentifier s = s ↔ s ∉ reservedIdentifiers) := by
  have hfix : ∀ s : String, sanitizedIdentifier s = s ↔ s ∉ reservedIdentifiers := by
    intro s
    constructor
    · intro he hm
      rw [sanitizedIdentifier_mem s hm] at he
      exact append_marker_ne s he
    · exact sanitizedIdentifier_not_mem s
  have hnot : sanitizedIdentifier id ∉ reservedIdentifiers := by
    by_cases h : id ∈ reservedIdentifiers
    · rw [sanitizedIdentifier_mem id h]
      exact reserved_marked_not_reserved id h
    · rw [sanitizedIdentifier_not_mem id h]
      exact h
  exact ⟨(hfix _).2 hnot, hnot, hfix⟩

end Gentool
namespace Gentool

theorem replaceScope_toDStyle (ren : Renames) (type : QualType) :
    replaceScope (toDStyle ren type) = toDStyle ren type :=
  replaceScope_of_none _ (toDStyle_noScope ren type)

theorem toDStyle_array (ren : Renames) (c : Bool) (e : QualType) :
    toDStyle ren (.mk c (.array e)) = toDStyle ren e := by
  rw [toDStyle, toDStyleTy]
  exact replaceScope_toDStyle ren e

/-- C16, the code at an array without bound: `toDStyle` returns the rendering
of the element type alone, the `[]` it appends being overwritten; `int[]`
renders as `int`, while `int[4]` renders as `int[4]`. -/
theorem unbounded_array_loses_brackets :
    (∀ (ren : Renames) (c : Bool) (e : QualType),
      toDStyle ren (.mk c (.array e)) = toDStyle ren e) ∧
    toDStyle [] intOpenArray = "int" ∧
    toDStyle [] intOpenArray ≠ toDStyle [] intType ++ "[]" ∧
    toDStyle [] intArrayOfFour = "int[4]" := by
  refine ⟨toDStyle_array, by decide!, by decide!, by decide!⟩

end Gentool
namespace Gentool

/-- `::` occurs in `a ++ b`, when `b` does not start with a colon, exactly when
it occurs in `a` or in `b`. -/
theorem hasScope_append_guard : ∀ (a b : List Char), b.head? ≠ some ':' →
    hasScope (a ++ b) = (hasScope a || hasScope b) := by
  intro a
  induction a with
  | nil => intro b _; simp [hasScope]
  | cons x xs ih =>
    intro b hb
    show (x == ':' && (xs ++ b).head? == some ':' || hasScope (xs ++ b)) =
      ((x == ':' && xs.head? == some ':' || hasScope xs) || hasScope b)
    rw [ih b hb, Bool.or_assoc]
    congr 2
    cases xs with
    | nil =>
      have : (b.head? == some ':') = false := by simpa using hb
      simp [this]
    | cons y ys => rfl

theorem hasScope_string_false (s : String) : hasScope s.data = false ↔ rfind s "::" = none :=
  (rfind_none_iff s).symm

theorem toDStyle_hasScope (ren : Renames) (type : QualType) :
    hasScope (toDStyle ren type).data = false :=
  (rfind_none_iff _).1 (toDStyle_noScope ren type)

/-- The loop of `toDStyle` over the parameter types joins their renderings
with `, `. -/
theorem toDStyleParams_commaJoined (ren : Renames) : ∀ (ps : List QualType),
    toDStyleParams ren ps ps.length = commaJoined (ps.map (toDStyle ren)) := by
  intro ps
  induction ps with
  | nil => rfl
  | cons p rest ih =>
    cases rest with
    | nil => simp [toDStyleParams, commaJoined]
    | cons q rest =>
      rw [toDStyleParams]
      have h : (q :: rest).length + 1 > 1 := by simp
      simp only [List.length_cons] at h ih ⊢
      rw [if_pos h]
      simp only [Nat.add_sub_cancel, ih, List.map_cons, commaJoined, String.append_assoc]

theorem commaJoined_hasScope : ∀ (xs : List String),
    (∀ x ∈ xs, hasScope x.data = false) → hasScope (commaJoined xs).data = false := by
  intro xs
  induction xs with
  | nil => intro _; rfl
  | cons a rest ih =>
    intro h
    cases rest with
    | nil => simpa [commaJoined] using h a (by simp)
    | cons b rest =>
      have ha := h a (by simp)
      have hr := ih (fun x hx => h x (by simp [hx]))
      simp only [commaJoined, String.data_append, List.append_assoc]
      rw [hasScope_append_guard _ _ (by simp), ha, Bool.false_or,
        hasScope_append_left _ _ (by decide)]
      exact hr

/-- C17: for every function prototype type with return type `R` and parameter
types `P1`..`Pn`, `toDStyle` returns the rendering of `R`, ` function(`, the
renderings of the parameter types in order with one `, ` between any two
neighbours and none in front or behind, and `)`; no parameter names. -/
theorem function_type_rendering (ren : Renames) (c : Bool) (ret : QualType)
    (ps : List QualType) :
    toDStyle ren (.mk c (.functionProto ret ps)) =
      toDStyle ren ret ++ " function(" ++ commaJoined (ps.map (toDStyle ren)) ++ ")" ∧
    toDStyle ren (.mk c (.functionProto ret [])) = toDStyle ren ret ++ " function(" ++ ")" ∧
    toDStyle [] sampleFunctionType = "int function(float, cpp_ulong)" := by
  have key : ∀ qs : List QualType, toDStyle ren (.mk c (.functionProto ret qs)) =
      toDStyle ren ret ++ " function(" ++ commaJoined (qs.map (toDStyle ren)) ++ ")" := by
    intro qs
    rw [toDStyle, toDStyleTy, toDStyleParams_commaJoined]
    apply replaceScope_of_none
    rw [rfind_none_iff]
    simp only [String.data_append, List.append_assoc]
    rw [hasScope_append_guard _ _ (by simp), toDStyle_hasScope, Bool.false_or,
      hasScope_append_left _ _ (by decide), hasScope_append_right _ _ (by decide)]
    apply commaJoined_hasScope
    intro x hx
    obtain ⟨q, _, rfl⟩ := List.mem_map.1 hx
    exact toDStyle_hasScope ren q
  refine ⟨key ps, ?_, by decide!⟩
  have := key []
  simpa [commaJoined] using this

end Gentool
namespace Gentool

theorem printTemplateArgs_succ : ∀ (args : List TemplateArgument) (i : Nat),
    printTemplateArgs args (i + 1) = String.join (args.map (fun a => ", " ++ a.print)) := by
  intro args
  induction args with
  | nil => intro i; rfl
  | cons a rest ih =>
    intro i
    rw [printTemplateArgs, ih, List.map_cons, join_cons]
    simp [String.append_assoc]

theorem commaJoined_cons (a : String) (rest : List String) :
    commaJoined (a :: rest) = a ++ String.join (rest.map (fun x => ", " ++ x)) := by
  induction rest generalizing a with
  | nil => simp [commaJoined, String.join]
  | cons b rest ih =>
    rw [commaJoined, ih b, List.map_cons, join_cons]
    simp [String.append_assoc]

/-- The loop of `toDStyle` over the arguments of a template specialization
joins what the front end prints for them with `, `. -/
theorem printTemplateArgs_commaJoined (args : List TemplateArgument) :
    printTemplateArgs args 0 = commaJoined (args.map TemplateArgument.print) := by
  cases args with
  | nil => rfl
  | cons a rest =>
    rw [printTemplateArgs, printTemplateArgs_succ, List.map_cons, commaJoined_cons]
    simp [List.map_map, Function.comp_def]

/-- The branch of `toDStyle` for a template specialization: the name, `!(`,
what the front end prints for the arguments joined with `, `, and `)`, with
`::` replaced by `.` in the whole. -/
theorem toDStyle_templateSpecialization (ren : Renames) (c : Bool) (name : String)
    (args : List TemplateArgument) (decl : Option RecordRef) (dependent : Bool) :
    toDStyle ren (.mk c (.templateSpecialization name args decl dependent)) =
      replaceScope (name ++ "!(" ++ commaJoined (args.map TemplateArgument.print) ++ ")") := by
  rw [toDStyle, toDStyleTy, printTemplateArgs_commaJoined]
  congr 1
  simp [String.append_assoc]

/-- C18, the code at a type argument of a template specialization: the branch
of `toDStyle` writes every argument, a type or a value alike, with the front
end's `TemplateArgument::print` and never calls `toDStyle` on a type argument.
For `MyArray<unsigned long, 3>` it returns `MyArray!(unsigned long, 3)`, while
`toDStyle` renders the type `unsigned long` as `cpp_ulong`, so the claimed
`MyArray!(cpp_ulong, 3)` is not returned. The sibling `writeTemplateArgs`
renders the same type argument with `toDStyle`, as `cpp_ulong`. -/
theorem template_type_argument_printed_untranslated :
    (∀ (ren : Renames) (c : Bool) (name : String) (args : List TemplateArgument)
        (decl : Option RecordRef) (dependent : Bool),
      toDStyle ren (.mk c (.templateSpecialization name args decl dependent)) =
        replaceScope (name ++ "!(" ++ commaJoined (args.map TemplateArgument.print) ++ ")")) ∧
    toDStyle [] myArrayOfUlong = "MyArray!(unsigned long, 3)" ∧
    toDStyle [] ulongType = "cpp_ulong" ∧
    toDStyle [] myArrayOfUlong ≠ "MyArray!(" ++ toDStyle [] ulongType ++ ", 3)" ∧
    writeTemplateArgs [] [.type ulongType "unsigned long"] true = "cpp_ulong" ∧
    writeTemplateArgs [] [.type ulongType "unsigned long"] true = toDStyle [] ulongType :=
  ⟨toDStyle_templateSpecialization, by decide!, by decide!, by decide!, by decide!, by decide!⟩

end Gentool
namespace Gentool

theorem rfindFrom_some_max (s pat : List Char) :
    ∀ n p, rfindFrom s pat n = some p →
      p ≤ n ∧ ∀ i, p < i → i ≤ n → pat.isPrefixOf (s.drop i) = false := by
  intro n
  induction n with
  | zero =>
    intro p h
    simp only [rfindFrom] at h
    split at h
    · simp only [Option.some.injEq] at h
      subst h
      exact ⟨Nat.le_refl _, fun i h1 h2 => absurd h1 (by omega)⟩
    · exact absurd h (by simp)
  | succ n ih =>
    intro p h
    simp only [rfindFrom] at h
    split at h
    · simp only [Option.some.injEq] at h
      subst h
      exact ⟨Nat.le_refl _, fun i h1 h2 => absurd h1 (by omega)⟩
    · rename_i hn
      obtain ⟨hp, hmax⟩ := ih p h
      refine ⟨by omega, fun i h1 h2 => ?_⟩
      by_cases hi : i = n + 1
      · subst hi
        cases hq : pat.isPrefixOf (List.drop (n + 1) s) with
        | false => rfl
        | true => exact absurd hq hn
      · exact hmax i h1 (by omega)

theorem hasScope_iff_occurs (l : List Char) : hasScope l = true ↔ [':', ':'] <:+: l := by
  constructor
  · intro h
    obtain ⟨i, _, hp⟩ := occurrence_of_hasScope l h
    have h1 : [':', ':'] <+: l.drop i := List.isPrefixOf_iff_prefix.mp hp
    exact h1.isInfix.trans (List.drop_suffix i l).isInfix
  · rintro ⟨s, t, rfl⟩
    apply hasScope_of_occurrence _ s.length
    simp [List.isPrefixOf_iff_prefix]

theorem hasScope_reverse (l : List Char) : hasScope l.reverse = hasScope l := by
  have h : hasScope l.reverse = true ↔ hasScope l = true := by
    rw [hasScope_iff_occurs, hasScope_iff_occurs]
    have h1 : ([':', ':'] : List Char).reverse <:+: l.reverse ↔ [':', ':'] <:+: l :=
      List.reverse_infix
    exact h1
  cases h1 : hasScope l.reverse <;> cases h2 : hasScope l <;> simp_all

theorem scopeToDotRev_cons (x : Char) (z : List Char)
    (h : ¬(x = ':' ∧ z.head? = some ':')) :
    scopeToDotRev (x :: z) = x :: scopeToDotRev z := by
  cases z with
  | nil => rfl
  | cons d rest =>
    rw [scopeToDotRev]
    have : ¬(x = ':' ∧ d = ':') := by simpa using h
    rw [if_neg this]

theorem scopeToDotRev_pair (rest : List Char) :
    scopeToDotRev (':' :: ':' :: rest) = '.' :: scopeToDotRev rest := by
  rw [scopeToDotRev]
  simp

/-- The replacement passes over a stretch without `::` that is not joined to
what follows by two colons. -/
theorem scopeToDotRev_append : ∀ (x y : List Char), hasScope x = false →
    (x.getLast? ≠ some ':' ∨ y.head? ≠ some ':') →
    scopeToDotRev (x ++ y) = x ++ scopeToDotRev y := by
  intro x
  induction x with
  | nil => intro y _ _; rfl
  | cons a xs ih =>
    intro y hx hb
    have hx' : (a == ':' && xs.head? == some ':' || hasScope xs) = false := hx
    rw [Bool.or_eq_false_iff] at hx'
    obtain ⟨h1, h2⟩ := hx'
    have hcons : ¬(a = ':' ∧ (xs ++ y).head? = some ':') := by
      rintro ⟨ha, hh⟩
      cases xs with
      | nil =>
        rcases hb with hb | hb
        · exact hb (by simp [ha])
        · exact hb (by simpa using hh)
      | cons d ds =>
        simp [ha] at h1
        simp at hh
        exact h1 hh
    have hb' : xs.getLast? ≠ some ':' ∨ y.head? ≠ some ':' := by
      cases xs with
      | nil => 
        by_cases hy : y.head? = some ':'
        · left; simp
        · right; exact hy
      | cons d ds =>
        rcases hb with hb | hb
        · left
          simpa [List.getLast?_cons_cons] using hb
        · right; exact hb
    rw [List.cons_append, scopeToDotRev_cons _ _ hcons, ih y h2 hb']
    rfl

/-- The text around the last `::`, which `rfind` finds: no `::` starts behind
its first colon. -/
theorem rfind_split (l : List Char) (p : Nat) (h : rfind ⟨l⟩ "::" = some p) :
    l = l.take p ++ ':' :: ':' :: l.drop (p + 2) ∧
    hasScope (l.drop (p + 2)) = false ∧ (l.drop (p + 2)).head? ≠ some ':' := by
  have hd : "::".data = [':', ':'] := rfl
  unfold rfind at h
  rw [hd] at h
  have hocc := rfindFrom_some_occurs _ _ _ _ h
  obtain ⟨_, hmax⟩ := rfindFrom_some_max _ _ _ _ h
  obtain ⟨t, ht⟩ := List.isPrefixOf_iff_prefix.mp hocc
  have hdrop : l.drop (p + 2) = t := by
    have : l.drop (p + 2) = (l.drop p).drop 2 := by rw [List.drop_drop]
    rw [this, ← ht]
    rfl
  have hsplit : l = l.take p ++ ':' :: ':' :: l.drop (p + 2) := by
    rw [hdrop]
    have := List.take_append_drop p l
    rw [← ht] at this
    exact this.symm
  have hrest : hasScope (':' :: l.drop (p + 2)) = false := by
    cases hs : hasScope (':' :: l.drop (p + 2)) with
    | false => rfl
    | true =>
      obtain ⟨i, hi, hpre⟩ := occurrence_of_hasScope _ hs
      have e1 : ':' :: l.drop (p + 2) = l.drop (p + 1) := by
        have : l.drop (p + 1) = (l.drop p).drop 1 := by rw [List.drop_drop]
        rw [this, hdrop, ← ht]
        rfl
      rw [e1, List.drop_drop] at hpre
      have hlen : (l.drop (p + 1)).length = l.length - (p + 1) := List.length_drop _ _
      rw [e1] at hi
      have hpl : p + 2 ≤ l.length := rfindFrom_bound _ _ (by decide) _ _ h
      have hl : ({ data := l } : String).data.length = l.length := rfl
      have := hmax (p + 1 + i) (by omega) (by omega)
      change [':', ':'].isPrefixOf (List.drop (p + 1 + i) l) = false at this
      rw [hpre] at this
      exact absurd this (by simp)
  have hrest' : (true && (l.drop (p + 2)).head? == some ':' || hasScope (l.drop (p + 2))) = false :=
    hrest
  rw [Bool.or_eq_false_iff] at hrest'
  refine ⟨hsplit, hrest'.2, ?_⟩
  simpa using hrest'.1

theorem scopeToDotRev_of_none (l : List Char) (h : hasScope l = false) :
    scopeToDotRev l = l := by
  have := scopeToDotRev_append l [] h (Or.inr (by simp))
  simpa [scopeToDotRev] using this

/-- The loop at the end of `toDStyle`, given at least as many rounds as the text
is long, replaces every `::` by `.`. -/
theorem replaceScopeLoop_scopeToDot : ∀ (n : Nat) (s : String), s.data.length ≤ n →
    replaceScopeLoop n s = scopeToDot s := by
  intro n
  induction n with
  | zero =>
    intro s hs
    have h0 : s.data = [] := List.length_eq_zero.mp (by omega)
    apply String.ext
    simp [replaceScopeLoop, scopeToDot, h0, scopeToDotRev]
  | succ n ih =>
    intro s hs
    rw [replaceScopeLoop]
    cases hr : rfind s "::" with
    | none =>
      simp only
      have hn : hasScope s.data = false := (rfind_none_iff s).1 hr
      apply String.ext
      simp only [scopeToDot]
      rw [scopeToDotRev_of_none _ (by rw [hasScope_reverse]; exact hn), List.reverse_reverse]
    | some p =>
      simp only
      obtain ⟨hsplit, hB, hhead⟩ := rfind_split s.data p hr
      have hlen : (strReplace s p 2 ".").data.length ≤ n := by
        have hp2 : p + 2 ≤ s.data.length := rfindFrom_bound _ _ (by decide) _ _ hr
        have h3 : (".".data).length = 1 := rfl
        simp only [strReplace, List.length_append, List.length_take, List.length_drop, h3]
        omega
      rw [ih _ hlen]
      apply String.ext
      simp only [scopeToDot, strReplace]
      congr 1
      have hdot : ".".data = ['.'] := rfl
      have hBr : hasScope (s.data.drop (p + 2)).reverse = false := by
        rw [hasScope_reverse]; exact hB
      have hlast : (s.data.drop (p + 2)).reverse.getLast? ≠ some ':' := by
        rw [List.getLast?_reverse]; exact hhead
      have e1 : (s.data.take p ++ ".".data ++ s.data.drop (p + 2)).reverse =
          (s.data.drop (p + 2)).reverse ++ '.' :: (s.data.take p).reverse := by
        rw [hdot]; simp
      have e2 : s.data.reverse =
          (s.data.drop (p + 2)).reverse ++ ':' :: ':' :: (s.data.take p).reverse := by
        conv => lhs; rw [hsplit]
        simp
      rw [e1, e2, scopeToDotRev_append _ _ hBr (Or.inl hlast),
        scopeToDotRev_append _ _ hBr (Or.inl hlast), scopeToDotRev_pair,
        scopeToDotRev_cons _ _ (by simp)]

theorem replaceScope_scopeToDot (s : String) : replaceScope s = scopeToDot s :=
  replaceScopeLoop_scopeToDot _ s (Nat.le_refl _)

end Gentool
namespace Gentool

/-- C19: for every type the text `toDStyle` returns holds no `::`. The loop
that ends `toDStyle` comes to its `break` within as many rounds as the text
`res` is long, whatever the text, and more rounds change nothing; what it
leaves holds no `::`, is `res` with every `::` replaced by `.`, and is `res`
itself when `res` holds no `::`. For a type of the default branch that is the
text of the front end's printer with every `::` replaced by `.`. -/
theorem scope_separator_post_pass (ren : Renames) (type : QualType) (res : String) :
    rfind (toDStyle ren type) "::" = none ∧
    (∀ rounds, res.data.length ≤ rounds → replaceScopeLoop rounds res = replaceScope res) ∧
    rfind (replaceScope res) "::" = none ∧
    replaceScope res = scopeToDot res ∧
    (rfind res "::" = none → replaceScope res = res) ∧
    (∀ (c : Bool) (spelling : String) (dependent : Bool),
      toDStyle ren (.mk c (.other spelling dependent)) = scopeToDot (getAsString c spelling)) ∧
    (∀ (c : Bool) (r : RecordRef),
      toDStyle ren (.mk c (.record r)) = scopeToDot (getName ren r.id r.name)) ∧
    toDStyle [] iteratorType = "std.vector<T>.iterator" := by
  refine ⟨toDStyle_noScope ren type, ?_, replaceScope_done res, replaceScope_scopeToDot res,
    replaceScope_of_none res, ?_, ?_, by decide!⟩
  · intro rounds h
    rw [replaceScopeLoop_scopeToDot rounds res h, replaceScope_scopeToDot]
  · intro c spelling dependent
    rw [toDStyle, toDStyleTy, replaceScope_scopeToDot]
  · intro c r
    rw [toDStyle, toDStyleTy, replaceScope_scopeToDot]

/-- C19, at the type `int` and the text `int`. -/
theorem scope_separator_post_pass_witness : replaceScope "int" = "int" :=
  (scope_separator_post_pass [] intType "int").2.2.2.2.1 (by decide!)

end Gentool
namespace Gentool

/-- C20 (amended): for every record that is not templated, has a type, is not
yet registered and whose definition is incomplete, `onStructOrClassEnter`
returns after the linkage line and the forward declaration `struct <Name>;`:
it writes no size annotation, no brace, no nested declaration, field or
method. -/
theorem incomplete_record_forward_declared (decl : RecordDecl) (g : Gen)
    (hnew : decl.info.loc ∉ g.storedTypes) (htemplated : decl.info.isTemplated = false)
    (htype : decl.info.hasTypeForDecl = true)
    (hincomplete : decl.info.isCompleteDefinition = false) :
    ∃ g1, onStructOrClassEnter decl g = .ok g1 ∧
      g1.out = g.out ++ linkageText g.cppIsDefault decl.info.ctx ++
        ("struct " ++ getName g.renames decl.info.id decl.info.name ++ ";" ++ "\n") := by
  rcases decl with ⟨info, ds, bs⟩
  rw [onStructOrClassEnter]
  simp only [RecordDecl.info] at hnew htemplated htype hincomplete ⊢
  have hadd : addType info.loc (enterRecord info g).storedTypes =
      (true, (enterRecord info g).storedTypes ++ [info.loc]) :=
    addType_true _ _ hnew
  rw [hadd]
  simp only [Bool.not_true, Bool.false_eq_true, if_false]
  unfold recordHeader
  simp only [htemplated, htype, hincomplete, Bool.not_false, Bool.not_true, if_true,
    Bool.false_eq_true, if_false]
  exact ⟨_, rfl, rfl⟩

/-- C20, at the declaration `struct Point;`. -/
theorem incomplete_record_forward_declared_witness :
    ∃ g1, onStructOrClassEnter forwardPoint initialGen = .ok g1 ∧
      g1.out = initialGen.out ++ linkageText initialGen.cppIsDefault forwardPoint.info.ctx ++
        ("struct " ++ getName initialGen.renames forwardPoint.info.id forwardPoint.info.name ++
          ";" ++ "\n") :=
  incomplete_record_forward_declared forwardPoint initialGen (by decide) rfl rfl rfl

/-- C20 fails as stated: for the declaration `template <class T> struct Box;`,
templated and without definition, `onStructOrClassEnter` writes no forward
declaration `struct Box;` but the record with braces, while `struct Point;`
gets its forward declaration. -/
theorem templated_incomplete_record_counterexample :
    forwardBox.info.isCompleteDefinition = false ∧
    (onStructOrClassEnter forwardBox initialGen).gen.out =
      "extern(C++)\nstruct Box\n\x7b\n\x7d\n" ∧
    (onStructOrClassEnter forwardBox initialGen).gen.out ≠ "extern(C++)\nstruct Box;\n" ∧
    (onStructOrClassEnter forwardPoint initialGen).gen.out = "extern(C++)\nstruct Point;\n" := by
  decide!

/-- C12 (amended): for the record `struct Point { int x; int y; float norm(); }`
with `norm` inline and not virtual, the record is written with the keyword
`struct`, two field lines that start with `@cppsize(4)`, and one method line
for `norm` without `final`, without `override` and not commented out, nor is
any line of its body. -/
theorem point_record_emission :
    (onStructOrClassEnter pointWithNorm initialGen).isOk = true ∧
    (onStructOrClassEnter pointWithNorm initialGen).gen.out =
      "extern(C++)\n@cppclasssize(8) align(4)\nstruct Point\n\x7b\n@cppsize(4) public int x;\n@cppsize(4) public int y;\n/* inline */ public float norm()\x7b\nreturn x * x + y * y;\n\x7d\n\n\x7d\n" ∧
    countOccurrences "@cppsize(4)".data
      (onStructOrClassEnter pointWithNorm initialGen).gen.out.data = 2 ∧
    countOccurrences "override".data
      (onStructOrClassEnter pointWithNorm initialGen).gen.out.data = 0 ∧
    countOccurrences "//".data
      (onStructOrClassEnter pointWithNorm initialGen).gen.out.data = 0 ∧
    countOccurrences "norm(".data
      (onStructOrClassEnter pointWithNorm initialGen).gen.out.data = 1 ∧
    countOccurrences "final".data
      (onStructOrClassEnter pointWithNorm initialGen).gen.out.data = 0 := by
  decide!

/-- C12 fails as stated: the text written for
`struct Point { int x; int y; float norm(); }` holds no `final` at all. -/
theorem point_method_final_counterexample :
    countOccurrences "final".data
      (onStructOrClassEnter pointWithNorm initialGen).gen.out.data = 0 ∧
    methodText
      { ren := [], storedTypes := ["point.h:1:8"], nogc := false, msvcCompat := false,
        declName := "Point", declIsClass := false, declIsTemplated := false,
        isVirtualDecl := false } normMethod =
      "/* inline */ public float norm()\x7b\nreturn x * x + y * y;\n\x7d\n\n" := by
  decide!

end Gentool
namespace Gentool

theorem digitChar_ne_colon (k : Nat) (h : k < 10) : Nat.digitChar k ≠ ':' := by
  interval_cases k <;> decide

theorem toDigitsCore_nocolon : ∀ (fuel n : Nat) (ds : List Char), (∀ c ∈ ds, c ≠ ':') →
    ∀ c ∈ Nat.toDigitsCore 10 fuel n ds, c ≠ ':' := by
  intro fuel
  induction fuel with
  | zero => intro n ds h; simpa [Nat.toDigitsCore] using h
  | succ fuel ih =>
    intro n ds h
    rw [Nat.toDigitsCore]
    have hd : ∀ c ∈ Nat.digitChar (n % 10) :: ds, c ≠ ':' := by
      intro c hc
      rcases List.mem_cons.1 hc with rfl | hc
      · exact digitChar_ne_colon _ (Nat.mod_lt _ (by decide))
      · exact h c hc
    split
    · exact hd
    · exact ih _ _ hd

theorem toString_nocolon (n : Nat) : ∀ c ∈ (toString n).data, c ≠ ':' := by
  show ∀ c ∈ (Nat.repr n).data, c ≠ ':'
  unfold Nat.repr Nat.toDigits
  simp only [List.asString]
  exact toDigitsCore_nocolon _ _ _ (by simp)

theorem anonName_nocolon (n : Nat) : ∀ c ∈ (anonName n).data, c ≠ ':' := by
  intro c hc
  unfold anonName at hc
  rw [String.data_append, List.mem_append] at hc
  rcases hc with hc | hc
  · revert c
    decide
  · exact toString_nocolon n c hc

theorem anonName_isEmpty (n : Nat) : (anonName n).isEmpty = false := by
  unfold anonName
  have h : ("_anon" ++ toString n).data ≠ [] := by
    rw [String.data_append]
    simp
  cases he : ("_anon" ++ toString n).isEmpty with
  | false => rfl
  | true =>
    exfalso
    apply h
    have := (String.isEmpty_iff _).1 he
    rw [this]

/-- The rendering of a record type is the name of the record, when the name
holds no colon. -/
theorem toDStyle_record (ren : Renames) (c : Bool) (r : RecordRef)
    (h : ∀ ch ∈ (getName ren r.id r.name).data, ch ≠ ':') :
    toDStyle ren (.mk c (.record r)) = getName ren r.id r.name := by
  rw [toDStyle, toDStyleTy]
  exact replaceScope_of_none _ ((rfind_none_iff _).2 (hasScope_nocolon _ h))

end Gentool
namespace Gentool

theorem getName_cons_ne (ren : Renames) (x id : DeclId) (n name : String) (h : id ≠ x) :
    getName ((x, n) :: ren) id name = getName ren id name := by
  unfold getName
  rw [List.lookup_cons]
  have : (id == x) = false := by simpa using h
  rw [this]

theorem getName_cons_self (ren : Renames) (x : DeclId) (n name : String) :
    getName ((x, n) :: ren) x name = n := by
  unfold getName
  rw [List.lookup_cons]
  simp

theorem hasIdentifier_cons_ne (ren : Renames) (x id : DeclId) (n name : String) (h : id ≠ x) :
    hasIdentifier ((x, n) :: ren) id name = hasIdentifier ren id name := by
  unfold hasIdentifier
  rw [getName_cons_ne _ _ _ _ _ h]

theorem hasIdentifier_cons_self (ren : Renames) (x : DeclId) (n name : String)
    (hn : n.isEmpty = false) : hasIdentifier ((x, n) :: ren) x name = true := by
  unfold hasIdentifier
  rw [getName_cons_self, hn]
  rfl

/-- A name given to a declaration that is none of the anonymous entities
leaves them as they are. -/
theorem anonymousIds_cons (ren : Renames) (declId x : DeclId) (n : String)
    (hn : n.isEmpty = false) : ∀ (decls : List Decl), x ∉ anonymousIds ren declId decls →
    anonymousIds ((x, n) :: ren) declId decls = anonymousIds ren declId decls := by
  intro decls
  induction decls with
  | nil => intro _; rfl
  | cons d rest ih =>
    intro hx
    cases d with
    | recordDecl rd =>
      rcases rd with ⟨rec, ds, bs⟩
      rw [anonymousIds] at hx
      rw [anonymousIds, anonymousIds]
      by_cases hid : rec.id = x
      · subst hid
        rw [hasIdentifier_cons_self _ _ _ _ hn]
        by_cases hc : rec.id ≠ declId ∧ hasIdentifier ren rec.id rec.name = false
        · rw [if_pos hc] at hx
          exact absurd (List.mem_cons_self _ _) hx
        · rw [if_neg hc] at hx ⊢
          rw [if_neg (by simp), ih hx]
      · rw [hasIdentifier_cons_ne _ _ _ _ _ hid]
        by_cases hc : rec.id ≠ declId ∧ hasIdentifier ren rec.id rec.name = false
        · rw [if_pos hc] at hx
          rw [if_pos hc, if_pos hc, ih (fun h => hx (List.mem_cons_of_mem _ h))]
        · rw [if_neg hc] at hx
          rw [if_neg hc, if_neg hc, ih hx]
    | typedefDecl tdd =>
      rcases tdd with ⟨td, record⟩
      rw [anonymousIds] at hx
      rw [anonymousIds, anonymousIds]
      by_cases hid : td.id = x
      · subst hid
        rw [hasIdentifier_cons_self _ _ _ _ hn]
        by_cases hc : hasIdentifier ren td.id td.name = false
        · rw [if_pos hc] at hx
          exact absurd (List.mem_cons_self _ _) hx
        · rw [if_neg hc] at hx ⊢
          rw [if_neg (by simp), ih hx]
      · rw [hasIdentifier_cons_ne _ _ _ _ _ hid]
        by_cases hc : hasIdentifier ren td.id td.name = false
        · rw [if_pos hc] at hx
          rw [if_pos hc, if_pos hc, ih (fun h => hx (List.mem_cons_of_mem _ h))]
        · rw [if_neg hc] at hx
          rw [if_neg hc, if_neg hc, ih hx]
    | enumDecl e => rw [anonymousIds] at hx; rw [anonymousIds, anonymousIds]; exact ih hx
    | varDecl v => rw [anonymousIds] at hx; rw [anonymousIds, anonymousIds]; exact ih hx
    | functionTemplateDecl a f =>
      rw [anonymousIds] at hx; rw [anonymousIds, anonymousIds]; exact ih hx
    | otherDecl => rw [anonymousIds] at hx; rw [anonymousIds, anonymousIds]; exact ih hx

theorem nameIfAnon_anonymous (id : DeclId) (name : String) (g : Gen)
    (h : hasIdentifier g.renames id name = false) :
    nameIfAnon id name .toMember g =
      some (.toMember, setDeclName id (anonName g.localAnonRecordId)
        { g with localAnonRecordId := g.localAnonRecordId + 1 }) := by
  unfold nameIfAnon
  simp [h, CountPtr.read, CountPtr.increment, anonName]

theorem nameIfAnon_named (id : DeclId) (name : String) (count : CountPtr) (g : Gen)
    (h : hasIdentifier g.renames id name = true) :
    nameIfAnon id name count g = some (count, g) := by
  unfold nameIfAnon
  simp [h]

end Gentool
namespace Gentool

theorem deanonimizeDecls_typedef_tail (declId : DeclId) (td : TypedefInfo)
    (record : Option RecordDecl) (rest : List Decl) (g1 : Gen) :
    (td.typeIsDependent || record.isNone ||
        td.underlyingType.getAsRecordDecl.isNone) = true →
    (if td.typeIsDependent then deanonimizeDecls declId rest .toMember g1
     else
      match record with
      | some rd =>
        if td.underlyingType.getAsRecordDecl.isSome then
          (deanonimizeTypedef rd "" (.toLocal 1) g1).andThen
            (fun g => deanonimizeDecls declId rest .toMember g)
        else deanonimizeDecls declId rest .toMember g1
      | none => deanonimizeDecls declId rest .toMember g1) =
    deanonimizeDecls declId rest .toMember g1 := by
  intro hsimple
  cases hd : td.typeIsDependent with
  | true => simp
  | false =>
    cases record with
    | none => simp
    | some rd =>
      cases hr : td.underlyingType.getAsRecordDecl with
      | none => simp
      | some r => simp [hd, hr] at hsimple

/-- The loop of `deanonimizeTypedef` over simple member declarations, with the
counter `localAnonRecordId`: the anonymous entities are named in order. -/
theorem deanonimizeDecls_simple (declId : DeclId) : ∀ (decls : List Decl) (g : Gen),
    (∀ d ∈ decls, simpleMember d = true) → (anonymousIds g.renames declId decls).Nodup →
    deanonimizeDecls declId decls .toMember g =
      .ok (nameAnonymous (anonymousIds g.renames declId decls) g) := by
  intro decls
  induction decls with
  | nil => intro g _ _; rfl
  | cons d rest ih =>
    intro g hs hn
    have hrest : ∀ d ∈ rest, simpleMember d = true := fun x hx => hs x (List.mem_cons_of_mem _ hx)
    cases d with
    | recordDecl rd =>
      rcases rd with ⟨rec, ds, bs⟩
      rw [deanonimizeDecls]
      rw [anonymousIds] at hn ⊢
      by_cases hid : rec.id = declId
      · rw [if_pos hid]
        have hc : ¬(rec.id ≠ declId ∧ hasIdentifier g.renames rec.id rec.name = false) :=
          fun h => h.1 hid
        rw [if_neg hc] at hn ⊢
        exact ih g hrest hn
      · rw [if_neg hid]
        by_cases hh : hasIdentifier g.renames rec.id rec.name = true
        · have hc : ¬(rec.id ≠ declId ∧ hasIdentifier g.renames rec.id rec.name = false) := by
            rw [hh]; simp
          rw [if_neg hc] at hn
          rw [if_neg hc, nameIfAnon_named _ _ _ _ hh]
          exact ih g hrest hn
        · have hh : hasIdentifier g.renames rec.id rec.name = false := by simpa using hh
          have hc : rec.id ≠ declId ∧ hasIdentifier g.renames rec.id rec.name = false :=
            ⟨hid, hh⟩
          rw [if_pos hc] at hn
          rw [if_pos hc, nameIfAnon_anonymous _ _ _ hh]
          obtain ⟨hnot, hnd⟩ := List.nodup_cons.1 hn
          have hk := anonymousIds_cons g.renames declId rec.id
            (anonName g.localAnonRecordId) (anonName_isEmpty _) rest hnot
          have := ih (setDeclName rec.id (anonName g.localAnonRecordId)
            { g with localAnonRecordId := g.localAnonRecordId + 1 }) hrest
            (by simp only [setDeclName]; rw [hk]; exact hnd)
          simp only [setDeclName] at this ⊢
          rw [hk] at this
          rw [this, nameAnonymous]
          rfl
    | typedefDecl tdd =>
      rcases tdd with ⟨td, record⟩
      have hgo := fun g1 => deanonimizeDecls_typedef_tail declId td record rest g1
        (hs _ (List.mem_cons_self _ _))
      rw [deanonimizeDecls]
      rw [anonymousIds] at hn ⊢
      by_cases hh : hasIdentifier g.renames td.id td.name = true
      · have hc : ¬(hasIdentifier g.renames td.id td.name = false) := by rw [hh]; simp
        rw [if_neg hc] at hn
        rw [if_neg hc, nameIfAnon_named _ _ _ _ hh]
        simp only
        rw [hgo g]
        exact ih g hrest hn
      · have hh : hasIdentifier g.renames td.id td.name = false := by simpa using hh
        rw [if_pos hh] at hn
        rw [if_pos hh, nameIfAnon_anonymous _ _ _ hh]
        simp only
        rw [hgo]
        obtain ⟨hnot, hnd⟩ := List.nodup_cons.1 hn
        have hk := anonymousIds_cons g.renames declId td.id
          (anonName g.localAnonRecordId) (anonName_isEmpty _) rest hnot
        have := ih (setDeclName td.id (anonName g.localAnonRecordId)
          { g with localAnonRecordId := g.localAnonRecordId + 1 }) hrest
          (by simp only [setDeclName]; rw [hk]; exact hnd)
        simp only [setDeclName] at this ⊢
        rw [hk] at this
        rw [this, nameAnonymous]
        rfl
    | enumDecl e => rw [deanonimizeDecls, anonymousIds]; rw [anonymousIds] at hn; exact ih g hrest hn
    | varDecl v => rw [deanonimizeDecls, anonymousIds]; rw [anonymousIds] at hn; exact ih g hrest hn
    | functionTemplateDecl a f =>
      rw [deanonimizeDecls, anonymousIds]; rw [anonymousIds] at hn; exact ih g hrest hn
    | otherDecl => rw [deanonimizeDecls, anonymousIds]; rw [anonymousIds] at hn; exact ih g hrest hn

end Gentool
namespace Gentool

theorem nameAnonymous_out : ∀ (ids : List DeclId) (g : Gen), (nameAnonymous ids g).out = g.out := by
  intro ids
  induction ids with
  | nil => intro g; rfl
  | cons id rest ih => intro g; rw [nameAnonymous, ih]; rfl

theorem nameAnonymous_name : ∀ (ids : List DeclId) (g : Gen),
    (nameAnonymous ids g).classOrStructName = g.classOrStructName := by
  intro ids
  induction ids with
  | nil => intro g; rfl
  | cons id rest ih => intro g; rw [nameAnonymous, ih]; rfl

theorem nameAnonymous_counter : ∀ (ids : List DeclId) (g : Gen),
    (nameAnonymous ids g).localAnonRecordId = g.localAnonRecordId + ids.length := by
  intro ids
  induction ids with
  | nil => intro g; rfl
  | cons id rest ih =>
    intro g
    rw [nameAnonymous, ih]
    simp only [setDeclName, List.length_cons]
    omega

theorem nameAnonymous_lookup_other : ∀ (ids : List DeclId) (g : Gen) (x : DeclId), x ∉ ids →
    (nameAnonymous ids g).renames.lookup x = g.renames.lookup x := by
  intro ids
  induction ids with
  | nil => intro g x _; rfl
  | cons id rest ih =>
    intro g x hx
    rw [nameAnonymous, ih _ _ (fun h => hx (List.mem_cons_of_mem _ h))]
    simp only [setDeclName]
    rw [List.lookup_cons]
    have : (x == id) = false := by
      simpa using fun h : x = id => hx (h ▸ List.mem_cons_self _ _)
    rw [this]

/-- The names the anonymous entities take: the `k`-th one the counter plus
`k`. -/
theorem nameAnonymous_lookup : ∀ (ids : List DeclId) (g : Gen), ids.Nodup →
    ∀ (k : Nat) (x : DeclId), ids[k]? = some x →
    (nameAnonymous ids g).renames.lookup x = some (anonName (g.localAnonRecordId + k)) := by
  intro ids
  induction ids with
  | nil => intro g _ k x h; simp at h
  | cons id rest ih =>
    intro g hn k x h
    obtain ⟨hnot, hnd⟩ := List.nodup_cons.1 hn
    rw [nameAnonymous]
    cases k with
    | zero =>
      simp only [List.getElem?_cons_zero, Option.some.injEq] at h
      subst h
      rw [nameAnonymous_lookup_other _ _ _ hnot]
      simp [setDeclName, List.lookup_cons]
    | succ k =>
      simp only [List.getElem?_cons_succ] at h
      rw [ih _ hnd k x h]
      simp only [setDeclName]
      congr 2
      omega

theorem getName_of_lookup (ren : Renames) (id : DeclId) (n name : String)
    (h : ren.lookup id = some n) : getName ren id name = n := by
  unfold getName
  rw [h]

theorem recordOpening_renames (decl : RecordDecl) (g : Gen) :
    (recordOpening decl g).renames = g.renames := by
  unfold recordOpening
  cases decl.info.isCXX <;> rfl

theorem recordOpening_out (decl : RecordDecl) (g : Gen) :
    ∃ rest, (recordOpening decl g).out = g.out ++ g.classOrStructName ++ rest := by
  have h : Grows (g.write g.classOrStructName) (recordOpening decl g) := by
    unfold recordOpening
    simp only
    repeat' first
      | exact Grows.refl _
      | apply Grows.write
      | split
  obtain ⟨t, ht⟩ := h.out
  exact ⟨t, ht⟩

theorem recordIntro_eq (decl : RecordDecl) (g : Gen) :
    recordIntro decl g =
      (nameRecord decl (g.write (shapeKeyword decl))).andThen fun g =>
        .ok (recordOpening decl g) := rfl

/-- The naming step of `onStructOrClassEnter` for a record with a name and
simple member declarations. -/
theorem nameRecord_named (decl : RecordDecl) (g : Gen)
    (hname : g.classOrStructName.isEmpty = false)
    (hid : hasIdentifier g.renames decl.info.id decl.info.name = true)
    (hsimple : ∀ d ∈ decl.decls, simpleMember d = true)
    (hdistinct : (anonymousIds g.renames decl.info.id decl.decls).Nodup) :
    nameRecord decl g =
      .ok (nameAnonymous (anonymousIds g.renames decl.info.id decl.decls) g) := by
  rcases decl with ⟨info, ds, bs⟩
  unfold nameRecord
  rw [hname]
  simp only [Bool.false_eq_true, if_false]
  rw [deanonimizeTypedef]
  have : (!hasIdentifier g.renames info.id info.name) = false := by
    change hasIdentifier g.renames info.id info.name = true at hid
    rw [hid]; rfl
  rw [this]
  simp only [Bool.false_eq_true, if_false]
  exact deanonimizeDecls_simple info.id ds g hsimple hdistinct

end Gentool
namespace Gentool

theorem Named.nameIs {m : DeclId} {n : String} {g : Gen} (h : Named m n g) (name : String) :
    getName g.renames m name = n :=
  getName_of_lookup _ _ _ _ h

theorem Named.identified {m : DeclId} {n : String} {g : Gen} (h : Named m n g)
    (hne : n.isEmpty = false) (name : String) : hasIdentifier g.renames m name = true := by
  unfold Gentool.hasIdentifier
  rw [h.nameIs, hne]
  rfl

/-- A declaration that has no identifier is not the one named `n`. -/
theorem Named.renameGuarded {m : DeclId} {n : String} {g g1 : Gen} (h : Named m n g)
    (hne : n.isEmpty = false) (id : DeclId) (name x : String)
    (hguard : Gentool.hasIdentifier g.renames id name = false) (hr : g1.renames = g.renames) :
    Named m n (Gentool.setDeclName id x g1) := by
  have hid : m ≠ id := by
    intro he
    subst he
    rw [h.identified hne] at hguard
    exact absurd hguard (by simp)
  unfold Named Gentool.setDeclName
  simp only
  rw [List.lookup_cons]
  have : (m == id) = false := by simpa using hid
  rw [this, hr]
  exact h

theorem Named.renameOther {m : DeclId} {n : String} {g : Gen} (h : Named m n g)
    (id : DeclId) (x : String) (hid : id ≠ m) : Named m n (Gentool.setDeclName id x g) := by
  unfold Named Gentool.setDeclName
  simp only
  rw [List.lookup_cons]
  have : (m == id) = false := by simpa using fun he : m = id => hid he.symm
  rw [this]
  exact h

theorem Named.thenKeeps {m : DeclId} {n : String} {r : Res} {f : Gen → Res}
    (hr : Named m n r.gen) (hf : ∀ g, Named m n g → Named m n (f g).gen) :
    Named m n (r.andThen f).gen := by
  cases r with
  | ok g => exact hf g hr
  | fault d g => exact hr

theorem nameIfAnon_keeps {m : DeclId} {n : String} {g : Gen} (h : Named m n g)
    (hne : n.isEmpty = false) (id : DeclId) (name : String)
    (count count1 : CountPtr) (g1 : Gen) (hn : nameIfAnon id name count g = some (count1, g1)) :
    Named m n g1 := by
  unfold nameIfAnon at hn
  by_cases hi : (!Gentool.hasIdentifier g.renames id name) = true
  · rw [if_pos hi] at hn
    have hguard : Gentool.hasIdentifier g.renames id name = false := by simpa using hi
    cases count with
    | toLocal c =>
      simp only [CountPtr.read, CountPtr.increment, Option.some.injEq, Prod.mk.injEq] at hn
      rw [← hn.2]
      exact h.renameGuarded hne id name _ hguard rfl
    | toMember =>
      simp only [CountPtr.read, CountPtr.increment, Option.some.injEq, Prod.mk.injEq] at hn
      rw [← hn.2]
      exact h.renameGuarded hne id name _ hguard rfl
    | pastEnd =>
      simp [CountPtr.read] at hn
  · rw [if_neg hi] at hn
    simp only [Option.some.injEq, Prod.mk.injEq] at hn
    rw [← hn.2]
    exact h

theorem deanonimize_keeps (m : DeclId) (nm : String) (hne : nm.isEmpty = false) : ∀ (n : Nat),
    (∀ (decl : RecordDecl), sizeOf decl ≤ n → ∀ (optName : String) (count : CountPtr)
      (g : Gen), Named m nm g → Named m nm (deanonimizeTypedef decl optName count g).gen)
    ∧ (∀ (ds : List Decl), sizeOf ds ≤ n → ∀ (declId : DeclId) (count : CountPtr)
      (g : Gen), Named m nm g → Named m nm (deanonimizeDecls declId ds count g).gen) := by
  intro n
  induction n with
  | zero =>
    constructor
    · intro decl h
      rcases decl with ⟨info, ds, bs⟩
      simp at h
    · intro ds h
      cases ds with
      | nil => intro _ _ g hg; simpa [deanonimizeDecls, Res.gen] using hg
      | cons d rest => simp at h
  | succ n ih =>
    obtain ⟨ihT, ihD⟩ := ih
    constructor
    · intro decl h optName count g hg
      rcases decl with ⟨info, ds, bs⟩
      have hds : sizeOf ds ≤ n := by simp at h; omega
      rw [deanonimizeTypedef]
      by_cases hi : (!Gentool.hasIdentifier g.renames info.id info.name) = true
      · rw [if_pos hi]
        have hguard : Gentool.hasIdentifier g.renames info.id info.name = false := by simpa using hi
        by_cases ho : optName.isEmpty = true
        · rw [if_pos ho]
          cases count.read g with
          | none => exact hg
          | some c => exact ihD ds hds _ _ _ (hg.renameGuarded hne _ _ _ hguard rfl)
        · rw [if_neg ho]
          exact ihD ds hds _ _ _ (hg.renameGuarded hne _ _ _ hguard rfl)
      · rw [if_neg hi]
        exact ihD ds hds _ _ _ hg
    · intro ds h declId count g hg
      cases ds with
      | nil => simpa [deanonimizeDecls, Res.gen] using hg
      | cons d rest =>
        have hrest : sizeOf rest ≤ n := by simp at h; omega
        cases d with
        | typedefDecl td =>
          rcases td with ⟨tinfo, record⟩
          rw [deanonimizeDecls]
          split
          · exact hg
          · rename_i count1 g1 hn
            have hg1 := nameIfAnon_keeps hg hne _ _ _ _ _ hn
            by_cases hd : tinfo.typeIsDependent = true
            · rw [if_pos hd]
              exact ihD rest hrest _ _ _ hg1
            · rw [if_neg hd]
              cases record with
              | none => exact ihD rest hrest _ _ _ hg1
              | some rd =>
                simp only
                by_cases hr : tinfo.underlyingType.getAsRecordDecl.isSome = true
                · rw [if_pos hr]
                  apply Named.thenKeeps
                  · exact ihT rd (by simp at h; omega) _ _ _ hg1
                  · intro g2 h2
                    exact ihD rest hrest _ _ _ h2
                · rw [if_neg hr]
                  exact ihD rest hrest _ _ _ hg1
        | recordDecl rd =>
          rcases rd with ⟨rec, rds, rbs⟩
          rw [deanonimizeDecls]
          split
          · exact ihD rest hrest _ _ _ hg
          · split
            · exact hg
            · rename_i count1 g1 hn
              exact ihD rest hrest _ _ _ (nameIfAnon_keeps hg hne _ _ _ _ _ hn)
        | enumDecl e => rw [deanonimizeDecls]; exact ihD rest hrest _ _ _ hg
        | varDecl v => rw [deanonimizeDecls]; exact ihD rest hrest _ _ _ hg
        | functionTemplateDecl a f => rw [deanonimizeDecls]; exact ihD rest hrest _ _ _ hg
        | otherDecl => rw [deanonimizeDecls]; exact ihD rest hrest _ _ _ hg

theorem deanonimizeTypedef_keeps {m : DeclId} {nm : String} {g : Gen} (hne : nm.isEmpty = false)
    (decl : RecordDecl) (optName : String) (count : CountPtr) (h : Named m nm g) :
    Named m nm (deanonimizeTypedef decl optName count g).gen :=
  (deanonimize_keeps m nm hne _).1 decl (Nat.le_refl _) _ _ _ h

end Gentool
namespace Gentool

theorem Named.sameRenames {m : DeclId} {n : String} {g g1 : Gen} (h : Named m n g)
    (hr : g1.renames = g.renames) : Named m n g1 := by
  unfold Named
  rw [hr]
  exact h

theorem onEnum_renames (e : EnumDecl) (g : Gen) : (onEnum e g).renames = g.renames := by
  unfold onEnum
  simp only [Gen.write]
  split
  · rfl
  · split <;> rfl

theorem onFunction_renames (fn : FunctionDecl) (g : Gen) :
    (onFunction fn g).renames = g.renames := by
  unfold onFunction
  simp only [Gen.write]
  split
  · rfl
  · cases fn.isTemplated <;> cases fn.describedTemplate <;> cases g.nogc <;> rfl

theorem typedefAlias_renames (decl : TypedefInfo) (g : Gen) :
    (typedefAlias decl g).renames = g.renames := by
  unfold typedefAlias
  simp only [Gen.write]
  repeat' first
    | rfl
    | split

theorem onStructOrClassLeave_renames (g : Gen) : (onStructOrClassLeave g).renames = g.renames := by
  unfold onStructOrClassLeave
  simp only [Gen.write]
  split <;> rfl

theorem closeBitfieldRun_renames (it : FieldDecl) (g : Gen) :
    (closeBitfieldRun it g).gen.renames = g.renames := by
  unfold closeBitfieldRun
  cases it.isBitField <;> cases g.isPrevIsBitfield <;>
    cases h : bitfieldPadding (g.write ("," ++ "\n")).accumBitFieldWidth <;>
    simp [Res.gen, Gen.write, h] <;> (try rw [show bitfieldPadding g.accumBitFieldWidth = _ from h])

end Gentool
namespace Gentool

theorem writeField_renames (isClass : Bool) (it : FieldDecl) (g : Gen) :
    (writeField isClass it g).gen.renames = g.renames := by
  unfold writeField
  simp only
  split
  · rfl
  · cases it.isBitField <;> cases g.isPrevIsBitfield <;> rfl

theorem andThen_renames (r : Res) (f : Gen → Res) (ren : Renames) (hr : r.gen.renames = ren)
    (hf : ∀ g, g.renames = ren → (f g).gen.renames = ren) : (r.andThen f).gen.renames = ren := by
  cases r with
  | ok g => exact hf g hr
  | fault d g => exact hr

theorem fieldStep_renames (isClass : Bool) (it : FieldDecl) (g : Gen) :
    (fieldStep isClass it g).gen.renames = g.renames := by
  unfold fieldStep
  apply andThen_renames _ _ _ (closeBitfieldRun_renames it g)
  intro g1 h1
  rw [writeField_renames, h1]

theorem fieldLoop_renames (isClass : Bool) : ∀ (fields : List FieldDecl) (g : Gen),
    (fieldLoop isClass fields g).gen.renames = g.renames := by
  intro fields
  induction fields with
  | nil => intro g; rfl
  | cons it rest ih =>
    intro g
    rw [fieldLoop]
    apply andThen_renames _ _ _ (fieldStep_renames isClass it g)
    intro g1 h1
    rw [ih, h1]

theorem fieldIterate_renames (isClass : Bool) (fields : List FieldDecl) (g : Gen) :
    (fieldIterate isClass fields g).gen.renames = g.renames := by
  rw [fieldIterate_eq]
  apply andThen_renames _ _ _ (fieldLoop_renames isClass fields (fieldIterateStart g))
  intro g1 h1
  unfold closeLastRun
  split <;> exact h1

theorem recordMembers_renames (decl : RecordDecl) (g : Gen) :
    (recordMembers decl g).gen.renames = g.renames := by
  unfold recordMembers
  simp only
  apply andThen_renames _ _ _ (fieldIterate_renames _ _ _)
  intro g1 h1
  cases decl.info.isCXX
  · exact h1
  · exact h1

theorem recordHeader_renames (info : RecordInfo) (g : Gen) :
    match recordHeader info g with
    | .error g1 => g1.renames = g.renames ∧ g1.classOrStructName = g.classOrStructName
    | .ok g1 => g1.renames = g.renames ∧ g1.classOrStructName = g.classOrStructName := by
  unfold recordHeader
  simp only
  by_cases h1 : (!info.isTemplated) = true
  · rw [if_pos h1]
    by_cases h2 : (!info.hasTypeForDecl) = true
    · rw [if_pos h2]
      exact ⟨rfl, rfl⟩
    · rw [if_neg h2]
      by_cases h3 : (!info.isCompleteDefinition) = true
      · rw [if_pos h3]
        exact ⟨rfl, rfl⟩
      · rw [if_neg h3]
        by_cases h4 : info.typeInfo.Width = 0 ∨ info.typeInfo.Align = 0
        · rw [if_pos h4]
          exact ⟨rfl, rfl⟩
        · rw [if_neg h4]
          exact ⟨rfl, rfl⟩
  · rw [if_neg h1]
    exact ⟨rfl, rfl⟩

/-- The naming step of `onStructOrClassEnter` keeps the name `nm` of the
declaration `m`, when `classOrStructName` is the name of the record. -/
theorem nameRecord_keeps {m : DeclId} {nm : String} (hne : nm.isEmpty = false)
    (decl : RecordDecl) (g : Gen)
    (hcs : g.classOrStructName = getName g.renames decl.info.id decl.info.name)
    (h : Named m nm g) : Named m nm (nameRecord decl g).gen := by
  unfold nameRecord
  by_cases he : g.classOrStructName.isEmpty = true
  · rw [if_pos he]
    cases decl.info.typedefNameForAnonDecl with
    | some td =>
      simp only [Res.gen]
      have hguard : hasIdentifier g.renames decl.info.id decl.info.name = false := by
        unfold hasIdentifier
        rw [← hcs, he]
        rfl
      exact h.renameGuarded hne _ _ _ hguard rfl
    | none =>
      simp only
      apply Named.thenKeeps
      · exact deanonimizeTypedef_keeps hne _ _ _ (h.sameRenames rfl)
      · intro g1 h1
        exact h1.sameRenames rfl
  · rw [if_neg he]
    exact deanonimizeTypedef_keeps hne _ _ _ h

theorem renameTypedefRecord_keeps {m : DeclId} {nm : String} (hne : nm.isEmpty = false)
    (decl : TypedefInfo) (rd : RecordDecl) (g : Gen) (hid : rd.info.id ≠ m)
    (h : Named m nm g) : Named m nm (renameTypedefRecord decl rd g).gen := by
  unfold renameTypedefRecord
  simp only
  split
  · exact deanonimizeTypedef_keeps hne _ _ _ h
  · exact h.renameOther _ _ hid

end Gentool
namespace Gentool

/-- The emission of records, nested declarations and typedefs keeps the name
`nm` of the declaration `m`, when no typedef in them names `m` as its type. -/
theorem emit_keeps (m : DeclId) (nm : String) (hne : nm.isEmpty = false) : ∀ (n : Nat),
    (∀ (decl : RecordDecl), sizeOf decl ≤ n → typedefFreeRecord m decl = true → ∀ (g : Gen),
      Named m nm g → Named m nm (onStructOrClassEnter decl g).gen)
    ∧ (∀ (ds : List Decl), sizeOf ds ≤ n → typedefFreeDecls m ds = true →
      ∀ (declId : DeclId) (isClass : Bool) (g : Gen),
      Named m nm g → Named m nm (innerDeclIterate declId isClass ds g).gen)
    ∧ (∀ (td : TypedefDecl), sizeOf td ≤ n → typedefFreeDecls m [.typedefDecl td] = true →
      ∀ (g : Gen), Named m nm g → Named m nm (onTypedef td g).gen) := by
  intro n
  induction n with
  | zero =>
    refine ⟨?_, ?_, ?_⟩
    · intro decl h
      rcases decl with ⟨info, ds, bs⟩
      simp at h
    · intro ds h
      cases ds with
      | nil => intro _ _ _ g hg; rw [innerDeclIterate]; exact hg
      | cons d rest => simp at h
    · intro td h
      rcases td with ⟨info, r⟩
      simp at h
  | succ n ih =>
    obtain ⟨ihR, ihD, ihT⟩ := ih
    refine ⟨?_, ?_, ?_⟩
    · intro decl h hfree g hg
      rcases decl with ⟨info, ds, bs⟩
      have hds : sizeOf ds ≤ n := by simp at h; omega
      rw [typedefFreeRecord] at hfree
      rw [onStructOrClassEnter]
      split
      · exact hg.sameRenames rfl
      · have hh := recordHeader_renames info ((enterRecord info g).setStoredTypes
          (addType info.loc (enterRecord info g).storedTypes).2)
        split
        · rename_i g1 heq
          rw [heq] at hh
          exact hg.sameRenames hh.1
        · rename_i g1 heq
          rw [heq] at hh
          have hg1 : Named m nm g1 := hg.sameRenames hh.1
          rw [recordIntro_eq]
          apply Named.thenKeeps
          · apply Named.thenKeeps
            · apply nameRecord_keeps hne
              · show g1.classOrStructName = getName g1.renames info.id info.name
                rw [hh.1, hh.2]
                rfl
              · exact hg1.sameRenames rfl
            · intro g2 h2
              exact h2.sameRenames (recordOpening_renames _ _)
          · intro g2 h2
            apply Named.thenKeeps
            · exact ihD ds hds hfree _ _ _ h2
            · intro g3 h3
              exact h3.sameRenames (recordMembers_renames _ _)
    · intro ds h hfree declId isClass g hg
      cases ds with
      | nil => rw [innerDeclIterate]; exact hg
      | cons d rest =>
        have hrest : sizeOf rest ≤ n := by simp at h; omega
        cases d with
        | enumDecl e =>
          rw [typedefFreeDecls] at hfree
          rw [innerDeclIterate]
          exact ihD rest hrest hfree _ _ _ (hg.sameRenames (onEnum_renames e g))
        | varDecl v =>
          rw [typedefFreeDecls] at hfree
          rw [innerDeclIterate]
          exact ihD rest hrest hfree _ _ _ (hg.sameRenames rfl)
        | recordDecl r =>
          rcases r with ⟨rinfo, rds, rbs⟩
          rw [typedefFreeDecls, Bool.and_eq_true] at hfree
          rw [innerDeclIterate]
          split
          · exact ihD rest hrest hfree.2 _ _ _ hg
          · apply Named.thenKeeps
            · exact ihR (.mk rinfo rds rbs) (by simp at h ⊢; omega)
                (by rw [typedefFreeRecord]; exact hfree.1) _ hg
            · intro g1 h1
              exact ihD rest hrest hfree.2 _ _ _ (h1.sameRenames (onStructOrClassLeave_renames g1))
        | functionTemplateDecl ac fn =>
          rw [typedefFreeDecls] at hfree
          cases fn with
          | none =>
            rw [innerDeclIterate]
            exact ihD rest hrest hfree _ _ _ hg
          | some fn =>
            rw [innerDeclIterate]
            split
            · exact ihD rest hrest hfree _ _ _ hg
            · exact ihD rest hrest hfree _ _ _ (hg.sameRenames (onFunction_renames fn _))
        | typedefDecl td =>
          rcases td with ⟨tinfo, record⟩
          have hsplit : typedefFreeDecls m [.typedefDecl (.mk tinfo record)] = true ∧
              typedefFreeDecls m rest = true := by
            cases record with
            | none =>
              rw [typedefFreeDecls] at hfree
              rw [typedefFreeDecls]
              simpa [typedefFreeDecls] using hfree
            | some rd =>
              rcases rd with ⟨rinfo, rds, rbs⟩
              rw [typedefFreeDecls, Bool.and_eq_true] at hfree
              rw [typedefFreeDecls, Bool.and_eq_true]
              exact ⟨⟨hfree.1, by rw [typedefFreeDecls]⟩, hfree.2⟩
          rw [innerDeclIterate]
          apply Named.thenKeeps
          · exact ihT (.mk tinfo record) (by simp at h ⊢; omega) hsplit.1 _ hg
          · intro g1 h1
            exact ihD rest hrest hsplit.2 _ _ _ h1
        | otherDecl =>
          rw [typedefFreeDecls] at hfree
          rw [innerDeclIterate]
          exact ihD rest hrest hfree _ _ _ hg
    · intro td h hfree g hg
      rcases td with ⟨info, record⟩
      cases record with
      | none =>
        rw [onTypedef]
        split
        · exact hg.sameRenames rfl
        · exact hg.sameRenames (typedefAlias_renames info _)
      | some rd =>
        rcases rd with ⟨rinfo, rds, rbs⟩
        rw [typedefFreeDecls, Bool.and_eq_true] at hfree
        have hfree1 := hfree.1
        simp only [Bool.and_eq_true, decide_eq_true_eq] at hfree1
        rw [onTypedef]
        split
        · exact hg.sameRenames rfl
        · apply Named.thenKeeps
          · exact renameTypedefRecord_keeps hne _ _ _ hfree1.1 (hg.sameRenames rfl)
          · intro g1 h1
            apply Named.thenKeeps
            · exact ihR (.mk rinfo rds rbs) (by simp at h ⊢; omega)
                (by rw [typedefFreeRecord]; exact hfree1.2) _ h1
            · intro g2 h2
              exact h2.sameRenames (onStructOrClassLeave_renames g2)

theorem innerDeclIterate_keeps {m : DeclId} {nm : String} (hne : nm.isEmpty = false)
    (ds : List Decl) (hfree : typedefFreeDecls m ds = true) (declId : DeclId) (isClass : Bool)
    (g : Gen) (h : Named m nm g) : Named m nm (innerDeclIterate declId isClass ds g).gen :=
  (emit_keeps m nm hne _).2.1 ds (Nat.le_refl _) hfree _ _ _ h

end Gentool
namespace Gentool

theorem typedefFreeDecls_append (m : DeclId) : ∀ (pre post : List Decl),
    typedefFreeDecls m (pre ++ post) = true →
    typedefFreeDecls m pre = true ∧ typedefFreeDecls m post = true := by
  intro pre
  induction pre with
  | nil => intro post h; exact ⟨by rw [typedefFreeDecls], h⟩
  | cons d rest ih =>
    intro post h
    cases d with
    | enumDecl e =>
      rw [List.cons_append, typedefFreeDecls] at h
      rw [typedefFreeDecls]
      exact ih post h
    | varDecl v =>
      rw [List.cons_append, typedefFreeDecls] at h
      rw [typedefFreeDecls]
      exact ih post h
    | functionTemplateDecl a f =>
      rw [List.cons_append, typedefFreeDecls] at h
      rw [typedefFreeDecls]
      exact ih post h
    | otherDecl =>
      rw [List.cons_append, typedefFreeDecls] at h
      rw [typedefFreeDecls]
      exact ih post h
    | recordDecl rd =>
      rcases rd with ⟨ri, rds, rbs⟩
      rw [List.cons_append, typedefFreeDecls, Bool.and_eq_true] at h
      rw [typedefFreeDecls, Bool.and_eq_true]
      exact ⟨⟨h.1, (ih post h.2).1⟩, (ih post h.2).2⟩
    | typedefDecl td =>
      rcases td with ⟨ti, record⟩
      cases record with
      | none =>
        rw [List.cons_append, typedefFreeDecls, Bool.and_eq_true] at h
        rw [typedefFreeDecls, Bool.and_eq_true]
        exact ⟨⟨h.1, (ih post h.2).1⟩, (ih post h.2).2⟩
      | some rd =>
        rcases rd with ⟨ri, rds, rbs⟩
        rw [List.cons_append, typedefFreeDecls, Bool.and_eq_true] at h
        rw [typedefFreeDecls, Bool.and_eq_true]
        exact ⟨⟨h.1, (ih post h.2).1⟩, (ih post h.2).2⟩

/-- A record with a name, new to the registry, written in full, with simple
member declarations: `onStructOrClassEnter` writes the header and the keyword,
names the anonymous member declarations in order from the counter, writes the
name of the record, and goes on with the nested declarations and the
members. -/
theorem onStructOrClassEnter_named (decl : RecordDecl) (g : Gen)
    (hnamed : hasIdentifier g.renames decl.info.id decl.info.name = true)
    (hnew : decl.info.loc ∉ g.storedTypes) (hfull : writtenInFull decl.info)
    (hsimple : ∀ d ∈ decl.decls, simpleMember d = true)
    (hdistinct : (anonymousIds g.renames decl.info.id decl.decls).Nodup) :
    ∃ gK : Gen,
      gK.out = g.out ++ recordHeaderText g.cppIsDefault decl.info ++ shapeKeyword decl ∧
      gK.renames = g.renames ∧ gK.localAnonRecordId = g.localAnonRecordId ∧
      gK.classOrStructName = getName g.renames decl.info.id decl.info.name ∧
      nameRecord decl gK =
        .ok (nameAnonymous (anonymousIds g.renames decl.info.id decl.decls) gK) ∧
      onStructOrClassEnter decl g =
        (innerDeclIterate decl.info.id decl.info.isClass decl.decls
          (recordOpening decl
            (nameAnonymous (anonymousIds g.renames decl.info.id decl.decls) gK))).andThen
          (recordMembers decl) := by
  rcases decl with ⟨info, ds, bs⟩
  simp only [RecordDecl.info, RecordDecl.decls] at hnamed hnew hfull hsimple hdistinct ⊢
  have hadd : addType info.loc (enterRecord info g).storedTypes =
      (true, (enterRecord info g).storedTypes ++ [info.loc]) :=
    addType_true _ _ hnew
  generalize hg1 : (enterRecord info g).setStoredTypes
    ((enterRecord info g).storedTypes ++ [info.loc]) = g1
  have hout : g1.out = g.out := by rw [← hg1]; rfl
  have hcpp : g1.cppIsDefault = g.cppIsDefault := by rw [← hg1]; rfl
  have hren : g1.renames = g.renames := by rw [← hg1]; rfl
  have hcnt : g1.localAnonRecordId = g.localAnonRecordId := by rw [← hg1]; rfl
  have hcs : g1.classOrStructName = getName g.renames info.id info.name := by rw [← hg1]; rfl
  have hnonempty : (getName g.renames info.id info.name).isEmpty = false := by
    unfold hasIdentifier at hnamed
    simpa using hnamed
  let gK := (g1.write (recordHeaderText g1.cppIsDefault info)).write (shapeKeyword (.mk info ds bs))
  have hname : nameRecord (.mk info ds bs) gK =
      .ok (nameAnonymous (anonymousIds g.renames info.id ds) gK) := by
    have := nameRecord_named (.mk info ds bs) gK
      (by show g1.classOrStructName.isEmpty = false; rw [hcs]; exact hnonempty)
      (by show hasIdentifier g1.renames info.id info.name = true; rw [hren]; exact hnamed)
      hsimple
      (by show (anonymousIds g1.renames info.id ds).Nodup; rw [hren]; exact hdistinct)
    have e : gK.renames = g.renames := hren
    simp only [RecordDecl.info, RecordDecl.decls, e] at this
    exact this
  refine ⟨gK, ?_, hren, hcnt, hcs, hname, ?_⟩
  · show g1.out ++ recordHeaderText g1.cppIsDefault info ++ shapeKeyword (.mk info ds bs) = _
    rw [hout, hcpp]
  · rw [onStructOrClassEnter, hadd]
    simp only [Bool.not_true, Bool.false_eq_true, if_false]
    rw [hg1, recordHeader_writtenInFull info _ hfull]
    simp only
    rw [recordIntro_eq, hname]
    rfl

end Gentool
namespace Gentool

theorem Res.andThen_assoc (r : Res) (f h : Gen → Res) :
    (r.andThen f).andThen h = r.andThen (fun g => (f g).andThen h) := by
  cases r <;> rfl

theorem innerDeclIterate_append (declId : DeclId) (isClass : Bool) :
    ∀ (pre post : List Decl) (g : Gen),
    innerDeclIterate declId isClass (pre ++ post) g =
      (innerDeclIterate declId isClass pre g).andThen (innerDeclIterate declId isClass post) := by
  intro pre
  induction pre with
  | nil => intro post g; rw [List.nil_append, innerDeclIterate]; rfl
  | cons d rest ih =>
    intro post g
    rw [List.cons_append]
    cases d with
    | enumDecl e => rw [innerDeclIterate, innerDeclIterate, ih]
    | varDecl v => rw [innerDeclIterate, innerDeclIterate, ih]
    | otherDecl => rw [innerDeclIterate, innerDeclIterate, ih]
    | recordDecl rd =>
      rcases rd with ⟨ri, rds, rbs⟩
      rw [innerDeclIterate, innerDeclIterate]
      split
      · exact ih post g
      · rw [Res.andThen_assoc]
        congr 1
        funext g1
        exact ih post _
    | functionTemplateDecl a fn =>
      cases fn with
      | none => rw [innerDeclIterate, innerDeclIterate, ih]
      | some fn =>
        rw [innerDeclIterate, innerDeclIterate]
        split
        · exact ih post g
        · exact ih post _
    | typedefDecl td =>
      rw [innerDeclIterate, innerDeclIterate, Res.andThen_assoc]
      congr 1
      funext g1
      exact ih post _

/-- The nested record `m` of the record `declId` is entered in the state the
declarations before it leave. -/
theorem innerDeclIterate_nested (declId : DeclId) (isClass : Bool) (pre post : List Decl)
    (m : RecordDecl) (g gP : Gen)
    (hpre : innerDeclIterate declId isClass pre g = .ok gP)
    (hid : m.info.id ≠ declId) (hcomplete : m.info.isCompleteDefinition = true) :
    innerDeclIterate declId isClass (pre ++ .recordDecl m :: post) g =
      (onStructOrClassEnter m gP).andThen fun g1 =>
        innerDeclIterate declId isClass post (onStructOrClassLeave g1) := by
  rcases m with ⟨mi, mds, mbs⟩
  rw [innerDeclIterate_append, hpre, Res.andThen_ok, innerDeclIterate]
  have : ¬(mi.id = declId ∨ (!mi.isCompleteDefinition) = true) := by
    simp only [RecordDecl.info] at hid hcomplete
    simp [hid, hcomplete]
  rw [if_neg this]

/-- The text a record with a name starts with: header, keyword, name. -/
theorem onStructOrClassEnter_name_written (decl : RecordDecl) (g : Gen)
    (hnamed : hasIdentifier g.renames decl.info.id decl.info.name = true)
    (hnew : decl.info.loc ∉ g.storedTypes) (hfull : writtenInFull decl.info)
    (hsimple : ∀ d ∈ decl.decls, simpleMember d = true)
    (hdistinct : (anonymousIds g.renames decl.info.id decl.decls).Nodup) :
    ∃ rest, (onStructOrClassEnter decl g).gen.out =
      g.out ++ recordHeaderText g.cppIsDefault decl.info ++ shapeKeyword decl ++
        getName g.renames decl.info.id decl.info.name ++ rest := by
  obtain ⟨gK, hout, _, _, hcs, _, heq⟩ :=
    onStructOrClassEnter_named decl g hnamed hnew hfull hsimple hdistinct
  obtain ⟨r1, hr1⟩ := recordOpening_out decl
    (nameAnonymous (anonymousIds g.renames decl.info.id decl.decls) gK)
  rw [nameAnonymous_out, nameAnonymous_name, hout, hcs] at hr1
  have hg : Grows (recordOpening decl
      (nameAnonymous (anonymousIds g.renames decl.info.id decl.decls) gK))
      (onStructOrClassEnter decl g).gen := by
    rw [heq]
    apply Grows.andThen
    · exact (emit_grows _).2.1 _ (Nat.le_refl _) _ _ _ _ (Grows.refl _)
    · intro g3 h3
      exact recordMembers_grows _ h3
  obtain ⟨t, ht⟩ := hg.out
  refine ⟨r1 ++ t, ?_⟩
  rw [ht, hr1]
  simp only [String.append_assoc]

end Gentool
namespace Gentool

/-- C13: for every record with a name that is new to the registry, written in
full and entered with the counter `localAnonRecordId` at 1, whose member
declarations are simple and whose anonymous nested entities are distinct
declarations: `onStructOrClassEnter` has written header and keyword, and not
yet the name of the record, when it names the anonymous nested records and
typedefs `_anon1`, `_anon2`, .. in declaration order, writing nothing; then come
the name of the record, the nested declarations and the members. An entity
that no member typedef names as its type keeps its name: its nested
declaration is entered in a state with that name and written under it, after
header and keyword, and in the state the nested declarations leave, in which
the fields are written, a type that is this record renders as that name. The
records `struct Outer { struct { int a; } s; }` and the one with three such
members are written so, and so is the one with
`typedef struct { int q; } T;` between two such members, whose record is
written as `_anon2`. -/
theorem anonymous_members_named_in_order (decl : RecordDecl) (g : Gen)
    (hnamed : hasIdentifier g.renames decl.info.id decl.info.name = true)
    (hnew : decl.info.loc ∉ g.storedTypes) (hfull : writtenInFull decl.info)
    (hcount : g.localAnonRecordId = 1)
    (hsimple : ∀ d ∈ decl.decls, simpleMember d = true)
    (hdistinct : (anonymousIds g.renames decl.info.id decl.decls).Nodup) :
    (∃ gK gN : Gen,
      gK.out = g.out ++ recordHeaderText g.cppIsDefault decl.info ++ shapeKeyword decl ∧
      nameRecord decl gK = .ok gN ∧ gN.out = gK.out ∧
      (∃ rest, (recordOpening decl gN).out =
        gK.out ++ getName g.renames decl.info.id decl.info.name ++ rest) ∧
      onStructOrClassEnter decl g =
        (innerDeclIterate decl.info.id decl.info.isClass decl.decls
          (recordOpening decl gN)).andThen (recordMembers decl) ∧
      ∀ (k : Nat) (id : DeclId),
        (anonymousIds g.renames decl.info.id decl.decls)[k]? = some id →
        Named id (anonName (k + 1)) gN ∧
        (typedefFreeDecls id decl.decls = true →
          (∀ (pre post : List Decl) (m : RecordDecl) (gP : Gen),
            decl.decls = pre ++ .recordDecl m :: post → m.info.id = id →
            innerDeclIterate decl.info.id decl.info.isClass pre (recordOpening decl gN) =
              .ok gP →
            Named id (anonName (k + 1)) gP ∧
            (m.info.id ≠ decl.info.id → m.info.isCompleteDefinition = true →
              innerDeclIterate decl.info.id decl.info.isClass decl.decls
                  (recordOpening decl gN) =
                (onStructOrClassEnter m gP).andThen fun g1 =>
                  innerDeclIterate decl.info.id decl.info.isClass post
                    (onStructOrClassLeave g1)) ∧
            (m.info.loc ∉ gP.storedTypes → writtenInFull m.info →
              (∀ d ∈ m.decls, simpleMember d = true) →
              (anonymousIds gP.renames m.info.id m.decls).Nodup →
              ∃ rest, (onStructOrClassEnter m gP).gen.out =
                gP.out ++ recordHeaderText gP.cppIsDefault m.info ++ shapeKeyword m ++
                  anonName (k + 1) ++ rest)) ∧
          (∀ gD : Gen,
            innerDeclIterate decl.info.id decl.info.isClass decl.decls
              (recordOpening decl gN) = .ok gD →
            ∀ (c : Bool) (r : RecordRef), r.id = id →
              toDStyle gD.renames (.mk c (.record r)) = anonName (k + 1)))) ∧
    (onStructOrClassEnter outerRecord initialGen).gen.out =
      "extern(C++)\n@cppclasssize(4) align(4)\nstruct Outer\n\x7b\nextern(C++)\n@cppclasssize(4) align(4)\nstruct _anon1\n\x7b\n@cppsize(4) public int a;\n\x7d\n\n@cppsize(4) public _anon1 s;\n\x7d\n" ∧
    (onStructOrClassEnter outerOfThree initialGen).gen.out =
      "extern(C++)\n@cppclasssize(12) align(4)\nstruct Outer\n\x7b\nextern(C++)\n@cppclasssize(4) align(4)\nstruct _anon1\n\x7b\n@cppsize(4) public int a;\n\x7d\n\nextern(C++)\n@cppclasssize(4) align(4)\nstruct _anon2\n\x7b\n@cppsize(4) public int b;\n\x7d\n\nextern(C++)\n@cppclasssize(4) align(4)\nstruct _anon3\n\x7b\n@cppsize(4) public int c;\n\x7d\n\n@cppsize(4) public _anon1 s;\n@cppsize(4) public _anon2 t;\n@cppsize(4) public _anon3 u;\n\x7d\n" ∧
    (onStructOrClassEnter outerWithTypedef initialGen).gen.out =
      "extern(C++)\n@cppclasssize(8) align(4)\nstruct Outer\n\x7b\nextern(C++)\n@cppclasssize(4) align(4)\nstruct _anon1\n\x7b\n@cppsize(4) public int a;\n\x7d\n\nextern(C++)\n@cppclasssize(4) align(4)\nstruct _anon2\n\x7b\n@cppsize(4) public int q;\n\x7d\n\n\nextern(C++)\n@cppclasssize(4) align(4)\nstruct _anon3\n\x7b\n@cppsize(4) public int b;\n\x7d\n\n@cppsize(4) public _anon1 s;\n@cppsize(4) public _anon3 t;\n\x7d\n" := by
  refine ⟨?_, by decide!, by decide!, by decide!⟩
  obtain ⟨gK, hout, hren, hcnt, hcs, hname, heq⟩ :=
    onStructOrClassEnter_named decl g hnamed hnew hfull hsimple hdistinct
  refine ⟨gK, nameAnonymous (anonymousIds g.renames decl.info.id decl.decls) gK, hout, hname,
    nameAnonymous_out _ _, ?_, heq, ?_⟩
  · obtain ⟨r1, hr1⟩ := recordOpening_out decl
      (nameAnonymous (anonymousIds g.renames decl.info.id decl.decls) gK)
    rw [nameAnonymous_out, nameAnonymous_name, hcs] at hr1
    exact ⟨r1, hr1⟩
  · intro k id hk
    have hN : Named id (anonName (k + 1))
        (nameAnonymous (anonymousIds g.renames decl.info.id decl.decls) gK) := by
      have := nameAnonymous_lookup _ gK hdistinct k id hk
      rw [hcnt, hcount, Nat.add_comm] at this
      exact this
    have hne := anonName_isEmpty (k + 1)
    have hO : Named id (anonName (k + 1)) (recordOpening decl
        (nameAnonymous (anonymousIds g.renames decl.info.id decl.decls) gK)) :=
      hN.sameRenames (recordOpening_renames _ _)
    refine ⟨hN, fun hfree => ⟨?_, ?_⟩⟩
    · intro pre post m gP hsplit hm hpre
      have hfp : typedefFreeDecls id pre = true := by
        rw [hsplit] at hfree
        exact (typedefFreeDecls_append id _ _ hfree).1
      have hP : Named id (anonName (k + 1)) gP := by
        have := innerDeclIterate_keeps hne pre hfp decl.info.id decl.info.isClass _ hO
        rw [hpre] at this
        exact this
      refine ⟨hP, ?_, ?_⟩
      · intro hid hcomplete
        have := innerDeclIterate_nested _ _ pre post m _ gP hpre hid hcomplete
        rw [← hsplit] at this
        exact this
      · intro hnewm hfullm hsimplem hdistinctm
        have hPm : Named m.info.id (anonName (k + 1)) gP := by rw [hm]; exact hP
        have := onStructOrClassEnter_name_written m gP (hPm.identified hne _) hnewm hfullm
          hsimplem hdistinctm
        rw [hPm.nameIs] at this
        exact this
    · intro gD hD c r hr
      have hDn : Named id (anonName (k + 1)) gD := by
        have := innerDeclIterate_keeps hne decl.decls hfree decl.info.id decl.info.isClass _ hO
        rw [hD] at this
        exact this
      have hg : getName gD.renames r.id r.name = anonName (k + 1) := by
        rw [hr]; exact hDn.nameIs _
      rw [toDStyle_record _ _ _ (by rw [hg]; exact anonName_nocolon _), hg]

end Gentool
namespace Gentool

/-- C13, at the record `struct Outer` with the three anonymous member records
11, 12 and 13. -/
theorem anonymous_members_named_in_order_witness :
    ∃ gK gN : Gen,
      gK.out = initialGen.out ++ recordHeaderText initialGen.cppIsDefault outerOfThree.info ++
        shapeKeyword outerOfThree ∧
      nameRecord outerOfThree gK = .ok gN ∧ gN.out = gK.out ∧
      Named 11 (anonName 1) gN ∧ Named 12 (anonName 2) gN ∧ Named 13 (anonName 3) gN :=
  match (anonymous_members_named_in_order outerOfThree initialGen (by decide!) (by decide!)
      (Or.inr (by decide!)) rfl (by decide!) (by decide!)).1 with
  | ⟨gK, gN, a, b, c, _, _, f⟩ =>
    ⟨gK, gN, a, b, c, (f 0 11 (by decide!)).1, (f 1 12 (by decide!)).1, (f 2 13 (by decide!)).1⟩

end Gentool
namespace Gentool

theorem onStructOrClassEnter_reentered (decl : RecordDecl) (g : Gen)
    (h : decl.info.loc ∈ g.storedTypes) :
    onStructOrClassEnter decl g = .ok (enterRecord decl.info g) := by
  rcases decl with ⟨info, ds, bs⟩
  rw [onStructOrClassEnter]
  have hadd : addType info.loc (enterRecord info g).storedTypes =
      (false, (enterRecord info g).storedTypes) := addType_false _ _ h
  rw [hadd]
  rfl

/-- C30 (amended). When `onStructOrClassEnter` is called for a record that is
already in the registry it returns without writing: the output, the
registries, the names given to declarations and the two anonymous-naming
counters are as before. The head of the function has run, though: the record
is pushed on the declaration stack, `classOrStructName` is the name of the
record and `finalTypeName` the merged name; the `onStructOrClassLeave` that
follows pops the stack again. -/
theorem registered_record_entered_on_stack (decl : RecordDecl) (g : Gen)
    (hreg : decl.info.loc ∈ g.storedTypes) :
    ∃ g1, onStructOrClassEnter decl g = .ok g1 ∧
      g1.out = g.out ∧ g1.storedTypes = g.storedTypes ∧ g1.enumDecls = g.enumDecls ∧
      g1.functionDecls = g.functionDecls ∧ g1.macroDefs = g.macroDefs ∧
      g1.renames = g.renames ∧
      g1.globalAnonTypeId = g.globalAnonTypeId ∧ g1.localAnonRecordId = g.localAnonRecordId ∧
      g1.declStack = g.declStack ++ [(decl.info.id, decl.info.name)] ∧
      g1.classOrStructName = getName g.renames decl.info.id decl.info.name ∧
      g1.finalTypeName =
        merge g.renames g.declStack ++ getName g.renames decl.info.id decl.info.name ∧
      (onStructOrClassLeave g1).declStack = g.declStack :=
  ⟨enterRecord decl.info g, onStructOrClassEnter_reentered decl g hreg, rfl, rfl, rfl, rfl, rfl,
    rfl, rfl, rfl, rfl, rfl, rfl, by
      simp only [onStructOrClassLeave, enterRecord, Gen.write, List.dropLast_concat]
      split <;> rfl⟩

theorem registered_record_entered_on_stack_witness :
    ∃ g1, onStructOrClassEnter pointRecord pointRegisteredGen = .ok g1 ∧
      g1.out = pointRegisteredGen.out ∧ g1.storedTypes = pointRegisteredGen.storedTypes ∧
      g1.enumDecls = pointRegisteredGen.enumDecls ∧
      g1.functionDecls = pointRegisteredGen.functionDecls ∧
      g1.macroDefs = pointRegisteredGen.macroDefs ∧
      g1.renames = pointRegisteredGen.renames ∧
      g1.globalAnonTypeId = pointRegisteredGen.globalAnonTypeId ∧
      g1.localAnonRecordId = pointRegisteredGen.localAnonRecordId ∧
      g1.declStack =
        pointRegisteredGen.declStack ++ [(pointRecord.info.id, pointRecord.info.name)] ∧
      g1.classOrStructName =
        getName pointRegisteredGen.renames pointRecord.info.id pointRecord.info.name ∧
      g1.finalTypeName =
        merge pointRegisteredGen.renames pointRegisteredGen.declStack ++
          getName pointRegisteredGen.renames pointRecord.info.id pointRecord.info.name ∧
      (onStructOrClassLeave g1).declStack = pointRegisteredGen.declStack :=
  registered_record_entered_on_stack pointRecord pointRegisteredGen (by decide)

/-- C30, counterexample. `struct Point` is in the registry, the declaration
stack is empty and no record name is set: after `onStructOrClassEnter` the
call has returned and written nothing, but the stack holds the record and the
two name fields are `Point`. -/
theorem registered_record_stack_counterexample :
    (onStructOrClassEnter pointRecord pointRegisteredGen).isOk = true ∧
    (onStructOrClassEnter pointRecord pointRegisteredGen).gen.out = pointRegisteredGen.out ∧
    pointRegisteredGen.declStack = [] ∧
    (onStructOrClassEnter pointRecord pointRegisteredGen).gen.declStack = [(1, "Point")] ∧
    pointRegisteredGen.classOrStructName = "" ∧
    (onStructOrClassEnter pointRecord pointRegisteredGen).gen.classOrStructName = "Point" ∧
    pointRegisteredGen.finalTypeName = "" ∧
    (onStructOrClassEnter pointRecord pointRegisteredGen).gen.finalTypeName = "Point" := by
  decide

end Gentool
namespace Gentool

/-- C24. For `enum Flags : unsigned { None = 0, All = 0xFFFFFFFF };` `onEnum`
lists the enumerators in declaration order, and writes the enumerator `All`,
whose value 4294967295 is at least 2^31, as `All = -1`: the value is printed
as a signed number of 32 bits, and the numeral 4294967295 is not written. -/
theorem unsigned_enumerator_printed_signed :
    (onEnum flagsEnum initialGen).out =
      "alias Flags = uint;\nenum  : Flags\n\x7b\n    None = 0, \n    All = -1, \n\x7d\n\n" ∧
    countOccurrences (enumeratorEntry "All" 4294967295).data
      (onEnum flagsEnum initialGen).out.data = 0 ∧
    countOccurrences (enumeratorEntry "None" 0).data
      (onEnum flagsEnum initialGen).out.data = 1 := by
  decide

end Gentool
namespace Gentool

theorem String.append_left_cancel (a b c : String) (h : a ++ b = a ++ c) : b = c := by
  have := congrArg String.data h
  simp only [String.data_append] at this
  exact String.ext (List.append_cancel_left this)

theorem onMacroDefine_text (roots : List String) (name : String) (md : MacroDirective)
    (mi : MacroInfo) (g : Gen) (hinfo : md.info = some mi)
    (hrel : isRelevantPath roots md.location md.fullPath = true)
    (hguard : mi.isUsedForHeaderGuard = false) (htok : mi.tokens ≠ [])
    (hnew : name ∉ g.macroDefs) :
    (onMacroDefine roots (some name) (some md) g).out =
      g.out ++
        (if isSimpleValue mi.tokens = true then
          (if mi.params = [] then valueEnumLine name mi.tokens
           else commentedEnumBlock name mi.params mi.tokens)
         else longDefineComment md.location name) ∧
    (onMacroDefine roots (some name) (some md) g).macroDefs = g.macroDefs ++ [name] := by
  have hlen : (mi.tokens.length == 0) = false := by
    cases h : mi.tokens with
    | nil => exact absurd h htok
    | cons a l => rfl
  have hc : g.macroDefs.contains name = false := by simpa using hnew
  simp only [onMacroDefine, hrel, hinfo, hguard, hlen, hc, Bool.not_true, Bool.false_or,
    if_false, Bool.false_eq_true]
  have hs : (mi.tokens.length == 1 ||
      (mi.tokens.length == 2 && mi.tokens.head? == some (.punctuator .minus))) =
      isSimpleValue mi.tokens := by
    unfold isSimpleValue
    cases h1 : decide (mi.tokens.length = 1) <;> cases h2 : decide (mi.tokens.length = 2) <;>
      cases h3 : decide (mi.tokens.head? = some (.punctuator .minus)) <;>
      simp_all
  rw [hs]
  cases hv : isSimpleValue mi.tokens
  · simp only [Gen.write, longDefineComment, String.append_assoc, Bool.false_eq_true, if_false,
      and_self]
  · by_cases hp : mi.params = []
    · simp only [Gen.write, valueEnumLine, hp, macroParamsText, String.append_assoc,
        List.length_nil, ne_eq, not_true_eq_false, if_false, if_true, String.append_empty,
        and_self]
    · have hl : mi.params.length ≠ 0 := by
        intro h
        exact hp (List.length_eq_zero.1 h)
      simp only [Gen.write, commentedEnumBlock, hp, hl, String.append_assoc, ne_eq,
        not_false_eq_true, if_true, if_false, and_self]


theorem valueEnumLine_ne_comment (name location : String) (tokens : List Token) :
    valueEnumLine name tokens ≠ longDefineComment location name := by
  intro h
  have := congrArg (fun s : String => s.data.head?) h
  simp [valueEnumLine, longDefineComment, String.data_append] at this

end Gentool
namespace Gentool

/-- C25 (amended). For the object-like macro `#define MAX_SIZE 100` located
under a configured input root and not defined before, `onMacroDefine` writes
the line `enum MAX_SIZE = 100 ;`: the name, ` = `, the literal, one blank
(written after every literal token) and then `;`, followed by a newline. -/
theorem max_size_define_text (roots : List String) (location fullPath : String) (g : Gen)
    (hrel : isRelevantPath roots location fullPath = true)
    (hnew : "MAX_SIZE" ∉ g.macroDefs) :
    (onMacroDefine roots (some "MAX_SIZE") (some (maxSizeDefine location fullPath)) g).out =
      g.out ++ "enum MAX_SIZE = 100 ;\n" :=
  (onMacroDefine_text roots "MAX_SIZE" (maxSizeDefine location fullPath)
    { isUsedForHeaderGuard := false, tokens := [.literal "100"], params := [] } g rfl hrel rfl
    (List.cons_ne_nil _ _) hnew).1

theorem max_size_define_text_witness :
    (onMacroDefine ["/src"] (some "MAX_SIZE")
        (some (maxSizeDefine "/src/limits.h:3:9" "/src/limits.h")) initialGen).out =
      initialGen.out ++ "enum MAX_SIZE = 100 ;\n" :=
  max_size_define_text ["/src"] "/src/limits.h:3:9" "/src/limits.h" initialGen (by decide)
    (by decide)

/-- C25, counterexample. For `#define MAX_SIZE 100` in `/src/limits.h`, with
`/src` an input root, the text written is `enum MAX_SIZE = 100 ;` and a
newline: `100;`, the literal with `;` right after it, does not occur. -/
theorem max_size_define_counterexample :
    (onMacroDefine ["/src"] (some "MAX_SIZE")
        (some (maxSizeDefine "/src/limits.h:3:9" "/src/limits.h")) initialGen).out =
      "enum MAX_SIZE = 100 ;\n" ∧
    countOccurrences "100;".data
      (onMacroDefine ["/src"] (some "MAX_SIZE")
        (some (maxSizeDefine "/src/limits.h:3:9" "/src/limits.h")) initialGen).out.data = 0 ∧
    countOccurrences "enum MAX_SIZE = 100;".data
      (onMacroDefine ["/src"] (some "MAX_SIZE")
        (some (maxSizeDefine "/src/limits.h:3:9" "/src/limits.h")) initialGen).out.data = 0 := by
  decide

end Gentool
namespace Gentool


/-- The text of a constructor that `methodIterate` does not pass over. -/
theorem methodText_ctor (env : MethodEnv) (m : CXXMethodDecl) (isDefault isMove isCopy : Bool)
    (hctor : isConstructor m = true) (hflags : ctorFlags m = some (isDefault, isMove, isCopy))
    (hskip : isSkipped env m = false) :
    ∃ rest, methodText env m =
      defaultedMark m ++ (if !env.isVirtualDecl && isDefault then "// " else "") ++
        (if isMove then "// move ctor" ++ "\n" else "") ++
        (if isCopy then "// copy ctor" ++ "\n" else "") ++ ctorSignature env m ++ rest := by
  unfold isSkipped at hskip
  rw [Bool.or_eq_false_iff] at hskip
  obtain ⟨h1, h2⟩ := hskip
  unfold isConstructor at hctor
  simp only [Bool.and_eq_true, Bool.not_eq_true', decide_eq_true_eq] at hctor
  obtain ⟨⟨⟨_, hm⟩, hid⟩, hop⟩ := hctor
  have hops : m.isOverloadedOperator = false := by
    unfold CXXMethodDecl.isOverloadedOperator
    simp [hop]
  unfold ctorFlags at hflags
  unfold methodText
  simp only [h1, h2, Bool.false_eq_true, if_false]
  cases hk : m.kind with
  | method => rw [hk] at hflags; simp at hflags
  | dtor => rw [hk] at hflags; simp at hflags
  | conversion t => rw [hk] at hflags; simp at hflags
  | ctor d mv cp inits =>
    rw [hk] at hflags
    simp only [Option.some.injEq, Prod.mk.injEq] at hflags
    obtain ⟨rfl, rfl, rfl⟩ := hflags
    simp only [hops, hm, hid, Bool.true_and, Bool.false_and, Bool.or_false, Bool.not_true,
      Bool.and_false, Bool.false_eq_true, if_false, if_true, Bool.true_or, Bool.not_false,
      Bool.and_true, Bool.false_or]
    simp only [ctorSignature, defaultedMark, ctorFlags, hk, Option.any_some, String.append_assoc,
      String.empty_append]
    exact ⟨_, rfl⟩

end Gentool
namespace Gentool

/-- C22 (amended). In a record with no virtual method in its hierarchy, a
default constructor declared by the user that is neither a copy nor a move
constructor is written commented out: the line that carries its signature
begins with `// ` (after the mark `// (default) ` when it is defaulted). A
copy or move constructor that is no default constructor is only tagged: the
comment line `// move ctor` or `// copy ctor` stands before it, and the line
that carries its signature begins with the signature, as live text. -/
theorem default_constructor_commented_out (env : MethodEnv) (m : CXXMethodDecl)
    (hvirt : env.isVirtualDecl = false) (hctor : isConstructor m = true)
    (hskip : isSkipped env m = false) :
    (ctorFlags m = some (true, false, false) →
      ∃ rest, methodText env m = defaultedMark m ++ "// " ++ ctorSignature env m ++ rest) ∧
    (∀ isMove isCopy : Bool, ctorFlags m = some (false, isMove, isCopy) →
      ∃ rest, methodText env m =
        defaultedMark m ++ (if isMove then "// move ctor" ++ "\n" else "") ++
          (if isCopy then "// copy ctor" ++ "\n" else "") ++ ctorSignature env m ++ rest) := by
  constructor
  · intro hflags
    obtain ⟨rest, h⟩ := methodText_ctor env m true false false hctor hflags hskip
    refine ⟨rest, ?_⟩
    rw [h, hvirt]
    simp only [Bool.not_false, Bool.and_self, if_true, Bool.false_eq_true, if_false,
      String.append_empty]
  · intro isMove isCopy hflags
    obtain ⟨rest, h⟩ := methodText_ctor env m false isMove isCopy hctor hflags hskip
    refine ⟨rest, ?_⟩
    rw [h]
    simp only [Bool.and_false, Bool.false_eq_true, if_false, String.append_empty]

/-- C22, at the constructors `Foo();` and `Foo(const Foo& rhs);` of
`struct Foo`. -/
theorem default_constructor_commented_out_witness :
    (∃ rest, methodText fooEnv defaultCtorFoo =
      defaultedMark defaultCtorFoo ++ "// " ++ ctorSignature fooEnv defaultCtorFoo ++ rest) ∧
    (∃ rest, methodText fooEnv copyCtorFoo =
      defaultedMark copyCtorFoo ++ (if false then "// move ctor" ++ "\n" else "") ++
        (if true then "// copy ctor" ++ "\n" else "") ++ ctorSignature fooEnv copyCtorFoo ++
        rest) :=
  ⟨(default_constructor_commented_out fooEnv defaultCtorFoo rfl (by decide) (by decide)).1 rfl,
   (default_constructor_commented_out fooEnv copyCtorFoo rfl (by decide) (by decide)).2
      false true rfl⟩

/-- C22, counterexample. `struct Foo` has no virtual method. Its copy
constructor `Foo(const Foo& rhs);` and its move constructor `Foo(Foo&& rhs);`
are written as a comment line followed by the live declaration: the line that
carries the signature begins with `public`, not with `// `. Only the default
constructor `Foo();` is commented out. -/
theorem copy_constructor_live_counterexample :
    fooEnv.isVirtualDecl = false ∧
    getLines (methodText fooEnv copyCtorFoo).data [] =
      ["// copy ctor", "public this(ref const(Foo) rhs);", ""] ∧
    getLines (methodText fooEnv moveCtorFoo).data [] =
      ["// move ctor", "public this(ref Foo rhs);", ""] ∧
    getLines (methodText fooEnv defaultCtorFoo).data [] = ["// public this();", ""] ∧
    (methodIterate (fooRecord [copyCtorFoo]) initialGen).out =
      "// copy ctor\npublic this(ref const(Foo) rhs);\n\n" := by
  decide!

/-- C23. The record `struct Shape { virtual void draw(); int id(); };` has a
virtual method and is written with the keyword `class`, but its method `id`,
which is not virtual, is written without `final`: no `final` occurs in the
text of the record. The same record declared with the key `class` gets
`public final int id();`. -/
theorem struct_keyed_polymorphic_method_not_final :
    hasVirtualMethods shapeRecord = true ∧
    (onStructOrClassEnter shapeRecord initialGen).isOk = true ∧
    (onStructOrClassEnter shapeRecord initialGen).gen.out =
      "extern(C++)\n@cppclasssize(8) align(8)\nclass Shape\n\x7b\npublic void draw();\n\npublic int id();\n\n\x7d\n" ∧
    countOccurrences "final".data
      (onStructOrClassEnter shapeRecord initialGen).gen.out.data = 0 ∧
    (onStructOrClassEnter shapeClassRecord initialGen).gen.out =
      "extern(C++)\n@cppclasssize(8) align(8)\nclass Shape\n\x7b\npublic void draw();\n\npublic final int id();\n\n\x7d\n" := by
  decide!

end Gentool
namespace Gentool

theorem fakeBaseLines_eq (ren : Renames) : ∀ (rds : List RecordDecl) (baseid : Nat),
    fakeBaseLines ren rds baseid = flattenedMembersFrom ren baseid rds := by
  intro rds
  induction rds with
  | nil => intro baseid; rfl
  | cons rd rest ih =>
    intro baseid
    rw [fakeBaseLines, ih]
    simp only [flattenedMembersFrom, List.enumFrom_cons, List.map_cons, join_cons,
      flattenedMember, String.append_assoc]
    rfl

theorem printBasesLoop_eq (ren : Renames) : ∀ (bases : List CXXBaseSpecifier) (first : Bool),
    printBasesLoop ren bases bases.length first =
      ((if first = true ∧ (inheritanceEntries ren bases).isEmpty = false then " : " else "") ++
        String.join (inheritanceEntries ren bases), flattenedBases bases) := by
  intro bases
  induction bases with
  | nil => intro first; simp [printBasesLoop, inheritanceEntries, flattenedBases, join_nil]
  | cons b rest ih =>
    intro first
    rcases b with ⟨type, decl⟩
    have hlen : (CXXBaseSpecifier.mk type decl :: rest).length - 1 = rest.length := by simp
    have hsep : (if rest.length ≠ 0 then ", " else "") = (if rest.isEmpty then "" else ", ") := by
      cases rest <;> rfl
    cases decl with
    | none =>
      have hf : flattenedBase (.mk type none) = none := rfl
      rw [printBasesLoop.eq_def]
      simp only [hlen, ih, hsep]
      simp only [inheritanceEntries, flattenedBases, List.filterMap_cons, hf, Option.isSome_none,
        Bool.false_eq_true, if_false, List.isEmpty_cons, and_true, join_cons,
        CXXBaseSpecifier.type, String.append_assoc, false_and, String.empty_append]
    | some rd =>
      cases hv : hasVirtualMethods rd with
      | false =>
        have hf : flattenedBase (.mk type (some rd)) = some rd := by
          simp [flattenedBase, CXXBaseSpecifier.decl, hv]
        rw [printBasesLoop.eq_def]
        simp only [hlen, ih, hv, Bool.not_false, if_true]
        simp only [inheritanceEntries, flattenedBases, List.filterMap_cons, hf,
          Option.isSome_some, if_true]
      | true =>
        have hf : flattenedBase (.mk type (some rd)) = none := by
          simp [flattenedBase, CXXBaseSpecifier.decl, hv]
        rw [printBasesLoop.eq_def]
        simp only [hlen, ih, hv, hsep, Bool.not_true, Bool.false_eq_true, if_false]
        simp only [inheritanceEntries, flattenedBases, List.filterMap_cons, hf,
          Option.isSome_none, Bool.false_eq_true, if_false, List.isEmpty_cons, and_true,
          join_cons, CXXBaseSpecifier.type, String.append_assoc, false_and, String.empty_append]
  
theorem printBases_eq (ren : Renames) (decl : RecordDecl) :
    printBases ren decl = (inheritanceList ren decl.bases, flattenedBases decl.bases) := by
  unfold printBases inheritanceList
  rw [printBasesLoop_eq]
  cases h : (inheritanceEntries ren decl.bases).isEmpty <;> simp

/-- Every base has its place: a flattened base is in the list of the flattened
bases, any other base has an entry in the inheritance list that starts with
the rendering of its type. -/
theorem base_listed_or_flattened (ren : Renames) : ∀ (bases : List CXXBaseSpecifier),
    (inheritanceEntries ren bases).length + (flattenedBases bases).length = bases.length ∧
    ∀ b ∈ bases,
      (∀ rd, flattenedBase b = some rd → rd ∈ flattenedBases bases) ∧
      (flattenedBase b = none →
        ∃ sep, toDStyle ren b.type ++ sep ∈ inheritanceEntries ren bases) := by
  intro bases
  induction bases with
  | nil => simp [inheritanceEntries, flattenedBases]
  | cons c rest ih =>
    obtain ⟨hlen, hmem⟩ := ih
    cases hc : flattenedBase c with
    | none =>
      have he : inheritanceEntries ren (c :: rest) =
          (toDStyle ren c.type ++ (if rest.isEmpty then "" else ", ")) ::
            inheritanceEntries ren rest := by
        simp [inheritanceEntries, hc]
      have hf : flattenedBases (c :: rest) = flattenedBases rest := by
        simp [flattenedBases, List.filterMap_cons, hc]
      refine ⟨(by rw [he, hf, List.length_cons, List.length_cons]; omega), ?_⟩
      intro b hb
      rw [he, hf]
      rcases List.mem_cons.1 hb with rfl | hb
      · refine ⟨fun rd h => (by rw [hc] at h; cases h), fun _ => ⟨_, List.mem_cons_self _ _⟩⟩
      · refine ⟨(hmem b hb).1, fun h => ?_⟩
        obtain ⟨sep, hs⟩ := (hmem b hb).2 h
        exact ⟨sep, List.mem_cons_of_mem _ hs⟩
    | some rd0 =>
      have he : inheritanceEntries ren (c :: rest) = inheritanceEntries ren rest := by
        simp [inheritanceEntries, hc]
      have hf : flattenedBases (c :: rest) = rd0 :: flattenedBases rest := by
        simp [flattenedBases, List.filterMap_cons, hc]
      refine ⟨(by rw [he, hf, List.length_cons, List.length_cons]; omega), ?_⟩
      intro b hb
      rw [he, hf]
      rcases List.mem_cons.1 hb with rfl | hb
      · refine ⟨fun rd h => ?_, fun h => (by rw [hc] at h; cases h)⟩
        rw [hc] at h
        cases h
        exact List.mem_cons_self _ _
      · exact ⟨fun rd h => List.mem_cons_of_mem _ ((hmem b hb).1 rd h), (hmem b hb).2⟩

/-- The inheritance list is the last thing `onStructOrClassEnter` writes
before the line break and the opening brace of the body. -/
theorem recordIntro_inheritance (decl : RecordDecl) (g g1 : Gen)
    (hcxx : decl.info.isCXX = true) (h : recordIntro decl g = .ok g1) :
    ∃ pre, g1.out = pre ++ inheritanceList g1.renames decl.bases ++ "\n" ++ ("\x7b" ++ "\n") := by
  unfold recordIntro at h
  simp only at h
  cases hn : nameRecord decl (g.write (shapeKeyword decl)) with
  | fault d gf => rw [hn] at h; cases h
  | ok gN =>
    rw [hn, Res.andThen_ok] at h
    simp only [hcxx, if_true, Res.ok.injEq] at h
    rw [← h]
    refine ⟨gN.out ++ gN.classOrStructName ++ recordTemplateText gN.renames decl.info, ?_⟩
    simp only [Gen.write, printBases_eq, String.append_assoc]

/-- The members of the flattened bases are the first thing
`onStructOrClassEnter` writes after the nested declarations, and the closing
brace of the body is the last. -/
theorem recordMembers_flattened (decl : RecordDecl) (g g2 : Gen)
    (hcxx : decl.info.isCXX = true) (h : recordMembers decl g = .ok g2) :
    ∃ mid, g2.out =
      g.out ++ flattenedMembers g.renames (flattenedBases decl.bases) ++ mid ++
        ("\x7d" ++ "\n") := by
  unfold recordMembers at h
  simp only [hcxx, if_true, printBases_eq, fakeBaseLines_eq] at h
  cases hf : fieldIterate decl.info.isClass decl.info.fields
      (g.write (flattenedMembersFrom g.renames 0 (flattenedBases decl.bases))) with
  | fault d gf => rw [hf] at h; cases h
  | ok gF =>
    rw [hf, Res.andThen_ok] at h
    simp only [Res.ok.injEq] at h
    have h1 : Grows (g.write (flattenedMembersFrom g.renames 0 (flattenedBases decl.bases)))
        gF := by
      have := fieldIterate_grows decl.info.isClass decl.info.fields
        (Grows.refl (g.write (flattenedMembersFrom g.renames 0 (flattenedBases decl.bases))))
      rw [hf] at this
      exact this
    obtain ⟨t, ht⟩ := (methodIterate_grows decl h1).out
    refine ⟨t, ?_⟩
    rw [← h]
    simp only [Gen.write] at ht ⊢
    rw [ht]
    simp only [flattenedMembers, String.append_assoc]

end Gentool
namespace Gentool

/-- C21. `printBases` sorts the bases of a record: a base whose type names a
record with no virtual method in its hierarchy is flattened, every other base
is listed. The flattened bases are returned in declaration order and get no
entry in the inheritance list; every other base has an entry there that
starts with the rendering of its type. The inheritance list is written before
the opening brace; in the body, right after the nested declarations,
`onStructOrClassEnter` writes for the flattened base number i (counted from 0
in declaration order) the line `<BaseName> _b<i>;` followed by the line
`alias _b<i> this;`, and nothing of the kind for a listed base. For
`struct Derived : Plain, Shape, Point { };`, where only `Shape` has a virtual
method, `Shape` is listed and `Plain` and `Point` are the members `_b0` and
`_b1`. -/
theorem bases_flattened_or_listed (decl : RecordDecl) (ren : Renames) (g : Gen) :
    (printBases ren decl).2 = flattenedBases decl.bases ∧
    (printBases ren decl).1 = inheritanceList ren decl.bases ∧
    (inheritanceEntries ren decl.bases).length + (flattenedBases decl.bases).length =
      decl.bases.length ∧
    (∀ b ∈ decl.bases,
      (∀ rd, flattenedBase b = some rd → rd ∈ flattenedBases decl.bases) ∧
      (flattenedBase b = none →
        ∃ sep, toDStyle ren b.type ++ sep ∈ inheritanceEntries ren decl.bases)) ∧
    (∀ rds : List RecordDecl, fakeBaseLines ren rds 0 = flattenedMembers ren rds) ∧
    (decl.info.isCXX = true → ∀ g1, recordIntro decl g = .ok g1 →
      ∃ pre, g1.out =
        pre ++ inheritanceList g1.renames decl.bases ++ "\n" ++ ("\x7b" ++ "\n")) ∧
    (decl.info.isCXX = true → ∀ g2, recordMembers decl g = .ok g2 →
      ∃ mid, g2.out =
        g.out ++ flattenedMembers g.renames (flattenedBases decl.bases) ++ mid ++
          ("\x7d" ++ "\n")) ∧
    (onStructOrClassEnter derivedRecord initialGen).gen.out =
      "extern(C++)\n@cppclasssize(24) align(8)\nclass Derived : Shape, \n\x7b\nPlain _b0;\nalias _b0 this;\nPoint _b1;\nalias _b1 this;\n\x7d\n" := by
  refine ⟨?_, ?_, (base_listed_or_flattened ren decl.bases).1,
    (base_listed_or_flattened ren decl.bases).2, fun rds => fakeBaseLines_eq ren rds 0,
    fun hcxx g1 h => recordIntro_inheritance decl g g1 hcxx h,
    fun hcxx g2 h => recordMembers_flattened decl g g2 hcxx h, by decide!⟩
  · rw [printBases_eq]
  · rw [printBases_eq]

/-- C21, at `struct Derived : Plain, Shape, Point { };`: the opening of the
record ends with the inheritance list and the brace, and the members of the
flattened bases start the part after the nested declarations. -/
theorem bases_flattened_or_listed_witness :
    (∀ g1, recordIntro derivedRecord initialGen = .ok g1 →
      ∃ pre, g1.out =
        pre ++ inheritanceList g1.renames derivedRecord.bases ++ "\n" ++ ("\x7b" ++ "\n")) ∧
    (∀ g2, recordMembers derivedRecord initialGen = .ok g2 →
      ∃ mid, g2.out =
        initialGen.out ++
          flattenedMembers initialGen.renames (flattenedBases derivedRecord.bases) ++ mid ++
          ("\x7d" ++ "\n")) ∧
    (recordMembers derivedRecord initialGen).isOk = true ∧
    flattenedMembers initialGen.renames (flattenedBases derivedRecord.bases) =
      "Plain _b0;\nalias _b0 this;\nPoint _b1;\nalias _b1 this;\n" ∧
    inheritanceList initialGen.renames derivedRecord.bases = " : Shape, " :=
  ⟨(bases_flattened_or_listed derivedRecord [] initialGen).2.2.2.2.2.1 rfl,
   (bases_flattened_or_listed derivedRecord [] initialGen).2.2.2.2.2.2.1 rfl,
   by decide!, by decide!, by decide!⟩

end Gentool
namespace Gentool

theorem and_high_mask (v : Nat) (h : v < 4294967296) :
    v &&& 0xFFFFFF00 = v - v % 256 := by
  have key : v &&& 0xFFFFFF00 = 2 ^ 8 * (v / 256) := by
    apply Nat.eq_of_testBit_eq
    intro i
    have hc : (0xFFFFFF00 : Nat) = 2 ^ 8 * (2 ^ 24 - 1) := by norm_num
    rw [Nat.testBit_and, hc, Nat.testBit_mul_pow_two, Nat.testBit_mul_pow_two,
      Nat.testBit_two_pow_sub_one]
    by_cases hi : 8 ≤ i
    · simp only [hi, decide_True, Bool.true_and]
      by_cases hi2 : i - 8 < 24
      · simp only [hi2, decide_True, Bool.and_true]
        have : v.testBit i = (v / 256).testBit (i - 8) := by
          have h8 : v / 256 = v >>> 8 := by rw [Nat.shiftRight_eq_div_pow]
          rw [h8, Nat.testBit_shiftRight]
          congr 1
          omega
        rw [this]
      · simp only [hi2, decide_False, Bool.and_false]
        symm
        apply Nat.testBit_lt_two_pow
        have : v / 256 < 2 ^ 24 := by omega
        calc v / 256 < 2 ^ 24 := this
          _ ≤ 2 ^ (i - 8) := Nat.pow_le_pow_right (by norm_num) (by omega)
    · simp [hi]
  rw [key]
  omega

theorem sign_extended_iff (v : Nat) (h : v < 4294967296) :
    (v &&& 0xFFFFFF00) = 0xFFFFFF00 ↔ 0xFFFFFF00 ≤ v := by
  rw [and_high_mask v h]
  omega

theorem and_low_mask (v : Nat) : v &&& 0xFF = v % 256 :=
  Nat.and_pow_two_sub_one_eq_mod v 8

theorem digitChar_hex (k : Nat) (h : k < 16) : isHexDigit (Nat.digitChar k) = true := by
  interval_cases k <;> decide

theorem toDigitsCore_hex : ∀ (fuel n : Nat) (ds : List Char),
    (∀ c ∈ ds, isHexDigit c = true) →
    ∀ c ∈ Nat.toDigitsCore 16 fuel n ds, isHexDigit c = true := by
  intro fuel
  induction fuel with
  | zero => intro n ds h; simpa [Nat.toDigitsCore] using h
  | succ fuel ih =>
    intro n ds h
    rw [Nat.toDigitsCore]
    have hd : ∀ c ∈ Nat.digitChar (n % 16) :: ds, isHexDigit c = true := by
      intro c hc
      rcases List.mem_cons.1 hc with rfl | hc
      · exact digitChar_hex _ (Nat.mod_lt _ (by decide))
      · exact h c hc
    split
    · exact hd
    · exact ih _ _ hd

/-- A value below `16 ^ width` is formatted with exactly `width` hexadecimal
digits. -/
theorem formatHex_digits (width value : Nat) (hw : 0 < width) (hv : value < 16 ^ width) :
    (formatHex width value).data.length = width ∧
    ∀ c ∈ (formatHex width value).data, isHexDigit c = true := by
  have hlen : (Nat.toDigits 16 value).length ≤ width :=
    Nat.toDigitsCore_length 16 (by decide) (value + 1) value width hv hw
  unfold formatHex
  constructor
  · simp only [List.length_append, List.length_replicate]
    omega
  · intro c hc
    simp only [List.mem_append, List.mem_replicate] at hc
    rcases hc with ⟨_, rfl⟩ | hc
    · decide
    · exact toDigitsCore_hex _ _ _ (by simp) c hc

theorem characterLiteralBody_named (v : Nat) (kind : CharacterKind) (e : String)
    (h : namedEscape v = some e) : characterLiteralBody v kind = quoted e := by
  unfold namedEscape at h
  unfold characterLiteralBody
  split_ifs at h <;> cases h <;> simp_all <;> rfl

theorem masked_eq (v : Nat) (kind : CharacterKind) (hv : v < 4294967296) :
    (if (v &&& 0xFFFFFF00) = 0xFFFFFF00 ∧ kind = .Ascii then v &&& 0xFF else v) =
      maskedValue kind v := by
  unfold maskedValue
  have h1 := sign_extended_iff v hv
  have h2 := and_low_mask v
  by_cases hk : kind = .Ascii <;> by_cases hs : 0xFFFFFF00 ≤ v
  · rw [if_pos ⟨h1.2 hs, hk⟩, if_pos ⟨hk, hs⟩, h2]
  · rw [if_neg (fun h => hs (h1.1 h.1)), if_neg (fun h => hs h.2)]
  · rw [if_neg (fun h => hk h.2), if_neg (fun h => hk h.1)]
  · rw [if_neg (fun h => hk h.2), if_neg (fun h => hk h.1)]

theorem characterLiteralBody_other (v : Nat) (kind : CharacterKind) (hv : v < 4294967296)
    (h : namedEscape v = none) :
    characterLiteralBody v kind =
      if maskedValue kind v < 256 ∧ isPrintable (maskedValue kind v) = true then
        quoted (String.singleton (Char.ofNat (maskedValue kind v)))
      else if maskedValue kind v < 256 then quoted ("\\x" ++ formatHex 2 (maskedValue kind v))
      else if maskedValue kind v ≤ 0xFFFF then
        quoted ("\\u" ++ formatHex 4 (maskedValue kind v))
      else quoted ("\\U" ++ formatHex 8 (maskedValue kind v)) := by
  unfold namedEscape at h
  unfold characterLiteralBody
  split_ifs at h
  simp only [*, if_false]
  rw [masked_eq v kind hv]
  by_cases h1 : maskedValue kind v < 256
  · have hm : maskedValue kind v % 256 = maskedValue kind v := Nat.mod_eq_of_lt h1
    rw [hm]
    by_cases h2 : isPrintable (maskedValue kind v) = true
    · simp only [h1, h2, and_self, if_true, quoted]
    · simp only [h1, h2, and_false, if_false, if_true, quoted, String.append_assoc]
      rfl
  · simp only [h1, false_and, if_false, quoted, String.append_assoc]
    split <;> rfl

end Gentool
namespace Gentool

/-- C28. `VisitCharacterLiteral` writes, for every character value `v` of 32
bits, a text between single quotes, followed by the mark of the kind of the
literal (`w` for a wide and a UTF-16 literal, `d` for a UTF-32 literal,
nothing for an ASCII and a UTF-8 literal). Between the quotes stands: the
named escape for backslash, single quote, bell, backspace, form feed, newline,
carriage return, tab and vertical tab; otherwise, for the value after masking
a sign-extended ASCII literal to its low byte, the character itself when the
value is below 256 and printable, `\x` and exactly 2 hexadecimal digits when
it is below 256 and not printable, `\u` and exactly 4 hexadecimal digits when
it is from 256 to 0xFFFF, and `\U` and exactly 8 hexadecimal digits when it is
above 0xFFFF. -/
theorem character_literal_rendering (v : Nat) (kind : CharacterKind) (hv : v < 4294967296) :
    (namedEscape 92 = some "\\\\" ∧ namedEscape 39 = some "\\\x27" ∧
      namedEscape 7 = some "\\a" ∧ namedEscape 8 = some "\\b" ∧ namedEscape 12 = some "\\f" ∧
      namedEscape 10 = some "\\n" ∧ namedEscape 13 = some "\\r" ∧ namedEscape 9 = some "\\t" ∧
      namedEscape 11 = some "\\v") ∧
    (∀ e, namedEscape v = some e →
      VisitCharacterLiteral v kind = quoted e ++ characterLiteralSuffix kind) ∧
    (namedEscape v = none → maskedValue kind v < 256 →
      isPrintable (maskedValue kind v) = true →
      VisitCharacterLiteral v kind =
        quoted (String.singleton (Char.ofNat (maskedValue kind v))) ++
          characterLiteralSuffix kind) ∧
    (namedEscape v = none → maskedValue kind v < 256 →
      isPrintable (maskedValue kind v) = false →
      VisitCharacterLiteral v kind =
        quoted ("\\x" ++ formatHex 2 (maskedValue kind v)) ++ characterLiteralSuffix kind ∧
      (formatHex 2 (maskedValue kind v)).data.length = 2 ∧
      ∀ c ∈ (formatHex 2 (maskedValue kind v)).data, isHexDigit c = true) ∧
    (namedEscape v = none → 256 ≤ maskedValue kind v → maskedValue kind v ≤ 0xFFFF →
      VisitCharacterLiteral v kind =
        quoted ("\\u" ++ formatHex 4 (maskedValue kind v)) ++ characterLiteralSuffix kind ∧
      (formatHex 4 (maskedValue kind v)).data.length = 4 ∧
      ∀ c ∈ (formatHex 4 (maskedValue kind v)).data, isHexDigit c = true) ∧
    (namedEscape v = none → 0xFFFF < maskedValue kind v →
      VisitCharacterLiteral v kind =
        quoted ("\\U" ++ formatHex 8 (maskedValue kind v)) ++ characterLiteralSuffix kind ∧
      (formatHex 8 (maskedValue kind v)).data.length = 8 ∧
      ∀ c ∈ (formatHex 8 (maskedValue kind v)).data, isHexDigit c = true) := by
  have hm : maskedValue kind v < 4294967296 := by
    unfold maskedValue
    split <;> omega
  refine ⟨by decide, ?_, ?_, ?_, ?_, ?_⟩
  · intro e he
    unfold VisitCharacterLiteral
    rw [characterLiteralBody_named v kind e he]
  · intro hn h1 h2
    unfold VisitCharacterLiteral
    rw [characterLiteralBody_other v kind hv hn, if_pos ⟨h1, h2⟩]
  · intro hn h1 h2
    refine ⟨?_, formatHex_digits 2 _ (by decide) (by omega)⟩
    unfold VisitCharacterLiteral
    rw [characterLiteralBody_other v kind hv hn, if_neg (by simp [h2]), if_pos h1]
  · intro hn h1 h2
    refine ⟨?_, formatHex_digits 4 _ (by decide) (by omega)⟩
    unfold VisitCharacterLiteral
    rw [characterLiteralBody_other v kind hv hn, if_neg (fun h => by omega),
      if_neg (by omega), if_pos h2]
  · intro hn h1
    refine ⟨?_, formatHex_digits 8 _ (by decide) (by omega)⟩
    unfold VisitCharacterLiteral
    rw [characterLiteralBody_other v kind hv hn, if_neg (fun h => by omega),
      if_neg (by omega), if_neg (by omega)]

/-- C28, at the ASCII literal of value 0xFFFFFF80, the sign extension of the
byte 0x80, and at the wide literal of value 0x263A. -/
theorem character_literal_rendering_witness :
    (VisitCharacterLiteral 4294967168 .Ascii =
        quoted ("\\x" ++ formatHex 2 (maskedValue .Ascii 4294967168)) ++
          characterLiteralSuffix .Ascii ∧
      (formatHex 2 (maskedValue .Ascii 4294967168)).data.length = 2 ∧
      ∀ c ∈ (formatHex 2 (maskedValue .Ascii 4294967168)).data, isHexDigit c = true) ∧
    VisitCharacterLiteral 4294967168 .Ascii = "\x27\\x80\x27" ∧
    VisitCharacterLiteral 9786 .Wide = "\x27\\u263a\x27w" ∧
    VisitCharacterLiteral 10 .Ascii = "\x27\\n\x27" ∧
    VisitCharacterLiteral 97 .Ascii = "\x27a\x27" ∧
    VisitCharacterLiteral 128512 .UTF32 = "\x27\\U0001f600\x27d" :=
  ⟨(character_literal_rendering 4294967168 .Ascii (by decide)).2.2.2.1 (by decide) (by decide)
      (by decide),
   by decide, by decide, by decide, by decide, by decide⟩

end Gentool
namespace Gentool

theorem Expr.depth_IgnoreParens_le : ∀ e : Expr, e.IgnoreParens.depth ≤ e.depth
  | .paren sub => by
    rw [Expr.IgnoreParens, Expr.depth]
    have := Expr.depth_IgnoreParens_le sub
    omega
  | .unaryOperator op sub => by
    cases op <;>
      first
      | exact Nat.le_refl _
      | (rw [Expr.IgnoreParens, Expr.depth]
         have := Expr.depth_IgnoreParens_le sub
         omega)
  | .other _ => Nat.le_refl _
  | .reference _ _ => Nat.le_refl _
  | .integerLiteral _ _ => Nat.le_refl _
  | .stringLiteral _ => Nat.le_refl _
  | .characterLiteral _ _ => Nat.le_refl _
  | .cxxThis _ => Nat.le_refl _
  | .cxxDefaultArg => Nat.le_refl _
  | .cxxPseudoDestructor _ => Nat.le_refl _
  | .materializeTemporary _ => Nat.le_refl _
  | .implicitCast _ _ _ => Nat.le_refl _
  | .cStyleCast _ _ _ => Nat.le_refl _
  | .binaryOperator _ _ _ _ => Nat.le_refl _
  | .callExpr _ _ _ => Nat.le_refl _

theorem Expr.depth_IgnoreImpCasts_le : ∀ e : Expr, e.IgnoreImpCasts.depth ≤ e.depth
  | .implicitCast _ _ sub => by
    rw [Expr.IgnoreImpCasts, Expr.depth]
    have := Expr.depth_IgnoreImpCasts_le sub
    omega
  | .paren _ => Nat.le_refl _
  | .unaryOperator _ _ => Nat.le_refl _
  | .other _ => Nat.le_refl _
  | .reference _ _ => Nat.le_refl _
  | .integerLiteral _ _ => Nat.le_refl _
  | .stringLiteral _ => Nat.le_refl _
  | .characterLiteral _ _ => Nat.le_refl _
  | .cxxThis _ => Nat.le_refl _
  | .cxxDefaultArg => Nat.le_refl _
  | .cxxPseudoDestructor _ => Nat.le_refl _
  | .materializeTemporary _ => Nat.le_refl _
  | .cStyleCast _ _ _ => Nat.le_refl _
  | .binaryOperator _ _ _ _ => Nat.le_refl _
  | .callExpr _ _ _ => Nat.le_refl _

theorem Expr.depth_le_depthList : ∀ (args : List Expr) (a : Expr), a ∈ args →
    a.depth ≤ Expr.depthList args := by
  intro args
  induction args with
  | nil => intro a h; cases h
  | cons b rest ih =>
    intro a h
    rw [Expr.depthList]
    rcases List.mem_cons.1 h with rfl | h
    · omega
    · have := ih a h
      omega

theorem PrintCallArgs_congr (T T' : Expr → String) (fn : Option FunctionRef) :
    ∀ (args : List Expr) (i : Nat), (∀ a ∈ args, T a = T' a) →
    PrintCallArgs T fn args i = PrintCallArgs T' fn args i := by
  intro args
  induction args with
  | nil => intro i _; rfl
  | cons a rest ih =>
    intro i h
    simp only [PrintCallArgs, h a (List.mem_cons_self _ _),
      ih (i + 1) (fun b hb => h b (List.mem_cons_of_mem _ hb))]

theorem HandlePotentialAssert_congr (T T' : Expr → String) (sub : Expr)
    (h : ∀ x : Expr, x.depth < sub.depth → T x = T' x) :
    HandlePotentialAssert T sub = HandlePotentialAssert T' sub := by
  unfold HandlePotentialAssert
  split
  · rename_i opcode known lhs rhs
    split
    · rename_i k2 callee fnref args last hr
      have hd : (Expr.binaryOperator .BO_Comma k2 (.callExpr callee (some fnref) args) last).depth
          ≤ rhs.depth := by
        rw [← hr]
        exact Nat.le_trans (Expr.depth_IgnoreParens_le _) (Expr.depth_IgnoreImpCasts_le _)
      split
      · split
        · rename_i arg0 a1 a2
          have h1 : T lhs.IgnoreParens = T' lhs.IgnoreParens := by
            apply h
            have := Expr.depth_IgnoreParens_le lhs
            simp only [Expr.depth]
            omega
          have h2 : T arg0 = T' arg0 := by
            apply h
            have := Expr.depth_le_depthList [arg0, a1, a2] arg0 (List.mem_cons_self _ _)
            simp only [Expr.depth] at hd ⊢
            omega
          rw [h1, h2]
        · rfl
      · rfl
    · rfl
  · rfl

/-- Fuel beyond the height of the tree does not change what the traversal
writes. -/
theorem traverseStmt_fuel (ren : Renames) (helper : Bool) : ∀ (n m : Nat) (e : Expr),
    e.depth < n → e.depth < m → traverseStmt ren helper n e = traverseStmt ren helper m e := by
  intro n
  induction n with
  | zero => intro m e hn; omega
  | succ n ih =>
    intro m e hn hm
    cases m with
    | zero => omega
    | succ m =>
      cases e with
      | other p => rfl
      | reference p t => rfl
      | integerLiteral p z => rfl
      | stringLiteral p => rfl
      | characterLiteral v k => rfl
      | cxxThis i => rfl
      | cxxDefaultArg => rfl
      | cxxPseudoDestructor base =>
        simp only [Expr.depth] at hn hm
        simp only [traverseStmt, ih m base (by omega) (by omega)]
      | materializeTemporary sub =>
        simp only [Expr.depth] at hn hm
        simp only [traverseStmt, ih m sub (by omega) (by omega)]
      | paren sub =>
        simp only [Expr.depth] at hn hm
        simp only [traverseStmt, ih m sub (by omega) (by omega)]
      | implicitCast ck npc sub =>
        simp only [Expr.depth] at hn hm
        simp only [traverseStmt, ih m sub (by omega) (by omega)]
      | cStyleCast ck ty sub =>
        simp only [Expr.depth] at hn hm
        have hh : HandlePotentialAssert (traverseStmt ren helper n) sub =
            HandlePotentialAssert (traverseStmt ren helper m) sub :=
          HandlePotentialAssert_congr _ _ sub (fun x hx => ih m x (by omega) (by omega))
        simp only [traverseStmt, ih m sub (by omega) (by omega), hh]
      | unaryOperator op sub =>
        simp only [Expr.depth] at hn hm
        simp only [traverseStmt, ih m sub (by omega) (by omega)]
      | binaryOperator op k lhs rhs =>
        simp only [Expr.depth] at hn hm
        simp only [traverseStmt, ih m lhs (by omega) (by omega), ih m rhs (by omega) (by omega)]
      | callExpr callee fn args =>
        simp only [Expr.depth] at hn hm
        have ha : PrintCallArgs (traverseStmt ren helper n) fn args 0 =
            PrintCallArgs (traverseStmt ren helper m) fn args 0 :=
          PrintCallArgs_congr _ _ fn args 0 (fun a ha => by
            have := Expr.depth_le_depthList args a ha
            exact ih m a (by omega) (by omega))
        simp only [traverseStmt, PrintCallExpr, ih m callee (by omega) (by omega), ha]

/-- With fuel beyond the height of the tree the traversal writes what the
entry point writes. -/
theorem traverseStmt_enough (ren : Renames) (helper : Bool) (n : Nat) (e : Expr)
    (h : e.depth < n) : traverseStmt ren helper n e = printPrettyExpr ren helper e :=
  traverseStmt_fuel ren helper n (e.depth + 1) e h (Nat.lt_succ_self _)

theorem HandlePotentialAssert_pattern (T : Expr → String) (opcode : BinaryOperatorKind)
    (known k2 : Bool) (lhs rhs callee arg0 a1 a2 last : Expr) (fn : FunctionRef)
    (hrhs : rhs.IgnoreImpCasts.IgnoreParens =
      .binaryOperator .BO_Comma k2 (.callExpr callee (some fn) [arg0, a1, a2]) last)
    (hname : (find fn.name "assert").isSome = true)
    (hlogic : (opcode.isLogicalOp || known) = true) :
    HandlePotentialAssert T (.paren (.binaryOperator opcode known lhs rhs)) =
      some ("assert(" ++ T lhs.IgnoreParens ++ ", " ++ T arg0 ++ ")") := by
  unfold HandlePotentialAssert
  simp only [hrhs, hname, hlogic, if_true]

theorem traverseStmt_cStyleCast (ren : Renames) (helper : Bool) (n : Nat) (castKind : CastKind)
    (type : QualType) (sub : Expr) :
    traverseStmt ren helper (n + 1) (.cStyleCast castKind type sub) =
      match (if castKind = .CK_ToVoid then HandlePotentialAssert (traverseStmt ren helper n) sub
             else none) with
      | some text => text
      | none => "cast(" ++ toDStyle ren type ++ ")" ++ traverseStmt ren helper n sub := rfl

theorem traverseStmt_not (ren : Renames) (helper : Bool) (n : Nat) (sub : Expr)
    (hthis : sub.isCXXThis = false) :
    traverseStmt ren helper (n + 1) (.unaryOperator .UO_LNot sub) =
      "!" ++ traverseStmt ren helper n sub := by
  rw [traverseStmt]
  simp [hthis, UnaryOperatorKind.isPostfixOp, UnaryOperatorKind.getOpcodeStr]

theorem printPrettyExpr_assert (ren : Renames) (helper : Bool) (opcode : BinaryOperatorKind)
    (known k2 : Bool) (type : QualType) (lhs rhs callee arg0 a1 a2 last : Expr)
    (fn : FunctionRef)
    (hrhs : rhs.IgnoreImpCasts.IgnoreParens =
      .binaryOperator .BO_Comma k2 (.callExpr callee (some fn) [arg0, a1, a2]) last)
    (hname : (find fn.name "assert").isSome = true)
    (hlogic : (opcode.isLogicalOp || known) = true) :
    printPrettyExpr ren helper
        (.cStyleCast .CK_ToVoid type (.paren (.binaryOperator opcode known lhs rhs))) =
      "assert(" ++ printPrettyExpr ren helper lhs.IgnoreParens ++ ", " ++
        printPrettyExpr ren helper arg0 ++ ")" := by
  have hd : (Expr.binaryOperator .BO_Comma k2 (.callExpr callee (some fn) [arg0, a1, a2])
      last).depth ≤ rhs.depth := by
    rw [← hrhs]
    exact Nat.le_trans (Expr.depth_IgnoreParens_le _) (Expr.depth_IgnoreImpCasts_le _)
  have h0 := Expr.depth_le_depthList [arg0, a1, a2] arg0 (List.mem_cons_self _ _)
  have hl := Expr.depth_IgnoreParens_le lhs
  simp only [Expr.depth] at hd
  have e1 := traverseStmt_enough ren helper (max lhs.depth rhs.depth + 1 + 1 + 1)
    lhs.IgnoreParens (by omega)
  have e2 := traverseStmt_enough ren helper (max lhs.depth rhs.depth + 1 + 1 + 1) arg0
    (by omega)
  have hdepth : (Expr.cStyleCast .CK_ToVoid type
      (.paren (.binaryOperator opcode known lhs rhs))).depth + 1 =
      (max lhs.depth rhs.depth + 1 + 1 + 1) + 1 := by
    simp only [Expr.depth]
  unfold printPrettyExpr
  rw [hdepth, traverseStmt_cStyleCast, if_pos rfl,
    HandlePotentialAssert_pattern _ opcode known k2 lhs rhs callee arg0 a1 a2 last fn hrhs hname
      hlogic, e1, e2]
  rfl

theorem printPrettyExpr_not (ren : Renames) (helper : Bool) (cond : Expr)
    (hthis : cond.isCXXThis = false) :
    printPrettyExpr ren helper (.unaryOperator .UO_LNot cond) =
      "!" ++ printPrettyExpr ren helper cond := by
  have hdepth : (Expr.unaryOperator .UO_LNot cond).depth + 1 = (cond.depth + 1) + 1 := by
    simp only [Expr.depth]
  unfold printPrettyExpr
  rw [hdepth, traverseStmt_not ren helper _ cond hthis]

end Gentool
namespace Gentool

/-- C27 (amended). For every expression that is a C-style cast to `void` of a
parenthesised operator which is a logical operator (as `||` is) or known to
have a boolean value, whose right operand is, under implicit casts and
parentheses, a comma expression that starts with a call with three arguments
of a function whose name contains `assert`, the printer writes exactly
`assert(`, the rendering of the left operand without the parentheses around
it, `, `, the rendering of the first argument of the call and `)`; nothing
else of the pattern is written. The left operand is written as it stands: for
the left operand `(!cond)` the first argument of the `assert` is `!` followed
by the rendering of `cond`, the negation and not `cond` itself. -/
theorem assert_pattern_rendering (ren : Renames) (helper : Bool) (opcode : BinaryOperatorKind)
    (known k2 : Bool) (type : QualType) (lhs rhs callee msg a1 a2 last : Expr)
    (fn : FunctionRef)
    (hrhs : rhs.IgnoreImpCasts.IgnoreParens =
      .binaryOperator .BO_Comma k2 (.callExpr callee (some fn) [msg, a1, a2]) last)
    (hname : (find fn.name "assert").isSome = true)
    (hlogic : (opcode.isLogicalOp || known) = true) :
    printPrettyExpr ren helper
        (.cStyleCast .CK_ToVoid type (.paren (.binaryOperator opcode known lhs rhs))) =
      "assert(" ++ printPrettyExpr ren helper lhs.IgnoreParens ++ ", " ++
        printPrettyExpr ren helper msg ++ ")" ∧
    (∀ cond : Expr, lhs = .paren (.unaryOperator .UO_LNot cond) → cond.isCXXThis = false →
      printPrettyExpr ren helper
          (.cStyleCast .CK_ToVoid type (.paren (.binaryOperator opcode known lhs rhs))) =
        "assert(" ++ ("!" ++ printPrettyExpr ren helper cond) ++ ", " ++
          printPrettyExpr ren helper msg ++ ")") := by
  have h := printPrettyExpr_assert ren helper opcode known k2 type lhs rhs callee msg a1 a2 last
    fn hrhs hname hlogic
  refine ⟨h, ?_⟩
  intro cond hl hthis
  rw [h, hl]
  have hp : (Expr.paren (.unaryOperator .UO_LNot cond)).IgnoreParens =
      .unaryOperator .UO_LNot cond := by
    simp [Expr.IgnoreParens]
  rw [hp, printPrettyExpr_not ren helper cond hthis]

/-- C27, at `(void)((!ok) || (my_assert("ok", "f.c", 3), 0))`. -/
theorem assert_pattern_rendering_witness :
    printPrettyExpr [] false negatedOkAssert =
      "assert(" ++ ("!" ++ printPrettyExpr [] false (.reference "ok" (.mk false (.builtin .Bool))))
        ++ ", " ++ printPrettyExpr [] false (.stringLiteral "\"ok\"") ++ ")" :=
  (assert_pattern_rendering [] false .BO_LOr false false voidType
    (.paren (.unaryOperator .UO_LNot (.reference "ok" (.mk false (.builtin .Bool)))))
    (.paren (.binaryOperator .BO_Comma false
      (.callExpr (.other "my_assert") (some myAssertFn)
        [.stringLiteral "\"ok\"", .stringLiteral "\"f.c\"", .integerLiteral "3" false])
      (.integerLiteral "0" true)))
    (.other "my_assert") (.stringLiteral "\"ok\"") (.stringLiteral "\"f.c\"")
    (.integerLiteral "3" false) (.integerLiteral "0" true) myAssertFn rfl (by decide)
    (by decide)).2 _ rfl rfl

/-- C27, counterexample. For `(void)((!ok) || (my_assert("ok", "f.c", 3), 0))`
the printer writes `assert(!ok, "ok")`: the first argument is the negation
`!ok` as it stands in the pattern, where `ok` alone is rendered `ok`; the text
`assert(ok, "ok")` is not what is written. -/
theorem negated_condition_counterexample :
    printPrettyExpr [] false negatedOkAssert = "assert(!ok, \"ok\")" ∧
    printPrettyExpr [] false (.reference "ok" (.mk false (.builtin .Bool))) = "ok" ∧
    printPrettyExpr [] false (.stringLiteral "\"ok\"") = "\"ok\"" ∧
    printPrettyExpr [] false negatedOkAssert ≠
      "assert(" ++ printPrettyExpr [] false (.reference "ok" (.mk false (.builtin .Bool))) ++
        ", " ++ printPrettyExpr [] false (.stringLiteral "\"ok\"") ++ ")" := by
  decide

end Gentool
namespace Gentool

theorem renderPieces_append (a b : List FieldPiece) :
    renderPieces (a ++ b) = renderPieces a ++ renderPieces b := by
  unfold renderPieces
  rw [List.map_append, join_append]

theorem renderPieces_nil : renderPieces [] = "" := rfl

theorem renderPieces_cons (p : FieldPiece) (ps : List FieldPiece) :
    renderPieces (p :: ps) = p.text ++ renderPieces ps := by
  unfold renderPieces
  rw [List.map_cons, join_cons]

/-- A round of the loop that returns: the naming step has succeeded, and the
padding of the group it closes is defined. -/
theorem fieldStep_ok (isClass : Bool) (it : FieldDecl) (g g1 : Gen)
    (h : fieldStep isClass it g = .ok g1) :
    namingSucceeds g.renames it = true ∧
    (it.isBitField = false → g.isPrevIsBitfield = true →
      ∃ pad, bitfieldPadding g.accumBitFieldWidth = some pad) := by
  unfold fieldStep closeBitfieldRun writeField at h
  unfold namingSucceeds
  cases hb : it.isBitField <;> cases hp : g.isPrevIsBitfield <;>
    cases hname : fieldName it (toDStyle g.renames it.type) <;>
    cases hpad : bitfieldPadding g.accumBitFieldWidth <;>
    simp [hb, hp, Res.andThen, Gen.write, hname, hpad] at h ⊢

/-- What the loop of `fieldIterate` has written when it returns. -/
theorem fieldLoop_pieces (isClass : Bool) : ∀ (fields : List FieldDecl) (g g1 : Gen),
    (g.isPrevIsBitfield = false → g.accumBitFieldWidth = 0) →
    fieldLoop isClass fields g = .ok g1 →
    g1.out = g.out ++
      renderPieces (loopPieces g.renames isClass g.isPrevIsBitfield g.accumBitFieldWidth fields) ∧
    g1.isPrevIsBitfield = endsOpen g.isPrevIsBitfield fields ∧ g1.renames = g.renames := by
  intro fields
  induction fields with
  | nil =>
    intro g g1 _ h
    simp only [fieldLoop, Res.ok.injEq] at h
    subst h
    simp [loopPieces, renderPieces, join_nil, endsOpen]
  | cons it rest ih =>
    intro g g1 hinv h
    rw [fieldLoop] at h
    cases hs : fieldStep isClass it g with
    | fault d g2 => rw [hs] at h; cases h
    | ok g2 =>
      obtain ⟨hn, hpad⟩ := fieldStep_ok isClass it g g2 hs
      rw [hs, Res.andThen_ok] at h
      obtain ⟨ho, hp, hr⟩ := ih g2 g1 (fieldStep_accum isClass it g g2 hinv hs) h
      cases hb : it.isBitField with
      | true =>
        have h2 := fieldStep_bitfield isClass it g hb hn
        rw [hs, Res.ok.injEq] at h2
        subst h2
        refine ⟨?_, ?_, hr⟩
        · rw [ho, loopPieces, if_pos hb, renderPieces_append, renderPieces_append]
          cases g.isPrevIsBitfield <;>
            simp only [renderPieces_cons, renderPieces_nil, FieldPiece.text, String.append_assoc,
              String.append_empty, if_true, if_false, Bool.false_eq_true]
        · rw [hp, endsOpen, hb]
      | false =>
        cases hprev : g.isPrevIsBitfield with
        | true =>
          obtain ⟨pad, hpd⟩ := hpad hb hprev
          have h2 := fieldStep_close isClass it g pad hb hprev hpd hn
          rw [hs, Res.ok.injEq] at h2
          subst h2
          refine ⟨?_, ?_, hr⟩
          · rw [ho, loopPieces, if_neg (by simp [hb]), renderPieces_append, renderPieces_append,
              hpd]
            simp only [renderPieces_cons, renderPieces_nil, FieldPiece.text, String.append_assoc,
              String.append_empty, if_true, Option.getD_some]
          · rw [hp, endsOpen, hb]
        | false =>
          have h2 := fieldStep_plain isClass it g hb hprev hn
          rw [hs, Res.ok.injEq] at h2
          subst h2
          refine ⟨?_, ?_, hr⟩
          · rw [ho, loopPieces, if_neg (by simp [hb]), renderPieces_append, renderPieces_append]
            simp only [renderPieces_cons, renderPieces_nil, FieldPiece.text, String.append_assoc,
              String.append_empty, String.empty_append, if_false, Bool.false_eq_true,
              hinv hprev]
          · rw [hp, endsOpen, hb]

theorem wellGrouped_loop (ren : Renames) (isClass : Bool) (tail : List FieldPiece) :
    ∀ (fields : List FieldDecl) (isOpen : Bool) (accum : Nat),
    wellGrouped isOpen (loopPieces ren isClass isOpen accum fields ++ tail) =
      wellGrouped (endsOpen isOpen fields) tail := by
  intro fields
  induction fields with
  | nil => intro isOpen accum; rfl
  | cons it rest ih =>
    intro isOpen accum
    rw [loopPieces, endsOpen]
    cases hb : it.isBitField <;> cases isOpen <;>
      simp [wellGrouped, ih]

theorem wellGrouped_fieldPieces (ren : Renames) (isClass : Bool) (fields : List FieldDecl) :
    wellGrouped false (fieldPieces ren isClass fields) = true := by
  unfold fieldPieces
  rw [wellGrouped_loop]
  cases endsOpen false fields <;> rfl

theorem openers_loop (ren : Renames) (isClass : Bool) :
    ∀ (fields : List FieldDecl) (isOpen : Bool) (accum : Nat),
    (loopPieces ren isClass isOpen accum fields).countP FieldPiece.isOpener =
      countRuns isOpen fields := by
  intro fields
  induction fields with
  | nil => intro isOpen accum; rfl
  | cons it rest ih =>
    intro isOpen accum
    rw [loopPieces, countRuns]
    cases hb : it.isBitField <;> cases isOpen <;>
      (simp [List.countP_cons, List.countP_append, FieldPiece.isOpener, ih]; try omega)

theorem closers_loop (ren : Renames) (isClass : Bool) :
    ∀ (fields : List FieldDecl) (isOpen : Bool) (accum : Nat),
    (loopPieces ren isClass isOpen accum fields).countP FieldPiece.isCloser +
        (if endsOpen isOpen fields then 1 else 0) =
      countRuns isOpen fields + (if isOpen then 1 else 0) := by
  intro fields
  induction fields with
  | nil => intro isOpen accum; simp [loopPieces, endsOpen, countRuns]
  | cons it rest ih =>
    intro isOpen accum
    rw [loopPieces, countRuns, endsOpen]
    cases hb : it.isBitField
    · have := ih false 0
      cases isOpen <;>
        simp [List.countP_cons, List.countP_append, FieldPiece.isCloser] at this ⊢ <;> omega
    · have := ih true (accum + it.bitWidthValue)
      cases isOpen <;>
        simp [List.countP_cons, List.countP_append, FieldPiece.isCloser] at this ⊢ <;> omega

theorem entries_loop (ren : Renames) (isClass : Bool) :
    ∀ (fields : List FieldDecl) (isOpen : Bool) (accum : Nat),
    (loopPieces ren isClass isOpen accum fields).filterMap FieldPiece.entryText =
      (fields.filter (fun it => it.isBitField)).map (bitfieldEntry ren) := by
  intro fields
  induction fields with
  | nil => intro isOpen accum; rfl
  | cons it rest ih =>
    intro isOpen accum
    rw [loopPieces]
    cases hb : it.isBitField <;> cases isOpen <;>
      simp [List.filterMap_cons, List.filterMap_append, FieldPiece.entryText, ih, hb]

theorem lines_loop (ren : Renames) (isClass : Bool) :
    ∀ (fields : List FieldDecl) (isOpen : Bool) (accum : Nat),
    (loopPieces ren isClass isOpen accum fields).filterMap FieldPiece.lineText =
      (fields.filter (fun it => !it.isBitField)).map (fieldLine ren isClass) := by
  intro fields
  induction fields with
  | nil => intro isOpen accum; rfl
  | cons it rest ih =>
    intro isOpen accum
    rw [loopPieces]
    cases hb : it.isBitField <;> cases isOpen <;>
      simp [List.filterMap_cons, List.filterMap_append, FieldPiece.lineText, ih, hb]

/-- What `fieldIterate` has written when it returns. -/
theorem fieldIterate_pieces (isClass : Bool) (fields : List FieldDecl) (g : Gen)
    (hret : (fieldIterate isClass fields g).isOk = true) :
    (fieldIterate isClass fields g).gen.out =
      g.out ++ renderPieces (fieldPieces g.renames isClass fields) := by
  rw [fieldIterate_eq] at hret ⊢
  cases hl : fieldLoop isClass fields (fieldIterateStart g) with
  | fault d g1 => rw [hl] at hret; cases hret
  | ok g1 =>
    obtain ⟨ho, hp, _⟩ := fieldLoop_pieces isClass fields (fieldIterateStart g) g1 (fun _ => rfl) hl
    rw [Res.andThen_ok]
    unfold closeLastRun fieldPieces
    rw [renderPieces_append, hp]
    have hs : (fieldIterateStart g).isPrevIsBitfield = false := rfl
    have ha : (fieldIterateStart g).accumBitFieldWidth = 0 := rfl
    have hr : (fieldIterateStart g).renames = g.renames := rfl
    have hout : (fieldIterateStart g).out = g.out := rfl
    rw [hs, ha, hr, hout] at ho
    rw [hs]
    cases he : endsOpen false fields
    · simp only [Bool.false_eq_true, if_false, Res.gen, ho, renderPieces_nil, String.append_empty]
    · simp only [if_true, Res.gen, Gen.write, ho, renderPieces_cons, renderPieces_nil,
        FieldPiece.text, String.append_empty, String.append_assoc]

theorem bitfieldPadding_isSome (accum : Nat) :
    (bitfieldPadding accum).isSome = decide (accum ≤ 64 ∨ accum % 8 = 0) := by
  unfold bitfieldPadding
  by_cases h8 : accum % 8 = 0
  · simp [h8]
  · rw [if_pos h8]
    by_cases c8 : accum ≤ 8
    · rw [if_pos c8]; simp; omega
    · rw [if_neg c8]
      by_cases c16 : accum ≤ 16
      · rw [if_pos c16]; simp; omega
      · rw [if_neg c16]
        by_cases c32 : accum ≤ 32
        · rw [if_pos c32]; simp; omega
        · rw [if_neg c32]
          by_cases c64 : accum ≤ 64
          · rw [if_pos c64]; simp [c64]
          · rw [if_neg c64]; simp [c64, h8]

theorem fieldStep_unnamed (isClass : Bool) (it : FieldDecl) (g : Gen)
    (hn : namingSucceeds g.renames it = false) : (fieldStep isClass it g).isOk = false := by
  cases hs : fieldStep isClass it g with
  | fault d g1 => rfl
  | ok g1 =>
    have := (fieldStep_ok isClass it g g1 hs).1
    rw [hn] at this
    cases this

/-- The loop of `fieldIterate` returns exactly for the field lists it gets
through. -/
theorem fieldLoop_isOk (isClass : Bool) : ∀ (fields : List FieldDecl) (g : Gen),
    (g.isPrevIsBitfield = false → g.accumBitFieldWidth = 0) →
    (fieldLoop isClass fields g).isOk =
      fieldsAccepted g.renames g.isPrevIsBitfield g.accumBitFieldWidth fields := by
  intro fields
  induction fields with
  | nil => intro g _; rfl
  | cons it rest ih =>
    intro g hinv
    rw [fieldLoop, fieldsAccepted]
    cases hn : namingSucceeds g.renames it with
    | false =>
      have := fieldStep_unnamed isClass it g hn
      cases hs : fieldStep isClass it g with
      | ok g1 => rw [hs] at this; cases this
      | fault d g1 => rfl
    | true =>
      rw [Bool.true_and]
      cases hb : it.isBitField with
      | true =>
        have hs := fieldStep_bitfield isClass it g hb hn
        rw [hs, Res.andThen_ok, ih _ (fun h => by cases h)]
        rfl
      | false =>
        cases hprev : g.isPrevIsBitfield with
        | true =>
          cases hpad : bitfieldPadding g.accumBitFieldWidth with
          | none =>
            rw [fieldStep_close_fault isClass it g hb hprev hpad]
            have := bitfieldPadding_isSome g.accumBitFieldWidth
            rw [hpad] at this
            simp only [Option.isSome_none] at this
            simp [Res.andThen, Res.isOk, ← this]
          | some pad =>
            have hs := fieldStep_close isClass it g pad hb hprev hpad hn
            have := bitfieldPadding_isSome g.accumBitFieldWidth
            rw [hpad] at this
            simp only [Option.isSome_some] at this
            rw [hs, Res.andThen_ok, ih _ (fun _ => rfl)]
            simp [← this]
        | false =>
          have hs := fieldStep_plain isClass it g hb hprev hn
          rw [hs, Res.andThen_ok]
          refine (ih _ ?_).trans ?_
          · intro _
            exact hinv hprev
          · simp [hinv hprev]

theorem fieldIterate_isOk (isClass : Bool) (fields : List FieldDecl) (g : Gen) :
    (fieldIterate isClass fields g).isOk = fieldsAccepted g.renames false 0 fields := by
  rw [fieldIterate_eq]
  have h := fieldLoop_isOk isClass fields (fieldIterateStart g) (fun _ => rfl)
  have hs : (fieldIterateStart g).isPrevIsBitfield = false := rfl
  have ha : (fieldIterateStart g).accumBitFieldWidth = 0 := rfl
  have hr : (fieldIterateStart g).renames = g.renames := rfl
  rw [hs, ha, hr] at h
  rw [← h]
  cases hl : fieldLoop isClass fields (fieldIterateStart g) with
  | fault d g1 => rfl
  | ok g1 =>
    rw [Res.andThen_ok]
    unfold closeLastRun
    split <;> rfl

end Gentool
namespace Gentool

/-- C29 (amended). `fieldIterate` returns exactly for the field lists in which
every field can be named and no run of bit-fields that a member closes is
wider than 64 bits without being a multiple of 8 bits wide. For every field
list on which it returns, its output is the text of the pieces of the list,
and these are well-grouped: openers `mixin(bitfields!(` and closers `));`
alternate strictly, starting with an opener and ending with a closer; there is
exactly one opener and one closer for every maximal run of consecutive
bit-fields; the entries of the bit-fields, in the order of the fields, stand
between an opener and its closer; and the lines of the members that are no
bit-fields, in the order of the fields, stand where no group is open. -/
theorem field_output_well_grouped (isClass : Bool) (fields : List FieldDecl) (g : Gen) :
    ((fieldIterate isClass fields g).isOk = true ↔
      fieldsAccepted g.renames false 0 fields = true) ∧
    ((fieldIterate isClass fields g).isOk = true →
      (fieldIterate isClass fields g).gen.out =
        g.out ++ renderPieces (fieldPieces g.renames isClass fields)) ∧
    wellGrouped false (fieldPieces g.renames isClass fields) = true ∧
    (fieldPieces g.renames isClass fields).countP FieldPiece.isOpener = maximalRuns fields ∧
    (fieldPieces g.renames isClass fields).countP FieldPiece.isCloser = maximalRuns fields ∧
    (fieldPieces g.renames isClass fields).filterMap FieldPiece.entryText =
      (fields.filter (fun it => it.isBitField)).map (bitfieldEntry g.renames) ∧
    (fieldPieces g.renames isClass fields).filterMap FieldPiece.lineText =
      (fields.filter (fun it => !it.isBitField)).map (fieldLine g.renames isClass) := by
  refine ⟨by rw [fieldIterate_isOk], fieldIterate_pieces isClass fields g,
    wellGrouped_fieldPieces _ _ _, ?_, ?_, ?_, ?_⟩
  · unfold fieldPieces maximalRuns
    rw [List.countP_append, openers_loop]
    cases endsOpen false fields <;> rfl
  · unfold fieldPieces maximalRuns
    have h := closers_loop g.renames isClass fields false 0
    rw [List.countP_append]
    cases he : endsOpen false fields <;> rw [he] at h <;>
      simp [List.countP_cons, FieldPiece.isCloser] at h ⊢ <;> omega
  · unfold fieldPieces
    rw [List.filterMap_append, entries_loop]
    cases endsOpen false fields <;> simp [FieldPiece.entryText]
  · unfold fieldPieces
    rw [List.filterMap_append, lines_loop]
    cases endsOpen false fields <;> simp [FieldPiece.lineText]

/-- C29, at the members `int x; unsigned a : 2; unsigned b : 3;
unsigned c : 2; int y; unsigned d : 4;`: two runs, two groups. -/
theorem field_output_well_grouped_witness :
    (fieldIterate false twoRuns initialGen).gen.out =
      initialGen.out ++ renderPieces (fieldPieces initialGen.renames false twoRuns) ∧
    maximalRuns twoRuns = 2 ∧
    renderPieces (fieldPieces initialGen.renames false twoRuns) =
      "@cppsize(4) public int x;\nmixin(bitfields!(\nuint, \"a\", 2,\nuint, \"b\", 3,\nuint, \"c\", 2,\nuint, \"\", 1));\n@cppsize(4) public int y;\nmixin(bitfields!(\nuint, \"d\", 4));\n" :=
  ⟨(field_output_well_grouped false twoRuns initialGen).2.1 (by decide!), by decide,
    by decide!⟩

/-- C29, counterexample. For the members `unsigned a : 32; unsigned b : 32;
unsigned c : 1; int z;` the run of 65 bits meets the assertion
`Split it up already!` when `z` closes it: `fieldIterate` does not return, and
what it has written holds the opener of the group and no closer. -/
theorem field_group_left_open_counterexample :
    (fieldIterate false sixtyFiveBitsClosed initialGen).isOk = false ∧
    (fieldIterate false sixtyFiveBitsClosed initialGen).gen.out =
      "mixin(bitfields!(\nuint, \"a\", 32,\nuint, \"b\", 32,\nuint, \"c\", 1,\n" ∧
    countOccurrences FieldPiece.opener.text.data
      (fieldIterate false sixtyFiveBitsClosed initialGen).gen.out.data = 1 ∧
    countOccurrences "));".data
      (fieldIterate false sixtyFiveBitsClosed initialGen).gen.out.data = 0 := by
  decide!

end Gentool
namespace Gentool

/-- C39, the code at the operator `%=`: it is no case of the switch of
`getOperatorName` and falls to its default, the name `op` with the bare
spelling `%=` as argument text, whatever the number of parameters, so that the
member `Foo& operator%=(int rhs);` of `struct Foo` is written as `op(%=)`. The
nine other compound-assignment operators are cases of the switch and get the
name `opOpAssign`, the argument `string op : "<sym>"` with the spelling
without its trailing `=`, and no binding to a symbol; `Foo& operator+=(int
rhs);` is written as `opOpAssign(string op : "+")`. -/
theorem percent_assign_falls_to_default :
    (∀ psize, getOperatorName .OO_PercentEqual psize = ("op", "%=", false)) ∧
    compoundAssignForm .OO_PercentEqual = ("opOpAssign", "string op : \"%\"", false) ∧
    getOperatorName .OO_PercentEqual 1 ≠ compoundAssignForm .OO_PercentEqual ∧
    compoundAssignOperators.filter (fun op => !compoundAssignCases.contains op) =
      [.OO_PercentEqual] ∧
    (∀ psize, compoundAssignCases.map (fun op => getOperatorName op psize) =
      compoundAssignCases.map compoundAssignForm) ∧
    (methodIterate (fooRecord [percentAssignFoo]) initialGen).out =
      "public ref Foo op(%=)(int rhs);\n\n" ∧
    (methodIterate (fooRecord [plusAssignFoo]) initialGen).out =
      "public ref Foo opOpAssign(string op : \"+\")(int rhs);\n\n" := by
  refine ⟨fun _ => rfl, by decide!, by decide!, by decide!, fun _ => rfl, by decide!,
    by decide!⟩

end Gentool
namespace Gentool

theorem writeTemplateArgs_rest (ren : Renames) : ∀ (args : List TemplateArgument),
    writeTemplateArgs ren args false =
      String.join (args.map fun tp => templateArgText ren tp ++ ", ") := by
  intro args
  induction args with
  | nil => rfl
  | cons tp rest ih =>
    rw [writeTemplateArgs.eq_def]
    simp only [ih, List.map_cons, join_cons]
    simp only [templateArgText, writeTemplateArgs, Bool.false_eq_true, if_false, if_true,
      String.append_empty, String.append_assoc]

/-- C40, the code at a list of two or more template arguments:
`writeTemplateArgs` writes `, ` after an argument when the flag `first` is
down, and the flag goes down only after the first argument has been written
without one. So the first two renderings stand side by side, and `, ` follows
every later argument, the last one too: the arguments `int, float` are written
as `intfloat, `, the arguments `int, float, unsigned int` as
`intfloat, uint, `, and the specialization `Pair<int, float>` as
`struct Pair(intfloat, )`. A single argument is written alone. -/
theorem template_argument_separator_misplaced :
    (∀ (ren : Renames) (a : TemplateArgument) (rest : List TemplateArgument),
      writeTemplateArgs ren (a :: rest) true =
        templateArgText ren a ++
          String.join (rest.map fun tp => templateArgText ren tp ++ ", ")) ∧
    (∀ (ren : Renames) (a : TemplateArgument),
      writeTemplateArgs ren [a] true = commaJoined [templateArgText ren a]) ∧
    writeTemplateArgs [] intFloatArgs true = "intfloat, " ∧
    commaJoined (intFloatArgs.map (templateArgText [])) = "int, float" ∧
    writeTemplateArgs [] intFloatUintArgs true = "intfloat, uint, " ∧
    commaJoined (intFloatUintArgs.map (templateArgText [])) = "int, float, uint" ∧
    (onStructOrClassEnter pairOfIntFloat initialGen).gen.out =
      "extern(C++)\n@cppclasssize(1) align(1)\nstruct Pair(intfloat, )\n\x7b\n\x7d\n" := by
  refine ⟨?_, fun _ _ => rfl, by decide!, by decide!, by decide!, by decide!, by decide!⟩
  intro ren a rest
  rw [writeTemplateArgs.eq_def]
  simp only [writeTemplateArgs_rest]
  simp only [templateArgText, writeTemplateArgs, if_true, String.append_empty]

end Gentool
namespace Gentool

/-- C38, the code at an unnamed field whose type is not rendered as
`_anon<N>`: the test `fieldTypeStr.compare("_anon") != -1` lets every type text
pass that does not compare as exactly -1, so for the unnamed padding bit-field
`int : 3;` the call `fieldTypeStr.substr(5)` on the text `int` throws
`std::out_of_range`, and so it does for `unsigned : 3;` on the text `uint`;
for an unnamed member of the type `Point` the call `std::stoi` on the empty
rest throws `std::invalid_argument`. `fieldIterate` does not return for the
members `unsigned a : 5; int : 3; int z;`: the run ends after the entry of `a`,
inside the open group. An unnamed member whose type is rendered as `_anon1`
is named `a1_`. -/
theorem unnamed_padding_bitfield_throws :
    toDStyle [] intType = "int" ∧
    (∀ it : FieldDecl, fieldName { it with name := "" } "int" =
      .error "std::out_of_range: basic_string::substr") ∧
    (∀ it : FieldDecl, fieldName { it with name := "" } "uint" =
      .error "std::out_of_range: basic_string::substr") ∧
    (∀ it : FieldDecl, fieldName { it with name := "" } "Point" =
      .error "std::invalid_argument: stoi") ∧
    (∀ it : FieldDecl, fieldName { it with name := "" } "_anon1" = .ok "a1_") ∧
    (fieldIterate false [unnamedBitField intType 3] initialGen).isOk = false ∧
    (fieldIterate false [unnamedBitField uintType 3] initialGen).isOk = false ∧
    (fieldIterate false paddedByUnnamed initialGen).isOk = false ∧
    (fieldIterate false paddedByUnnamed initialGen).diagnostic =
      some "std::out_of_range: basic_string::substr" ∧
    (fieldIterate false paddedByUnnamed initialGen).gen.out =
      "mixin(bitfields!(\nuint, \"a\", 5" ∧
    fieldsAccepted [] false 0 paddedByUnnamed = false ∧
    (fieldIterate false [anonField 11 ""] anonOneGen).isOk = true ∧
    (fieldIterate false [anonField 11 ""] anonOneGen).gen.out =
      "@cppsize(4) public _anon1 a1_;\n" := by
  refine ⟨by decide!, fun _ => rfl, fun _ => rfl, fun _ => rfl,
    fun _ => rfl, by decide!, by decide!, by decide!, by decide!, by decide!, by decide!,
    by decide!, by decide!⟩

end Gentool
namespace Gentool

theorem lastBaseFlattened_cons (b : CXXBaseSpecifier) (rest : List CXXBaseSpecifier) :
    lastBaseFlattened (b :: rest) =
      if rest.isEmpty then (flattenedBase b).isSome else lastBaseFlattened rest := by
  cases rest with
  | nil => rfl
  | cons c cs => simp [lastBaseFlattened, List.getLast?_cons_cons]

theorem listedBases_cons (ren : Renames) (b : CXXBaseSpecifier) (rest : List CXXBaseSpecifier) :
    listedBases ren (b :: rest) =
      if (flattenedBase b).isSome then listedBases ren rest
      else toDStyle ren b.type :: listedBases ren rest := by
  unfold listedBases
  cases h : flattenedBase b <;> simp [List.filter_cons, h]

/-- When no base of a list is listed and the list is not empty, its last base
is a flattened one. -/
theorem lastBaseFlattened_of_none_listed (ren : Renames) : ∀ (bases : List CXXBaseSpecifier),
    listedBases ren bases = [] → bases ≠ [] → lastBaseFlattened bases = true := by
  intro bases
  induction bases with
  | nil => intro _ h; exact absurd rfl h
  | cons b rest ih =>
    intro hl _
    rw [listedBases_cons] at hl
    cases hb : (flattenedBase b).isSome with
    | false => rw [hb] at hl; simp at hl
    | true =>
      rw [hb] at hl
      simp only [if_true] at hl
      rw [lastBaseFlattened_cons]
      cases rest with
      | nil => simpa using hb
      | cons c cs => simpa using ih hl (List.cons_ne_nil _ _)

/-- The entries `printBases` writes, against the renderings of the listed
bases joined by `, `: a `, ` is left over behind when a flattened base ends
the declaration. -/
theorem inheritanceEntries_join (ren : Renames) : ∀ (bases : List CXXBaseSpecifier),
    String.join (inheritanceEntries ren bases) =
      commaJoined (listedBases ren bases) ++
        (if !(listedBases ren bases).isEmpty && lastBaseFlattened bases then ", " else "") := by
  intro bases
  induction bases with
  | nil => rfl
  | cons b rest ih =>
    rw [listedBases_cons, lastBaseFlattened_cons]
    cases hb : (flattenedBase b).isSome with
    | true =>
      have he : inheritanceEntries ren (b :: rest) = inheritanceEntries ren rest := by
        simp [inheritanceEntries, hb]
      rw [he, ih]
      simp only [if_true]
      cases rest with
      | nil => simp [listedBases, lastBaseFlattened]
      | cons c cs => simp
    | false =>
      have he : inheritanceEntries ren (b :: rest) =
          (toDStyle ren b.type ++ (if rest.isEmpty then "" else ", ")) ::
            inheritanceEntries ren rest := by
        simp [inheritanceEntries, hb]
      rw [he, join_cons, ih]
      simp only [Bool.false_eq_true, if_false, List.isEmpty_cons, Bool.not_false, Bool.true_and]
      cases rest with
      | nil => simp [listedBases, commaJoined, lastBaseFlattened]
      | cons c cs =>
        simp only [List.isEmpty_cons, Bool.false_eq_true, if_false]
        cases hl : listedBases ren (c :: cs) with
        | nil =>
          have := lastBaseFlattened_of_none_listed ren (c :: cs) hl (List.cons_ne_nil _ _)
          simp [commaJoined, this]
        | cons l ls =>
          simp only [commaJoined, List.isEmpty_cons, Bool.not_false, Bool.true_and,
            String.append_assoc]

theorem inheritanceEntries_isEmpty (ren : Renames) : ∀ (bases : List CXXBaseSpecifier),
    (inheritanceEntries ren bases).isEmpty = (listedBases ren bases).isEmpty := by
  intro bases
  induction bases with
  | nil => rfl
  | cons b rest ih =>
    rw [listedBases_cons]
    cases hb : (flattenedBase b).isSome with
    | true => simp [inheritanceEntries, hb, ih]
    | false => simp [inheritanceEntries, hb]

/-- The text `printBases` writes: the separated inheritance list, and a `, `
behind it when a base is listed and a flattened base ends the declaration. -/
theorem printBases_text (ren : Renames) (decl : RecordDecl) :
    (printBases ren decl).1 =
      separatedInheritanceList ren decl.bases ++
        (if !(listedBases ren decl.bases).isEmpty && lastBaseFlattened decl.bases then ", "
         else "") := by
  rw [printBases_eq]
  simp only [inheritanceList, separatedInheritanceList, inheritanceEntries_isEmpty,
    inheritanceEntries_join]
  cases h : listedBases ren decl.bases with
  | nil => simp [commaJoined]
  | cons l ls => simp [String.append_assoc]

/-- In a list of bases that all name a record and of which none has a virtual
method in its hierarchy, every base is flattened and none is listed. -/
theorem flattenedBases_all (ren : Renames) : ∀ (bases : List CXXBaseSpecifier),
    anyBaseHasVirtualMethods bases = false → (∀ b ∈ bases, b.decl.isSome = true) →
    (flattenedBases bases).map some = bases.map CXXBaseSpecifier.decl ∧
      listedBases ren bases = [] := by
  intro bases
  induction bases with
  | nil => intro _ _; exact ⟨rfl, rfl⟩
  | cons b rest ih =>
    intro hany hrec
    rcases b with ⟨type, d⟩
    cases d with
    | none =>
      have := hrec (.mk type none) (List.mem_cons_self _ _)
      simp [CXXBaseSpecifier.decl] at this
    | some rd =>
      rw [anyBaseHasVirtualMethods, Bool.or_eq_false_iff] at hany
      obtain ⟨hv, hrest⟩ := hany
      obtain ⟨h1, h2⟩ := ih hrest (fun c hc => hrec c (List.mem_cons_of_mem _ hc))
      have hf : flattenedBase (.mk type (some rd)) = some rd := by
        simp [flattenedBase, CXXBaseSpecifier.decl, hv]
      refine ⟨?_, ?_⟩
      · simp only [flattenedBases, List.filterMap_cons, hf, List.map_cons, CXXBaseSpecifier.decl]
        rw [← h1]
        rfl
      · rw [listedBases_cons, hf]
        simpa using h2

theorem enumFrom_fst {α : Type} : ∀ (xs : List α) (start : Nat),
    (xs.enumFrom start).map Prod.fst = List.range' start xs.length := by
  intro xs
  induction xs with
  | nil => intro _; rfl
  | cons x rest ih =>
    intro start
    simp [List.enumFrom_cons, ih, List.range'_succ]

end Gentool
namespace Gentool

/-- C33, the code at a record whose last base is a flattened one while another
base is listed: `printBases` counts every base of the declaration down and
writes `, ` after a listed base whenever the count is not yet 0, so the text
is the separated inheritance list (nothing when no base is listed, otherwise
` : ` and the listed bases with `, ` between them) with a `, ` left over behind
it. For `struct Derived : Shape, Plain { };`, where `Shape` has a virtual
method and `Plain` has none, the list is ` : Shape, ` and the record opens with
`class Derived : Shape, `; so it is for `Shape, Circle, Plain`. When a listed
base ends the declaration, as for `Plain, Shape` and `Shape, Plain, Circle`,
nothing is left over. -/
theorem inheritance_list_keeps_trailing_separator :
    (∀ (ren : Renames) (decl : RecordDecl),
      (printBases ren decl).1 =
        separatedInheritanceList ren decl.bases ++
          (if !(listedBases ren decl.bases).isEmpty && lastBaseFlattened decl.bases then ", "
           else "")) ∧
    (printBases [] (recordWithBases "Derived" [baseOf shapeRecord, baseOf plainRecord])).1 =
      " : Shape, " ∧
    separatedInheritanceList [] [baseOf shapeRecord, baseOf plainRecord] = " : Shape" ∧
    (printBases []
      (recordWithBases "Derived"
        [baseOf shapeRecord, baseOf circleRecord, baseOf plainRecord])).1 =
      " : Shape, Circle, " ∧
    separatedInheritanceList [] [baseOf shapeRecord, baseOf circleRecord, baseOf plainRecord] =
      " : Shape, Circle" ∧
    (printBases [] (recordWithBases "Derived" [baseOf plainRecord, baseOf shapeRecord])).1 =
      " : Shape" ∧
    (printBases []
      (recordWithBases "Derived"
        [baseOf shapeRecord, baseOf plainRecord, baseOf circleRecord])).1 =
      " : Shape, Circle" ∧
    (onStructOrClassEnter (recordWithBases "Derived" [baseOf shapeRecord, baseOf plainRecord])
        initialGen).gen.out =
      "extern(C++)\n@cppclasssize(16) align(8)\nclass Derived : Shape, \n\x7b\nPlain _b0;\nalias _b0 this;\n\x7d\n" := by
  refine ⟨printBases_text, by decide!, by decide!, by decide!, by decide!, by decide!,
    by decide!, by decide!⟩

end Gentool
namespace Gentool

/-- C36. For every record (a `CXXRecordDecl`) written with struct shape,
`hasVirtualMethods` being false for it, all of whose bases name a record:
`printBases` writes no inheritance list and returns every base, in
declaration order, as a flattened base; the loop over them writes one member
`<BaseName> _b<i>;` with its `alias _b<i> this;` per base, numbered from 0 to
the number of bases less one, and these members are what the body holds first
after the nested declarations. -/
theorem struct_shape_flattens_every_base (decl : RecordDecl) (ren : Renames) (g : Gen)
    (hcxx : decl.info.isCXX = true) (hshape : hasVirtualMethods decl = false)
    (hrec : ∀ b ∈ decl.bases, b.decl.isSome = true) :
    shapeKeyword decl = "struct " ∧
    (printBases ren decl).1 = "" ∧
    (printBases ren decl).2.map some = decl.bases.map CXXBaseSpecifier.decl ∧
    (printBases ren decl).2.length = decl.bases.length ∧
    fakeBaseLines ren (printBases ren decl).2 0 =
      String.join (((printBases ren decl).2.enumFrom 0).map fun p =>
        flattenedMember ren p.1 p.2) ∧
    ((printBases ren decl).2.enumFrom 0).map Prod.fst = List.range decl.bases.length ∧
    (∀ g2, recordMembers decl g = .ok g2 →
      ∃ mid, g2.out =
        g.out ++ fakeBaseLines g.renames (printBases g.renames decl).2 0 ++ mid ++
          ("\x7d" ++ "\n")) := by
  have hany : anyBaseHasVirtualMethods decl.bases = false := by
    rw [hasVirtualMethods_eq, hcxx, Bool.true_and, Bool.or_eq_false_iff] at hshape
    exact hshape.2
  have hlen : ∀ r : Renames, (printBases r decl).2.length = decl.bases.length := by
    intro r
    have := congrArg List.length (flattenedBases_all r decl.bases hany hrec).1
    rw [List.length_map, List.length_map] at this
    rw [printBases_eq]
    exact this
  refine ⟨?_, ?_, ?_, hlen ren, ?_, ?_, ?_⟩
  · simp [shapeKeyword, hshape]
  · rw [printBases_text]
    simp [separatedInheritanceList, (flattenedBases_all ren decl.bases hany hrec).2]
  · rw [printBases_eq]
    exact (flattenedBases_all ren decl.bases hany hrec).1
  · rw [fakeBaseLines_eq]
    rfl
  · rw [enumFrom_fst, hlen ren, List.range_eq_range']
  · intro g2 h
    obtain ⟨mid, hm⟩ := recordMembers_flattened decl g g2 hcxx h
    refine ⟨mid, ?_⟩
    rw [hm, fakeBaseLines_eq, printBases_eq]
    rfl

/-- C36, at `struct Both : Plain, Point { };`: both bases are flattened, as the
members `_b0` and `_b1`. -/
theorem struct_shape_flattens_every_base_witness :
    shapeKeyword bothRecord = "struct " ∧
    (printBases [] bothRecord).1 = "" ∧
    (printBases [] bothRecord).2.length = 2 ∧
    fakeBaseLines [] (printBases [] bothRecord).2 0 =
      "Plain _b0;\nalias _b0 this;\nPoint _b1;\nalias _b1 this;\n" ∧
    (onStructOrClassEnter bothRecord initialGen).gen.out =
      "extern(C++)\n@cppclasssize(16) align(8)\nstruct Both\n\x7b\nPlain _b0;\nalias _b0 this;\nPoint _b1;\nalias _b1 this;\n\x7d\n" :=
  have h := struct_shape_flattens_every_base bothRecord [] initialGen rfl (by decide!)
    (by decide!)
  ⟨h.1, h.2.1, h.2.2.2.1, by decide!, by decide!⟩

end Gentool
namespace Gentool

theorem bitfieldPadding_width (w : Nat) (h64 : w ≤ 64) :
    bitfieldPadding w = some (paddingEntryText (paddingWidth w)) := by
  unfold bitfieldPadding paddingWidth
  by_cases hmod : w % 8 ≠ 0
  · rw [if_pos hmod, if_pos hmod]
    by_cases c8 : w ≤ 8
    · rw [if_pos c8, if_pos c8]; rfl
    · rw [if_neg c8, if_neg c8]
      by_cases c16 : w ≤ 16
      · rw [if_pos c16, if_pos c16]; rfl
      · rw [if_neg c16, if_neg c16]
        by_cases c32 : w ≤ 32
        · rw [if_pos c32, if_pos c32]; rfl
        · rw [if_neg c32, if_neg c32, if_pos h64, if_pos h64]; rfl
  · rw [if_neg hmod, if_neg hmod]; rfl

theorem paddingWidth_boundary (w : Nat) (hpos : 0 < w) (h64 : w ≤ 64) (hmod : w % 8 ≠ 0) :
    ∃ p, paddingWidth w = some p ∧ 0 < p ∧ w + p ∈ [8, 16, 32, 64] := by
  unfold paddingWidth
  rw [if_pos hmod]
  by_cases c8 : w ≤ 8
  · rw [if_pos c8]
    exact ⟨_, rfl, by omega, by simp; omega⟩
  · rw [if_neg c8]
    by_cases c16 : w ≤ 16
    · rw [if_pos c16]
      exact ⟨_, rfl, by omega, by simp; omega⟩
    · rw [if_neg c16]
      by_cases c32 : w ≤ 32
      · rw [if_pos c32]
        exact ⟨_, rfl, by omega, by simp; omega⟩
      · rw [if_neg c32, if_pos h64]
        exact ⟨_, rfl, by omega, by simp; omega⟩

theorem paddingWidth_multiple (w : Nat) (hmod : w % 8 = 0) : paddingWidth w = none := by
  unfold paddingWidth
  rw [if_neg (by simpa using hmod)]

end Gentool
namespace Gentool

/-! ## The declaration stack -/

theorem Res.andThen_eq_ok {r : Res} {f : Gen → Res} {g1 : Gen} (h : r.andThen f = .ok g1) :
    ∃ g0, r = .ok g0 ∧ f g0 = .ok g1 := by
  cases r with
  | ok g0 => exact ⟨g0, rfl, h⟩
  | fault d g0 => cases h

theorem Res.eq_ok_gen {r : Res} (h : r.isOk = true) : r = .ok r.gen := by
  cases r with
  | ok g => rfl
  | fault d g => cases h

theorem andThen_stack (r : Res) (f : Gen → Res) (s : List (DeclId × String))
    (hr : r.gen.declStack = s) (hf : ∀ g, g.declStack = s → (f g).gen.declStack = s) :
    (r.andThen f).gen.declStack = s := by
  cases r with
  | ok g => exact hf g hr
  | fault d g => exact hr

theorem onEnum_stack (e : EnumDecl) (g : Gen) : (onEnum e g).declStack = g.declStack := by
  unfold onEnum
  simp only [Gen.write]
  split
  · rfl
  · split <;> rfl

theorem onFunction_stack (fn : FunctionDecl) (g : Gen) :
    (onFunction fn g).declStack = g.declStack := by
  unfold onFunction
  simp only [Gen.write]
  split
  · rfl
  · cases fn.isTemplated <;> cases fn.describedTemplate <;> cases g.nogc <;> rfl

theorem typedefAlias_stack (decl : TypedefInfo) (g : Gen) :
    (typedefAlias decl g).declStack = g.declStack := by
  unfold typedefAlias
  simp only [Gen.write]
  repeat' first
    | rfl
    | split

theorem closeBitfieldRun_stack (it : FieldDecl) (g : Gen) :
    (closeBitfieldRun it g).gen.declStack = g.declStack := by
  unfold closeBitfieldRun
  cases it.isBitField <;> cases g.isPrevIsBitfield <;>
    cases h : bitfieldPadding (g.write ("," ++ "\n")).accumBitFieldWidth <;>
    simp [Res.gen, Gen.write, h] <;> (try rw [show bitfieldPadding g.accumBitFieldWidth = _ from h])

theorem writeField_stack (isClass : Bool) (it : FieldDecl) (g : Gen) :
    (writeField isClass it g).gen.declStack = g.declStack := by
  unfold writeField
  simp only
  split
  · rfl
  · cases it.isBitField <;> cases g.isPrevIsBitfield <;> rfl

theorem fieldStep_stack (isClass : Bool) (it : FieldDecl) (g : Gen) :
    (fieldStep isClass it g).gen.declStack = g.declStack := by
  unfold fieldStep
  apply andThen_stack _ _ _ (closeBitfieldRun_stack it g)
  intro g1 h1
  rw [writeField_stack, h1]

theorem fieldLoop_stack (isClass : Bool) : ∀ (fields : List FieldDecl) (g : Gen),
    (fieldLoop isClass fields g).gen.declStack = g.declStack := by
  intro fields
  induction fields with
  | nil => intro g; rfl
  | cons it rest ih =>
    intro g
    rw [fieldLoop]
    apply andThen_stack _ _ _ (fieldStep_stack isClass it g)
    intro g1 h1
    rw [ih, h1]

theorem fieldIterate_stack (isClass : Bool) (fields : List FieldDecl) (g : Gen) :
    (fieldIterate isClass fields g).gen.declStack = g.declStack := by
  rw [fieldIterate_eq]
  apply andThen_stack _ _ _ (fieldLoop_stack isClass fields (fieldIterateStart g))
  intro g1 h1
  unfold closeLastRun
  split <;> exact h1

theorem recordMembers_stack (decl : RecordDecl) (g : Gen) :
    (recordMembers decl g).gen.declStack = g.declStack := by
  unfold recordMembers
  simp only
  apply andThen_stack _ _ _ (fieldIterate_stack _ _ _)
  intro g1 h1
  cases decl.info.isCXX
  · exact h1
  · exact h1

theorem recordHeader_stack (info : RecordInfo) (g : Gen) :
    match recordHeader info g with
    | .error g1 => g1.declStack = g.declStack
    | .ok g1 => g1.declStack = g.declStack := by
  unfold recordHeader
  simp only
  by_cases h1 : (!info.isTemplated) = true
  · rw [if_pos h1]
    by_cases h2 : (!info.hasTypeForDecl) = true
    · rw [if_pos h2]
      rfl
    · rw [if_neg h2]
      by_cases h3 : (!info.isCompleteDefinition) = true
      · rw [if_pos h3]
        rfl
      · rw [if_neg h3]
        by_cases h4 : info.typeInfo.Width = 0 ∨ info.typeInfo.Align = 0
        · rw [if_pos h4]
          rfl
        · rw [if_neg h4]
          rfl
  · rw [if_neg h1]
    rfl

theorem nameIfAnon_stack (id : DeclId) (name : String) (count count1 : CountPtr) (g g1 : Gen)
    (hn : nameIfAnon id name count g = some (count1, g1)) : g1.declStack = g.declStack := by
  unfold nameIfAnon at hn
  by_cases hi : (!hasIdentifier g.renames id name) = true
  · rw [if_pos hi] at hn
    cases count with
    | toLocal c =>
      simp only [CountPtr.read, CountPtr.increment, Option.some.injEq, Prod.mk.injEq] at hn
      rw [← hn.2]
      rfl
    | toMember =>
      simp only [CountPtr.read, CountPtr.increment, Option.some.injEq, Prod.mk.injEq] at hn
      rw [← hn.2]
      rfl
    | pastEnd =>
      simp [CountPtr.read] at hn
  · rw [if_neg hi] at hn
    simp only [Option.some.injEq, Prod.mk.injEq] at hn
    rw [← hn.2]

theorem deanonimize_stack : ∀ (n : Nat),
    (∀ (decl : RecordDecl), sizeOf decl ≤ n → ∀ (optName : String) (count : CountPtr)
      (s : List (DeclId × String)) (g : Gen), g.declStack = s →
      (deanonimizeTypedef decl optName count g).gen.declStack = s)
    ∧ (∀ (ds : List Decl), sizeOf ds ≤ n → ∀ (declId : DeclId) (count : CountPtr)
      (s : List (DeclId × String)) (g : Gen), g.declStack = s →
      (deanonimizeDecls declId ds count g).gen.declStack = s) := by
  intro n
  induction n with
  | zero =>
    constructor
    · intro decl h
      rcases decl with ⟨info, ds, bs⟩
      simp at h
    · intro ds h
      cases ds with
      | nil => intro _ _ a g hg; simpa [deanonimizeDecls, Res.gen] using hg
      | cons d rest => simp at h
  | succ n ih =>
    obtain ⟨ihT, ihD⟩ := ih
    constructor
    · intro decl h optName count a g hg
      rcases decl with ⟨info, ds, bs⟩
      have hds : sizeOf ds ≤ n := by simp at h; omega
      rw [deanonimizeTypedef]
      by_cases hi : (!hasIdentifier g.renames info.id info.name) = true
      · rw [if_pos hi]
        by_cases ho : optName.isEmpty = true
        · rw [if_pos ho]
          cases count.read g with
          | none => exact hg
          | some c => exact ihD ds hds _ _ _ _ hg
        · rw [if_neg ho]
          exact ihD ds hds _ _ _ _ hg
      · rw [if_neg hi]
        exact ihD ds hds _ _ _ _ hg
    · intro ds h declId count a g hg
      cases ds with
      | nil => simpa [deanonimizeDecls, Res.gen] using hg
      | cons d rest =>
        have hrest : sizeOf rest ≤ n := by simp at h; omega
        cases d with
        | typedefDecl td =>
          rcases td with ⟨tinfo, record⟩
          rw [deanonimizeDecls]
          split
          · exact hg
          · rename_i count1 g1 hn
            have hg1 : g1.declStack = a := (nameIfAnon_stack _ _ _ _ _ _ hn).trans hg
            by_cases hd : tinfo.typeIsDependent = true
            · rw [if_pos hd]
              exact ihD rest hrest _ _ _ _ hg1
            · rw [if_neg hd]
              cases record with
              | none => exact ihD rest hrest _ _ _ _ hg1
              | some rd =>
                simp only
                by_cases hr : tinfo.underlyingType.getAsRecordDecl.isSome = true
                · rw [if_pos hr]
                  apply andThen_stack
                  · exact ihT rd (by simp at h; omega) _ _ _ _ hg1
                  · intro g2 h2
                    exact ihD rest hrest _ _ _ _ h2
                · rw [if_neg hr]
                  exact ihD rest hrest _ _ _ _ hg1
        | recordDecl r =>
          rcases r with ⟨rinfo, rds, rbs⟩
          rw [deanonimizeDecls]
          by_cases hid : rinfo.id = declId
          · rw [if_pos hid]
            exact ihD rest hrest _ _ _ _ hg
          · rw [if_neg hid]
            split
            · exact hg
            · rename_i count1 g1 hn
              exact ihD rest hrest _ _ _ _ ((nameIfAnon_stack _ _ _ _ _ _ hn).trans hg)
        | enumDecl e =>
          rw [deanonimizeDecls]
          exact ihD rest hrest _ _ _ _ hg
        | varDecl v =>
          rw [deanonimizeDecls]
          exact ihD rest hrest _ _ _ _ hg
        | functionTemplateDecl ac fn =>
          rw [deanonimizeDecls]
          exact ihD rest hrest _ _ _ _ hg
        | otherDecl =>
          rw [deanonimizeDecls]
          exact ihD rest hrest _ _ _ _ hg

theorem deanonimizeTypedef_stack (decl : RecordDecl) (optName : String) (count : CountPtr)
    (g : Gen) : (deanonimizeTypedef decl optName count g).gen.declStack = g.declStack :=
  (deanonimize_stack _).1 decl (Nat.le_refl _) optName count _ g rfl

theorem nameRecord_stack (decl : RecordDecl) (g : Gen) :
    (nameRecord decl g).gen.declStack = g.declStack := by
  unfold nameRecord
  by_cases he : g.classOrStructName.isEmpty = true
  · rw [if_pos he]
    cases decl.info.typedefNameForAnonDecl with
    | some td => rfl
    | none =>
      simp only
      apply andThen_stack
      · exact deanonimizeTypedef_stack _ _ _ _
      · intro g1 h1
        exact h1
  · rw [if_neg he]
    exact deanonimizeTypedef_stack _ _ _ _

theorem recordIntro_stack (decl : RecordDecl) (g : Gen) :
    (recordIntro decl g).gen.declStack = g.declStack := by
  unfold recordIntro
  simp only
  apply andThen_stack
  · exact nameRecord_stack decl _
  · intro g1 h1
    simp only [Res.gen, Gen.write]
    cases decl.info.isCXX <;> exact h1

theorem renameTypedefRecord_stack (decl : TypedefInfo) (rd : RecordDecl) (g : Gen) :
    (renameTypedefRecord decl rd g).gen.declStack = g.declStack := by
  unfold renameTypedefRecord
  simp only
  split
  · exact deanonimizeTypedef_stack _ _ _ _
  · rfl

theorem onStructOrClassLeave_stack (g : Gen) :
    (onStructOrClassLeave g).declStack = g.declStack.dropLast := by
  unfold onStructOrClassLeave
  simp only [Gen.write]
  split <;> rfl

/-- The calls of the emitter are balanced on the declaration stack: a call of
`onStructOrClassEnter` that returns has pushed the record, and the nested
declarations and typedefs, which leave every record they enter, give the stack
back as it was. -/
theorem emit_stack : ∀ (n : Nat),
    (∀ (decl : RecordDecl), sizeOf decl ≤ n → ∀ (g g1 : Gen),
      onStructOrClassEnter decl g = .ok g1 →
      g1.declStack = g.declStack ++ [(decl.info.id, decl.info.name)])
    ∧ (∀ (ds : List Decl), sizeOf ds ≤ n → ∀ (declId : DeclId) (isClass : Bool) (g g1 : Gen),
      innerDeclIterate declId isClass ds g = .ok g1 → g1.declStack = g.declStack)
    ∧ (∀ (td : TypedefDecl), sizeOf td ≤ n → ∀ (g g1 : Gen),
      onTypedef td g = .ok g1 → g1.declStack = g.declStack) := by
  intro n
  induction n with
  | zero =>
    refine ⟨?_, ?_, ?_⟩
    · intro decl h
      rcases decl with ⟨info, ds, bs⟩
      simp at h
    · intro ds h
      cases ds with
      | nil =>
        intro _ _ g g1 hg
        rw [innerDeclIterate] at hg
        cases hg
        rfl
      | cons d rest => simp at h
    · intro td h
      rcases td with ⟨info, r⟩
      simp at h
  | succ n ih =>
    obtain ⟨ihR, ihD, ihT⟩ := ih
    refine ⟨?_, ?_, ?_⟩
    · intro decl h g g1 hok
      rcases decl with ⟨info, ds, bs⟩
      have hds : sizeOf ds ≤ n := by simp at h; omega
      rw [onStructOrClassEnter] at hok
      simp only [RecordDecl.info]
      split at hok
      · cases hok
        rfl
      · have hh := recordHeader_stack info ((enterRecord info g).setStoredTypes
          (addType info.loc (enterRecord info g).storedTypes).2)
        split at hok
        · rename_i g2 heq
          rw [heq] at hh
          cases hok
          exact hh
        · rename_i g2 heq
          rw [heq] at hh
          obtain ⟨g3, h3, hok⟩ := Res.andThen_eq_ok hok
          obtain ⟨g4, h4, hok⟩ := Res.andThen_eq_ok hok
          have e3 : g3.declStack = g2.declStack := by
            have := recordIntro_stack (.mk info ds bs) g2
            rw [h3] at this
            exact this
          have e4 : g4.declStack = g3.declStack := ihD ds hds _ _ _ _ h4
          have e5 : g1.declStack = g4.declStack := by
            have := recordMembers_stack (.mk info ds bs) g4
            rw [hok] at this
            exact this
          rw [e5, e4, e3, hh]
          rfl
    · intro ds h declId isClass g g1 hok
      cases ds with
      | nil =>
        rw [innerDeclIterate] at hok
        cases hok
        rfl
      | cons d rest =>
        have hrest : sizeOf rest ≤ n := by simp at h; omega
        cases d with
        | enumDecl e =>
          rw [innerDeclIterate] at hok
          rw [ihD rest hrest _ _ _ _ hok, onEnum_stack]
        | varDecl v =>
          rw [innerDeclIterate] at hok
          rw [ihD rest hrest _ _ _ _ hok]
          rfl
        | recordDecl r =>
          rcases r with ⟨rinfo, rds, rbs⟩
          rw [innerDeclIterate] at hok
          split at hok
          · exact ihD rest hrest _ _ _ _ hok
          · obtain ⟨g2, h2, hok⟩ := Res.andThen_eq_ok hok
            have e2 := ihR (.mk rinfo rds rbs) (by simp at h ⊢; omega) _ _ h2
            rw [ihD rest hrest _ _ _ _ hok, onStructOrClassLeave_stack, e2,
              List.dropLast_concat]
        | functionTemplateDecl ac fn =>
          cases fn with
          | none =>
            rw [innerDeclIterate] at hok
            exact ihD rest hrest _ _ _ _ hok
          | some fn =>
            rw [innerDeclIterate] at hok
            split at hok
            · exact ihD rest hrest _ _ _ _ hok
            · rw [ihD rest hrest _ _ _ _ hok, onFunction_stack]
              rfl
        | typedefDecl td =>
          rw [innerDeclIterate] at hok
          obtain ⟨g2, h2, hok⟩ := Res.andThen_eq_ok hok
          rw [ihD rest hrest _ _ _ _ hok]
          exact ihT td (by simp at h; omega) _ _ h2
        | otherDecl =>
          rw [innerDeclIterate] at hok
          exact ihD rest hrest _ _ _ _ hok
    · intro td h g g1 hok
      rcases td with ⟨info, record⟩
      cases record with
      | none =>
        rw [onTypedef] at hok
        split at hok
        · cases hok
          rfl
        · cases hok
          rw [typedefAlias_stack]
          rfl
      | some rd =>
        rcases rd with ⟨rinfo, rds, rbs⟩
        rw [onTypedef] at hok
        split at hok
        · cases hok
          rfl
        · obtain ⟨g2, h2, hok⟩ := Res.andThen_eq_ok hok
          obtain ⟨g3, h3, hok⟩ := Res.andThen_eq_ok hok
          cases hok
          have e2 : g2.declStack = g.declStack := by
            have := renameTypedefRecord_stack info (.mk rinfo rds rbs)
              (g.setStoredTypes (addType info.loc g.storedTypes).2)
            rw [h2] at this
            exact this
          have e3 := ihR (.mk rinfo rds rbs) (by simp at h ⊢; omega) _ _ h3
          rw [onStructOrClassLeave_stack, e3, List.dropLast_concat, e2]

/-- A call of `onStructOrClassEnter` that returns has pushed the record on the
declaration stack, whatever it has entered and left in between. -/
theorem onStructOrClassEnter_stack (decl : RecordDecl) (g g1 : Gen)
    (h : onStructOrClassEnter decl g = .ok g1) :
    g1.declStack = g.declStack ++ [(decl.info.id, decl.info.name)] :=
  (emit_stack _).1 decl (Nat.le_refl _) g g1 h

end Gentool
namespace Gentool

theorem onStructOrClassLeave_counter (g : Gen) :
    (onStructOrClassLeave g).localAnonRecordId =
      if g.declStack.length ≤ 1 then 1 else g.localAnonRecordId := by
  unfold onStructOrClassLeave
  simp only [Gen.write]
  cases hs : g.declStack with
  | nil => simp
  | cons a rest =>
    cases rest with
    | nil => simp
    | cons b rest2 => simp [List.dropLast]

/-- C31 (amended). `onStructOrClassLeave` resets the counter of the nested
anonymous names to 1 only when the pop has emptied the declaration stack;
otherwise the counter keeps its value. As the calls of the emitter are
balanced on the stack, that is: after the leave of a top-level record, one
entered on an empty stack, the counter is 1, and after the leave of a record
entered while another record is on the stack the counter is what the nested
record left. So the first anonymous nested entity of the record that is
entered next after a top-level record (a record with a name, new to the
registry, written in full, with simple member declarations) is named `_anon1`
by `onStructOrClassEnter`. -/
theorem anon_counter_reset_on_emptied_stack (decl next : RecordDecl) (g g1 : Gen)
    (henter : onStructOrClassEnter decl g = .ok g1)
    (hnamed : hasIdentifier g1.renames next.info.id next.info.name = true)
    (hnew : next.info.loc ∉ g1.storedTypes) (hfull : writtenInFull next.info)
    (hsimple : ∀ d ∈ next.decls, simpleMember d = true)
    (hdistinct : (anonymousIds g1.renames next.info.id next.decls).Nodup) :
    (onStructOrClassLeave g1).localAnonRecordId =
      (if g.declStack = [] then 1 else g1.localAnonRecordId) ∧
    (onStructOrClassLeave g1).declStack = g.declStack ∧
    (g.declStack = [] →
      ∃ gK : Gen,
        nameRecord next gK =
          .ok (nameAnonymous (anonymousIds g1.renames next.info.id next.decls) gK) ∧
        onStructOrClassEnter next (onStructOrClassLeave g1) =
          (innerDeclIterate next.info.id next.info.isClass next.decls
            (recordOpening next
              (nameAnonymous (anonymousIds g1.renames next.info.id next.decls) gK))).andThen
            (recordMembers next) ∧
        ∀ id, (anonymousIds g1.renames next.info.id next.decls)[0]? = some id →
          Named id (anonName 1)
            (nameAnonymous (anonymousIds g1.renames next.info.id next.decls) gK)) := by
  have hstack := onStructOrClassEnter_stack decl g g1 henter
  refine ⟨?_, ?_, ?_⟩
  · rw [onStructOrClassLeave_counter, hstack]
    cases hs : g.declStack with
    | nil => simp
    | cons a rest => simp
  · rw [onStructOrClassLeave_stack, hstack, List.dropLast_concat]
  · intro hempty
    have hren : (onStructOrClassLeave g1).renames = g1.renames := onStructOrClassLeave_renames g1
    have hst : (onStructOrClassLeave g1).storedTypes = g1.storedTypes := by
      unfold onStructOrClassLeave
      simp only [Gen.write]
      split <;> rfl
    have hcount : (onStructOrClassLeave g1).localAnonRecordId = 1 := by
      rw [onStructOrClassLeave_counter, hstack, hempty]
      simp
    obtain ⟨gK, _, _, hcnt, _, hname, heq⟩ :=
      onStructOrClassEnter_named next (onStructOrClassLeave g1) (by rw [hren]; exact hnamed)
        (by rw [hst]; exact hnew) hfull hsimple (by rw [hren]; exact hdistinct)
    rw [hren] at hname heq
    refine ⟨gK, hname, heq, ?_⟩
    intro id hid
    have := nameAnonymous_lookup _ gK hdistinct 0 id hid
    rw [hcnt, hcount] at this
    exact this

/-- C31, at `struct Point` entered on the empty stack, with
`struct Outer { struct { int a; } s; }` as the record entered next: the leave
of `Point` gives the counter 1 and the anonymous struct 11 is named
`_anon1`. -/
theorem anon_counter_reset_on_emptied_stack_witness :
    ∃ g1, onStructOrClassEnter pointRecord initialGen = .ok g1 ∧
      (onStructOrClassLeave g1).localAnonRecordId = 1 ∧
      (onStructOrClassLeave g1).declStack = [] ∧
      ∃ gK : Gen,
        nameRecord outerRecord gK =
          .ok (nameAnonymous (anonymousIds g1.renames outerRecord.info.id outerRecord.decls)
            gK) ∧
        Named 11 (anonName 1)
          (nameAnonymous (anonymousIds g1.renames outerRecord.info.id outerRecord.decls) gK) :=
  ⟨(onStructOrClassEnter pointRecord initialGen).gen, Res.eq_ok_gen (by decide!),
    (anon_counter_reset_on_emptied_stack pointRecord outerRecord initialGen
      (onStructOrClassEnter pointRecord initialGen).gen (Res.eq_ok_gen (by decide!)) (by decide!)
      (by decide!)
      (Or.inr (by decide!)) (by decide!) (by decide!)).1,
    (anon_counter_reset_on_emptied_stack pointRecord outerRecord initialGen
      (onStructOrClassEnter pointRecord initialGen).gen (Res.eq_ok_gen (by decide!)) (by decide!)
      (by decide!)
      (Or.inr (by decide!)) (by decide!) (by decide!)).2.1,
    match (anon_counter_reset_on_emptied_stack pointRecord outerRecord initialGen
      (onStructOrClassEnter pointRecord initialGen).gen (Res.eq_ok_gen (by decide!)) (by decide!)
      (by decide!)
      (Or.inr (by decide!)) (by decide!) (by decide!)).2.2 rfl with
    | ⟨gK, a, _, c⟩ => ⟨gK, a, c 11 (by decide!)⟩⟩

/-- C31, counterexample. In `struct Outer { struct First { struct { int a; }
s; }; struct Second { struct { int b; } t; }; };` the record `First` is entered
with the counter at 1 and its anonymous struct is named `_anon1`. When `First`
is left `Outer` is still on the stack, so the counter stays at 2, and the
first anonymous entity of `Second`, the record entered next, is named
`_anon2`. -/
theorem nested_leave_keeps_counter_counterexample :
    (onStructOrClassEnter firstNested (enterRecord outerOfTwoNamed.info initialGen)).isOk =
      true ∧
    (onStructOrClassEnter firstNested
      (enterRecord outerOfTwoNamed.info initialGen)).gen.localAnonRecordId = 2 ∧
    afterFirstNested.declStack = [(10, "Outer")] ∧
    afterFirstNested.localAnonRecordId = 2 ∧
    afterFirstNested.localAnonRecordId ≠ 1 ∧
    (onStructOrClassEnter secondNested afterFirstNested).gen.renames.lookup 24 =
      some "_anon2" ∧
    (onStructOrClassEnter outerOfTwoNamed initialGen).isOk = true ∧
    (onStructOrClassEnter outerOfTwoNamed initialGen).gen.out =
      "extern(C++)\n@cppclasssize(1) align(1)\nstruct Outer\n\x7b\nextern(C++)\n@cppclasssize(4) align(4)\nstruct First\n\x7b\nextern(C++)\n@cppclasssize(4) align(4)\nstruct _anon1\n\x7b\n@cppsize(4) public int a;\n\x7d\n\n@cppsize(4) public _anon1 s;\n\x7d\n\nextern(C++)\n@cppclasssize(4) align(4)\nstruct Second\n\x7b\nextern(C++)\n@cppclasssize(4) align(4)\nstruct _anon2\n\x7b\n@cppsize(4) public int b;\n\x7d\n\n@cppsize(4) public _anon2 t;\n\x7d\n\n\x7d\n" := by
  decide!

end Gentool
namespace Gentool

theorem innerDeclIterate_grows (declId : DeclId) (isClass : Bool) (ds : List Decl) (g : Gen) :
    Grows g (innerDeclIterate declId isClass ds g).gen :=
  (emit_grows _).2.1 ds (Nat.le_refl _) declId isClass g g (Grows.refl g)

/-- What `onStructOrClassEnter` has written when the opening of the record
is done: the shape keyword, what the naming step leaves, the name, the
template arguments, the inheritance list and the opening brace. -/
theorem recordIntro_opening (decl : RecordDecl) (g g1 : Gen) (h : recordIntro decl g = .ok g1) :
    ∃ pre, g1.out =
      g.out ++ pre ++ (if decl.info.isCXX then (printBases g1.renames decl).1 else "") ++
        "\n" ++ ("\x7b" ++ "\n") := by
  unfold recordIntro at h
  simp only at h
  obtain ⟨gN, hN, h⟩ := Res.andThen_eq_ok h
  have hgrow : Grows (g.write (shapeKeyword decl)) gN := by
    have := nameRecord_grows decl (Grows.refl (g.write (shapeKeyword decl)))
    rw [hN] at this
    exact this
  obtain ⟨t, ht⟩ := hgrow.out
  simp only [Res.ok.injEq] at h
  rw [← h]
  cases hc : decl.info.isCXX with
  | false =>
    refine ⟨shapeKeyword decl ++ t ++ gN.classOrStructName, ?_⟩
    simp only [Gen.write, Bool.false_eq_true, if_false] at ht ⊢
    rw [ht]
    simp only [String.append_assoc, String.append_empty]
  | true =>
    refine ⟨shapeKeyword decl ++ t ++ gN.classOrStructName ++
      recordTemplateText gN.renames decl.info, ?_⟩
    simp only [Gen.write, if_true] at ht ⊢
    rw [ht]
    simp only [String.append_assoc]

/-- What `onStructOrClassEnter` writes after the nested declarations: the
members of the flattened bases, the pieces of the fields, the methods and the
closing brace. -/
theorem recordMembers_parts (decl : RecordDecl) (g g1 : Gen) (h : recordMembers decl g = .ok g1) :
    ∃ gF, fieldIterate decl.info.isClass decl.info.fields
        (g.write (fakeBaseLines g.renames
          (if decl.info.isCXX then (printBases g.renames decl).2 else []) 0)) = .ok gF ∧
      g1.out =
        g.out ++
          fakeBaseLines g.renames
            (if decl.info.isCXX then (printBases g.renames decl).2 else []) 0 ++
          renderPieces (fieldPieces g.renames decl.info.isClass decl.info.fields) ++
          (if decl.info.isCXX then methodsText decl gF else "") ++ ("\x7d" ++ "\n") := by
  unfold recordMembers at h
  simp only at h
  obtain ⟨gF, hF, h⟩ := Res.andThen_eq_ok h
  refine ⟨gF, hF, ?_⟩
  have hp := fieldIterate_pieces decl.info.isClass decl.info.fields _ (by rw [hF]; rfl)
  rw [hF] at hp
  simp only [Res.gen] at hp
  simp only [Res.ok.injEq] at h
  rw [← h]
  cases hc : decl.info.isCXX with
  | false =>
    simp only [hc, Gen.write, Bool.false_eq_true, if_false] at hp ⊢
    rw [hp]
    simp only [String.append_assoc, String.append_empty, String.empty_append]
  | true =>
    simp only [hc, Gen.write, if_true, methodIterate, methodsText] at hp ⊢
    rw [hp]

end Gentool
namespace Gentool

/-! ## Facts about `textReplaceArrowColon` -/

theorem hasArrow_of_occurrence : ∀ (s : List Char) (p : Nat),
    ['-', '>'].isPrefixOf (s.drop p) = true → hasArrow s = true := by
  intro s
  induction s with
  | nil => intro p h; simp at h
  | cons c cs ih =>
    intro p h
    cases p with
    | zero =>
      cases cs with
      | nil => simp [List.isPrefixOf] at h
      | cons d ds =>
        simp [List.isPrefixOf] at h
        simp [hasArrow, ← h.1, ← h.2]
    | succ p =>
      simp only [List.drop_succ_cons] at h
      simp [hasArrow, ih p h]

theorem occurrence_of_hasArrow : ∀ (s : List Char), hasArrow s = true →
    ∃ i, i ≤ s.length ∧ ['-', '>'].isPrefixOf (s.drop i) = true := by
  intro s
  induction s with
  | nil => intro h; simp [hasArrow] at h
  | cons c cs ih =>
    intro h
    simp only [hasArrow, Bool.or_eq_true, Bool.and_eq_true, beq_iff_eq] at h
    rcases h with ⟨hc, hd⟩ | h
    · refine ⟨0, by simp, ?_⟩
      cases cs with
      | nil => simp at hd
      | cons d ds =>
        simp at hd
        simp [List.isPrefixOf, hc, hd]
    · obtain ⟨i, hi, hp⟩ := ih h
      exact ⟨i + 1, by simp; omega, by simpa using hp⟩

theorem rfind_arrow_none_iff (s : String) : rfind s "->" = none ↔ hasArrow s.data = false := by
  have hd : "->".data = ['-', '>'] := rfl
  constructor
  · intro h
    by_contra hs
    have hs' : hasArrow s.data = true := by simpa using hs
    obtain ⟨i, hi, hp⟩ := occurrence_of_hasArrow _ hs'
    have := rfindFrom_none s.data "->".data s.data.length h i hi
    rw [hd, hp] at this
    cases this
  · intro h
    cases hr : rfind s "->" with
    | none => rfl
    | some p =>
      have hp := rfindFrom_some_occurs _ _ _ _ hr
      rw [hd] at hp
      rw [hasArrow_of_occurrence _ _ hp] at h
      cases h

/-- The text around the `->` that `rfind` finds. -/
theorem rfind_arrow_split (l : List Char) (p : Nat) (h : rfind ⟨l⟩ "->" = some p) :
    l = l.take p ++ '-' :: '>' :: l.drop (p + 2) := by
  have hd : "->".data = ['-', '>'] := rfl
  unfold rfind at h
  rw [hd] at h
  have hocc := rfindFrom_some_occurs _ _ _ _ h
  obtain ⟨t, ht⟩ := List.isPrefixOf_iff_prefix.mp hocc
  have hdrop : l.drop (p + 2) = t := by
    have : l.drop (p + 2) = (l.drop p).drop 2 := by rw [List.drop_drop]
    rw [this, ← ht]
    rfl
  rw [hdrop]
  have := List.take_append_drop p l
  rw [← ht] at this
  exact this.symm

theorem arrowToDotChars_cons (x : Char) (z : List Char)
    (h : ¬(x = '-' ∧ z.head? = some '>')) :
    arrowToDotChars (x :: z) = x :: arrowToDotChars z := by
  cases z with
  | nil => rfl
  | cons d rest =>
    rw [arrowToDotChars]
    have : ¬(x = '-' ∧ d = '>') := by simpa using h
    rw [if_neg this]

theorem arrowToDotChars_pair (rest : List Char) :
    arrowToDotChars ('-' :: '>' :: rest) = '.' :: arrowToDotChars rest := by
  rw [arrowToDotChars]
  simp

/-- The replacement goes through a text in two parts, when the second part
does not start with `>`. -/
theorem arrowToDotChars_append : ∀ (n : Nat) (x y : List Char), x.length ≤ n →
    y.head? ≠ some '>' →
    arrowToDotChars (x ++ y) = arrowToDotChars x ++ arrowToDotChars y := by
  intro n
  induction n with
  | zero =>
    intro x y hx _
    have : x = [] := List.length_eq_zero.mp (by omega)
    subst this
    rfl
  | succ n ih =>
    intro x y hx hy
    cases x with
    | nil => rfl
    | cons c cs =>
      cases cs with
      | nil =>
        have hc : ¬(c = '-' ∧ ([] ++ y).head? = some '>') := fun h => hy (by simpa using h.2)
        rw [List.cons_append, arrowToDotChars_cons _ _ hc]
        rfl
      | cons d ds =>
        by_cases hm : c = '-' ∧ d = '>'
        · obtain ⟨rfl, rfl⟩ := hm
          rw [List.cons_append, List.cons_append, arrowToDotChars_pair, arrowToDotChars_pair,
            ih ds y (by simp at hx; omega) hy]
          rfl
        · have h1 : ¬(c = '-' ∧ (d :: ds ++ y).head? = some '>') := by simpa using hm
          have h2 : ¬(c = '-' ∧ (d :: ds).head? = some '>') := by simpa using hm
          rw [List.cons_append, arrowToDotChars_cons _ _ h1, arrowToDotChars_cons _ _ h2,
            ih (d :: ds) y (by simp at hx ⊢; omega) hy]
          rfl

theorem arrowToDotChars_of_none : ∀ (l : List Char), hasArrow l = false →
    arrowToDotChars l = l := by
  intro l
  induction l with
  | nil => intro _; rfl
  | cons c cs ih =>
    intro h
    have h' : (c == '-' && cs.head? == some '>' || hasArrow cs) = false := h
    rw [Bool.or_eq_false_iff] at h'
    obtain ⟨h1, h2⟩ := h'
    have hc : ¬(c = '-' ∧ cs.head? = some '>') := by
      rintro ⟨rfl, hh⟩
      simp [hh] at h1
    rw [arrowToDotChars_cons _ _ hc, ih h2]

theorem strReplace_length (s : String) (p : Nat) (hp : p + 2 ≤ s.data.length) :
    (strReplace s p 2 ".").data.length + 1 = s.data.length := by
  have h3 : (".".data).length = 1 := rfl
  simp only [strReplace, List.length_append, List.length_take, List.length_drop, h3]
  omega

theorem arrowColonPos_bound (s : String) (p : Nat) (h : arrowColonPos s = some p) :
    p + 2 ≤ s.data.length := by
  unfold arrowColonPos at h
  cases hr : rfind s "::" with
  | some q =>
    rw [hr] at h
    cases h
    exact rfindFrom_bound _ _ (by decide) _ _ hr
  | none =>
    rw [hr] at h
    exact rfindFrom_bound s.data "->".data (by decide) _ _ h

theorem arrowColonPos_none (s : String) :
    arrowColonPos s = none ↔ rfind s "::" = none ∧ rfind s "->" = none := by
  unfold arrowColonPos
  cases hr : rfind s "::" with
  | some q => simp
  | none => simp

/-- Given at least as many rounds as the text is long, the loop of
`textReplaceArrowColon` reaches its `break`: neither `::` nor `->` is found in
what it leaves. -/
theorem textReplaceArrowColonLoop_done : ∀ (n : Nat) (s : String), s.data.length ≤ n →
    arrowColonPos (textReplaceArrowColonLoop n s) = none := by
  intro n
  induction n with
  | zero =>
    intro s hs
    have : s.data = [] := List.length_eq_zero.mp (by omega)
    simp [textReplaceArrowColonLoop, arrowColonPos, rfind, this, rfindFrom]
  | succ n ih =>
    intro s hs
    rw [textReplaceArrowColonLoop]
    cases hr : arrowColonPos s with
    | none => simpa using hr
    | some pos =>
      simp only
      apply ih
      have := strReplace_length s pos (arrowColonPos_bound s pos hr)
      omega

theorem textReplaceArrowColonLoop_of_none (n : Nat) (s : String)
    (h : arrowColonPos s = none) : textReplaceArrowColonLoop n s = s := by
  cases n with
  | zero => rfl
  | succ n => rw [textReplaceArrowColonLoop, h]

/-- Every round of the loop shortens the text by one character. -/
theorem textReplaceArrowColonLoop_length : ∀ (n : Nat) (s : String),
    (textReplaceArrowColonLoop n s).data.length + textReplaceArrowColonCount n s =
      s.data.length := by
  intro n
  induction n with
  | zero => intro s; rfl
  | succ n ih =>
    intro s
    rw [textReplaceArrowColonLoop, textReplaceArrowColonCount]
    cases hr : arrowColonPos s with
    | none => rfl
    | some pos =>
      simp only
      have := strReplace_length s pos (arrowColonPos_bound s pos hr)
      have := ih (strReplace s pos 2 ".")
      omega

theorem scopeToDot_of_none (s : String) (h : hasScope s.data = false) : scopeToDot s = s := by
  apply String.ext
  simp only [scopeToDot]
  rw [scopeToDotRev_of_none _ (by rw [hasScope_reverse]; exact h), List.reverse_reverse]

theorem scopeToDot_round (s : String) (p : Nat) (h : rfind s "::" = some p) :
    scopeToDot (strReplace s p 2 ".") = scopeToDot s := by
  have hb := rfindFrom_bound s.data "::".data (by decide) _ _ h
  have hl := strReplace_length s p hb
  rw [← replaceScopeLoop_scopeToDot s.data.length (strReplace s p 2 ".") (by omega),
    ← replaceScopeLoop_scopeToDot (s.data.length + 1) s (by omega), replaceScopeLoop, h]

/-- Given at least as many rounds as the text is long, the loop of
`textReplaceArrowColon` leaves the text with every `::` and then every `->`
replaced by `.`. -/
theorem textReplaceArrowColonLoop_spec : ∀ (n : Nat) (s : String), s.data.length ≤ n →
    textReplaceArrowColonLoop n s = arrowToDot (scopeToDot s) := by
  intro n
  induction n with
  | zero =>
    intro s hs
    have h0 : s.data = [] := List.length_eq_zero.mp (by omega)
    apply String.ext
    simp [textReplaceArrowColonLoop, arrowToDot, scopeToDot, h0, scopeToDotRev, arrowToDotChars]
  | succ n ih =>
    intro s hs
    rw [textReplaceArrowColonLoop]
    cases hc : rfind s "::" with
    | some p =>
      have hpos : arrowColonPos s = some p := by simp [arrowColonPos, hc]
      rw [hpos]
      simp only
      have hl := strReplace_length s p (arrowColonPos_bound s p hpos)
      rw [ih _ (by omega), scopeToDot_round s p hc]
    | none =>
      have hns : hasScope s.data = false := (rfind_none_iff s).1 hc
      have hpos : arrowColonPos s = rfind s "->" := by simp [arrowColonPos, hc]
      rw [hpos, scopeToDot_of_none s hns]
      cases ha : rfind s "->" with
      | none =>
        simp only
        apply String.ext
        simp only [arrowToDot]
        rw [arrowToDotChars_of_none _ ((rfind_arrow_none_iff s).1 ha)]
      | some p =>
        simp only
        have hl := strReplace_length s p (rfindFrom_bound s.data "->".data (by decide) _ _ ha)
        have hsplit := rfind_arrow_split s.data p ha
        have hdot : ".".data = ['.'] := rfl
        have hrep : (strReplace s p 2 ".").data =
            s.data.take p ++ '.' :: s.data.drop (p + 2) := by
          simp [strReplace, hdot]
        have hns' : hasScope (strReplace s p 2 ".").data = false := by
          rw [hsplit, hasScope_append_guard _ _ (by simp), Bool.or_eq_false_iff] at hns
          rw [hrep, hasScope_append_guard _ _ (by simp), Bool.or_eq_false_iff]
          refine ⟨hns.1, ?_⟩
          have h2 := hns.2
          simp only [hasScope] at h2 ⊢
          simpa using h2
        rw [ih _ (by omega), scopeToDot_of_none _ hns']
        apply String.ext
        simp only [arrowToDot]
        rw [hrep]
        conv => rhs; rw [hsplit]
        rw [arrowToDotChars_append _ _ _ (Nat.le_refl _) (by simp),
          arrowToDotChars_append _ _ _ (Nat.le_refl _) (by simp), arrowToDotChars_pair,
          arrowToDotChars_cons _ _ (by simp)]

end Gentool
namespace Gentool

/-- C35. For every text `textReplaceArrowColon` comes to its `break`: given
as many rounds as the text is long, and as well given more, the loop ends with
neither `::` nor `->` found, on the same text. What it leaves holds neither
`::` nor `->`; it is the text with every `::` and every `->` replaced by one
`.` (in a run of colons the pairs are taken from the end of the text); it is
shorter than the text by the number of replacements made; a text that holds
neither token is left as it is, without a replacement; and a second pass
changes nothing. The text `a::b->c` becomes `a.b.c`. -/
theorem arrow_and_scope_replaced_by_dot (s : String) :
    (∀ rounds, s.data.length ≤ rounds →
      textReplaceArrowColonLoop rounds s = textReplaceArrowColon s ∧
        arrowColonPos (textReplaceArrowColonLoop rounds s) = none) ∧
    rfind (textReplaceArrowColon s) "::" = none ∧
    rfind (textReplaceArrowColon s) "->" = none ∧
    hasScope (textReplaceArrowColon s).data = false ∧
    hasArrow (textReplaceArrowColon s).data = false ∧
    textReplaceArrowColon s = arrowToDot (scopeToDot s) ∧
    (textReplaceArrowColon s).data.length + replacements s = s.data.length ∧
    (rfind s "::" = none → rfind s "->" = none →
      textReplaceArrowColon s = s ∧ replacements s = 0) ∧
    textReplaceArrowColon (textReplaceArrowColon s) = textReplaceArrowColon s ∧
    textReplaceArrowColon "a::b->c" = "a.b.c" ∧
    replacements "a::b->c" = 2 := by
  have hdone : arrowColonPos (textReplaceArrowColon s) = none :=
    textReplaceArrowColonLoop_done _ s (Nat.le_refl _)
  have hnone := (arrowColonPos_none _).1 hdone
  have hspec : textReplaceArrowColon s = arrowToDot (scopeToDot s) :=
    textReplaceArrowColonLoop_spec _ s (Nat.le_refl _)
  refine ⟨?_, hnone.1, hnone.2, (rfind_none_iff _).1 hnone.1,
    (rfind_arrow_none_iff _).1 hnone.2, hspec, textReplaceArrowColonLoop_length _ s, ?_, ?_,
    by decide!, by decide!⟩
  · intro rounds hr
    refine ⟨?_, textReplaceArrowColonLoop_done rounds s hr⟩
    rw [textReplaceArrowColonLoop_spec rounds s hr, hspec]
  · intro h1 h2
    have hp : arrowColonPos s = none := (arrowColonPos_none s).2 ⟨h1, h2⟩
    refine ⟨textReplaceArrowColonLoop_of_none _ s hp, ?_⟩
    unfold replacements
    cases s.data.length with
    | zero => rfl
    | succ n => rw [textReplaceArrowColonCount, hp]
  · exact textReplaceArrowColonLoop_of_none _ _ hdone

/-- C35, at the texts `p->x`, given 10 rounds, and `int`. -/
theorem arrow_and_scope_replaced_by_dot_witness :
    (textReplaceArrowColonLoop 10 "p->x" = textReplaceArrowColon "p->x" ∧
      arrowColonPos (textReplaceArrowColonLoop 10 "p->x") = none) ∧
    (textReplaceArrowColon "int" = "int" ∧ replacements "int" = 0) ∧
    textReplaceArrowColon "p->x" = "p.x" :=
  ⟨(arrow_and_scope_replaced_by_dot "p->x").1 10 (by decide),
   (arrow_and_scope_replaced_by_dot "int").2.2.2.2.2.2.2.1 (by decide!) (by decide!),
   by decide!⟩

end Gentool
namespace Gentool

/-! ## Braces -/

theorem braces_append (a b : List Char) : braces (a ++ b) = braces a ++ braces b := by
  simp [braces, List.filter_append]

theorem braces_reverse (a : List Char) : braces a.reverse = (braces a).reverse := by
  simp [braces, List.filter_reverse]

theorem braces_cons_other (c : Char) (cs : List Char) (h1 : c ≠ '\x7b') (h2 : c ≠ '\x7d') :
    braces (c :: cs) = braces cs := by
  simp [braces, List.filter_cons, h1, h2]

theorem braceDepth_append : ∀ (a b : List Char) (d : Nat),
    braceDepth (a ++ b) d = (braceDepth a d).bind (braceDepth b) := by
  intro a
  induction a with
  | nil => intro b d; rfl
  | cons c cs ih =>
    intro b d
    rw [List.cons_append, braceDepth, braceDepth]
    by_cases h1 : c = '\x7b'
    · rw [if_pos h1, if_pos h1, ih]
    · rw [if_neg h1, if_neg h1]
      by_cases h2 : c = '\x7d'
      · rw [if_pos h2, if_pos h2]
        by_cases h0 : d = 0
        · rw [if_pos h0, if_pos h0]
          rfl
        · rw [if_neg h0, if_neg h0, ih]
      · rw [if_neg h2, if_neg h2, ih]

theorem braceDepth_braces : ∀ (t : List Char) (d : Nat),
    braceDepth (braces t) d = braceDepth t d := by
  intro t
  induction t with
  | nil => intro d; rfl
  | cons c cs ih =>
    intro d
    by_cases h1 : c = '\x7b'
    · subst h1
      have : braces ('\x7b' :: cs) = '\x7b' :: braces cs := by simp [braces, List.filter_cons]
      rw [this, braceDepth, braceDepth, if_pos rfl, if_pos rfl, ih]
    · by_cases h2 : c = '\x7d'
      · subst h2
        have : braces ('\x7d' :: cs) = '\x7d' :: braces cs := by simp [braces, List.filter_cons]
        rw [this]
        simp [braceDepth, ih]
      · rw [braces_cons_other c cs h1 h2, ih]
        conv => rhs; rw [braceDepth, if_neg h1, if_neg h2]

theorem braceDepth_shift : ∀ (a : List Char) (d e k : Nat), braceDepth a d = some e →
    braceDepth a (d + k) = some (e + k) := by
  intro a
  induction a with
  | nil =>
    intro d e k h
    simp only [braceDepth, Option.some.injEq] at h ⊢
    omega
  | cons c cs ih =>
    intro d e k h
    rw [braceDepth] at h ⊢
    by_cases h1 : c = '\x7b'
    · rw [if_pos h1] at h ⊢
      have := ih (d + 1) e k h
      rw [show d + k + 1 = d + 1 + k by omega]
      exact this
    · rw [if_neg h1] at h ⊢
      by_cases h2 : c = '\x7d'
      · rw [if_pos h2] at h ⊢
        by_cases h0 : d = 0
        · rw [if_pos h0] at h
          cases h
        · rw [if_neg h0] at h
          rw [if_neg (by omega), show d + k - 1 = d - 1 + k by omega]
          exact ih (d - 1) e k h
      · rw [if_neg h2] at h ⊢
        exact ih d e k h

/-- A text with balanced braces gives back the depth at which it is read. -/
theorem braceDepth_balanced (t : String) (h : braceBalanced t = true) (d : Nat) :
    braceDepth t.data d = some d := by
  unfold braceBalanced at h
  have h0 : braceDepth t.data 0 = some 0 := by simpa using h
  have := braceDepth_shift t.data 0 0 d h0
  simpa using this

theorem braceDepth_of_braces_eq (a b : List Char) (h : braces a = braces b) (d : Nat) :
    braceDepth a d = braceDepth b d := by
  rw [← braceDepth_braces a, ← braceDepth_braces b, h]

theorem braces_scopeToDotRev : ∀ (n : Nat) (l : List Char), l.length ≤ n →
    braces (scopeToDotRev l) = braces l := by
  intro n
  induction n with
  | zero =>
    intro l hl
    have : l = [] := List.length_eq_zero.mp (by omega)
    subst this
    rfl
  | succ n ih =>
    intro l hl
    cases l with
    | nil => rfl
    | cons c cs =>
      cases cs with
      | nil => rfl
      | cons d ds =>
        rw [scopeToDotRev]
        by_cases hm : c = ':' ∧ d = ':'
        · rw [if_pos hm]
          obtain ⟨rfl, rfl⟩ := hm
          rw [braces_cons_other _ _ (by decide) (by decide),
            braces_cons_other _ _ (by decide) (by decide),
            braces_cons_other _ _ (by decide) (by decide)]
          exact ih ds (by simp at hl; omega)
        · rw [if_neg hm]
          have := ih (d :: ds) (by simp at hl ⊢; omega)
          simp only [braces, List.filter_cons] at this ⊢
          rw [this]

theorem braces_arrowToDotChars : ∀ (n : Nat) (l : List Char), l.length ≤ n →
    braces (arrowToDotChars l) = braces l := by
  intro n
  induction n with
  | zero =>
    intro l hl
    have : l = [] := List.length_eq_zero.mp (by omega)
    subst this
    rfl
  | succ n ih =>
    intro l hl
    cases l with
    | nil => rfl
    | cons c cs =>
      cases cs with
      | nil => rfl
      | cons d ds =>
        rw [arrowToDotChars]
        by_cases hm : c = '-' ∧ d = '>'
        · rw [if_pos hm]
          obtain ⟨rfl, rfl⟩ := hm
          rw [braces_cons_other _ _ (by decide) (by decide),
            braces_cons_other _ _ (by decide) (by decide),
            braces_cons_other _ _ (by decide) (by decide)]
          exact ih ds (by simp at hl; omega)
        · rw [if_neg hm]
          have := ih (d :: ds) (by simp at hl ⊢; omega)
          simp only [braces, List.filter_cons] at this ⊢
          rw [this]

/-- `textReplaceArrowColon` leaves the braces of a text as they are. -/
theorem braces_textReplaceArrowColon (s : String) :
    braces (textReplaceArrowColon s).data = braces s.data := by
  have hspec : textReplaceArrowColon s = arrowToDot (scopeToDot s) :=
    textReplaceArrowColonLoop_spec _ s (Nat.le_refl _)
  rw [hspec]
  simp only [arrowToDot, scopeToDot]
  rw [braces_arrowToDotChars _ _ (Nat.le_refl _), braces_reverse,
    braces_scopeToDotRev _ _ (Nat.le_refl _), braces_reverse, List.reverse_reverse]

theorem writeMultilineLines_append (c : Bool) : ∀ (xs ys : List String),
    writeMultilineLines c (xs ++ ys) = writeMultilineLines c xs ++ writeMultilineLines c ys := by
  intro xs
  induction xs with
  | nil => intro ys; simp [writeMultilineLines]
  | cons x rest ih =>
    intro ys
    rw [List.cons_append, writeMultilineLines, writeMultilineLines, ih]
    simp only [String.append_assoc]

theorem braces_writeMultilineLines (c : Bool) : ∀ (lines : List String),
    braces (writeMultilineLines c lines).data = (lines.map fun l => braces l.data).flatten := by
  intro lines
  induction lines with
  | nil => rfl
  | cons l rest ih =>
    rw [writeMultilineLines]
    simp only [String.data_append, braces_append, ih, List.map_cons, List.flatten_cons,
      braces_textReplaceArrowColon]
    cases c <;> simp [braces]

theorem braces_getLines : ∀ (cs cur : List Char),
    ((getLines cs cur).map fun l => braces l.data).flatten = braces cur ++ braces cs := by
  intro cs
  induction cs with
  | nil =>
    intro cur
    cases cur with
    | nil => rfl
    | cons x xs => simp [getLines, braces]
  | cons c rest ih =>
    intro cur
    rw [getLines]
    by_cases hn : c = '\n'
    · rw [if_pos hn]
      subst hn
      simp only [List.map_cons, List.flatten_cons, ih]
      rw [braces_cons_other _ _ (by decide) (by decide)]
      simp [braces]
    · rw [if_neg hn, ih, braces_append]
      simp only [braces, List.filter_cons, List.filter_nil, List.append_assoc]
      split <;> simp

/-- The lambda `writeMultilineExpr` leaves the braces of the printed text as
they are. -/
theorem braces_writeMultilineExpr (c : Bool) (printed : String) :
    braces (writeMultilineExpr c printed).data = braces printed.data := by
  unfold writeMultilineExpr
  rw [braces_writeMultilineLines, braces_getLines]
  rfl

theorem braceDepth_ctorInitLines (c : Bool) : ∀ (inits : List CXXCtorInitializer),
    (∀ init ∈ inits, braceBalanced init.printed = true) → ∀ d,
    braceDepth (ctorInitLines c inits).data d = some d := by
  intro inits
  induction inits with
  | nil => intro _ d; rfl
  | cons init rest ih =>
    intro h d
    rw [ctorInitLines, String.data_append, braceDepth_append]
    have hrest := ih (fun i hi => h i (List.mem_cons_of_mem _ hi)) d
    have hinit := braceDepth_balanced _ (h init (List.mem_cons_self _ _)) d
    by_cases h1 : init.isInClassMemberInitializer = true
    · rw [if_pos h1]
      exact hrest
    · rw [if_neg h1]
      by_cases h2 : init.hasMember = true
      · rw [if_pos h2,
          braceDepth_of_braces_eq _ _ (braces_writeMultilineExpr c init.printed), hinit]
        exact hrest
      · rw [if_neg h2]
        exact hrest

theorem writeMultilineExpr_empty (c : Bool) : writeMultilineExpr c "" = "" := rfl

theorem TraverseConstructorInitializer_unwritten (member init : String) :
    TraverseConstructorInitializer false member init = "" := rfl

/-- Without a written initializer the loop over the initializers writes
nothing. -/
theorem ctorInitLines_unwritten (c : Bool) : ∀ (inits : List CXXCtorInitializer),
    hasWrittenInitializer inits = false → (∀ init ∈ inits, printedByVisitor init) →
    ctorInitLines c inits = "" := by
  intro inits
  induction inits with
  | nil => intro _ _; rfl
  | cons init rest ih =>
    intro hw hp
    unfold hasWrittenInitializer at hw
    rw [List.any_cons, Bool.or_eq_false_iff] at hw
    obtain ⟨hw1, hw2⟩ := hw
    obtain ⟨member, text, hprinted⟩ := hp init (List.mem_cons_self _ _)
    rw [hw1, TraverseConstructorInitializer_unwritten] at hprinted
    rw [ctorInitLines, ih hw2 (fun i hi => hp i (List.mem_cons_of_mem _ hi)), hprinted,
      writeMultilineExpr_empty]
    simp

theorem getLines_newline : ∀ (a cur b : List Char),
    getLines (a ++ '\n' :: b) cur = getLines (a ++ ['\n']) cur ++ getLines b [] := by
  intro a
  induction a with
  | nil =>
    intro cur b
    simp only [List.nil_append, getLines, if_true]
    cases cur <;> simp [getLines]
  | cons c rest ih =>
    intro cur b
    rw [List.cons_append, List.cons_append, getLines, getLines]
    by_cases hn : c = '\n'
    · rw [if_pos hn, if_pos hn, ih]
      rfl
    · rw [if_neg hn, if_neg hn, ih]

end Gentool
namespace Gentool

theorem hasWrittenInitializer_eq (inits : List CXXCtorInitializer) :
    (decide (inits.length ≠ 0) && inits.any (fun x => x.isWritten)) =
      hasWrittenInitializer inits := by
  unfold hasWrittenInitializer
  cases inits with
  | nil => rfl
  | cons a rest => simp

theorem head_split (P D H A N T T1 : String) (hT : T = T1) :
    ∃ pre, P ++ D ++ (H ++ "(" ++ A ++ ")" ++ N) ++ T ++ "\n" =
      pre ++ "(" ++ A ++ ")" ++ N ++ T1 ++ "\n" :=
  ⟨P ++ D ++ H, by subst hT; simp only [String.append_assoc]⟩

/-- The text of an inline constructor that `methodIterate` does not pass
over, of a record that is not templated: what stands after the parameter
list. -/
theorem methodText_ctor_tail (env : MethodEnv) (m : CXXMethodDecl) (d mv cp : Bool)
    (inits : List CXXCtorInitializer) (body : List Stmt)
    (hctor : isConstructor m = true) (hkind : m.kind = .ctor d mv cp inits)
    (hinlined : m.isInlined = true) (hinline : m.hasInlineBody = true)
    (hbody : m.body = some (.compound body))
    (hrecord : env.declIsTemplated = false) (htemplated : m.isTemplated = false)
    (hskip : isSkipped env m = false)
    (hprinted : ∀ init ∈ inits, printedByVisitor init) :
    ∃ pre, methodText env m =
      pre ++ "(" ++ writeFnRuntimeArgs env.ren m.params ++ ")" ++
        (if env.nogc then " @nogc " else "") ++
        ctorTail (ctorCommentOut env m) inits body ++ "\n" := by
  unfold isSkipped at hskip
  rw [Bool.or_eq_false_iff] at hskip
  obtain ⟨h1, h2⟩ := hskip
  unfold isConstructor at hctor
  simp only [Bool.and_eq_true, Bool.not_eq_true', decide_eq_true_eq] at hctor
  obtain ⟨⟨⟨_, hm⟩, hid⟩, hop⟩ := hctor
  have hops : m.isOverloadedOperator = false := by
    unfold CXXMethodDecl.isOverloadedOperator
    simp [hop]
  have hc : ctorCommentOut env m = (!env.isVirtualDecl && d) := by
    simp [ctorCommentOut, ctorFlags, hkind]
  unfold methodText
  simp only [h1, h2, Bool.false_eq_true, if_false, hkind, hbody, hops, hm, hid, hinlined, hinline,
    hrecord, htemplated, Bool.true_and, Bool.false_and, Bool.or_false, Bool.not_true,
    Bool.and_false, if_true, Bool.true_or, Bool.not_false, Bool.and_true, Bool.false_or,
    Option.isNone_some, hasWrittenInitializer_eq, ← hc]
  apply head_split
  cases hw : hasWrittenInitializer inits with
  | false =>
    rw [ctorInitLines_unwritten _ inits hw hprinted]
    cases he : body.isEmpty <;>
      simp [ctorTail, hw, he, bodyLines]
  | true =>
    cases he : body.isEmpty <;>
      simp [ctorTail, hw, he, bodyLines, closingBrace, initializerListOpening, ctorBodyMark,
        String.append_assoc]

end Gentool
namespace Gentool

theorem printPrettyD_compound (body : List Stmt) :
    printPrettyD (.compound body) = "\x7b\n" ++ printCompoundItems body ++ "\x7d" := by
  rw [printPrettyD]

theorem printCompoundItems_cons (item : Stmt) (rest : List Stmt) :
    printCompoundItems (item :: rest) =
      printPrettyD item ++ (if item.isExpr then ";" else "") ++ "\n" ++
        printCompoundItems rest := by
  rw [printCompoundItems]

theorem printCompoundItems_newline : ∀ (body : List Stmt), body ≠ [] →
    ∃ J, (printCompoundItems body).data = J ++ ['\n'] := by
  intro body
  induction body with
  | nil => intro h; exact absurd rfl h
  | cons item rest ih =>
    intro _
    rw [printCompoundItems_cons]
    cases rest with
    | nil =>
      refine ⟨(printPrettyD item ++ (if item.isExpr then ";" else "")).data, ?_⟩
      have : printCompoundItems [] = "" := by rw [printCompoundItems]
      rw [this]
      simp
    | cons r rs =>
      obtain ⟨J, hJ⟩ := ih (List.cons_ne_nil _ _)
      refine ⟨(printPrettyD item ++ (if item.isExpr then ";" else "") ++ "\n").data ++ J, ?_⟩
      rw [String.data_append, hJ]
      simp

theorem braces_bodyLines (c : Bool) (body : List Stmt) :
    braces (bodyLines c body).data =
      '\x7b' :: (braces (printCompoundItems body).data ++ ['\x7d']) := by
  unfold bodyLines
  rw [braces_writeMultilineExpr, printPrettyD_compound]
  simp only [String.data_append, braces_append]
  rfl

theorem braceDepth_bodyLines (c : Bool) (body : List Stmt)
    (h : braceBalanced (printCompoundItems body) = true) (d : Nat) :
    braceDepth (bodyLines c body).data d = some d := by
  rw [← braceDepth_braces, braces_bodyLines]
  have hitems := braceDepth_balanced _ h (d + 1)
  rw [← braceDepth_braces] at hitems
  rw [braceDepth, if_pos rfl, braceDepth_append, hitems]
  simp [braceDepth]

/-- The lines of a body end with the closing brace of the body on a line of
its own. -/
theorem bodyLines_ends (c : Bool) (body : List Stmt) :
    ∃ block, bodyLines c body = block ++ closingBrace c ++ "\n" := by
  have hsplit : ∃ pre, (printPrettyD (.compound body)).data = pre ++ '\n' :: ['\x7d'] := by
    rw [printPrettyD_compound]
    cases body with
    | nil =>
      have : printCompoundItems [] = "" := by rw [printCompoundItems]
      rw [this]
      exact ⟨['\x7b'], rfl⟩
    | cons item rest =>
      obtain ⟨J, hJ⟩ := printCompoundItems_newline (item :: rest) (List.cons_ne_nil _ _)
      refine ⟨'\x7b' :: '\n' :: J, ?_⟩
      simp only [String.data_append, hJ]
      simp
  obtain ⟨pre, hpre⟩ := hsplit
  unfold bodyLines writeMultilineExpr
  rw [hpre, getLines_newline, writeMultilineLines_append]
  refine ⟨writeMultilineLines c (getLines (pre ++ ['\n']) []), ?_⟩
  rw [String.append_assoc]
  congr 1
  cases c <;> decide!

theorem braceDepth_closingBrace (c : Bool) (d : Nat) :
    braceDepth (closingBrace c).data (d + 1) = some d := by
  cases c <;> simp [closingBrace, braceDepth]

/-- The text after the parameter list of an inline constructor has balanced
braces, when the printed initializers and the printed statements of the body
have. -/
theorem ctorTail_balanced (c : Bool) (inits : List CXXCtorInitializer) (body : List Stmt)
    (hinits : ∀ init ∈ inits, braceBalanced init.printed = true)
    (hitems : braceBalanced (printCompoundItems body) = true) :
    braceBalanced (ctorTail c inits body) = true := by
  have hopen : braceDepth initializerListOpening.data 0 = some 1 := by decide
  have hmark : braceDepth ctorBodyMark.data 1 = some 1 := by decide
  unfold braceBalanced ctorTail
  cases hw : hasWrittenInitializer inits <;> cases he : body.isEmpty
  · simp only [braceDepth_bodyLines c body hitems 0, beq_self_eq_true]
  · rfl
  · simp only [String.data_append, braceDepth_append, hopen, Option.some_bind,
      braceDepth_ctorInitLines c inits hinits 1, hmark, braceDepth_bodyLines c body hitems 1,
      braceDepth_closingBrace c 0, beq_self_eq_true]
  · simp only [String.data_append, braceDepth_append, hopen, Option.some_bind,
      braceDepth_ctorInitLines c inits hinits 1, braceDepth_closingBrace c 0, beq_self_eq_true]

end Gentool
namespace Gentool

end Gentool
namespace Gentool

/-- Every field of a list the loop gets through can be named. -/
theorem fieldLoop_named (isClass : Bool) : ∀ (fields : List FieldDecl) (g g1 : Gen),
    fieldLoop isClass fields g = .ok g1 →
    ∀ it ∈ fields, namingSucceeds g.renames it = true := by
  intro fields
  induction fields with
  | nil => intro g g1 _ it hit; cases hit
  | cons x xs ih =>
    intro g g1 h it hit
    rw [fieldLoop] at h
    obtain ⟨g2, hs, hl⟩ := Res.andThen_eq_ok h
    rcases List.mem_cons.1 hit with rfl | hm
    · exact (fieldStep_ok isClass _ g g2 hs).1
    · have hr : g2.renames = g.renames := by
        have := fieldStep_renames isClass x g
        rw [hs] at this
        exact this
      rw [← hr]
      exact ih g2 g1 hl it hm

/-- A field list on which `fieldIterate` returns, cut into a front part, a run
and a rest: the loop gets through the front part, and every field of the run
can be named. -/
theorem fieldIterate_returns_run (isClass : Bool) (pre run rest : List FieldDecl) (g : Gen)
    (hret : (fieldIterate isClass (pre ++ run ++ rest) g).isOk = true) :
    ∃ g1, fieldLoop isClass pre (fieldIterateStart g) = .ok g1 ∧
      g1.isPrevIsBitfield = endsOpen false pre ∧ g1.renames = g.renames ∧
      ∀ it ∈ run, namingSucceeds g1.renames it = true := by
  rw [fieldIterate_eq] at hret
  cases hl : fieldLoop isClass (pre ++ run ++ rest) (fieldIterateStart g) with
  | fault d gz => rw [hl] at hret; cases hret
  | ok gz =>
    rw [List.append_assoc, fieldLoop_append] at hl
    obtain ⟨g1, h1, h2⟩ := Res.andThen_eq_ok hl
    rw [fieldLoop_append] at h2
    obtain ⟨g2, h3, _⟩ := Res.andThen_eq_ok h2
    obtain ⟨_, hp, hr⟩ := fieldLoop_pieces isClass pre (fieldIterateStart g) g1 (fun _ => rfl) h1
    exact ⟨g1, h1, hp, hr, fieldLoop_named isClass run g1 g2 h3⟩

end Gentool
